import Mathlib

/-!
# The SCP engine of teleport (lib/sshutils/scp)

A shallow embedding of the package scp and of the library functions it calls, followed by the
properties proved of it.
-/

/-! ## Definitions -/

/-! Go strings are byte sequences. -/
abbrev GoString := List UInt8

/-- ASCII text as a Go string. -/
def str (s : String) : GoString := s.toList.map (fun c => UInt8.ofNat c.toNat)

/-- strings.Index for a one-byte separator, returning the text before and after its first occurrence. -/
def cutByte (sep : UInt8) : GoString → Option (GoString × GoString)
  | [] => none
  | c :: cs =>
    if c = sep then some ([], cs)
    else match cutByte sep cs with
      | none => none
      | some (a, b) => some (c :: a, b)

/-- strings.SplitN(s, sep, n) for a one-byte separator and n ≥ 0: at most n pieces,
the last one being the unsplit remainder. -/
def SplitN (s : GoString) (sep : UInt8) : Nat → List GoString
  | 0 => []
  | 1 => [s]
  | n + 2 =>
    match cutByte sep s with
    | none => [s]
    | some (a, b) => a :: SplitN b sep (n + 1)

/-- The text before the first occurrence of sep (all of it when there is none). -/
def beforeFirst (sep : UInt8) : GoString → GoString
  | [] => []
  | c :: cs => if c = sep then [] else c :: beforeFirst sep cs

/-- The text after the first occurrence of sep (empty when there is none). -/
def afterFirst (sep : UInt8) : GoString → GoString
  | [] => []
  | c :: cs => if c = sep then cs else afterFirst sep cs

/-- ParseSCPDestination (scp.go): splits user@host:path into login, host and dest. -/
def ParseSCPDestination (s : GoString) : GoString × GoString × GoString :=
  let parts := SplitN s 64 2
  let login := if parts.length > 1 then parts.getD 0 [] else []
  let host := if parts.length > 1 then parts.getD 1 [] else parts.getD 0 []
  let parts := SplitN host 58 2
  let dest := if parts.length > 1 then parts.getD 1 [] else []
  let host := if parts.length > 1 then parts.getD 0 [] else host
  let dest := if dest.length = 0 then str "." else dest
  (login, host, dest)

/-- The error kinds of strconv: ErrSyntax and ErrRange. -/
inductive NumErr where
  | ErrSyntax
  | ErrRange
  deriving DecidableEq, Repr

/-- Go error values that occur in the package. -/
inductive Error where
  /-- an error made from a message: trace.Errorf, fmt.Errorf -/
  | text (message : GoString)
  /-- trace.BadParameter -/
  | badParameter (message : GoString)
  /-- strconv.NumError with its Func, Num and Err fields -/
  | num (fn : GoString) (num : GoString) (err : NumErr)
  /-- io.EOF -/
  | EOF
  /-- io.ErrUnexpectedEOF -/
  | ErrUnexpectedEOF
  /-- io.ErrClosedPipe: a write on a channel whose peer is gone -/
  | ErrClosedPipe
  /-- bufio.ErrTooLong -/
  | ErrTooLong
  /-- io.ErrNoProgress -/
  | ErrNoProgress
  /-- io.ErrShortWrite -/
  | ErrShortWrite
  /-- an error of the operating system, by message -/
  | os (message : GoString)
  deriving DecidableEq, Repr

instance instDecidableEqExcept {ε α : Type} [DecidableEq ε] [DecidableEq α] :
    DecidableEq (Except ε α)
  | .ok a, .ok b => if h : a = b then isTrue (by rw [h]) else isFalse (fun h2 => h (by cases h2; rfl))
  | .error a, .error b =>
    if h : a = b then isTrue (by rw [h]) else isFalse (fun h2 => h (by cases h2; rfl))
  | .ok _, .error _ => isFalse (fun h => by cases h)
  | .error _, .ok _ => isFalse (fun h => by cases h)

/-- The value of a digit byte in strconv.ParseUint: 0-9, a-z and A-Z. -/
def digitVal (c : UInt8) : Option Nat :=
  let d := c.toNat
  if 48 ≤ d ∧ d ≤ 57 then some (d - 48)
  else if 97 ≤ d ∧ d ≤ 122 then some (d - 97 + 10)
  else if 65 ≤ d ∧ d ≤ 90 then some (d - 65 + 10)
  else none

/-- The digit loop of strconv.ParseUint over uint64 arithmetic. -/
def parseUintLoop (base maxVal cutoff : Nat) : GoString → Nat → Nat × Option NumErr
  | [], n => (n, none)
  | c :: cs, n =>
    match digitVal c with
    | none => (0, some .ErrSyntax)
    | some v =>
      if v ≥ base then (0, some .ErrSyntax)
      else if n ≥ cutoff then (maxVal, some .ErrRange)
      else
        let nb := (n * base) % 2 ^ 64
        let n1 := (nb + v) % 2 ^ 64
        if n1 < nb ∨ n1 > maxVal then (maxVal, some .ErrRange)
        else parseUintLoop base maxVal cutoff cs n1

/-- The value and error kind of strconv.ParseUint(s, base, bitSize), for 2 ≤ base ≤ 36 and
1 ≤ bitSize ≤ 64. -/
def parseUintCore (s : GoString) (base bitSize : Nat) : Nat × Option NumErr :=
  if s = [] then (0, some .ErrSyntax)
  else
    let cutoff := (2 ^ 64 - 1) / base + 1
    let maxVal := (2 ^ bitSize % 2 ^ 64 + 2 ^ 64 - 1) % 2 ^ 64
    parseUintLoop base maxVal cutoff s 0

/-- strconv.ParseUint. -/
def ParseUint (s : GoString) (base bitSize : Nat) : Nat × Option Error :=
  match parseUintCore s base bitSize with
  | (n, none) => (n, none)
  | (n, some e) => (n, some (.num (str "ParseUint") s e))

/-- strconv.ParseInt. -/
def ParseInt (s : GoString) (base bitSize : Nat) : Int × Option Error :=
  match s with
  | [] => (0, some (.num (str "ParseInt") [] .ErrSyntax))
  | c :: cs =>
    let neg : Bool := c = 45
    let body := if c = 43 ∨ c = 45 then cs else s
    match parseUintCore body base bitSize with
    | (_, some .ErrSyntax) => (0, some (.num (str "ParseInt") s .ErrSyntax))
    | (un, _) =>
      let cutoff : Nat := 2 ^ (bitSize - 1)
      if !neg ∧ un ≥ cutoff then ((cutoff : Int) - 1, some (.num (str "ParseInt") s .ErrRange))
      else if neg ∧ un > cutoff then (-(cutoff : Int), some (.num (str "ParseInt") s .ErrRange))
      else (if neg then -(un : Int) else (un : Int), none)

/-- The byte of a digit below 10 in fmt. -/
def digitChar (d : Nat) : UInt8 := UInt8.ofNat (48 + d)

/-- The digit loop of fmt for an unsigned integer in a base up to 10: the most significant digit
comes first. -/
def fmtUintLoop (base : Nat) : Nat → Nat → GoString → GoString
  | 0, _, acc => acc
  | fuel + 1, u, acc =>
    if u < base then digitChar u :: acc
    else fmtUintLoop base fuel (u / base) (digitChar (u % base) :: acc)

/-- The digits of an unsigned 64-bit integer in fmt (verbs %d and %o). -/
def fmtUint (base u : Nat) : GoString := fmtUintLoop base 64 u []

/-- The verb %04o on an unsigned integer: octal digits, filled with zeros to four. -/
def fmtOct04 (m : Nat) : GoString :=
  List.replicate (4 - (fmtUint 8 m).length) 48 ++ fmtUint 8 m

/-- The verbs %d and %v on an int64. -/
def fmtInt (n : Int) : GoString :=
  if n < 0 then 45 :: fmtUint 10 (-n).toNat else fmtUint 10 n.toNat

/-- NewFileCmd (scp.go). -/
structure NewFileCmd where
  Mode : Int
  Length : Nat
  Name : GoString
  deriving DecidableEq, Repr

/-- ParseNewFile (scp.go). -/
def ParseNewFile (line : GoString) : Except Error NewFileCmd :=
  let parts := SplitN line 32 3
  if parts.length ≠ 3 then .error (.text (str "broken command"))
  else
    match ParseInt (parts.getD 0 []) 8 32 with
    | (_, some err) => .error err
    | (mode, none) =>
      match ParseUint (parts.getD 1 []) 10 64 with
      | (_, some err) => .error err
      | (length, none) => .ok { Mode := mode, Length := length, Name := parts.getD 2 [] }

/-- The number a digit text denotes in a base up to 10. -/
def numVal (base : Nat) (tok : GoString) : Nat :=
  tok.foldl (fun n c => n * base + (c.toNat - 48)) 0

/-- Every byte is a digit of the base (up to 10). -/
def allDigits (base : Nat) (tok : GoString) : Prop :=
  ∀ c ∈ tok, 48 ≤ c.toNat ∧ c.toNat < 48 + base

instance (base : Nat) (tok : GoString) : Decidable (allDigits base tok) := by
  unfold allDigits; infer_instance

/-- A non-empty digit text of the base whose value fits in the given number of bits. -/
def isUintText (base bits : Nat) (tok : GoString) : Prop :=
  tok ≠ [] ∧ allDigits base tok ∧ numVal base tok < 2 ^ bits

instance (base bits : Nat) (tok : GoString) : Decidable (isUintText base bits tok) := by
  unfold isUintText; infer_instance

/-- A digit text of the base with an optional sign whose value fits in a signed integer of the
given number of bits. -/
def isIntText (base bits : Nat) (tok : GoString) : Prop :=
  match tok with
  | [] => False
  | c :: cs =>
    if c = 45 then cs ≠ [] ∧ allDigits base cs ∧ numVal base cs ≤ 2 ^ (bits - 1)
    else if c = 43 then cs ≠ [] ∧ allDigits base cs ∧ numVal base cs < 2 ^ (bits - 1)
    else allDigits base tok ∧ numVal base tok < 2 ^ (bits - 1)

instance (base bits : Nat) (tok : GoString) : Decidable (isIntText base bits tok) := by
  unfold isIntText; split <;> infer_instance

/-! path/filepath on a system whose separator is the slash. -/

/-- The scan of filepath.Clean: path is what is left to read, out the bytes written so far and
dotdot the index in out where a dot-dot element must stop. -/
def cleanLoop (rooted : Bool) : Nat → GoString → GoString → Nat → GoString
  | 0, _, out, _ => out
  | fuel + 1, path, out, dotdot =>
    match path with
    | [] => out
    | 47 :: rest => cleanLoop rooted fuel rest out dotdot
    | c :: rest =>
      if c = 46 ∧ (rest = [] ∨ rest.head? = some 47) then
        cleanLoop rooted fuel rest out dotdot
      else if c = 46 ∧ rest.head? = some 46
          ∧ (rest.drop 1 = [] ∨ (rest.drop 1).head? = some 47) then
        if out.length > dotdot then
          let upto := out.reverse.dropWhile (fun b => b ≠ 47)
          let w := if upto.length ≥ 1 ∧ upto.length - 1 > dotdot then upto.length - 1 else dotdot
          cleanLoop rooted fuel (rest.drop 1) (out.take w) dotdot
        else if !rooted then
          let out := (if out.length > 0 then out ++ [47] else out) ++ [46, 46]
          cleanLoop rooted fuel (rest.drop 1) out out.length
        else cleanLoop rooted fuel (rest.drop 1) out dotdot
      else
        let out := if (rooted ∧ out.length ≠ 1) ∨ (!rooted ∧ out.length ≠ 0) then out ++ [47]
          else out
        let elem := path.takeWhile (fun b => b ≠ 47)
        cleanLoop rooted fuel (path.dropWhile (fun b => b ≠ 47)) (out ++ elem) dotdot

/-- filepath.Clean. -/
def Clean (path : GoString) : GoString :=
  if path = [] then str "."
  else
    let rooted : Bool := path.head? = some 47
    let out := if rooted then cleanLoop rooted (path.length + 1) (path.drop 1) [47] 1
      else cleanLoop rooted (path.length + 1) path [] 0
    if out.length = 0 then str "." else out

/-- strings.Join with the separator of paths. -/
def joinSlash : List GoString → GoString
  | [] => []
  | [e] => e
  | e :: es => e ++ 47 :: joinSlash es

/-- filepath.Join. -/
def Join : List GoString → GoString
  | [] => []
  | e :: es => if e ≠ [] then Clean (joinSlash (e :: es)) else Join es

/-- filepath.Split: the directory with its final slash, and the file. -/
def Split (path : GoString) : GoString × GoString :=
  let file := (path.reverse.takeWhile (fun b => b ≠ 47)).reverse
  (path.take (path.length - file.length), file)

/-- filepath.Dir. -/
def Dir (path : GoString) : GoString := Clean (Split path).1

/-- The function basename of package os: the name a FileInfo of os.Stat reports. -/
def basename (name : GoString) : GoString :=
  let stripped := (name.reverse.dropWhile (fun b => b = 47)).reverse
  let name := if stripped = [] then name.take 1 else stripped
  (name.dropLast.reverse.takeWhile (fun b => b ≠ 47)).reverse ++ name.drop (name.length - 1)

/-! Package fmt, as far as the package uses it. -/

/-- The function parsenum of fmt on the text from the current index to the end: the number,
whether there is one, and the text left. -/
def parsenum : GoString → Nat → Bool → Nat × Bool × GoString
  | [], num, isnum => (num, isnum, [])
  | c :: cs, num, isnum =>
    if 48 ≤ c.toNat ∧ c.toNat ≤ 57 then
      if num > 1000000 then (0, false, [])
      else parsenum cs (num * 10 + (c.toNat - 48)) true
    else (num, isnum, c :: cs)

/-- The function parseArgNumber of fmt on a text that starts with an opening bracket: the width
of the bracketed index and whether it is a number. -/
def parseArgNumber (format : GoString) : Nat × Bool :=
  if format.length < 3 then (1, false)
  else
    let inner := (format.drop 1).takeWhile (fun b => b ≠ 93)
    if (93 : UInt8) ∈ format.drop 1 then
      match parsenum inner 0 false with
      | (_, ok, left) =>
        if inner = [] then (inner.length + 2, false)
        else if !ok ∨ left ≠ [] then (inner.length + 2, false)
        else (inner.length + 2, true)
    else (1, false)

/-- The method argNumber of fmt when there are no operands: the text left, whether the index is
usable and whether a bracketed index was found. -/
def argNumber (format : GoString) (goodArgNum : Bool) : GoString × Bool × Bool :=
  if format.head? = some 91 then
    let (wid, ok) := parseArgNumber format
    (format.drop wid, false, ok)
  else (format, goodArgNum, false)

/-- The bytes fmt writes for the verb character at the head of the text, and how many bytes of
the text the character takes (utf8.DecodeRuneInString followed by WriteRune). -/
def verbRune (s : GoString) : GoString × Nat :=
  let cont (b : Option UInt8) (lo hi : Nat) : Bool :=
    match b with
    | some x => lo ≤ x.toNat ∧ x.toNat ≤ hi
    | none => false
  let bad : GoString × Nat := ([239, 191, 189], 1)
  match s with
  | [] => ([], 0)
  | b0 :: t =>
    let n := b0.toNat
    if n < 128 then ([b0], 1)
    else if 194 ≤ n ∧ n ≤ 223 then
      if cont t.head? 128 191 then (s.take 2, 2) else bad
    else if 224 ≤ n ∧ n ≤ 239 then
      let lo := if n = 224 then 160 else 128
      let hi := if n = 237 then 159 else 191
      if cont t.head? lo hi ∧ cont (t.drop 1).head? 128 191 then (s.take 3, 3) else bad
    else if 240 ≤ n ∧ n ≤ 244 then
      let lo := if n = 240 then 144 else 128
      let hi := if n = 244 then 143 else 191
      if cont t.head? lo hi ∧ cont (t.drop 1).head? 128 191 ∧ cont (t.drop 2).head? 128 191
      then (s.take 4, 4) else bad
    else bad

/-- One verb of the method doPrintf of fmt when there are no operands, on the text after the
percent sign: what is written and the text left. -/
def doVerb (format : GoString) : GoString × GoString :=
  let i := format.dropWhile (fun c => c = 35 ∨ c = 48 ∨ c = 43 ∨ c = 45 ∨ c = 32)
  let (i, good, afterIndex) := argNumber i true
  -- width
  let (i, good, afterIndex, out) :=
    if i.head? = some 42 then (i.drop 1, good, false, str "%!(BADWIDTH)")
    else
      let (_, widPresent, i) := parsenum i 0 false
      (i, good && !(afterIndex && widPresent), afterIndex, [])
  -- precision: a dot counts only when a byte follows it
  let (i, good, afterIndex, out) :=
    if i.head? = some 46 ∧ i.drop 1 ≠ [] then
      let i := i.drop 1
      let good := good && !afterIndex
      let (i, good, afterIndex) := argNumber i good
      if i.head? = some 42 then (i.drop 1, good, false, out ++ str "%!(BADPREC)")
      else
        let (_, _, i) := parsenum i 0 false
        (i, good, afterIndex, out)
    else (i, good, afterIndex, out)
  let (i, good) :=
    if !afterIndex then
      let (i, good, _) := argNumber i good
      (i, good)
    else (i, good)
  if i = [] then (out ++ str "%!(NOVERB)", [])
  else
    let (verb, size) := verbRune i
    if i.head? = some 37 then (out ++ [37], i.drop size)
    else if !good then (out ++ str "%!" ++ verb ++ str "(BADINDEX)", i.drop size)
    else (out ++ str "%!" ++ verb ++ str "(MISSING)", i.drop size)

/-- The method doPrintf of fmt when there are no operands. -/
def doPrintf : Nat → GoString → GoString
  | 0, _ => []
  | fuel + 1, format =>
    let lit := format.takeWhile (fun c => c ≠ 37)
    match format.dropWhile (fun c => c ≠ 37) with
    | [] => lit
    | _ :: afterPercent =>
      let (out, left) := doVerb afterPercent
      lit ++ out ++ doPrintf fuel left

/-- fmt.Sprintf(format) without operands. -/
def Sprintf0 (format : GoString) : GoString := doPrintf (format.length + 1) format

/-- A byte in hexadecimal without padding, as the verb %#x prints it. -/
def fmtHexByte (b : UInt8) : GoString :=
  let hex (d : Nat) : UInt8 := if d < 10 then UInt8.ofNat (48 + d) else UInt8.ofNat (87 + d)
  if b.toNat < 16 then [hex b.toNat] else [hex (b.toNat / 16), hex (b.toNat % 16)]

/-- The verb %#v on a byte slice of one element. -/
def fmtSharpVByte (b : UInt8) : GoString := str "[]byte\x7b0x" ++ fmtHexByte b ++ str "\x7d"

/-- The conversion string(b) of a byte: the UTF-8 encoding of the code point b. -/
def stringOfByte (b : UInt8) : GoString :=
  if b.toNat < 128 then [b]
  else [UInt8.ofNat (192 + b.toNat / 64), UInt8.ofNat (128 + b.toNat % 64)]

/-- The error of trace.Errorf(format) without operands. -/
def Errorf0 (format : GoString) : Error := .text (Sprintf0 format)

/-! The storage the backends work on. -/

/-- A readable stream (io.ReadCloser): the bytes it still yields, and the error that ends it
(io.EOF when none). -/
structure ReadCloser where
  data : List UInt8
  err : Option Error
  deriving DecidableEq, Repr

/-- Read into a buffer of k bytes. -/
def ReadCloser.Read (r : ReadCloser) (k : Nat) : (List UInt8 × Option Error) × ReadCloser :=
  if r.data = [] then (([], some (r.err.getD .EOF)), r)
  else ((r.data.take k, none), { r with data := r.data.drop k })

/-- What lies outside the engine: the disk and the HTTP response. Paths are keyed by their
cleaned form; denied tells on which paths the operating system refuses an operation (missing
parent directory, permissions). -/
structure World where
  files : List (GoString × List UInt8 × Nat)
  dirs : List (GoString × Nat)
  denied : GoString → Bool
  header : List (GoString × GoString)
  body : List UInt8

/-- The regular file at a path: contents and mode bits (the twelve bits of st_mode, of which
the low nine are the permission bits os.ModePerm keeps). -/
def World.file (w : World) (path : GoString) : Option (List UInt8 × Nat) :=
  (w.files.find? (fun e => e.1 = Clean path)).map (fun e => e.2)

/-- Whether the path is a directory: the working directory, the root, or one on the disk. -/
def World.isDir (w : World) (path : GoString) : Bool :=
  Clean path = str "." ∨ Clean path = str "/" ∨ (w.dirs.find? (fun e => e.1 = Clean path)).isSome

/-- The permission bits of a directory. -/
def World.dirPerm (w : World) (path : GoString) : Nat :=
  ((w.dirs.find? (fun e => e.1 = Clean path)).map (fun e => e.2)).getD 0o755

/-- Replace or add the file at a path. -/
def World.setFile (w : World) (path : GoString) (data : List UInt8) (perm : Nat) : World :=
  { w with files := (w.files.filter (fun e => e.1 ≠ Clean path)) ++ [(Clean path, data, perm)] }

/-- The error of a failed system call: operation, path and cause. -/
def pathError (op path cause : GoString) : Error :=
  .os (op ++ str " " ++ path ++ str ": " ++ cause)

/-- A writable stream (io.WriteCloser). -/
structure WriteCloser where
  Write : World → List UInt8 → (Nat × Option Error) × World
  Close : World → Option Error × World

/-- The interface FileInfo (local.go), as the snapshot a backend hands out. Size is none when
GetSize has no value to report; ReadDir yields ReadDirErr or Entries. -/
inductive FileInfo where
  | mk (IsDir : Bool) (Name Path : GoString) (ModePerm : Nat) (Size : Option Int)
      (ReadDirErr : Option Error) (Entries : List FileInfo)

namespace FileInfo

/-- IsDir. -/
def IsDir : FileInfo → Bool
  | mk d _ _ _ _ _ _ => d

/-- GetName. -/
def GetName : FileInfo → GoString
  | mk _ n _ _ _ _ _ => n

/-- GetPath. -/
def GetPath : FileInfo → GoString
  | mk _ _ p _ _ _ _ => p

/-- GetModePerm. -/
def GetModePerm : FileInfo → Nat
  | mk _ _ _ m _ _ _ => m

/-- GetSize. -/
def GetSize : FileInfo → Option Int
  | mk _ _ _ _ s _ _ => s

/-- ReadDir. -/
def ReadDir : FileInfo → List FileInfo × Option Error
  | mk _ _ _ _ _ (some e) _ => ([], some e)
  | mk _ _ _ _ _ none es => (es, none)

end FileInfo

/-- The interface FileSystem (local.go). CreateFile is none when the call itself panics. -/
structure FileSystem where
  IsDir : World → GoString → Bool
  GetFileInfo : World → GoString → Except Error FileInfo
  MkDir : World → GoString → Int → Option Error × World
  OpenFile : World → GoString → (Option ReadCloser × Option Error) × World
  CreateFile : World → GoString → Nat → Option ((Option WriteCloser × Option Error) × World)
  SetChmod : World → GoString → Int → Option Error × World

/-- The bits of os.ModePerm in a mode: mode & 0777. -/
def modePerm (mode : Int) : Nat := (mode % 512).toNat

/-- os.Chmod. -/
def osChmod (w : World) (path : GoString) (perm : Nat) : Option Error × World :=
  if w.denied (Clean path) then (some (pathError (str "chmod") path (str "permission denied")), w)
  else
    match w.file path with
    | some (data, _) => (none, w.setFile path data perm)
    | none =>
      if (w.dirs.find? (fun e => e.1 = Clean path)).isSome then
        (none, { w with dirs := w.dirs.map (fun e => if e.1 = Clean path then (e.1, perm) else e) })
      else (some (pathError (str "chmod") path (str "no such file or directory")), w)

/-- os.MkdirAll. -/
def osMkdirAll (w : World) (path : GoString) (perm : Nat) : Option Error × World :=
  if w.isDir path then (none, w)
  else if (w.file path).isSome then
    (some (pathError (str "mkdir") path (str "not a directory")), w)
  else if w.denied (Clean path) then
    (some (pathError (str "mkdir") path (str "permission denied")), w)
  else (none, { w with dirs := w.dirs ++ [(Clean path, perm)] })

/-- os.Open. -/
def osOpen (w : World) (path : GoString) : Except Error ReadCloser :=
  if w.denied (Clean path) then .error (pathError (str "open") path (str "permission denied"))
  else
    match w.file path with
    | some (data, _) => .ok { data := data, err := none }
    | none =>
      if w.isDir path then
        .ok { data := [], err := some (pathError (str "read") path (str "is a directory")) }
      else .error (pathError (str "open") path (str "no such file or directory"))

/-- The file os.Create opens: a write appends to the file, as long as it is still there. -/
def osFile (path : GoString) : WriteCloser where
  Write := fun w p =>
    match w.file path with
    | some (data, perm) => ((p.length, none), w.setFile path (data ++ p) perm)
    | none => ((0, some (pathError (str "write") path (str "bad file descriptor"))), w)
  Close := fun w => (none, w)

/-- os.Create: the file is made empty; a new file gets mode 0666. -/
def osCreate (w : World) (path : GoString) : Except Error WriteCloser × World :=
  if w.denied (Clean path) then
    (.error (pathError (str "open") path (str "permission denied")), w)
  else if w.isDir path then (.error (pathError (str "open") path (str "is a directory")), w)
  else
    let perm := match w.file path with
      | some (_, perm) => perm
      | none => 0o666
    (.ok (osFile path), w.setFile path [] perm)

/-- The paths of the entries of a directory, files first. -/
def World.entries (w : World) (dir : GoString) : List GoString :=
  ((w.files.map (fun e => e.1)) ++ (w.dirs.map (fun e => e.1))).filter
    (fun k => Dir k = Clean dir ∧ k ≠ Clean dir)

/-- The function makeFileInfo (local.go) with the listing ReadDir gives for a directory. -/
def makeFileInfo (w : World) : Nat → GoString → Except Error FileInfo
  | 0, filePath => .error (pathError (str "stat") filePath (str "too many levels"))
  | fuel + 1, filePath =>
    if filePath = [] then
      .error (pathError (str "stat") filePath (str "no such file or directory"))
    else
    match w.file filePath with
    | some (data, perm) =>
      .ok (.mk false (basename filePath) filePath (perm % 512) (some data.length) none [])
    | none =>
      if w.isDir filePath then
        let infos := (w.entries filePath).map
          (fun k => makeFileInfo w fuel (Join [filePath, basename k]))
        let firstErr := infos.findSome? (fun r => match r with | .error e => some e | .ok _ => none)
        let entries := infos.filterMap (fun r => match r with | .ok i => some i | .error _ => none)
        .ok (.mk true (basename filePath) filePath (w.dirPerm filePath % 512) (some 4096)
          firstErr (if firstErr.isSome then [] else entries))
      else .error (pathError (str "stat") filePath (str "no such file or directory"))

/-- Modelled from the spec: utils.IsDir, which is not among the sources; is_dir is a non-failing
predicate and missing paths return false. -/
def utilsIsDir (w : World) (path : GoString) : Bool := w.isDir path

/-- LocalFS (local.go). -/
def LocalFS : FileSystem where
  SetChmod := fun w path mode => osChmod w path (modePerm mode)
  MkDir := fun w path mode => osMkdirAll w path (modePerm mode)
  IsDir := fun w path => utilsIsDir w path
  OpenFile := fun w filePath =>
    match osOpen w filePath with
    | .error err => ((none, some err), w)
    | .ok f => ((some f, none), w)
  GetFileInfo := fun w filePath => makeFileInfo w (w.dirs.length + 2) filePath
  CreateFile := fun w filePath _ =>
    match osCreate w filePath with
    | (.error err, w) => some ((none, some err), w)
    | (.ok f, w) => some ((some f, none), w)

/-- HTTPTransferCommand (http.go): whether a response writer is set, the request body, and the
name of the uploaded file. -/
structure HTTPTransferCommand where
  Writer : Bool
  Reader : Option ReadCloser
  UploadFileName : GoString

/-- The method Set of http.Header. -/
def headerSet (h : List (GoString × GoString)) (key value : GoString) :
    List (GoString × GoString) :=
  h.filter (fun e => e.1 ≠ key) ++ [(key, value)]

/-- Modelled from the spec: httplib.SetNoCacheHeaders, which is not among the sources; the
response carries no-cache controls. -/
def SetNoCacheHeaders (h : List (GoString × GoString)) : List (GoString × GoString) :=
  headerSet (headerSet (headerSet h (str "Cache-Control") (str "no-cache, no-store, must-revalidate"))
    (str "Pragma") (str "no-cache")) (str "Expires") (str "0")

/-- Modelled from the spec: httplib.SetNoSniff, which is not among the sources; the response
carries a no-sniff control. -/
def SetNoSniff (h : List (GoString × GoString)) : List (GoString × GoString) :=
  headerSet h (str "X-Content-Type-Options") (str "nosniff")

/-- WebReadWrite (http.go) around the response writer. -/
def WebReadWrite : WriteCloser where
  Write := fun w p => ((p.length, none), { w with body := w.body ++ p })
  Close := fun w => (none, w)

/-- The type httpFileInfo (http.go). -/
def httpFileInfo (fileName : GoString) : FileInfo :=
  .mk false fileName [] 0o655 none (some (.badParameter (str "not implemented"))) []

/-- WebFS (http.go). -/
def WebFS (cmd : HTTPTransferCommand) : FileSystem where
  SetChmod := fun w _ _ => (none, w)
  MkDir := fun w _ _ =>
    (some (.badParameter (str "copying directories is not supported in http file transfer")), w)
  IsDir := fun _ _ => false
  OpenFile := fun w _ =>
    match cmd.Reader with
    | none => ((none, some (.badParameter (str "missing Reader"))), w)
    | some r => ((some r, some (.badParameter (str "not implemented"))), w)
  CreateFile := fun w filePath length =>
    if !cmd.Writer then none
    else
      let filename := (Split filePath).2
      let contentLength := fmtUint 10 length
      let header := SetNoSniff (SetNoCacheHeaders w.header)
      let header := headerSet header (str "Content-Length") contentLength
      let header := headerSet header (str "Content-Type") (str "application/octet-stream")
      let header := headerSet header (str "Content-Disposition")
        (str "attachment;filename=\"" ++ filename ++ str "\"")
      some ((some WebReadWrite, none), { w with header := header })
  GetFileInfo := fun _ _ => .ok (httpFileInfo cmd.UploadFileName)

/-! The channel and the state of one engine. -/

/-- One end of the byte channel (io.ReadWriter). A write of the peer stays one piece: a Read
returns bytes of the oldest piece only, as on a pipe. -/
structure Chan where
  /-- the writes of the peer that are not read yet, oldest first -/
  inp : List (List UInt8)
  /-- the peer has closed its end: a Read past its last write gives io.EOF -/
  closed : Bool
  /-- the writes made on this end, oldest first -/
  out : List (List UInt8)
  /-- the peer reads no more: a Write fails -/
  broken : Bool

/-- A bufio.Scanner that splits lines: buf holds the bytes between start and end, cap is the
length of the buffer, token the last token. -/
structure Scanner where
  buf : List UInt8
  start : Nat
  cap : Nat
  err : Option Error
  token : List UInt8

/-- The fields of an audit event of kind scp. -/
structure AuditEvent where
  Path : GoString
  Len : Int
  LocalAddr : GoString
  RemoteAddr : GoString
  Login : GoString
  Action : GoString
  deriving DecidableEq, Repr

/-- A call of a method of the interface FileSystem, with its arguments. -/
inductive Call where
  | IsDir (path : GoString)
  | GetFileInfo (filePath : GoString)
  | MkDir (path : GoString) (mode : Int)
  | OpenFile (filePath : GoString)
  | CreateFile (filePath : GoString) (length : Nat)
  | SetChmod (path : GoString) (mode : Int)
  deriving DecidableEq, Repr

/-- All an engine works on: its end of the channel, the storage, its scanner, what was written to
the progress writer, the audit events emitted, the calls it made to the backend in their order,
and how many streams it closed. -/
structure Env where
  ch : Chan
  world : World
  scanner : Scanner
  progress : GoString
  audit : List AuditEvent
  calls : List Call
  closed : Nat

/-- How a piece of engine code ends: with a value, waiting for bytes the peer has not written
yet, in a runtime panic of Go, or with the loop bound of this model used up. -/
inductive Res (α : Type) where
  | ok (a : α)
  | blocked
  | panics
  | fuel
  deriving DecidableEq, Repr

/-- Engine code: from a state to an end and the state reached. -/
def M (α : Type) : Type := Env → Res α × Env

/-- Sequencing of engine code. -/
def M.bind {α β : Type} (x : M α) (f : α → M β) : M β := fun s =>
  match x s with
  | (.ok a, s) => f a s
  | (.blocked, s) => (.blocked, s)
  | (.panics, s) => (.panics, s)
  | (.fuel, s) => (.fuel, s)

instance : Monad M where
  pure := fun a s => (.ok a, s)
  bind := M.bind

/-- A runtime panic. -/
def panics {α : Type} : M α := fun s => (.panics, s)

/-- The Go idiom that returns a non-nil error to the caller and goes on otherwise. -/
def check {α : Type} (err : Option Error) (ret : Error → α) (k : M α) : M α :=
  match err with
  | some e => pure (ret e)
  | none => k

/-- Read on the channel into a buffer of k bytes. -/
def chRead (k : Nat) : M (List UInt8 × Option Error) := fun s =>
  match s.ch.inp with
  | [] => if s.ch.closed then (.ok ([], some .EOF), s) else (.blocked, s)
  | c :: rest =>
    (.ok (c.take k, none),
      { s with ch := { s.ch with inp := if c.drop k = [] then rest else c.drop k :: rest } })

/-- Write on the channel. -/
def chWrite (p : List UInt8) : M (Nat × Option Error) := fun s =>
  if s.ch.broken then (.ok (0, some .ErrClosedPipe), s)
  else (.ok (p.length, none), { s with ch := { s.ch with out := s.ch.out ++ [p] } })

/-- The bytes the peer has written and this end has not read. -/
def Chan.pending (c : Chan) : Nat := c.inp.flatten.length + c.inp.length

/-- The function dropCR of bufio. -/
def dropCR (data : List UInt8) : List UInt8 :=
  if data.getLast? = some 13 then data.dropLast else data

/-- bufio.ScanLines: how far to advance and the token, if there is one. -/
def ScanLines (data : List UInt8) (atEOF : Bool) : Nat × Option (List UInt8) :=
  if atEOF ∧ data = [] then (0, none)
  else if (10 : UInt8) ∈ data then
    ((beforeFirst 10 data).length + 1, some (dropCR (beforeFirst 10 data)))
  else if atEOF then (data.length, some (dropCR data))
  else (0, none)

/-- The method setErr of bufio.Scanner. -/
def Scanner.setErr (sc : Scanner) (err : Error) : Scanner :=
  if sc.err = none ∨ sc.err = some .EOF then { sc with err := some err } else sc

/-- One round of the read loop at the end of Scan: whether bytes or an error arrived. -/
def scanReadOnce : M Bool := fun s =>
  let sc := s.scanner
  match chRead (sc.cap - (sc.start + sc.buf.length)) s with
  | (.ok (p, err), s) =>
    let sc := { sc with buf := sc.buf ++ p }
    match err with
    | some e => (.ok true, { s with scanner := sc.setErr e })
    | none => (.ok (decide (p.length > 0)), { s with scanner := sc })
  | (.blocked, s) => (.blocked, s)
  | (.panics, s) => (.panics, s)
  | (.fuel, s) => (.fuel, s)

/-- The read loop at the end of Scan: read until bytes or an error arrive, giving up after a
hundred empty reads. -/
def scanRead : Nat → M Unit
  | 0 => M.bind scanReadOnce (fun got =>
      if got then pure ()
      else fun s => (.ok (), { s with scanner := s.scanner.setErr .ErrNoProgress }))
  | left + 1 => M.bind scanReadOnce (fun got => if got then pure () else scanRead left)

/-- The loop of the method Scan of bufio.Scanner; the result of Scan is never used. -/
def scanLoop : Nat → M Unit
  | 0 => fun s => (.fuel, s)
  | fuel + 1 => fun s =>
    let sc := s.scanner
    -- See if we can get a token with what we already have.
    let (found, sc) :=
      if sc.buf ≠ [] ∨ sc.err ≠ none then
        let (advance, token) := ScanLines sc.buf (sc.err ≠ none)
        (token.isSome, { sc with buf := sc.buf.drop advance, start := sc.start + advance,
                                  token := token.getD [] })
      else (false, sc)
    if found then (.ok (), { s with scanner := sc })
    else if sc.err ≠ none then (.ok (), { s with scanner := { sc with buf := [], start := 0 } })
    else
      -- Must read more data: shift, then resize when the buffer is full.
      let sc := if sc.start > 0 ∧ (sc.start + sc.buf.length = sc.cap ∨ sc.start > sc.cap / 2)
        then { sc with start := 0 } else sc
      if sc.start + sc.buf.length = sc.cap ∧ sc.cap ≥ 65536 then
        (.ok (), { s with scanner := sc.setErr .ErrTooLong })
      else
        let sc := if sc.start + sc.buf.length = sc.cap then
            { sc with start := 0,
                      cap := min (if sc.cap * 2 = 0 then 4096 else sc.cap * 2) 65536 }
          else sc
        M.bind (scanRead 100) (fun _ => scanLoop fuel) { s with scanner := sc }

/-- The method Scan of bufio.Scanner. -/
def Scan : M Unit := fun s => scanLoop (s.ch.pending + 2) s

/-- The method Err of bufio.Scanner. -/
def Scanner.Err (sc : Scanner) : Option Error :=
  if sc.err = some .EOF then none else sc.err

/-- The loop of io.Copy from a stream to the channel, with a buffer of 32 KiB. -/
def copyToChan : Nat → ReadCloser → Nat → M (Nat × Option Error)
  | 0, _, _ => fun s => (.fuel, s)
  | fuel + 1, src, written => do
    let ((p, er), src) := src.Read 32768
    if p.length > 0 then
      let (nw, ew) ← chWrite p
      let written := if nw > 0 then written + nw else written
      match ew with
      | some e => pure (written, some e)
      | none =>
        if p.length ≠ nw then pure (written, some .ErrShortWrite)
        else
          match er with
          | some e => pure (written, if e ≠ .EOF then some e else none)
          | none => copyToChan fuel src written
    else
      match er with
      | some e => pure (written, if e ≠ .EOF then some e else none)
      | none => copyToChan fuel src written

/-- io.Copy(ch, reader). -/
def ioCopy (src : ReadCloser) : M (Nat × Option Error) :=
  copyToChan (src.data.length + 1) src 0

/-- Run code of the backend on the storage. -/
def onWorld {α : Type} (f : World → α × World) : M α := fun s =>
  match f s.world with
  | (a, w) => (.ok a, { s with world := w })

/-- Note a call to the backend. -/
def called (c : Call) : M Unit := fun s => (.ok (), { s with calls := s.calls ++ [c] })

/-- The loop of io.Copy from the channel, limited to n more bytes, to a stream; size is the
length of the buffer. -/
def copyFromChan (dst : WriteCloser) (size : Nat) : Nat → Int → Nat → M (Nat × Option Error)
  | 0, _, _ => fun s => (.fuel, s)
  | fuel + 1, n, written =>
    if n ≤ 0 then pure (written, none)
    else do
      let (p, er) ← chRead (min size n.toNat)
      let n := n - p.length
      if p.length > 0 then
        let (nw, ew) ← onWorld (fun w => dst.Write w p)
        let written := if nw > 0 then written + nw else written
        match ew with
        | some e => pure (written, some e)
        | none =>
          if p.length ≠ nw then pure (written, some .ErrShortWrite)
          else
            match er with
            | some e => pure (written, if e ≠ .EOF then some e else none)
            | none => copyFromChan dst size fuel n written
      else
        match er with
        | some e => pure (written, if e ≠ .EOF then some e else none)
        | none => copyFromChan dst size fuel n written

/-- io.CopyN(writer, ch, n). -/
def ioCopyN (dst : WriteCloser) (n : Int) : M (Int × Option Error) := fun s =>
  let size := if (32768 : Int) > n then (if n < 1 then 1 else n.toNat) else 32768
  M.bind (copyFromChan dst size (n.toNat + s.ch.pending + 1) n 0)
    (fun (written, err) =>
      if (written : Int) = n then pure (n, none)
      else if (written : Int) < n ∧ err = none then pure ((written : Int), some .EOF)
      else pure ((written : Int), err)) s

/-- The conversion of an unsigned 64-bit number to int64. -/
def toInt64 (u : Nat) : Int := if u % 2 ^ 64 < 2 ^ 63 then (u % 2 ^ 64 : Nat) else (u % 2 ^ 64 : Nat) - 2 ^ 64

/-- The files the backend was asked to create, in the order of the calls. -/
def createCalls (calls : List Call) : List (GoString × Nat) :=
  calls.filterMap (fun c => match c with
    | .CreateFile p n => some (p, n)
    | _ => none)

/-! The package scp (scp.go). -/

/-- OKByte is scp OK message bytes. -/
def OKByte : UInt8 := 0

/-- WarnByte tells that next goes a warning string. -/
def WarnByte : UInt8 := 1

/-- ErrByte tells that next goes an error string. -/
def ErrByte : UInt8 := 2

/-- Flags (scp.go). -/
structure Flags where
  Source : Bool
  Sink : Bool
  Verbose : Bool
  Target : List GoString
  Recursive : Bool
  RemoteAddr : GoString
  LocalAddr : GoString

/-- Parameters (scp.go), which the type command embeds. User is none for a nil pointer; AuditLog
and ProgressWriter tell whether the field is set. -/
structure Parameters where
  Flags : Flags
  User : Option GoString
  AuditLog : Bool
  ProgressWriter : Bool
  FileSystem : Option FileSystem
  RemoteFileLocation : GoString

/-- The receiver state (scp.go). -/
structure State where
  path : List GoString
  finished : Bool
  deriving DecidableEq, Repr

/-- MtimeCmd (scp.go): each time as the seconds and nanoseconds time.Unix normalises to. -/
structure MtimeCmd where
  Mtime : Int × Int
  Atime : Int × Int
  deriving DecidableEq, Repr

/-- Arithmetic of int64: the value after wrap-around. -/
def wrap64 (x : Int) : Int := (x + 2 ^ 63) % 2 ^ 64 - 2 ^ 63

/-- time.Unix(sec, nsec). -/
def timeUnix (sec nsec : Int) : Int × Int :=
  if nsec < 0 ∨ nsec ≥ 1000000000 then
    let n := Int.tdiv nsec 1000000000
    let sec := wrap64 (sec + n)
    let nsec := nsec - n * 1000000000
    if nsec < 0 then (wrap64 (sec - 1), nsec + 1000000000) else (sec, nsec)
  else (sec, nsec)

/-- The loop of ParseMtime over the four parts. -/
def parseMtimeVars : List GoString → Except Error (List Int)
  | [] => .ok []
  | p :: ps =>
    match ParseInt p 10 64 with
    | (_, some err) => .error err
    | (v, none) =>
      match parseMtimeVars ps with
      | .error err => .error err
      | .ok vs => .ok (v :: vs)

/-- ParseMtime (scp.go). -/
def ParseMtime (line : GoString) : Except Error MtimeCmd :=
  let parts := SplitN line 32 4
  if parts.length ≠ 4 then .error (Errorf0 (str "broken mtime command"))
  else
    match parseMtimeVars parts with
    | .error err => .error err
    | .ok vars =>
      .ok { Mtime := timeUnix (vars.getD 0 0) (vars.getD 1 0),
            Atime := timeUnix (vars.getD 2 0) (vars.getD 3 0) }

/-- The function sendOK (scp.go). -/
def sendOK : M (Option Error) := do
  let (_, err) ← chWrite [OKByte]
  match err with
  | some e => pure (some e)
  | none => pure none

/-- The message of an error (the method Error); Quote stands for strconv.Quote. -/
def Error.Message (Quote : GoString → GoString) : Error → GoString
  | .text m => m
  | .badParameter m => m
  | .num fn input kind =>
    str "strconv." ++ fn ++ str ": parsing " ++ Quote input ++ str ": " ++
      (match kind with
        | .ErrSyntax => str "invalid syntax"
        | .ErrRange => str "value out of range")
  | .EOF => str "EOF"
  | .ErrUnexpectedEOF => str "unexpected EOF"
  | .ErrClosedPipe => str "io: read/write on closed pipe"
  | .ErrTooLong => str "bufio.Scanner: token too long"
  | .ErrNoProgress => str "multiple Read calls return no data or error"
  | .ErrShortWrite => str "short write"
  | .os m => m

/-- The function sendError (scp.go). -/
def sendError (Quote : GoString → GoString) (err : Option Error) : M (Option Error) :=
  match err with
  | none => pure none
  | some e => do
    let message := e.Message Quote
    let bytes := [ErrByte] ++ message ++ [10]
    let _ ← chWrite bytes
    pure (some e)

/-- The method push of the receiver state. -/
def State.push (st : State) (dir : GoString) : State :=
  { st with path := st.path ++ [dir] }

/-- The method pop of the receiver state. -/
def State.pop (st : State) : Option Error × State :=
  if st.finished then (some (Errorf0 (str "empty path")), st)
  else if st.path.length = 0 then (none, { st with finished := true })
  else (none, { st with path := st.path.take (st.path.length - 1) })

/-- The method makePath of the receiver state. -/
def State.makePath (st : State) (target filename : GoString) : GoString :=
  Join [target, Join st.path, filename]

/-- The method read of the reader (scp.go). -/
def readerRead : M (Option Error) := do
  let (p, err) ← chRead 1
  match err with
  | some e => pure (some e)
  | none =>
    if p.length < 1 then pure (some (Errorf0 (str "unexpected error, read 0 bytes")))
    else
      let b := p.headD 0
      if b = OKByte then pure none
      else if b = WarnByte ∨ b = ErrByte then do
        Scan
        let sc ← (fun s => (Res.ok s.scanner, s) : M Scanner)
        match sc.Err with
        | some e => pure (some e)
        | none => pure (some (Errorf0 sc.token))
      else pure (some (.text (str "unrecognized command: " ++ fmtSharpVByte b)))

/-- Write to the progress writer. -/
def progressWrite (text : GoString) : M Unit := fun s =>
  (.ok (), { s with progress := s.progress ++ text })

/-- The method EmitAuditEvent of the audit log. -/
def emitAuditEvent (ev : AuditEvent) : M Unit := fun s =>
  (.ok (), { s with audit := s.audit ++ [ev] })

/-- The method Close of a stream the engine opened. -/
def closeStream : M Unit := fun s => (.ok (), { s with closed := s.closed + 1 })

/-- The method sendFile (scp.go). -/
def sendFile (cmd : Parameters) (fs : FileSystem) (fileInfo : FileInfo) : M (Option Error) := do
  -- log audit event:
  (if cmd.AuditLog then
    match fileInfo.GetSize, cmd.User with
    | some size, some username =>
      emitAuditEvent { Path := fileInfo.GetPath, Len := size, LocalAddr := cmd.Flags.LocalAddr,
                       RemoteAddr := cmd.Flags.RemoteAddr, Login := username,
                       Action := str "read" }
    | _, _ => panics
  else pure ())
  called (.OpenFile fileInfo.GetPath)
  let (reader, err) ← onWorld (fun w => fs.OpenFile w fileInfo.GetPath)
  check err some do
  match reader, fileInfo.GetSize with
  | some reader, some size =>
    let out := str "C" ++ fmtOct04 fileInfo.GetModePerm ++ str " " ++ fmtInt size ++ str " "
      ++ fileInfo.GetName ++ str "\n"
    let result ← (do
      let (_, err) ← chWrite out
      check err some do
      let err ← readerRead
      check err some do
      let (n, err) ← ioCopy reader
      check err some do
      if (n : Int) ≠ size then
        pure (some (.text (str "short write: " ++ fmtInt n ++ str " " ++ fmtInt size)))
      else do
        let err ← sendOK
        check err some do
        readerRead)
    -- the deferred calls, last one first
    (if cmd.ProgressWriter then
      progressWrite (str "-> " ++ fileInfo.GetPath ++ str " (" ++ fmtInt size ++ str ")\n")
    else pure ())
    closeStream
    pure result
  | _, _ => panics

/-- The loop over file infos in sendDir and serveSource: send each one, returning the first
error, and then go on with last. -/
def forEachInfo (send : FileInfo → M (Option Error)) (last : M (Option Error)) :
    List FileInfo → M (Option Error)
  | [] => last
  | info :: rest => do
    let err ← send info
    check err some (forEachInfo send last rest)

/-- The method sendDir (scp.go); depth bounds the nesting of directories. -/
def sendDir (cmd : Parameters) (fs : FileSystem) : Nat → FileInfo → M (Option Error)
  | 0, _ => fun s => (.fuel, s)
  | depth + 1, fileInfo => do
    let out := str "D" ++ fmtOct04 fileInfo.GetModePerm ++ str " 0 " ++ fileInfo.GetName
      ++ str "\n"
    let (_, err) ← chWrite out
    check err some do
    let err ← readerRead
    check err some do
    let (fileInfoSlice, err) := fileInfo.ReadDir
    check err some do
    forEachInfo
      (fun info => if info.IsDir then sendDir cmd fs depth info else sendFile cmd fs info)
      (do
        let (_, err) ← chWrite (str "E\n")
        check err some do
        readerRead)
      fileInfoSlice

mutual
/-- The nesting of directories below a file info. -/
def FileInfo.depth : FileInfo → Nat
  | .mk _ _ _ _ _ _ es => 1 + FileInfo.depthList es
/-- The deepest nesting among file infos. -/
def FileInfo.depthList : List FileInfo → Nat
  | [] => 0
  | e :: es => max e.depth (FileInfo.depthList es)
end

/-- The first loop of serveSource: the file infos of the targets. -/
def sourceInfos (cmd : Parameters) (fs : FileSystem) :
    List GoString → M (Except Error (List FileInfo))
  | [] => pure (.ok [])
  | target :: rest => do
    called (.GetFileInfo target)
    let info ← (fun s => (Res.ok (fs.GetFileInfo s.world target), s) :
      M (Except Error FileInfo))
    match info with
    | .error err => pure (.error err)
    | .ok fileInfo =>
      if fileInfo.IsDir ∧ !cmd.Flags.Recursive then
        pure (.error (.text (fileInfo.GetName ++ str " is a directory, perhaps try -r flag?")))
      else do
        let infos ← sourceInfos cmd fs rest
        match infos with
        | .error err => pure (.error err)
        | .ok infos => pure (.ok (fileInfo :: infos))

/-- The method serveSource (scp.go). -/
def serveSource (cmd : Parameters) (fs : FileSystem) : M (Option Error) := do
  let infos ← sourceInfos cmd fs cmd.Flags.Target
  match infos with
  | .error err => pure (some err)
  | .ok fileInfoSlice =>
    let err ← readerRead
    check err some do
    forEachInfo
      (fun info => if info.IsDir then sendDir cmd fs info.depth info else sendFile cmd fs info)
      (pure none)
      fileInfoSlice

/-- The method receiveFile (scp.go). -/
def receiveFile (cmd : Parameters) (fs : FileSystem) (st : State) (fc : NewFileCmd) :
    M (Option Error) :=
  match cmd.Flags.Target with
  | [] => panics
  | target :: _ => do
    -- if the dest path is a folder, we should save the file to that folder, but
    -- only if is 'recursive' is set
    let isDir ← (if cmd.Flags.Recursive then pure true else do
      called (.IsDir target)
      (fun s => (Res.ok (fs.IsDir s.world target), s) : M Bool))
    let path := if cmd.Flags.Recursive ∨ isDir then st.makePath target fc.Name else target
    called (.CreateFile path fc.Length)
    let created ← (fun s =>
      match fs.CreateFile s.world path fc.Length with
      | none => (Res.panics, s)
      | some (r, w) => (Res.ok r, { s with world := w }) : M (Option WriteCloser × Option Error))
    let (writer, err) := created
    check err some do
    -- log audit event:
    (if cmd.AuditLog then
      match cmd.User with
      | some username =>
        emitAuditEvent { LocalAddr := cmd.Flags.LocalAddr, RemoteAddr := cmd.Flags.RemoteAddr,
                         Login := username, Path := path, Len := fc.Length,
                         Action := str "write" }
      | none => panics
    else pure ())
    match writer with
    | none => panics
    | some writer =>
      let result ← (do
        let err ← sendOK
        check err some do
        let (n, err) ← ioCopyN writer (toInt64 fc.Length)
        check err some do
        if n ≠ toInt64 fc.Length then
          pure (some (.text (str "unexpected file copy length: " ++ fmtInt n)))
        else do
          called (.SetChmod path fc.Mode)
          let err ← onWorld (fun w => fs.SetChmod w path fc.Mode)
          check err some do
          pure none)
      -- the deferred calls, last one first
      let _ ← onWorld (fun w => writer.Close w)
      closeStream
      (if cmd.ProgressWriter then
        progressWrite (str "<- " ++ path ++ str " (" ++ fmtUint 10 fc.Length ++ str ")\n")
      else pure ())
      pure result

/-- The method receiveDir (scp.go). -/
def receiveDir (cmd : Parameters) (fs : FileSystem) (st : State) (fc : NewFileCmd) :
    M (Option Error × State) :=
  match cmd.Flags.Target with
  | [] => panics
  | target :: _ => do
    -- copying into an existing directory? append to it:
    called (.IsDir target)
    let isDir ← (fun s => (Res.ok (fs.IsDir s.world target), s) : M Bool)
    let targetDir := if isDir then st.makePath target fc.Name else target
    let st := if isDir then st.push fc.Name else st
    called (.MkDir targetDir fc.Mode)
    let err ← onWorld (fun w => fs.MkDir w targetDir fc.Mode)
    match err with
    | some e => pure (some e, st)
    | none => pure (none, st)

/-- The method processCommand (scp.go). -/
def processCommand (cmd : Parameters) (fs : FileSystem) (st : State) (b : UInt8)
    (line : GoString) : M (Option Error × State) :=
  let unrecognized : M (Option Error × State) :=
    pure (some (.text (str "got unrecognized command: " ++ stringOfByte b)), st)
  if b = WarnByte then pure (some (Errorf0 line), st)
  else if b = ErrByte then pure (some (Errorf0 line), st)
  else if b = 67 then
    match ParseNewFile line with
    | .error err => pure (some err, st)
    | .ok f => do
      let err ← receiveFile cmd fs st f
      match err with
      | some e => pure (some e, st)
      | none => pure (none, st)
  else if b = 68 then
    match ParseNewFile line with
    | .error err => pure (some err, st)
    | .ok d => do
      let (err, st) ← receiveDir cmd fs st d
      match err with
      | some e => pure (some e, st)
      | none => pure (none, st)
  else if b = 69 then pure st.pop
  else if b = 84 then
    match ParseMtime line with
    | .error err => pure (some err, st)
    | .ok _ => unrecognized
  else unrecognized

/-- The loop of serveSink. -/
def serveSinkLoop (cmd : Parameters) (fs : FileSystem) : Nat → State → M (Option Error)
  | 0, _ => fun s => (.fuel, s)
  | fuel + 1, st => do
    let (p, err) ← chRead 1
    match err with
    | some e => if e = .EOF then pure none else pure (some e)
    | none =>
      if p.length < 1 then pure (some (Errorf0 (str "unexpected error, read 0 bytes")))
      else
        let b := p.headD 0
        if b = OKByte then serveSinkLoop cmd fs fuel st
        else do
          Scan
          let sc ← (fun s => (Res.ok s.scanner, s) : M Scanner)
          check sc.Err some do
          let (err, st) ← processCommand cmd fs st b sc.token
          check err some do
          let err ← sendOK
          check err some do
          serveSinkLoop cmd fs fuel st

/-- The method serveSink (scp.go): it takes a turn of the loop for each byte it reads, at the
least. -/
def serveSink (cmd : Parameters) (fs : FileSystem) : M (Option Error) := do
  let err ← sendOK
  check err some do
  fun s => serveSinkLoop cmd fs (s.ch.pending + 1) { path := [str "."], finished := false } s

/-- The method runningOnClient (scp.go). -/
def runningOnClient (cmd : Parameters) : Bool := cmd.ProgressWriter

/-- The method Execute (scp.go). -/
def Execute (Quote : GoString → GoString) (cmd : Parameters) : M (Option Error) :=
  match cmd.FileSystem with
  | none => pure (some (.badParameter (str "missing file system")))
  | some fs => do
    let err ← (if cmd.Flags.Source then serveSource cmd fs else serveSink cmd fs)
    match err with
    | some e =>
      if runningOnClient cmd then pure (some e)
      else do
        -- when 'teleport scp' encounters an error, it SHOULD NOT be logged
        -- to stderr (i.e. we should not return an error here) and instead
        -- it should be sent back to scp client using scp protocol
        let _ ← sendError Quote (some e)
        pure none
    | none => pure none

/-! Two engines on the two ends of a channel. -/

/-- A fresh scanner. -/
def Scanner.new : Scanner := { buf := [], start := 0, cap := 0, err := none, token := [] }

/-- The state an engine starts in on a storage, with what its peer has written so far. -/
def Env.start (w : World) (inp : List (List UInt8)) (closed : Bool) : Env :=
  { ch := { inp := inp, closed := closed, out := [], broken := false }, world := w,
    scanner := Scanner.new, progress := [], audit := [], calls := [], closed := 0 }

/-- Whether engine code has come to its end. -/
def Res.done {α : Type} : Res α → Bool
  | .blocked => false
  | _ => true

/-- The two engines in lock step: each in its turn runs from its start on all its peer has
written, as far as it gets; an engine that has come to its end has closed its end of the
channel. The result is how each engine ends and the state it reaches, after the given number of
turns of each. -/
def lockStep (a b : M (Option Error)) (wa wb : World) :
    Nat → (Res (Option Error) × Env) × (Res (Option Error) × Env)
  | 0 => (a (Env.start wa [] false), b (Env.start wb [] false))
  | n + 1 =>
    let prev := lockStep a b wa wb n
    let ra := a (Env.start wa prev.2.2.ch.out prev.2.1.done)
    let rb := b (Env.start wb ra.2.ch.out ra.1.done)
    (ra, rb)

/-! Construction of commands (scp.go, http.go). -/

/-- CreateCommand (scp.go). -/
def CreateCommand (params : Parameters) : Parameters :=
  if params.FileSystem.isNone then { params with FileSystem := some LocalFS } else params

/-- CreateDownloadCommand (scp.go). -/
def CreateDownloadCommand (params : Parameters) : Except Error Parameters :=
  if params.RemoteFileLocation = [] then
    .error (.badParameter (str "missing RemoteFileLocation parameter"))
  else
    .ok (CreateCommand { params with Flags := { params.Flags with Sink := true, Source := false } })

/-- CreateUploadCommand (scp.go). -/
def CreateUploadCommand (params : Parameters) : Except Error Parameters :=
  if params.RemoteFileLocation = [] then
    .error (.badParameter (str "missing RemoteFileLocation parameter"))
  else
    .ok (CreateCommand { params with Flags := { params.Flags with Sink := false, Source := true } })

/-- The zero value of Parameters. -/
def Parameters.zero : Parameters :=
  { Flags := { Source := false, Sink := false, Verbose := false, Target := [], Recursive := false,
               RemoteAddr := [], LocalAddr := [] },
    User := none, AuditLog := false, ProgressWriter := false, FileSystem := none,
    RemoteFileLocation := [] }

/-- CreateHTTPUploadCommand (http.go); progress tells whether a progress writer is given. The
command returned runs the method Execute of the command it embeds. -/
def CreateHTTPUploadCommand (remoteLocation : GoString) (reader : Option ReadCloser)
    (progress : Bool) : Except Error Parameters :=
  let filename := (Split remoteLocation).2
  if filename = [] then .error (.badParameter (str "invalid file path: " ++ filename))
  else
    let webCmd : HTTPTransferCommand :=
      { Writer := false, Reader := reader, UploadFileName := filename }
    let cfg := Parameters.zero
    let cfg := { cfg with ProgressWriter := progress }
    let cfg := { cfg with RemoteFileLocation := remoteLocation }
    let cfg := { cfg with FileSystem := some (WebFS webCmd) }
    let cfg := { cfg with Flags := { cfg.Flags with Target := [filename] } }
    CreateUploadCommand cfg

/-- CreateHTTPDownloadCommand (http.go); progress tells whether a progress writer is given. -/
def CreateHTTPDownloadCommand (remoteLocation : GoString) (progress : Bool) :
    Except Error Parameters :=
  let filename := (Split remoteLocation).2
  if filename = [] then .error (.badParameter (str "invalid file path: " ++ filename))
  else
    let webCmd : HTTPTransferCommand := { Writer := true, Reader := none, UploadFileName := [] }
    let cfg := Parameters.zero
    let cfg := { cfg with ProgressWriter := progress }
    let cfg := { cfg with Flags := { cfg.Flags with Target := [filename] } }
    let cfg := { cfg with RemoteFileLocation := remoteLocation }
    let cfg := { cfg with FileSystem := some (WebFS webCmd) }
    CreateDownloadCommand cfg

/-- The method GetSCPShellCmd (scp.go). -/
def GetSCPShellCmd (cmd : Parameters) : GoString :=
  -- "impersonate" scp to a server
  let shellCmd := if cmd.Flags.Source = true then str "/usr/bin/scp -t" else str "/usr/bin/scp -f"
  let shellCmd := if cmd.Flags.Recursive then shellCmd ++ str " -r" else shellCmd
  shellCmd ++ (str " " ++ cmd.RemoteFileLocation)

/-! Inputs of the examples. -/

/-- A storage with nothing on it, on which nothing is refused. -/
def World.empty : World :=
  { files := [], dirs := [], denied := fun _ => false, header := [], body := [] }

/-- A command with the local backend that receives into the given target on the server side. -/
def sinkCommand (target : GoString) : Parameters :=
  { Parameters.zero with
    Flags := { Parameters.zero.Flags with Sink := true, Target := [target] },
    FileSystem := some LocalFS }

/-- A command with the local backend that sends the given target from the server side. -/
def sourceCommand (target : GoString) : Parameters :=
  { Parameters.zero with
    Flags := { Parameters.zero.Flags with Source := true, Target := [target] },
    FileSystem := some LocalFS }

/-- The HTTP upload of the test TestHTTPSendFile: the body hello sent as /tmp/target, with a
progress writer. -/
def httpUpload : Except Error Parameters :=
  CreateHTTPUploadCommand (str "/tmp/target") (some { data := str "hello", err := none }) true

/-- A command with the local backend that receives recursively into the given target on the
server side. -/
def recursiveSink (target : GoString) : Parameters :=
  { Parameters.zero with
    Flags := { Parameters.zero.Flags with Sink := true, Target := [target], Recursive := true },
    FileSystem := some LocalFS }

/-- A storage with the given directories and nothing else. -/
def World.withDirs (dirs : List GoString) : World :=
  { World.empty with dirs := dirs.map (fun d => (d, 0o755)) }

/-- The code makes no CreateFile call. -/
def keepsCreates {α : Type} (x : M α) : Prop :=
  ∀ s, createCalls (x s).2.calls = createCalls s.calls

/-- The pieces io.Copy writes for a stream that yields data: 32 KiB each, the last one shorter. -/
def pieces : Nat → List UInt8 → List (List UInt8)
  | 0, _ => []
  | fuel + 1, data => if data = [] then [] else data.take 32768 :: pieces fuel (data.drop 32768)

/-- The header line of a file. -/
def fileHeader (m : Nat) (size : Int) (name : GoString) : GoString :=
  str "C" ++ fmtOct04 m ++ str " " ++ fmtInt size ++ str " " ++ name ++ str "\n"

/-- The line of a file header without its first byte. -/
def headerLine (m n : Nat) (name : GoString) : GoString :=
  fmtOct04 m ++ [32] ++ fmtUint 10 n ++ [32] ++ name ++ [10]

/-- The mode a new or truncated file has. -/
def createPerm (w : World) (P : GoString) : Nat :=
  match w.file P with
  | some (_, perm) => perm
  | none => 0o666

/-- The path receiveFile computes for a file of the given name before any directory has been
entered: makePath with the stack holding the one segment "." when the command is recursive or
the target is a directory, and the target itself otherwise. -/
def destPath (cmd : Parameters) (w : World) (t name : GoString) : GoString :=
  if cmd.Flags.Recursive = true ∨ w.isDir t = true then Join [t, Join [str "."], name] else t

/-- The name the sink reads from the header of a file: the scanner cuts the line at the first
newline and drops one carriage return before it. -/
def seenName (name : GoString) : GoString := dropCR (beforeFirst 10 name)

/-- A storage with one regular file and nothing else. -/
def World.withFile (path : GoString) (data : List UInt8) (perm : Nat) : World :=
  { World.empty with files := [(path, data, perm)] }

/-! Text of a file command. -/

/-- The verb %04o on an int64 (fmt): octal digits filled with zeros to the width of four, of
which a minus sign takes one. -/
def fmtOct04Int (v : Int) : GoString :=
  if v < 0 then
    45 :: (List.replicate (3 - (fmtUint 8 (-v).toNat).length) 48 ++ fmtUint 8 (-v).toNat)
  else fmtOct04 v.toNat

/-- The text fmt.Sprintf("%04o %d %s", c.Mode, c.Length, c.Name): the template of sendFile
without its first byte and its newline, on the fields of a file command. -/
def NewFileCmd.format (c : NewFileCmd) : GoString :=
  fmtOct04Int c.Mode ++ [32] ++ fmtUint 10 c.Length ++ [32] ++ c.Name

/-! Directory frames. -/

/-- The sink on a list of frames, each the control byte and the line after it: processCommand on
one after the other from the given receiver state, as in the loop of serveSink, up to the first
error. The result is that error, if there is one, and the receiver state reached. -/
def processFrames (cmd : Parameters) (fs : FileSystem) :
    List (UInt8 × GoString) → State → M (Option Error × State)
  | [], st => pure (none, st)
  | (b, line) :: rest, st => do
    let (err, st) ← processCommand cmd fs st b line
    match err with
    | some e => pure (some e, st)
    | none => processFrames cmd fs rest st

/-- The nesting depth after a list of D and E frames, from a given depth: none when an E frame
comes at depth zero or a frame is neither a D nor an E frame. -/
def depthAfter : List (UInt8 × GoString) → Nat → Option Nat
  | [], d => some d
  | (b, _) :: rest, d =>
    if b = 68 then depthAfter rest (d + 1)
    else if b = 69 then (if d = 0 then none else depthAfter rest (d - 1))
    else none

/-- A well-nested list of D and E frames. -/
def balanced (frames : List (UInt8 × GoString)) : Prop := depthAfter frames 0 = some 0

instance (frames : List (UInt8 × GoString)) : Decidable (balanced frames) := by
  unfold balanced; infer_instance

/-! The parts of one turn of the loop of Scan. -/

/-- The first part of a turn of the loop of Scan: look for a token in what the buffer holds.
The result tells whether there is one, and is the scanner advanced past it. -/
def scanFind (sc : Scanner) : Bool × Scanner :=
  if sc.buf ≠ [] ∨ sc.err ≠ none then
    ((ScanLines sc.buf (sc.err ≠ none)).2.isSome,
      { sc with buf := sc.buf.drop (ScanLines sc.buf (sc.err ≠ none)).1,
                start := sc.start + (ScanLines sc.buf (sc.err ≠ none)).1,
                token := (ScanLines sc.buf (sc.err ≠ none)).2.getD [] })
  else (false, sc)

/-- The second part: before reading, the bytes are moved to the start of the buffer when it is
full or more than half of it is used up. -/
def scanShift (sc : Scanner) : Scanner :=
  if sc.start > 0 ∧ (sc.start + sc.buf.length = sc.cap ∨ sc.start > sc.cap / 2)
  then { sc with start := 0 } else sc

/-- The third part: a full buffer is made twice as long, up to 64 KiB. -/
def scanGrow (sc : Scanner) : Scanner :=
  if sc.start + sc.buf.length = sc.cap then
    { sc with start := 0, cap := min (if sc.cap * 2 = 0 then 4096 else sc.cap * 2) 65536 }
  else sc

/-- Scan does not have to wait for the peer: the peer has closed its end, or there is a newline
among the bytes the scanner holds or among the bytes the peer has written. -/
def Env.lineReady (s : Env) : Prop :=
  s.ch.closed = true ∨ (10 : UInt8) ∈ s.scanner.buf ∨ (10 : UInt8) ∈ s.ch.inp.flatten

/-! Reading the response headers. -/

/-- The method Get of http.Header for a key in canonical form: the value set for the key, the
empty string when there is none. -/
def headerGet (h : List (GoString × GoString)) (key : GoString) : GoString :=
  ((h.find? (fun e => e.1 = key)).map (fun e => e.2)).getD []

/-- Engine code that writes nothing to the progress writer. -/
def keepsProgress {α : Type} (x : M α) : Prop :=
  ∀ s, (x s).2.progress = s.progress

/-! What the source sends for a tree. -/

/-- One item of the transfer of a tree: the opening of a directory, its end, or a file with its
contents. -/
inductive WireItem where
  | dir (mode : Nat) (name : GoString)
  | endDir
  | file (mode : Nat) (name : GoString) (data : List UInt8)
  deriving DecidableEq, Repr

mutual
/-- The items of a tree in the order sendDir and sendFile go through it; content gives the
bytes of the file at a path. -/
def FileInfo.items (content : GoString → List UInt8) : FileInfo → List WireItem
  | .mk true name _ mode _ _ entries =>
    .dir mode name :: (FileInfo.itemsList content entries ++ [.endDir])
  | .mk false name path mode _ _ _ => [.file mode name (content path)]
/-- The items of the trees of a list, one tree after the other. -/
def FileInfo.itemsList (content : GoString → List UInt8) : List FileInfo → List WireItem
  | [] => []
  | e :: es => FileInfo.items content e ++ FileInfo.itemsList content es
end

/-- The writes of the source for an item, in groups: after each group the source waits for an
ack of the peer. -/
def WireItem.segments : WireItem → List (List (List UInt8))
  | .dir mode name => [[str "D" ++ fmtOct04 mode ++ str " 0 " ++ name ++ str "\n"]]
  | .endDir => [[str "E\n"]]
  | .file mode name data =>
    [[fileHeader mode data.length name], pieces (data.length + 1) data ++ [[0]]]

/-- The groups of writes for a list of items. -/
def segments : List WireItem → List (List (List UInt8))
  | [] => []
  | i :: is => i.segments ++ segments is

/-- All the writes for a list of items. -/
def wire (items : List WireItem) : List (List UInt8) := (segments items).flatten

/-- The control frame of a directory item, as the sink reads it: the byte D and the line, or
the byte E. -/
def WireItem.frame : WireItem → Option (UInt8 × GoString)
  | .dir mode name => some (68, fmtOct04 mode ++ str " 0 " ++ name)
  | .endDir => some (69, [])
  | .file _ _ _ => none

/-- The D and E frames among the items. -/
def dirFrames (items : List WireItem) : List (UInt8 × GoString) :=
  items.filterMap WireItem.frame

mutual
/-- Every backend call of the source on the tree succeeds on the storage w: ReadDir gives the
entries of a directory, and a file has the size of its contents and opens with a stream that
yields them, leaving the storage as it is. -/
def FileInfo.readable (fs : FileSystem) (w : World) (content : GoString → List UInt8) :
    FileInfo → Prop
  | .mk true _ _ _ _ err entries => err = none ∧ FileInfo.readableList fs w content entries
  | .mk false _ path _ size _ _ =>
    size = some ((content path).length : Int) ∧
    fs.OpenFile w path = ((some ⟨content path, none⟩, none), w)
/-- Every backend call of the source succeeds on each tree of the list. -/
def FileInfo.readableList (fs : FileSystem) (w : World) (content : GoString → List UInt8) :
    List FileInfo → Prop
  | [] => True
  | e :: es => FileInfo.readable fs w content e ∧ FileInfo.readableList fs w content es
end

/-- Engine code of the source that makes the given groups of writes on a channel that takes
them, waiting for an ack 0x00 of the peer after each group, and leaves the storage w as it is:
with an ack for each group it ends without error, having taken these acks and no more; with
fewer acks it has made the writes of one group more than there are acks and waits. -/
def Sends (w : World) (x : M (Option Error)) (sg : List (List (List UInt8))) : Prop :=
  (∀ (s : Env) (rest : List (List UInt8)) (cl : Bool) (o : List (List UInt8)),
    s.ch = ⟨List.replicate sg.length [0] ++ rest, cl, o, false⟩ → s.world = w →
    (x s).1 = .ok none ∧ (x s).2.ch = ⟨rest, cl, o ++ sg.flatten, false⟩ ∧
      (x s).2.world = w) ∧
  (∀ (s : Env) (k : Nat) (o : List (List UInt8)), k < sg.length →
    s.ch = ⟨List.replicate k [0], false, o, false⟩ → s.world = w →
    (x s).1 = .blocked ∧ (x s).2.ch.out = o ++ (sg.take (k + 1)).flatten)

/-- A command with the local backend that sends the given target and what is below it from the
server side. -/
def recursiveSource (target : GoString) : Parameters :=
  { Parameters.zero with
    Flags := { Parameters.zero.Flags with Source := true, Target := [target], Recursive := true },
    FileSystem := some LocalFS }

/-- A storage with one directory and one regular file. -/
def World.withDirFile (dir path : GoString) (data : List UInt8) (perm : Nat) : World :=
  { World.empty with files := [(path, data, perm)], dirs := [(dir, 0o755)] }

/-! What the sink does with the items of a tree. -/

/-- A scanner between two lines: it holds no bytes and no error, and its buffer is the one of a
new scanner or the first one it allocates. -/
def Scanner.idle (sc : Scanner) : Prop :=
  sc.buf = [] ∧ sc.err = none ∧ ((sc.cap = 0 ∧ sc.start = 0) ∨ (sc.cap = 4096 ∧ sc.start ≤ 4096))

/-- A name that goes through a header line as it is: no newline in it, no carriage return at
its end, and short enough for the line to fit the scanner. -/
def nameOK (name : GoString) : Prop :=
  (10 : UInt8) ∉ name ∧ name.getLast? ≠ some 13 ∧ name.length ≤ 1900

instance (name : GoString) : Decidable (nameOK name) := by
  unfold nameOK; infer_instance

/-- An item the sink reads as the source meant it: a name that goes through, a mode of no more
than twelve bits, and a length that fits int64. -/
def WireItem.wellFormed : WireItem → Prop
  | .dir mode name => mode ≤ 0o7777 ∧ nameOK name
  | .endDir => True
  | .file mode name data => mode ≤ 0o7777 ∧ nameOK name ∧ data.length < 2 ^ 63

/-- What the recursive sink with the local backend does for an item, when the target is a
directory: the receiver state and the storage after it. -/
def sinkItem (t : GoString) : WireItem → State × World → State × World
  | .dir mode name, (st, w) =>
    (st.push name, (osMkdirAll w (st.makePath t name) (mode % 512)).2)
  | .endDir, (st, w) => (st.pop.2, w)
  | .file mode name data, (st, w) => (st, w.setFile (st.makePath t name) data (mode % 512))

/-- What the recursive sink does for a list of items. -/
def sinkItems (t : GoString) : List WireItem → State × World → State × World
  | [], sw => sw
  | i :: is, sw => sinkItems t is (sinkItem t i sw)

/-- The backend refuses none of the calls the sink makes for the items, and no E frame comes
after the end. -/
def sinkAccepts (t : GoString) : List WireItem → State × World → Prop
  | [], _ => True
  | i :: is, sw =>
    (match i with
      | .dir mode name => (osMkdirAll sw.2 (sw.1.makePath t name) (mode % 512)).1 = none
      | .endDir => sw.1.finished = false
      | .file _ name _ =>
        sw.2.denied (Clean (sw.1.makePath t name)) = false ∧
        sw.2.isDir (sw.1.makePath t name) = false) ∧
    sinkAccepts t is (sinkItem t i sw)

/-- The acks the sink has written for the items once it has the first j groups of writes of
the source: one for each group, and already the second one for the header of an empty file. -/
def acksAfter : List WireItem → Nat → Nat
  | [], _ => 0
  | .dir _ _ :: is, j => if j = 0 then 0 else 1 + acksAfter is (j - 1)
  | .endDir :: is, j => if j = 0 then 0 else 1 + acksAfter is (j - 1)
  | .file _ _ data :: is, j =>
    if j = 0 then 0
    else if j = 1 then (if data = [] then 2 else 1)
    else 2 + acksAfter is (j - 2)

instance (i : WireItem) : Decidable i.wellFormed := by
  cases i <;> unfold WireItem.wellFormed <;> infer_instance

mutual
/-- Where the nodes of a tree go under the target t, in the order of the transfer: for each node
the path filepath.Join(t, filepath.Join of the stack, its name), where the stack holds "." and
the names of the directories above the node from the root of the tree on; with the contents
content gives for a file (none for a directory) and the permission bits of its mode. -/
def FileInfo.dests (content : GoString → List UInt8) (t : GoString) :
    List GoString → FileInfo → List (GoString × Option (List UInt8) × Nat)
  | stack, .mk true name _ mode _ _ entries =>
    (Join [t, Join stack, name], none, mode % 512)
      :: FileInfo.destsList content t (stack ++ [name]) entries
  | stack, .mk false name path mode _ _ _ =>
    [(Join [t, Join stack, name], some (content path), mode % 512)]
/-- Where the nodes of the trees of a list go. -/
def FileInfo.destsList (content : GoString → List UInt8) (t : GoString) :
    List GoString → List FileInfo → List (GoString × Option (List UInt8) × Nat)
  | _, [] => []
  | stack, e :: es =>
    FileInfo.dests content t stack e ++ FileInfo.destsList content t stack es
end

/-- Put a node on the storage: os.MkdirAll for a directory, and for a file its contents and
permission bits. -/
def applyOp (w : World) : GoString × Option (List UInt8) × Nat → World
  | (p, none, perm) => (osMkdirAll w p perm).2
  | (p, some data, perm) => w.setFile p data perm

/-- Put nodes on the storage, one after the other. -/
def applyOps : List (GoString × Option (List UInt8) × Nat) → World → World
  | [], w => w
  | op :: ops, w => applyOps ops (applyOp w op)

/-- The storage refuses none of the nodes: each directory can be made, and each file is at a
path that is not refused and is no directory. -/
def opsAccepted : List (GoString × Option (List UInt8) × Nat) → World → Prop
  | [], _ => True
  | (p, none, perm) :: ops, w =>
    (osMkdirAll w p perm).1 = none ∧ opsAccepted ops (osMkdirAll w p perm).2
  | (p, some data, perm) :: ops, w =>
    (w.denied (Clean p) = false ∧ w.isDir p = false) ∧ opsAccepted ops (w.setFile p data perm)

/-- A storage with the directory /d, which holds the file f and the directory sub with the empty
file g. -/
def World.sampleTree : World :=
  { World.empty with
    files := [(str "/d/f", str "hi", 0o644), (str "/d/sub/g", [], 0o600)],
    dirs := [(str "/d", 0o755), (str "/d/sub", 0o700)] }

/-- The contents of the file at a path of a storage. -/
def World.content (w : World) (path : GoString) : List UInt8 :=
  ((w.file path).map (fun e => e.1)).getD []

/-! ## Theorems -/

theorem cutByte_none {sep : UInt8} {s : GoString} (h : sep ∉ s) : cutByte sep s = none := by
  induction s with
  | nil => rfl
  | cons c cs ih =>
    simp only [List.mem_cons, not_or] at h
    simp [cutByte, Ne.symm h.1, ih h.2]

theorem cutByte_append {sep : UInt8} {a : GoString} (b : GoString) (h : sep ∉ a) :
    cutByte sep (a ++ sep :: b) = some (a, b) := by
  induction a with
  | nil => simp [cutByte]
  | cons c cs ih =>
    simp only [List.mem_cons, not_or] at h
    simp [cutByte, Ne.symm h.1, ih h.2]

theorem cutByte_eq (sep : UInt8) (s : GoString) :
    cutByte sep s = if sep ∈ s then some (beforeFirst sep s, afterFirst sep s) else none := by
  induction s with
  | nil => simp [cutByte]
  | cons c cs ih =>
    by_cases hc : c = sep
    · subst hc; simp [cutByte, beforeFirst, afterFirst]
    · have hc2 : ¬ sep = c := fun h => hc h.symm
      simp only [cutByte, hc, if_false, ih, List.mem_cons, hc2, false_or, beforeFirst, afterFirst]
      by_cases hm : sep ∈ cs <;> simp [hm]

theorem before_after_of_not_mem {sep : UInt8} {s : GoString} (h : sep ∉ s) :
    beforeFirst sep s = s ∧ afterFirst sep s = [] := by
  induction s with
  | nil => simp [beforeFirst, afterFirst]
  | cons c cs ih =>
    simp only [List.mem_cons, not_or] at h
    have hc : c ≠ sep := Ne.symm h.1
    simp [beforeFirst, afterFirst, hc, ih h.2]

/-- Claim C7: for all strings u, h, p with no '@' in u, no ':' in h and p non-empty,
ParseSCPDestination applied to u ++ "@" ++ h ++ ":" ++ p returns exactly (u, h, p). -/
theorem ParseSCPDestination_format (u h p : GoString) (hu : (64 : UInt8) ∉ u) (hh : (58 : UInt8) ∉ h)
    (hp : p ≠ []) :
    ParseSCPDestination (u ++ [64] ++ h ++ [58] ++ p) = (u, h, p) := by
  have e0 : u ++ [64] ++ h ++ [58] ++ p = u ++ 64 :: (h ++ 58 :: p) := by simp
  have e1 : SplitN (u ++ 64 :: (h ++ 58 :: p)) 64 2 = [u, h ++ 58 :: p] := by
    simp [SplitN, cutByte_append _ hu]
  have e2 : SplitN (h ++ 58 :: p) 58 2 = [h, p] := by
    simp [SplitN, cutByte_append _ hh]
  have hp' : p.length ≠ 0 := by simpa using hp
  rw [e0]
  unfold ParseSCPDestination
  simp only [e1]
  simp [e2, hp']

theorem ParseSCPDestination_format_witness :
    ParseSCPDestination (str "root" ++ [64] ++ str "remote.host" ++ [58] ++ str "/etc/nginx.conf")
      = (str "root", str "remote.host", str "/etc/nginx.conf") :=
  ParseSCPDestination_format (str "root") (str "remote.host") (str "/etc/nginx.conf")
    (by decide) (by decide) (by decide)

/-- Claim C8: for every string s without '@', ParseSCPDestination returns an empty login, as host
the text of s before its first ':' (all of s when there is none) and as dest all that follows
that first ':' with later ':' kept, except that an empty or missing path gives ".". -/
theorem ParseSCPDestination_no_login (s : GoString) (hs : (64 : UInt8) ∉ s) :
    ParseSCPDestination s =
      ([], beforeFirst 58 s, if afterFirst 58 s = [] then str "." else afterFirst 58 s) := by
  have e1 : SplitN s 64 2 = [s] := by simp [SplitN, cutByte_none hs]
  by_cases hc : (58 : UInt8) ∈ s
  · have e2 : SplitN s 58 2 = [beforeFirst 58 s, afterFirst 58 s] := by
      simp [SplitN, cutByte_eq, hc]
    unfold ParseSCPDestination
    simp only [e1]
    simp [e2, List.length_eq_zero]
  · have e2 : SplitN s 58 2 = [s] := by simp [SplitN, cutByte_none hc]
    obtain ⟨e3, e4⟩ := before_after_of_not_mem hc
    unfold ParseSCPDestination
    simp only [e1]
    simp [e2, e3, e4]

theorem ParseSCPDestination_no_login_witness :
    ParseSCPDestination (str "remote.host:/etc/nginx.co:nf")
      = ([], str "remote.host", str "/etc/nginx.co:nf") := by
  have h := ParseSCPDestination_no_login (str "remote.host:/etc/nginx.co:nf") (by decide)
  rw [h]; decide

theorem foldl_digits_ge (base : Nat) (hb : 1 ≤ base) (cs : GoString) (n : Nat) :
    n ≤ cs.foldl (fun n c => n * base + (c.toNat - 48)) n := by
  induction cs generalizing n with
  | nil => simp
  | cons c cs ih =>
    simp only [List.foldl_cons]
    calc n ≤ n * base := Nat.le_mul_of_pos_right n hb
      _ ≤ n * base + (c.toNat - 48) := Nat.le_add_right _ _
      _ ≤ _ := ih _

theorem digitVal_digit {base : Nat} (hb : base ≤ 10) {c : UInt8}
    (h : 48 ≤ c.toNat ∧ c.toNat < 48 + base) : digitVal c = some (c.toNat - 48) := by
  have h1 : c.toNat ≤ 57 := by omega
  simp [digitVal, h.1, h1]

theorem digitVal_lt_base {base : Nat} (hb : base ≤ 10) {c : UInt8} {v : Nat}
    (h : digitVal c = some v) (hv : v < base) :
    (48 ≤ c.toNat ∧ c.toNat < 48 + base) ∧ v = c.toNat - 48 := by
  unfold digitVal at h
  simp only at h
  split_ifs at h with h1 h2 h3
  · simp only [Option.some.injEq] at h; omega
  · simp only [Option.some.injEq] at h; omega
  · simp only [Option.some.injEq] at h; omega

theorem parseUintLoop_cons (base maxVal cutoff : Nat) (c : UInt8) (cs : GoString) (n : Nat) :
    parseUintLoop base maxVal cutoff (c :: cs) n =
      match digitVal c with
      | none => (0, some .ErrSyntax)
      | some v =>
        if v ≥ base then (0, some .ErrSyntax)
        else if n ≥ cutoff then (maxVal, some .ErrRange)
        else if ((n * base) % 2 ^ 64 + v) % 2 ^ 64 < (n * base) % 2 ^ 64
            ∨ ((n * base) % 2 ^ 64 + v) % 2 ^ 64 > maxVal then (maxVal, some .ErrRange)
        else parseUintLoop base maxVal cutoff cs (((n * base) % 2 ^ 64 + v) % 2 ^ 64) := by
  rw [parseUintLoop]

theorem parseUintLoop_ok {base maxVal : Nat} (hb2 : 2 ≤ base) (hb : base ≤ 10)
    (hmax : maxVal < 2 ^ 64) (cs : GoString) (n : Nat) (hd : allDigits base cs)
    (hv : cs.foldl (fun n c => n * base + (c.toNat - 48)) n ≤ maxVal) :
    parseUintLoop base maxVal ((2 ^ 64 - 1) / base + 1) cs n
      = (cs.foldl (fun n c => n * base + (c.toNat - 48)) n, none) := by
  induction cs generalizing n with
  | nil => simp [parseUintLoop]
  | cons c cs ih =>
    have hc := hd c (List.mem_cons_self _ _)
    have hd' : allDigits base cs := fun x hx => hd x (List.mem_cons_of_mem _ hx)
    simp only [List.foldl_cons] at hv ⊢
    have hge := foldl_digits_ge base (by omega) cs (n * base + (c.toNat - 48))
    have h1 : n * base + (c.toNat - 48) ≤ maxVal := le_trans hge hv
    have h2 : n * base < 2 ^ 64 := by omega
    have h3 : n < (2 ^ 64 - 1) / base + 1 := by
      have : n ≤ (2 ^ 64 - 1) / base := by
        rw [Nat.le_div_iff_mul_le (by omega)]; omega
      omega
    have h4 : (n * base) % 2 ^ 64 = n * base := Nat.mod_eq_of_lt h2
    have h5 : (n * base + (c.toNat - 48)) % 2 ^ 64 = n * base + (c.toNat - 48) :=
      Nat.mod_eq_of_lt (by omega)
    have h6 : ¬ (c.toNat - 48 ≥ base) := by omega
    have h7 : ¬ (n ≥ (2 ^ 64 - 1) / base + 1) := by omega
    have h8 : ¬ (n * base + (c.toNat - 48) < n * base ∨ n * base + (c.toNat - 48) > maxVal) := by
      omega
    rw [parseUintLoop_cons, digitVal_digit hb hc]
    simp only [h6, h7, if_false, h4, h5, h8]
    exact ih _ hd' hv

theorem parseUintLoop_ok_inv {base maxVal : Nat} (hb2 : 2 ≤ base) (hb : base ≤ 10)
    (cs : GoString) (n v : Nat)
    (h : parseUintLoop base maxVal ((2 ^ 64 - 1) / base + 1) cs n = (v, none)) :
    allDigits base cs ∧ v = cs.foldl (fun n c => n * base + (c.toNat - 48)) n
      ∧ (cs ≠ [] → v ≤ maxVal) := by
  induction cs generalizing n with
  | nil =>
    simp only [parseUintLoop, Prod.mk.injEq, and_true] at h
    refine ⟨?_, ?_, ?_⟩
    · intro c hc; cases hc
    · simp [h]
    · intro hne; exact absurd rfl hne
  | cons c cs ih =>
    rw [parseUintLoop_cons] at h
    cases hdv : digitVal c with
    | none => rw [hdv] at h; simp at h
    | some d =>
      rw [hdv] at h
      simp only at h
      by_cases h1 : d ≥ base
      · rw [if_pos h1] at h; simp at h
      rw [if_neg h1] at h
      by_cases h2 : n ≥ (2 ^ 64 - 1) / base + 1
      · rw [if_pos h2] at h; simp at h
      rw [if_neg h2] at h
      by_cases h3 : ((n * base) % 2 ^ 64 + d) % 2 ^ 64 < (n * base) % 2 ^ 64
            ∨ ((n * base) % 2 ^ 64 + d) % 2 ^ 64 > maxVal
      · rw [if_pos h3] at h; simp at h
      rw [if_neg h3] at h
      obtain ⟨hc, hdeq⟩ := digitVal_lt_base hb hdv (by omega)
      have hn : n * base < 2 ^ 64 := by
        have : n ≤ (2 ^ 64 - 1) / base := by omega
        rw [Nat.le_div_iff_mul_le (by omega)] at this
        omega
      have h4 : (n * base) % 2 ^ 64 = n * base := Nat.mod_eq_of_lt hn
      rw [h4] at h3 h
      have h5 : (n * base + d) % 2 ^ 64 = n * base + d := by
        by_contra hne
        have hlt : ¬ (n * base + d < 2 ^ 64) := fun hl => hne (Nat.mod_eq_of_lt hl)
        have : (n * base + d) % 2 ^ 64 = n * base + d - 2 ^ 64 := by
          rw [Nat.mod_eq_sub_mod (by omega)]
          exact Nat.mod_eq_of_lt (by omega)
        omega
      rw [h5] at h3 h
      obtain ⟨a1, a2, a3⟩ := ih _ h
      refine ⟨?_, ?_, ?_⟩
      · intro x hx
        rcases List.mem_cons.mp hx with rfl | hx
        · exact hc
        · exact a1 x hx
      · simp only [List.foldl_cons]; rw [← hdeq]; exact a2
      · intro _
        by_cases hcs : cs = []
        · subst hcs
          simp only [List.foldl_nil] at a2
          omega
        · exact a3 hcs

theorem maxVal_eq {bits : Nat} (h1 : 1 ≤ bits) (h2 : bits ≤ 64) :
    (2 ^ bits % 2 ^ 64 + 2 ^ 64 - 1) % 2 ^ 64 = 2 ^ bits - 1 := by
  have hpos : 0 < 2 ^ bits := Nat.pow_pos (by decide)
  rcases Nat.lt_or_ge bits 64 with h | h
  · have hlt : 2 ^ bits < 2 ^ 64 := Nat.pow_lt_pow_right (by decide) h
    rw [Nat.mod_eq_of_lt hlt]
    have : 2 ^ bits + 2 ^ 64 - 1 = (2 ^ bits - 1) + 2 ^ 64 := by omega
    rw [this, Nat.add_mod_right]
    exact Nat.mod_eq_of_lt (by omega)
  · have : bits = 64 := by omega
    subst this
    decide

/-- strconv.ParseUint succeeds exactly on the digit texts that fit. -/
theorem parseUintCore_ok_iff {base bits : Nat} (hb2 : 2 ≤ base) (hb : base ≤ 10)
    (h1 : 1 ≤ bits) (h2 : bits ≤ 64) (s : GoString) (v : Nat) :
    parseUintCore s base bits = (v, none) ↔ isUintText base bits s ∧ v = numVal base s := by
  have hpos : 0 < 2 ^ bits := Nat.pow_pos (by decide)
  have hle : 2 ^ bits ≤ 2 ^ 64 := Nat.pow_le_pow_right (by decide) h2
  unfold parseUintCore
  by_cases hs : s = []
  · simp [hs, isUintText]
  · simp only [hs, if_false, maxVal_eq h1 h2]
    constructor
    · intro h
      obtain ⟨a1, a2, a3⟩ := parseUintLoop_ok_inv hb2 hb s 0 v h
      have := a3 hs
      refine ⟨⟨hs, a1, ?_⟩, a2⟩
      unfold numVal; rw [← a2]; omega
    · rintro ⟨⟨_, a1, a2⟩, a3⟩
      rw [a3]
      unfold numVal at a2 ⊢
      exact parseUintLoop_ok hb2 hb (by omega) s 0 a1 (by omega)

theorem parseUintLoop_fst_of_range {base maxVal cutoff : Nat} (cs : GoString) (n v : Nat)
    (h : parseUintLoop base maxVal cutoff cs n = (v, some .ErrRange)) : v = maxVal := by
  induction cs generalizing n with
  | nil => simp [parseUintLoop] at h
  | cons c cs ih =>
    rw [parseUintLoop_cons] at h
    cases hdv : digitVal c with
    | none => rw [hdv] at h; simp at h
    | some d =>
      rw [hdv] at h
      simp only at h
      by_cases h1 : d ≥ base
      · rw [if_pos h1] at h; simp at h
      rw [if_neg h1] at h
      by_cases h2 : n ≥ cutoff
      · rw [if_pos h2] at h; simp only [Prod.mk.injEq, and_true] at h; exact h.symm
      rw [if_neg h2] at h
      by_cases h3 : ((n * base) % 2 ^ 64 + d) % 2 ^ 64 < (n * base) % 2 ^ 64
            ∨ ((n * base) % 2 ^ 64 + d) % 2 ^ 64 > maxVal
      · rw [if_pos h3] at h; simp only [Prod.mk.injEq, and_true] at h; exact h.symm
      rw [if_neg h3] at h
      exact ih _ h

theorem parseUintCore_fst_of_range {base bits : Nat} (s : GoString) (v : Nat)
    (h : parseUintCore s base bits = (v, some .ErrRange)) :
    v = (2 ^ bits % 2 ^ 64 + 2 ^ 64 - 1) % 2 ^ 64 := by
  unfold parseUintCore at h
  by_cases hs : s = []
  · simp [hs] at h
  · simp only [hs, if_false] at h
    exact parseUintLoop_fst_of_range _ _ _ h

theorem parseUintCore_cases {base bits : Nat} (hb2 : 2 ≤ base) (hb : base ≤ 10)
    (h1 : 1 ≤ bits) (h2 : bits ≤ 64) (s : GoString) :
    (isUintText base bits s ∧ parseUintCore s base bits = (numVal base s, none)) ∨
    (¬ isUintText base bits s ∧
      ((∃ v, parseUintCore s base bits = (v, some .ErrSyntax)) ∨
        parseUintCore s base bits = (2 ^ bits - 1, some .ErrRange))) := by
  rcases hres : parseUintCore s base bits with ⟨v, e⟩
  cases e with
  | none =>
    left
    obtain ⟨a, b⟩ := (parseUintCore_ok_iff hb2 hb h1 h2 s v).mp hres
    exact ⟨a, by rw [b]⟩
  | some e =>
    right
    refine ⟨?_, ?_⟩
    · intro ht
      have := (parseUintCore_ok_iff hb2 hb h1 h2 s (numVal base s)).mpr ⟨ht, rfl⟩
      rw [this] at hres
      simp at hres
    · cases e with
      | ErrSyntax => left; exact ⟨v, rfl⟩
      | ErrRange =>
        right
        have := parseUintCore_fst_of_range s v hres
        rw [maxVal_eq h1 h2] at this
        rw [this]

theorem byte_ne_of_toNat_ne {c d : UInt8} (h : c.toNat ≠ d.toNat) : c ≠ d := by
  intro e; exact h (by rw [e])

theorem isIntText_body {base bits : Nat} (h1 : 1 ≤ bits) {c : UInt8} {cs : GoString}
    (h : isIntText base bits (c :: cs)) :
    isUintText base bits (if c = 43 ∨ c = 45 then cs else c :: cs) := by
  have hlt : 2 ^ (bits - 1) < 2 ^ bits := Nat.pow_lt_pow_right (by decide) (by omega)
  unfold isIntText at h
  simp only at h
  by_cases h45 : c = 45
  · simp only [h45, if_true, or_true] at h ⊢
    exact ⟨h.1, h.2.1, by omega⟩
  · by_cases h43 : c = 43
    · simp only [h43, if_true, true_or] at h ⊢
      have : ¬ ((43 : UInt8) = 45) := by decide
      simp only [this, if_false] at h
      exact ⟨h.1, h.2.1, by omega⟩
    · simp only [h45, h43, if_false, or_self] at h ⊢
      exact ⟨by simp, h.1, by omega⟩

/-- strconv.ParseInt succeeds exactly on the signed digit texts that fit. -/
theorem ParseInt_ok_iff {base bits : Nat} (hb2 : 2 ≤ base) (hb : base ≤ 10)
    (h1 : 2 ≤ bits) (h2 : bits ≤ 64) (s : GoString) :
    (ParseInt s base bits).2 = none ↔ isIntText base bits s := by
  have hlt : 2 ^ (bits - 1) < 2 ^ bits := Nat.pow_lt_pow_right (by decide) (by omega)
  have hlt2 : 2 ^ (bits - 1) < 2 ^ bits - 1 := by
    have : 2 ^ bits = 2 * 2 ^ (bits - 1) := by
      rw [← Nat.pow_succ']; congr 1; omega
    have : 2 ≤ 2 ^ (bits - 1) := by
      calc 2 = 2 ^ 1 := rfl
        _ ≤ 2 ^ (bits - 1) := Nat.pow_le_pow_right (by decide) (by omega)
    omega
  cases s with
  | nil => simp [ParseInt, isIntText]
  | cons c cs =>
    rcases parseUintCore_cases hb2 hb (by omega) h2 (if c = 43 ∨ c = 45 then cs else c :: cs)
      with ⟨ht, hr⟩ | ⟨ht, ⟨v, hr⟩ | hr⟩
    · simp only [ParseInt, hr]
      unfold isIntText
      simp only
      by_cases h45 : c = 45
      · subst h45
        simp only [if_true, or_true] at ht hr ⊢
        simp only [decide_True, Bool.not_true, Bool.false_eq_true, false_and, if_false, true_and]
        by_cases hgt : numVal base cs > 2 ^ (bits - 1)
        · simp only [hgt, if_true]
          constructor
          · intro h; simp at h
          · intro h; omega
        · simp only [hgt, if_false, true_iff]
          exact ⟨ht.1, ht.2.1, by omega⟩
      · by_cases h43 : c = 43
        · subst h43
          simp only [if_true, true_or] at ht hr ⊢
          have hd : ¬ ((43 : UInt8) = 45) := by decide
          simp only [hd, decide_False, Bool.not_false, true_and, Bool.false_eq_true, false_and,
            if_false]
          by_cases hgt : numVal base cs ≥ 2 ^ (bits - 1)
          · simp only [hgt, if_true]
            constructor
            · intro h; simp at h
            · intro h; omega
          · simp only [hgt, if_false, true_iff]
            exact ⟨ht.1, ht.2.1, by omega⟩
        · simp only [h45, h43, or_self, if_false] at ht hr ⊢
          simp only [decide_False, Bool.not_false, true_and, Bool.false_eq_true, false_and,
            if_false]
          by_cases hgt : numVal base (c :: cs) ≥ 2 ^ (bits - 1)
          · simp only [hgt, if_true]
            constructor
            · intro h; simp at h
            · intro h; omega
          · simp only [hgt, if_false, true_iff]
            exact ⟨ht.2.1, by omega⟩
    · simp only [ParseInt, hr]
      constructor
      · intro h; simp at h
      · intro h; exact absurd (isIntText_body (by omega) h) ht
    · simp only [ParseInt, hr]
      constructor
      · intro h
        exfalso
        by_cases h45 : c = 45
        · have hgt : 2 ^ bits - 1 > 2 ^ (bits - 1) := hlt2
          simp [h45, hgt] at h
        · have hge : 2 ^ bits - 1 ≥ 2 ^ (bits - 1) := le_of_lt hlt2
          simp [h45, hge] at h
      · intro h; exact absurd (isIntText_body (by omega) h) ht

theorem ParseInt_digits {base bits : Nat} (hb2 : 2 ≤ base) (hb : base ≤ 10)
    (h1 : 2 ≤ bits) (h2 : bits ≤ 64) (s : GoString) (hs : s ≠ []) (hd : allDigits base s)
    (hv : numVal base s < 2 ^ (bits - 1)) :
    ParseInt s base bits = (((numVal base s : Nat) : Int), none) := by
  have hlt : 2 ^ (bits - 1) < 2 ^ bits := Nat.pow_lt_pow_right (by decide) (by omega)
  cases s with
  | nil => exact absurd rfl hs
  | cons c cs =>
    have hc := hd c (List.mem_cons_self _ _)
    have h45 : c ≠ 45 := by
      apply byte_ne_of_toNat_ne
      have : (45 : UInt8).toNat = 45 := by decide
      omega
    have h43 : c ≠ 43 := by
      apply byte_ne_of_toNat_ne
      have : (43 : UInt8).toNat = 43 := by decide
      omega
    have hr := (parseUintCore_ok_iff hb2 hb (by omega) h2 (c :: cs) (numVal base (c :: cs))).mpr
      ⟨⟨hs, hd, by omega⟩, rfl⟩
    have hge : ¬ (numVal base (c :: cs) ≥ 2 ^ (bits - 1)) := by omega
    simp [ParseInt, h45, h43, hr, hge]

theorem digitChar_toNat {d : Nat} (h : d < 10) : (digitChar d).toNat = 48 + d := by
  interval_cases d <;> decide

theorem numVal_append (base : Nat) (a b : GoString) :
    numVal base (a ++ b) = b.foldl (fun n c => n * base + (c.toNat - 48)) (numVal base a) := by
  simp [numVal, List.foldl_append]

theorem allDigits_append {base : Nat} {a b : GoString} (ha : allDigits base a)
    (hb : allDigits base b) : allDigits base (a ++ b) := by
  intro c hc
  rcases List.mem_append.mp hc with h | h
  · exact ha c h
  · exact hb c h

theorem fmtUintLoop_spec {base : Nat} (hb2 : 2 ≤ base) (hb : base ≤ 10) (fuel u : Nat)
    (acc : GoString) (hu : u < base ^ (fuel + 1)) :
    ∃ ds, fmtUintLoop base (fuel + 1) u acc = ds ++ acc ∧ ds ≠ [] ∧ allDigits base ds
      ∧ numVal base ds = u := by
  induction fuel generalizing u acc with
  | zero =>
    have hu' : u < base := by simpa using hu
    refine ⟨[digitChar u], ?_, by simp, ?_, ?_⟩
    · simp [fmtUintLoop, hu']
    · intro c hc
      simp only [List.mem_singleton] at hc
      rw [hc, digitChar_toNat (by omega)]; omega
    · simp [numVal, digitChar_toNat (show u < 10 by omega)]
  | succ fuel ih =>
    by_cases hlt : u < base
    · refine ⟨[digitChar u], ?_, by simp, ?_, ?_⟩
      · simp [fmtUintLoop, hlt]
      · intro c hc
        simp only [List.mem_singleton] at hc
        rw [hc, digitChar_toNat (by omega)]; omega
      · simp [numVal, digitChar_toNat (show u < 10 by omega)]
    · have hdiv : u / base < base ^ (fuel + 1) := by
        rw [Nat.div_lt_iff_lt_mul (by omega)]
        calc u < base ^ (fuel + 1 + 1) := hu
          _ = base ^ (fuel + 1) * base := by rw [Nat.pow_succ]
      obtain ⟨ds, e, hne, hd, hv⟩ := ih (u / base) (digitChar (u % base) :: acc) hdiv
      have hmod : u % base < base := Nat.mod_lt _ (by omega)
      refine ⟨ds ++ [digitChar (u % base)], ?_, by simp, ?_, ?_⟩
      · rw [fmtUintLoop]; simp only [hlt, if_false]; rw [e]; simp
      · apply allDigits_append hd
        intro c hc
        simp only [List.mem_singleton] at hc
        rw [hc, digitChar_toNat (by omega)]; omega
      · rw [numVal_append, hv]
        simp only [List.foldl_cons, List.foldl_nil, digitChar_toNat (show u % base < 10 by omega)]
        have := Nat.div_add_mod u base
        rw [Nat.mul_comm] at this
        omega

theorem fmtUint_spec {base : Nat} (hb2 : 2 ≤ base) (hb : base ≤ 10) (u : Nat) (hu : u < 2 ^ 64) :
    fmtUint base u ≠ [] ∧ allDigits base (fmtUint base u) ∧ numVal base (fmtUint base u) = u := by
  have hlt : u < base ^ (63 + 1) := by
    calc u < 2 ^ 64 := hu
      _ ≤ base ^ 64 := Nat.pow_le_pow_left hb2 64
  obtain ⟨ds, e, hne, hd, hv⟩ := fmtUintLoop_spec hb2 hb 63 u [] hlt
  have : fmtUint base u = ds := by unfold fmtUint; rw [e]; simp
  rw [this]; exact ⟨hne, hd, hv⟩

theorem numVal_zeros (base k : Nat) (s : GoString) :
    numVal base (List.replicate k 48 ++ s) = numVal base s := by
  have hz : ∀ k : Nat, numVal base (List.replicate k 48) = 0 := by
    intro k
    induction k with
    | zero => simp [numVal]
    | succ k ih =>
      have h48 : (48 : UInt8).toNat - 48 = 0 := by decide
      rw [List.replicate_succ', numVal_append, ih]
      simp only [List.foldl_cons, List.foldl_nil, h48]
      omega
  rw [numVal_append, hz]
  rfl

theorem fmtOct04_spec (m : Nat) (hm : m < 2 ^ 64) :
    fmtOct04 m ≠ [] ∧ allDigits 8 (fmtOct04 m) ∧ numVal 8 (fmtOct04 m) = m := by
  obtain ⟨hne, hd, hv⟩ := fmtUint_spec (by decide : 2 ≤ 8) (by decide) m hm
  unfold fmtOct04
  refine ⟨by simp [hne], ?_, ?_⟩
  · apply allDigits_append _ hd
    intro c hc
    rw [List.eq_of_mem_replicate hc]
    decide
  · rw [numVal_zeros]; exact hv

theorem allDigits_no_space {base : Nat} {s : GoString} (h : allDigits base s) :
    (32 : UInt8) ∉ s := by
  intro hm
  have := (h 32 hm).1
  exact absurd this (by decide)

theorem SplitN_three {a b : GoString} (c : GoString) (ha : (32 : UInt8) ∉ a)
    (hb : (32 : UInt8) ∉ b) : SplitN (a ++ [32] ++ b ++ [32] ++ c) 32 3 = [a, b, c] := by
  have e0 : a ++ [32] ++ b ++ [32] ++ c = a ++ 32 :: (b ++ 32 :: c) := by simp
  rw [e0]
  simp [SplitN, cutByte_append _ ha, cutByte_append _ hb]

/-- Claim C10: for every mode m up to 0o7777, every size n below 2^64 and every name s without
newline (spaces allowed), ParseNewFile on the line made of m as four octal digits, a space, n in
decimal, a space and s succeeds with exactly Mode = m, Length = n and Name = s: the line is split
on its first two spaces only. -/
theorem ParseNewFile_format (m n : Nat) (s : GoString) (hm : m ≤ 0o7777) (hn : n < 2 ^ 64)
    (_hs : (10 : UInt8) ∉ s) :
    ParseNewFile (fmtOct04 m ++ [32] ++ fmtUint 10 n ++ [32] ++ s)
      = .ok { Mode := (m : Int), Length := n, Name := s } := by
  obtain ⟨m1, m2, m3⟩ := fmtOct04_spec m (by omega)
  obtain ⟨n1, n2, n3⟩ := fmtUint_spec (by decide : 2 ≤ 10) (by decide) n hn
  have e := SplitN_three s (allDigits_no_space m2) (allDigits_no_space n2)
  have pm := ParseInt_digits (by decide : 2 ≤ 8) (by decide) (by decide : 2 ≤ 32) (by decide)
    (fmtOct04 m) m1 m2 (by rw [m3]; simp only [Nat.add_one_sub_one]; omega)
  have pn : ParseUint (fmtUint 10 n) 10 64 = (n, none) := by
    have := (parseUintCore_ok_iff (by decide : 2 ≤ 10) (by decide) (by decide : 1 ≤ 64)
      (by decide) (fmtUint 10 n) n).mpr ⟨⟨n1, n2, by rw [n3]; exact hn⟩, n3.symm⟩
    simp [ParseUint, this]
  unfold ParseNewFile
  simp only [e]
  simp [pm, pn, m3]

theorem ParseNewFile_format_witness :
    ParseNewFile (fmtOct04 0o644 ++ [32] ++ fmtUint 10 17 ++ [32] ++ str "my file name")
      = .ok { Mode := 0o644, Length := 17, Name := str "my file name" } :=
  ParseNewFile_format 0o644 17 (str "my file name") (by decide) (by decide) (by decide)

theorem count_afterFirst {sep : UInt8} {s : GoString} (h : sep ∈ s) :
    s.count sep = (afterFirst sep s).count sep + 1 := by
  induction s with
  | nil => cases h
  | cons c cs ih =>
    by_cases hc : c = sep
    · subst hc; simp [afterFirst]
    · have hm : sep ∈ cs := by
        rcases List.mem_cons.mp h with h | h
        · exact absurd h.symm hc
        · exact h
      simp only [afterFirst, hc, if_false]
      rw [List.count_cons_of_ne (Ne.symm hc)]
      exact ih hm

theorem SplitN_three_eq (line : GoString) :
    SplitN line 32 3 =
      if (32 : UInt8) ∈ line then
        if (32 : UInt8) ∈ afterFirst 32 line then
          [beforeFirst 32 line, beforeFirst 32 (afterFirst 32 line),
            afterFirst 32 (afterFirst 32 line)]
        else [beforeFirst 32 line, afterFirst 32 line]
      else [line] := by
  by_cases h1 : (32 : UInt8) ∈ line
  · by_cases h2 : (32 : UInt8) ∈ afterFirst 32 line
    · simp [SplitN, cutByte_eq, h1, h2]
    · simp [SplitN, cutByte_eq, h1, h2]
  · simp [SplitN, cutByte_eq, h1]

/-- Claim C9: ParseNewFile returns an error for every line that has fewer than two spaces (fewer
than three tokens), or whose first token is not an octal number (with an optional sign) that fits
in 32 bits, or whose second token is not an unsigned decimal number that fits in 64 bits. -/
theorem ParseNewFile_malformed (line : GoString)
    (h : line.count 32 < 2 ∨ ¬ isIntText 8 32 (beforeFirst 32 line)
      ∨ ¬ isUintText 10 64 (beforeFirst 32 (afterFirst 32 line))) :
    ∃ e, ParseNewFile line = .error e := by
  unfold ParseNewFile
  simp only
  rw [SplitN_three_eq]
  by_cases h1 : (32 : UInt8) ∈ line
  · by_cases h2 : (32 : UInt8) ∈ afterFirst 32 line
    · simp only [h1, h2, if_true, List.length_cons, List.length_nil, ne_eq, not_true,
        if_false, List.getD_cons_zero, List.getD_cons_succ]
      have hcount : ¬ (line.count 32 < 2) := by
        rw [count_afterFirst h1, count_afterFirst h2]; omega
      rcases hm : ParseInt (beforeFirst 32 line) 8 32 with ⟨mode, e⟩
      cases e with
      | some e => exact ⟨e, rfl⟩
      | none =>
        have hint : isIntText 8 32 (beforeFirst 32 line) :=
          (ParseInt_ok_iff (by decide : 2 ≤ 8) (by decide) (by decide : 2 ≤ 32) (by decide) _).mp
            (by rw [hm])
        have hu : ¬ isUintText 10 64 (beforeFirst 32 (afterFirst 32 line)) := by
          rcases h with h | h | h
          · exact absurd h hcount
          · exact absurd hint h
          · exact h
        simp only
        rcases parseUintCore_cases (by decide : 2 ≤ 10) (by decide) (by decide : 1 ≤ 64)
          (by decide) (beforeFirst 32 (afterFirst 32 line)) with ⟨ht, _⟩ | ⟨_, ⟨v, hr⟩ | hr⟩
        · exact absurd ht hu
        · simp only [ParseUint, hr]; exact ⟨_, rfl⟩
        · simp only [ParseUint, hr]; exact ⟨_, rfl⟩
    · simp [h1, h2]
  · simp [h1]

theorem ParseNewFile_malformed_witness :
    ∃ e, ParseNewFile (str "0644 1x name") = .error e :=
  ParseNewFile_malformed (str "0644 1x name") (Or.inr (Or.inr (by decide)))

/-- Claim C3, the code at the failing input: with the request body set, the method OpenFile of
WebFS returns that reader together with the error "not implemented". -/
theorem WebFS_OpenFile_reader_with_error (writer : Bool) (r : ReadCloser) (name path : GoString)
    (w : World) :
    ((WebFS { Writer := writer, Reader := some r, UploadFileName := name }).OpenFile w path).1
      = (some r, some (.badParameter (str "not implemented"))) := rfl

/-- The HTTP upload of the body hello fails with that error once the peer has sent its first
OK byte, and writes nothing to the channel. -/
theorem httpUpload_fails :
    ∃ cmd, httpUpload = .ok cmd ∧
      (Execute id cmd (Env.start World.empty [[0]] false)).1
        = .ok (some (.badParameter (str "not implemented"))) ∧
      (Execute id cmd (Env.start World.empty [[0]] false)).2.ch.out = [] := by
  refine ⟨_, rfl, ?_, ?_⟩ <;> decide!

/-- Claim C4, the code at the failing input: on the control byte T with a line of four decimal
numbers, processCommand returns the error of an unrecognized command. -/
theorem processCommand_T_unrecognized :
    (processCommand (sinkCommand (str "/out")) LocalFS { path := [str "."], finished := false } 84
        (str "1500000000 0 1500000000 0") (Env.start World.empty [] false)).1
      = .ok (some (.text (str "got unrecognized command: T")),
          { path := [str "."], finished := false }) := by
  decide!

/-- The sink that receives a T frame fails and sends no OK byte for it. -/
theorem serveSink_T_fails :
    (serveSink (sinkCommand (str "/out")) LocalFS
        (Env.start World.empty [str "T1500000000 0 1500000000 0\n"] false)).1
      = .ok (some (.text (str "got unrecognized command: T"))) ∧
    (serveSink (sinkCommand (str "/out")) LocalFS
        (Env.start World.empty [str "T1500000000 0 1500000000 0\n"] false)).2.ch.out
      = [[0]] := by
  constructor <;> decide!

/-- Claim C2, the code at the failing input: for a file info of size 1 whose file yields the
three bytes abc, sendFile writes all three bytes after the header and then fails. -/
theorem sendFile_writes_more_than_size :
    (sendFile (sourceCommand (str "/d/f")) LocalFS
        (.mk false (str "f") (str "/d/f") 0o644 (some 1) none [])
        (Env.start { World.empty with files := [(str "/d/f", str "abc", 0o644)] }
          [[0], [0]] false)).1
      = .ok (some (.text (str "short write: 3 1"))) ∧
    (sendFile (sourceCommand (str "/d/f")) LocalFS
        (.mk false (str "f") (str "/d/f") 0o644 (some 1) none [])
        (Env.start { World.empty with files := [(str "/d/f", str "abc", 0o644)] }
          [[0], [0]] false)).2.ch.out
      = [str "C0644 1 f\n", str "abc"] := by
  constructor <;> decide!

/-! Engine code: sequencing. -/

@[simp] theorem M_bind_eq {α β : Type} (x : M α) (f : α → M β) : (x >>= f) = M.bind x f := rfl

@[simp] theorem M_pure_apply {α : Type} (a : α) (s : Env) : (pure a : M α) s = (.ok a, s) := rfl

theorem M_bind_ok {α β : Type} {x : M α} {f : α → M β} {s s1 : Env} {a : α}
    (h : x s = (.ok a, s1)) : M.bind x f s = f a s1 := by
  simp [M.bind, h]

theorem M_bind_blocked {α β : Type} {x : M α} {f : α → M β} {s s1 : Env}
    (h : x s = (.blocked, s1)) : M.bind x f s = (.blocked, s1) := by
  simp [M.bind, h]

@[simp] theorem check_none {α : Type} (ret : Error → α) (k : M α) : check none ret k = k := rfl

@[simp] theorem check_some {α : Type} (e : Error) (ret : Error → α) (k : M α) :
    check (some e) ret k = pure (ret e) := rfl

/-- Claim C5: for a command with a FileSystem whose engine (serveSource for a source, serveSink
otherwise) ends with error e, Execute returns that error when ProgressWriter is set, and when it
is not set Execute returns success after one write of the bytes 0x02, the message of e and a
newline, which a channel that takes writes receives as its last piece; when the engine ends
without error Execute returns success in the same state, with no further write. -/
theorem Execute_error_policy (Quote : GoString → GoString) (cmd : Parameters) (fs : FileSystem)
    (env env1 : Env) (res : Option Error) (hfs : cmd.FileSystem = some fs)
    (hrun : (if cmd.Flags.Source then serveSource cmd fs else serveSink cmd fs) env
      = (.ok res, env1)) :
    match res with
    | some e =>
      (cmd.ProgressWriter = true → Execute Quote cmd env = (.ok (some e), env1)) ∧
      (cmd.ProgressWriter = false →
        (Execute Quote cmd env).1 = .ok none ∧
        (Execute Quote cmd env).2 = (chWrite ([ErrByte] ++ e.Message Quote ++ [10]) env1).2 ∧
        (env1.ch.broken = false →
          (Execute Quote cmd env).2.ch.out = env1.ch.out ++ [[ErrByte] ++ e.Message Quote ++ [10]]))
    | none => Execute Quote cmd env = (.ok none, env1) := by
  cases res with
  | none =>
    simp only [Execute, hfs, M_bind_eq]
    rw [M_bind_ok hrun]
    rfl
  | some e =>
    simp only
    constructor
    · intro hp
      simp only [Execute, hfs, M_bind_eq]
      rw [M_bind_ok hrun]
      simp [runningOnClient, hp]
    · intro hp
      have hE : Execute Quote cmd env
          = M.bind (sendError Quote (some e)) (fun _ => pure none) env1 := by
        simp only [Execute, hfs, M_bind_eq]
        rw [M_bind_ok hrun]
        simp [runningOnClient, hp]
      rw [hE]
      by_cases hb : env1.ch.broken = true
      · simp [sendError, M.bind, chWrite, hb]
      · simp [sendError, M.bind, chWrite, hb]

theorem Execute_error_policy_witness :
    (Execute id (sinkCommand (str "/out")) (Env.start World.empty [str "\x02boom\n"] false)).1
      = .ok none ∧
    (Execute id (sinkCommand (str "/out")) (Env.start World.empty [str "\x02boom\n"] false)).2.ch.out
      = [[0], str "\x02boom\n"] := by
  have hrun : (if (sinkCommand (str "/out")).Flags.Source
        then serveSource (sinkCommand (str "/out")) LocalFS
        else serveSink (sinkCommand (str "/out")) LocalFS)
        (Env.start World.empty [str "\x02boom\n"] false)
      = (.ok (some (.text (str "boom"))),
          (serveSink (sinkCommand (str "/out")) LocalFS
            (Env.start World.empty [str "\x02boom\n"] false)).2) :=
    Prod.ext (by decide!) rfl
  have h := Execute_error_policy id (sinkCommand (str "/out")) LocalFS
    (Env.start World.empty [str "\x02boom\n"] false) _ _ rfl hrun
  simp only at h
  obtain ⟨h1, _, h3⟩ := h.2 rfl
  refine ⟨h1, ?_⟩
  rw [h3 (by decide!)]
  decide!

/-! Engine code that asks the backend for no file. -/

theorem keepsCreates_bind {α β : Type} {x : M α} {f : α → M β} (hx : keepsCreates x)
    (hf : ∀ a, keepsCreates (f a)) : keepsCreates (M.bind x f) := by
  intro s
  have h := hx s
  unfold M.bind
  rcases hxs : x s with ⟨r, s1⟩
  rw [hxs] at h
  cases r with
  | ok a => simp only; rw [hf a s1]; exact h
  | blocked => exact h
  | panics => exact h
  | fuel => exact h

theorem keepsCreates_pure {α : Type} (a : α) : keepsCreates (pure a : M α) := fun _ => rfl

theorem keepsCreates_check {α : Type} (err : Option Error) (ret : Error → α) {k : M α}
    (hk : keepsCreates k) : keepsCreates (check err ret k) := by
  cases err with
  | none => exact hk
  | some e => exact keepsCreates_pure _

theorem keepsCreates_panics {α : Type} : keepsCreates (panics : M α) := fun _ => rfl

theorem keepsCreates_chRead (k : Nat) : keepsCreates (chRead k) := by
  intro s
  unfold chRead
  split
  · split <;> rfl
  · rfl

theorem keepsCreates_chWrite (p : List UInt8) : keepsCreates (chWrite p) := by
  intro s
  unfold chWrite
  split <;> rfl

theorem keepsCreates_onWorld {α : Type} (f : World → α × World) : keepsCreates (onWorld f) :=
  fun _ => rfl

theorem keepsCreates_sendOK : keepsCreates sendOK := by
  unfold sendOK
  apply keepsCreates_bind (keepsCreates_chWrite _)
  rintro ⟨n, err⟩
  cases err <;> exact keepsCreates_pure _

theorem keepsCreates_copyFromChan (dst : WriteCloser) (size : Nat) (fuel : Nat) (n : Int)
    (written : Nat) : keepsCreates (copyFromChan dst size fuel n written) := by
  induction fuel generalizing n written with
  | zero => intro s; rfl
  | succ fuel ih =>
    unfold copyFromChan
    split
    · exact keepsCreates_pure _
    · apply keepsCreates_bind (keepsCreates_chRead _)
      rintro ⟨p, er⟩
      simp only
      split
      · apply keepsCreates_bind (keepsCreates_onWorld _)
        rintro ⟨nw, ew⟩
        simp only
        cases ew with
        | some e => exact keepsCreates_pure _
        | none =>
          simp only
          split
          · exact keepsCreates_pure _
          · cases er with
            | some e => exact keepsCreates_pure _
            | none => exact ih _ _
      · cases er with
        | some e => exact keepsCreates_pure _
        | none => exact ih _ _

theorem keepsCreates_ioCopyN (dst : WriteCloser) (n : Int) : keepsCreates (ioCopyN dst n) := by
  intro s
  unfold ioCopyN
  simp only
  refine keepsCreates_bind (keepsCreates_copyFromChan _ _ _ _ _) ?_ s
  rintro ⟨written, err⟩
  simp only
  split
  · exact keepsCreates_pure _
  · split <;> exact keepsCreates_pure _

theorem createCalls_append (a b : List Call) :
    createCalls (a ++ b) = createCalls a ++ createCalls b := by
  simp [createCalls, List.filterMap_append]

theorem keepsCreates_called {c : Call} (h : createCalls [c] = []) : keepsCreates (called c) := by
  intro s
  show createCalls (s.calls ++ [c]) = createCalls s.calls
  rw [createCalls_append, h, List.append_nil]

/-- What receiveFile does once it has asked for the file makes no further CreateFile call. -/
theorem receiveFile_rest_keepsCreates (cmd : Parameters) (fs : FileSystem) (path : GoString)
    (fc : NewFileCmd) :
    keepsCreates (M.bind
      (fun s =>
        match fs.CreateFile s.world path fc.Length with
        | none => (Res.panics, s)
        | some (r, w) => (Res.ok r, { s with world := w }) : M (Option WriteCloser × Option Error))
      (fun created =>
        check created.2 some (M.bind
          (if cmd.AuditLog then
            match cmd.User with
            | some username =>
              emitAuditEvent { LocalAddr := cmd.Flags.LocalAddr,
                               RemoteAddr := cmd.Flags.RemoteAddr, Login := username,
                               Path := path, Len := fc.Length, Action := str "write" }
            | none => panics
          else pure ())
          (fun _ =>
            match created.1 with
            | none => panics
            | some writer =>
              M.bind
                (M.bind sendOK (fun err => check err some
                  (M.bind (ioCopyN writer (toInt64 fc.Length)) (fun r =>
                    check r.2 some
                      (if r.1 ≠ toInt64 fc.Length then
                        pure (some (.text (str "unexpected file copy length: " ++ fmtInt r.1)))
                      else
                        M.bind (called (.SetChmod path fc.Mode)) (fun _ =>
                          M.bind (onWorld (fun w => fs.SetChmod w path fc.Mode)) (fun err =>
                            check err some (pure none))))))))
                (fun result =>
                  M.bind (onWorld (fun w => writer.Close w)) (fun _ =>
                    M.bind closeStream (fun _ =>
                      M.bind
                        (if cmd.ProgressWriter then
                          progressWrite (str "<- " ++ path ++ str " (" ++ fmtUint 10 fc.Length
                            ++ str ")\n")
                        else pure ())
                        (fun _ => pure result)))))))) := by
  apply keepsCreates_bind
  · intro s
    simp only
    split <;> rfl
  · rintro ⟨writer, err⟩
    apply keepsCreates_check
    apply keepsCreates_bind
    · split
      · split
        · intro s; rfl
        · exact keepsCreates_panics
      · exact keepsCreates_pure _
    · intro _
      cases writer with
      | none => exact keepsCreates_panics
      | some writer =>
        simp only
        apply keepsCreates_bind
        · apply keepsCreates_bind keepsCreates_sendOK
          intro err
          apply keepsCreates_check
          apply keepsCreates_bind (keepsCreates_ioCopyN _ _)
          intro r
          apply keepsCreates_check
          split
          · exact keepsCreates_pure _
          · apply keepsCreates_bind (keepsCreates_called (c := .SetChmod path fc.Mode) rfl)
            intro _
            apply keepsCreates_bind (keepsCreates_onWorld _)
            intro err
            apply keepsCreates_check
            exact keepsCreates_pure _
        · intro result
          apply keepsCreates_bind (keepsCreates_onWorld _)
          intro _
          apply keepsCreates_bind (fun s => rfl)
          intro _
          apply keepsCreates_bind
          · split
            · intro s; rfl
            · exact keepsCreates_pure _
          · intro _; exact keepsCreates_pure _

/-- Claim C6, as amended: for a receiver state whose stack is "." followed by rest, the target
t = Flags.Target[0] and a file command fc, receiveFile asks the backend for exactly one file,
of length fc.Length; its path is Join(t, Join of the whole stack "." :: rest, fc.Name) when
Recursive is set or IsDir(t) holds, and t itself otherwise. -/
theorem receiveFile_creates_at (cmd : Parameters) (fs : FileSystem) (st : State)
    (fc : NewFileCmd) (env : Env) (t : GoString) (ts rest : List GoString)
    (hT : cmd.Flags.Target = t :: ts) (hst : st.path = str "." :: rest) :
    createCalls (receiveFile cmd fs st fc env).2.calls
      = createCalls env.calls ++
        [(if cmd.Flags.Recursive = true ∨ fs.IsDir env.world t = true
            then Join [t, Join (str "." :: rest), fc.Name] else t, fc.Length)] := by
  have hmk : st.makePath t fc.Name = Join [t, Join (str "." :: rest), fc.Name] := by
    simp [State.makePath, hst]
  unfold receiveFile
  simp only [hT, M_bind_eq]
  by_cases hr : cmd.Flags.Recursive = true
  · simp only [hr, if_true, true_or]
    rw [M_bind_ok (show (pure true : M Bool) env = (.ok true, env) from rfl)]
    rw [M_bind_ok (show called (.CreateFile (st.makePath t fc.Name) fc.Length) env
      = (.ok (), { env with calls := env.calls ++ [.CreateFile (st.makePath t fc.Name) fc.Length] })
      from rfl)]
    rw [receiveFile_rest_keepsCreates cmd fs (st.makePath t fc.Name) fc _, createCalls_append, hmk]
    rfl
  · simp only [hr, if_false, false_or, Bool.false_eq_true]
    rw [M_bind_ok (show (M.bind (called (.IsDir t))
        (fun _ => (fun s => (Res.ok (fs.IsDir s.world t), s) : M Bool))) env
      = (.ok (fs.IsDir env.world t), { env with calls := env.calls ++ [.IsDir t] }) from rfl)]
    by_cases hd : fs.IsDir env.world t = true
    · simp only [hd, if_true]
      rw [M_bind_ok (show called (.CreateFile (st.makePath t fc.Name) fc.Length)
          { env with calls := env.calls ++ [.IsDir t] }
        = (.ok (), { env with calls := env.calls ++ [.IsDir t]
            ++ [.CreateFile (st.makePath t fc.Name) fc.Length] }) from rfl)]
      rw [receiveFile_rest_keepsCreates cmd fs (st.makePath t fc.Name) fc _, createCalls_append,
        createCalls_append, hmk]
      simp [createCalls]
    · simp only [hd, if_false, Bool.false_eq_true]
      rw [M_bind_ok (show called (.CreateFile t fc.Length)
          { env with calls := env.calls ++ [.IsDir t] }
        = (.ok (), { env with calls := env.calls ++ [.IsDir t] ++ [.CreateFile t fc.Length] })
        from rfl)]
      rw [receiveFile_rest_keepsCreates cmd fs t fc _, createCalls_append, createCalls_append]
      simp [createCalls]

theorem receiveFile_creates_at_witness :
    createCalls (receiveFile (sinkCommand (str "/out")) LocalFS
        { path := [str "."], finished := false } { Mode := 0o644, Length := 0, Name := str "target" }
        (Env.start (World.withDirs [str "/out"]) [] false)).2.calls
      = [(str "/out/target", 0)] := by
  have h := receiveFile_creates_at (sinkCommand (str "/out")) LocalFS
    { path := [str "."], finished := false } { Mode := 0o644, Length := 0, Name := str "target" }
    (Env.start (World.withDirs [str "/out"]) [] false) (str "/out") [] [] rfl rfl
  rw [h]
  decide!

/-- Claim C6 fails as stated: with the stack ".", "/.." below the target a, the recursive sink
asks for the file name, while Join(t, Join(rest), fc.Name) is a/name. -/
theorem receiveFile_path_counterexample :
    createCalls (receiveFile (recursiveSink (str "a")) LocalFS
        { path := [str ".", str "/.."], finished := false }
        { Mode := 0o644, Length := 0, Name := str "name" }
        (Env.start (World.withDirs [str "a"]) [] false)).2.calls
      = [(str "name", 0)] ∧
    Join [str "a", Join [str "/.."], str "name"] = str "a/name" := by
  constructor <;> decide!

/-- The stack of that counterexample is the one the sink is in after the peer has opened the
directory "/..". -/
theorem processCommand_D_reaches_stack :
    (processCommand (recursiveSink (str "a")) LocalFS { path := [str "."], finished := false } 68
        (str "0755 0 /..") (Env.start (World.withDirs [str "a"]) [] false)).1
      = .ok (none, { path := [str ".", str "/.."], finished := false }) := by
  decide!

theorem readerRead_ok (rest : List (List UInt8)) (cl br : Bool) (o : List (List UInt8))
    (w : World) (sc : Scanner) (p : GoString) (a : List AuditEvent) (cs : List Call) (k : Nat) :
    readerRead ⟨⟨[0] :: rest, cl, o, br⟩, w, sc, p, a, cs, k⟩
      = (.ok none, ⟨⟨rest, cl, o, br⟩, w, sc, p, a, cs, k⟩) := by
  simp [readerRead, chRead, M.bind, OKByte]

theorem readerRead_blocked (br : Bool) (o : List (List UInt8))
    (w : World) (sc : Scanner) (p : GoString) (a : List AuditEvent) (cs : List Call) (k : Nat) :
    readerRead ⟨⟨[], false, o, br⟩, w, sc, p, a, cs, k⟩
      = (.blocked, ⟨⟨[], false, o, br⟩, w, sc, p, a, cs, k⟩) := by
  simp [readerRead, chRead, M.bind]

theorem copyToChan_spec (fuel : Nat) (data : List UInt8) (written : Nat)
    (inp : List (List UInt8)) (cl : Bool) (o : List (List UInt8))
    (w : World) (sc : Scanner) (p : GoString) (a : List AuditEvent) (cs : List Call) (k : Nat)
    (hf : data.length < fuel) :
    copyToChan fuel ⟨data, none⟩ written ⟨⟨inp, cl, o, false⟩, w, sc, p, a, cs, k⟩
      = (.ok (written + data.length, none),
          ⟨⟨inp, cl, o ++ pieces fuel data, false⟩, w, sc, p, a, cs, k⟩) := by
  induction fuel generalizing data written o with
  | zero => omega
  | succ fuel ih =>
    by_cases hd : data = []
    · subst hd
      simp [copyToChan, ReadCloser.Read, pieces]
    · have hlen : 0 < data.length := List.length_pos.mpr hd
      have htake : 0 < (data.take 32768).length := by
        rw [List.length_take]; omega
      have hdrop : (data.drop 32768).length < fuel := by
        rw [List.length_drop]; omega
      have hsum : (data.take 32768).length + (data.drop 32768).length = data.length := by
        rw [List.length_take, List.length_drop]; omega
      simp only [copyToChan, ReadCloser.Read, hd, if_false, M_bind_eq, htake, if_true]
      rw [M_bind_ok (show chWrite (data.take 32768) ⟨⟨inp, cl, o, false⟩, w, sc, p, a, cs, k⟩
        = (.ok ((data.take 32768).length, none),
            ⟨⟨inp, cl, o ++ [data.take 32768], false⟩, w, sc, p, a, cs, k⟩) from rfl)]
      simp only [htake, if_true, ne_eq, not_true, if_false]
      rw [ih _ _ _ hdrop]
      simp only [pieces, hd, if_false, List.append_assoc, List.singleton_append]
      congr 3
      omega

theorem ioCopy_spec (data : List UInt8)
    (inp : List (List UInt8)) (cl : Bool) (o : List (List UInt8))
    (w : World) (sc : Scanner) (p : GoString) (a : List AuditEvent) (cs : List Call) (k : Nat) :
    ioCopy ⟨data, none⟩ ⟨⟨inp, cl, o, false⟩, w, sc, p, a, cs, k⟩
      = (.ok (data.length, none),
          ⟨⟨inp, cl, o ++ pieces (data.length + 1) data, false⟩, w, sc, p, a, cs, k⟩) := by
  unfold ioCopy
  rw [copyToChan_spec _ _ _ _ _ _ _ _ _ _ _ _ (by simp)]
  simp

theorem sendFile_ok (cmd : Parameters) (fs : FileSystem) (B name path : GoString) (m : Nat)
    (re : Option Error) (es : List FileInfo)
    (rest : List (List UInt8)) (cl : Bool) (o : List (List UInt8))
    (w w1 : World) (sc : Scanner) (p : GoString) (a : List AuditEvent) (cs : List Call) (k : Nat)
    (hA : cmd.AuditLog = true → cmd.User ≠ none)
    (hopen : fs.OpenFile w path = ((some ⟨B, none⟩, none), w1)) :
    (sendFile cmd fs (.mk false name path m (some (B.length : Int)) re es)
        ⟨⟨[0] :: [0] :: rest, cl, o, false⟩, w, sc, p, a, cs, k⟩).1 = .ok none ∧
    (sendFile cmd fs (.mk false name path m (some (B.length : Int)) re es)
        ⟨⟨[0] :: [0] :: rest, cl, o, false⟩, w, sc, p, a, cs, k⟩).2.ch
      = ⟨rest, cl, o ++ [fileHeader m B.length name] ++ pieces (B.length + 1) B ++ [[0]], false⟩ := by
  rcases cmd with ⟨flags, user, audit, progress, fsopt, loc⟩
  cases audit <;> cases progress <;> cases user <;>
    simp_all [sendFile, M.bind, called, onWorld, FileInfo.GetSize, FileInfo.GetPath,
      FileInfo.GetModePerm, FileInfo.GetName, emitAuditEvent, chWrite, readerRead_ok,
      ioCopy_spec, sendOK, progressWrite, closeStream, fileHeader, OKByte, panics]

theorem sendFile_blocked_header (cmd : Parameters) (fs : FileSystem) (B name path : GoString)
    (m : Nat) (re : Option Error) (es : List FileInfo) (o : List (List UInt8))
    (w w1 : World) (sc : Scanner) (p : GoString) (a : List AuditEvent) (cs : List Call) (k : Nat)
    (hA : cmd.AuditLog = true → cmd.User ≠ none)
    (hopen : fs.OpenFile w path = ((some ⟨B, none⟩, none), w1)) :
    (sendFile cmd fs (.mk false name path m (some (B.length : Int)) re es)
        ⟨⟨[], false, o, false⟩, w, sc, p, a, cs, k⟩).1 = .blocked ∧
    (sendFile cmd fs (.mk false name path m (some (B.length : Int)) re es)
        ⟨⟨[], false, o, false⟩, w, sc, p, a, cs, k⟩).2.ch
      = ⟨[], false, o ++ [fileHeader m B.length name], false⟩ := by
  rcases cmd with ⟨flags, user, audit, progress, fsopt, loc⟩
  cases audit <;> cases progress <;> cases user <;>
    simp_all [sendFile, M.bind, called, onWorld, FileInfo.GetSize, FileInfo.GetPath,
      FileInfo.GetModePerm, FileInfo.GetName, emitAuditEvent, chWrite, readerRead_blocked,
      fileHeader, panics]

theorem sendFile_blocked_body (cmd : Parameters) (fs : FileSystem) (B name path : GoString)
    (m : Nat) (re : Option Error) (es : List FileInfo) (o : List (List UInt8))
    (w w1 : World) (sc : Scanner) (p : GoString) (a : List AuditEvent) (cs : List Call) (k : Nat)
    (hA : cmd.AuditLog = true → cmd.User ≠ none)
    (hopen : fs.OpenFile w path = ((some ⟨B, none⟩, none), w1)) :
    (sendFile cmd fs (.mk false name path m (some (B.length : Int)) re es)
        ⟨⟨[[0]], false, o, false⟩, w, sc, p, a, cs, k⟩).1 = .blocked ∧
    (sendFile cmd fs (.mk false name path m (some (B.length : Int)) re es)
        ⟨⟨[[0]], false, o, false⟩, w, sc, p, a, cs, k⟩).2.ch
      = ⟨[], false, o ++ [fileHeader m B.length name] ++ pieces (B.length + 1) B ++ [[0]],
          false⟩ := by
  rcases cmd with ⟨flags, user, audit, progress, fsopt, loc⟩
  cases audit <;> cases progress <;> cases user <;>
    simp_all [sendFile, M.bind, called, onWorld, FileInfo.GetSize, FileInfo.GetPath,
      FileInfo.GetModePerm, FileInfo.GetName, emitAuditEvent, chWrite, readerRead_ok,
      readerRead_blocked, ioCopy_spec, sendOK, fileHeader, OKByte, panics]

/-- The source engine on one target that is a file, by the number of OK bytes the sink has
sent. -/
theorem serveSource_runs (cmd : Parameters) (fs : FileSystem) (B name path target : GoString)
    (m : Nat) (re : Option Error) (es : List FileInfo) (w w1 : World)
    (hT : cmd.Flags.Target = [target])
    (hA : cmd.AuditLog = true → cmd.User ≠ none)
    (hinfo : fs.GetFileInfo w target = .ok (.mk false name path m (some (B.length : Int)) re es))
    (hopen : fs.OpenFile w path = ((some ⟨B, none⟩, none), w1)) :
    ((serveSource cmd fs (Env.start w [] false)).1 = .blocked ∧
      (serveSource cmd fs (Env.start w [] false)).2.ch.out = []) ∧
    ((serveSource cmd fs (Env.start w [[0]] false)).1 = .blocked ∧
      (serveSource cmd fs (Env.start w [[0]] false)).2.ch.out = [fileHeader m B.length name]) ∧
    ((serveSource cmd fs (Env.start w [[0], [0]] false)).1 = .blocked ∧
      (serveSource cmd fs (Env.start w [[0], [0]] false)).2.ch.out
        = [fileHeader m B.length name] ++ pieces (B.length + 1) B ++ [[0]]) ∧
    (∀ cl, (serveSource cmd fs (Env.start w [[0], [0], [0]] cl)).1 = .ok none ∧
      (serveSource cmd fs (Env.start w [[0], [0], [0]] cl)).2.ch.out
        = [fileHeader m B.length name] ++ pieces (B.length + 1) B ++ [[0]]) := by
  have hpre : ∀ inp cl, sourceInfos cmd fs cmd.Flags.Target (Env.start w inp cl)
      = (.ok (.ok [.mk false name path m (some (B.length : Int)) re es]),
          ⟨⟨inp, cl, [], false⟩, w, Scanner.new, [], [], [.GetFileInfo target], 0⟩) := by
    intro inp cl
    simp [hT, sourceInfos, M.bind, called, hinfo, Env.start, FileInfo.IsDir]
  refine ⟨?_, ?_, ?_, ?_⟩
  · simp [serveSource, M.bind, hpre, readerRead_blocked]
  · have h := sendFile_blocked_header cmd fs B name path m re es [] w w1 Scanner.new [] []
      [.GetFileInfo target] 0 hA hopen
    simp only [serveSource, M_bind_eq]
    rw [M_bind_ok (hpre _ _)]
    dsimp only
    rw [M_bind_ok (readerRead_ok _ _ _ _ _ _ _ _ _ _)]
    simp only [check_none, forEachInfo, FileInfo.IsDir, Bool.false_eq_true, if_false, M_bind_eq]
    rcases hs : sendFile cmd fs (.mk false name path m (some (B.length : Int)) re es)
      ⟨⟨[], false, [], false⟩, w, Scanner.new, [], [], [.GetFileInfo target], 0⟩ with ⟨r, e⟩
    rw [hs] at h
    simp only at h
    simp [M.bind, hs, h.1, h.2]
  · have h := sendFile_blocked_body cmd fs B name path m re es [] w w1 Scanner.new [] []
      [.GetFileInfo target] 0 hA hopen
    simp only [serveSource, M_bind_eq]
    rw [M_bind_ok (hpre _ _)]
    dsimp only
    rw [M_bind_ok (readerRead_ok _ _ _ _ _ _ _ _ _ _)]
    simp only [check_none, forEachInfo, FileInfo.IsDir, Bool.false_eq_true, if_false, M_bind_eq]
    rcases hs : sendFile cmd fs (.mk false name path m (some (B.length : Int)) re es)
      ⟨⟨[[0]], false, [], false⟩, w, Scanner.new, [], [], [.GetFileInfo target], 0⟩ with ⟨r, e⟩
    rw [hs] at h
    simp only at h
    simp [M.bind, hs, h.1, h.2]
  · intro cl
    have h := sendFile_ok cmd fs B name path m re es [] cl [] w w1 Scanner.new [] []
      [.GetFileInfo target] 0 hA hopen
    simp only [serveSource, M_bind_eq]
    rw [M_bind_ok (hpre _ _)]
    dsimp only
    rw [M_bind_ok (readerRead_ok _ _ _ _ _ _ _ _ _ _)]
    simp only [check_none, forEachInfo, FileInfo.IsDir, Bool.false_eq_true, if_false, M_bind_eq]
    rcases hs : sendFile cmd fs (.mk false name path m (some (B.length : Int)) re es)
      ⟨⟨[[0], [0]], cl, [], false⟩, w, Scanner.new, [], [], [.GetFileInfo target], 0⟩ with ⟨r, e⟩
    rw [hs] at h
    simp only at h
    simp [M.bind, hs, h.1, h.2]

theorem Scan_line (line : List UInt8) (rest : List (List UInt8)) (cl br : Bool)
    (o : List (List UInt8)) (w : World) (p : GoString) (a : List AuditEvent) (cs : List Call)
    (k : Nat) (hne : line ≠ []) (hlen : line.length ≤ 4096) (hnl : (10 : UInt8) ∈ line) :
    Scan ⟨⟨line :: rest, cl, o, br⟩, w, Scanner.new, p, a, cs, k⟩
      = (.ok (), ⟨⟨rest, cl, o, br⟩, w,
          { buf := line.drop ((beforeFirst 10 line).length + 1),
            start := (beforeFirst 10 line).length + 1, cap := 4096, err := none,
            token := dropCR (beforeFirst 10 line) }, p, a, cs, k⟩) := by
  have htake : line.take 4096 = line := List.take_of_length_le hlen
  have hdrop : line.drop 4096 = [] := List.drop_of_length_le hlen
  have hpos : 0 < line.length := List.length_pos.mpr hne
  have hread : scanReadOnce ⟨⟨line :: rest, cl, o, br⟩, w,
        { buf := [], start := 0, cap := 4096, err := none, token := [] }, p, a, cs, k⟩
      = (.ok true, ⟨⟨rest, cl, o, br⟩, w,
          { buf := line, start := 0, cap := 4096, err := none, token := [] }, p, a, cs, k⟩) := by
    simp [scanReadOnce, chRead, htake, hdrop, hpos]
  unfold Scan
  simp only [Chan.pending]
  rw [scanLoop]
  simp [Scanner.new]
  rw [M_bind_ok (show scanRead 100 ⟨⟨line :: rest, cl, o, br⟩, w,
        { buf := [], start := 0, cap := 4096, err := none, token := [] }, p, a, cs, k⟩
      = (.ok (), ⟨⟨rest, cl, o, br⟩, w,
          { buf := line, start := 0, cap := 4096, err := none, token := [] }, p, a, cs, k⟩) by
    rw [scanRead, M_bind_ok hread]; rfl)]
  rw [scanLoop]
  simp [ScanLines, hne, hnl]

theorem beforeFirst_append_of_not_mem {sep : UInt8} {a : GoString} (b : GoString)
    (h : sep ∉ a) : beforeFirst sep (a ++ b) = a ++ beforeFirst sep b := by
  induction a with
  | nil => rfl
  | cons c cs ih =>
    simp only [List.mem_cons, not_or] at h
    have hc : c ≠ sep := Ne.symm h.1
    simp [beforeFirst, hc, ih h.2]

theorem beforeFirst_snoc (sep : UInt8) (a : GoString) :
    beforeFirst sep (a ++ [sep]) = beforeFirst sep a := by
  induction a with
  | nil => simp [beforeFirst]
  | cons c cs ih =>
    by_cases hc : c = sep
    · simp [beforeFirst, hc]
    · simp [beforeFirst, hc, ih]

theorem dropCR_append {a b : GoString} (ha : a.getLast? ≠ some 13) :
    dropCR (a ++ b) = a ++ dropCR b := by
  by_cases hb : b = []
  · subst hb
    simp [dropCR, ha]
  · have h1 : (a ++ b).getLast? = b.getLast? := by
      rw [List.getLast?_append]
      cases hbl : b.getLast? with
      | none => simp [List.getLast?_eq_none_iff] at hbl; exact absurd hbl hb
      | some x => simp
    unfold dropCR
    rw [h1]
    by_cases h13 : b.getLast? = some 13
    · simp only [h13, if_true]
      rw [List.dropLast_append_of_ne_nil _ hb]
    · simp only [h13, if_false]

theorem allDigits_not_mem {base : Nat} {s : GoString} (h : allDigits base s) {c : UInt8}
    (hc : c.toNat < 48) : c ∉ s := by
  intro hm
  have := (h c hm).1
  omega

theorem fmtInt_natCast (n : Nat) : fmtInt (n : Int) = fmtUint 10 n := by
  simp [fmtInt]

theorem fmtUintLoop_length (base fuel u : Nat) (acc : GoString) :
    (fmtUintLoop base fuel u acc).length ≤ fuel + acc.length := by
  induction fuel generalizing u acc with
  | zero => simp [fmtUintLoop]
  | succ fuel ih =>
    rw [fmtUintLoop]
    split
    · simp; omega
    · have := ih (u / base) (digitChar (u % base) :: acc)
      simp only [List.length_cons] at this
      omega

theorem fmtUint_length (base u : Nat) : (fmtUint base u).length ≤ 64 := by
  have := fmtUintLoop_length base 64 u []
  simpa [fmtUint] using this

theorem fmtOct04_length (m : Nat) : (fmtOct04 m).length ≤ 64 := by
  have := fmtUint_length 8 m
  simp only [fmtOct04, List.length_append, List.length_replicate]
  omega

theorem fileHeader_eq (m n : Nat) (name : GoString) :
    fileHeader m (n : Int) name = 67 :: headerLine m n name := by
  simp [fileHeader, headerLine, fmtInt_natCast, str]

theorem headerLine_token (m n : Nat) (name : GoString) (hm : m < 2 ^ 64) (hn : n < 2 ^ 64) :
    dropCR (beforeFirst 10 (headerLine m n name))
      = fmtOct04 m ++ [32] ++ fmtUint 10 n ++ [32] ++ dropCR (beforeFirst 10 name) := by
  obtain ⟨_, m2, _⟩ := fmtOct04_spec m hm
  obtain ⟨_, n2, _⟩ := fmtUint_spec (by decide : 2 ≤ 10) (by decide) n hn
  have h10 : (10 : UInt8) ∉ fmtOct04 m ++ [32] ++ fmtUint 10 n ++ [32] := by
    have a := allDigits_not_mem m2 (c := 10) (by decide)
    have b := allDigits_not_mem n2 (c := 10) (by decide)
    simp [a, b]
  have e : headerLine m n name = (fmtOct04 m ++ [32] ++ fmtUint 10 n ++ [32]) ++ (name ++ [10]) := by
    simp [headerLine]
  rw [e, beforeFirst_append_of_not_mem _ h10, beforeFirst_snoc, dropCR_append]
  rw [List.getLast?_append]
  simp

theorem headerLine_props (m n : Nat) (name : GoString) (hname : name.length ≤ 3900) :
    headerLine m n name ≠ [] ∧ (headerLine m n name).length ≤ 4096
      ∧ (10 : UInt8) ∈ headerLine m n name := by
  have a := fmtOct04_length m
  have b := fmtUint_length 10 n
  refine ⟨by simp [headerLine], ?_, by simp [headerLine]⟩
  simp only [headerLine, List.length_append, List.length_cons, List.length_nil]
  omega

theorem ParseNewFile_fmt (m n : Nat) (s : GoString) (hm : m ≤ 0o7777) (hn : n < 2 ^ 64) :
    ParseNewFile (fmtOct04 m ++ [32] ++ fmtUint 10 n ++ [32] ++ s)
      = .ok { Mode := (m : Int), Length := n, Name := s } := by
  obtain ⟨m1, m2, m3⟩ := fmtOct04_spec m (by omega)
  obtain ⟨n1, n2, n3⟩ := fmtUint_spec (by decide : 2 ≤ 10) (by decide) n hn
  have e := SplitN_three s (allDigits_no_space m2) (allDigits_no_space n2)
  have pm := ParseInt_digits (by decide : 2 ≤ 8) (by decide) (by decide : 2 ≤ 32) (by decide)
    (fmtOct04 m) m1 m2 (by rw [m3]; simp only [Nat.add_one_sub_one]; omega)
  have pn : ParseUint (fmtUint 10 n) 10 64 = (n, none) := by
    have := (parseUintCore_ok_iff (by decide : 2 ≤ 10) (by decide) (by decide : 1 ≤ 64)
      (by decide) (fmtUint 10 n) n).mpr ⟨⟨n1, n2, by rw [n3]; exact hn⟩, n3.symm⟩
    simp [ParseUint, this]
  unfold ParseNewFile
  simp only [e]
  simp [pm, pn, m3]

theorem World.file_setFile (w : World) (P : GoString) (d : List UInt8) (perm : Nat) :
    (w.setFile P d perm).file P = some (d, perm) := by
  have h : (w.files.filter (fun e => decide (e.1 ≠ Clean P))).find? (fun e => decide (e.1 = Clean P))
      = none := by
    rw [List.find?_eq_none]
    intro x hx
    simp only [List.mem_filter, decide_eq_true_eq] at hx
    simpa using hx.2
  simp [World.file, World.setFile, List.find?_append, h]

theorem World.setFile_setFile (w : World) (P : GoString) (d1 d2 : List UInt8) (p1 p2 : Nat) :
    (w.setFile P d1 p1).setFile P d2 p2 = w.setFile P d2 p2 := by
  simp [World.setFile, List.filter_append, List.filter_filter]

@[simp] theorem World.setFile_denied (w : World) (P : GoString) (d : List UInt8) (perm : Nat) :
    (w.setFile P d perm).denied = w.denied := rfl

@[simp] theorem World.setFile_isDir (w : World) (P Q : GoString) (d : List UInt8) (perm : Nat) :
    (w.setFile P d perm).isDir Q = w.isDir Q := rfl

theorem LocalFS_CreateFile (w : World) (P : GoString) (n : Nat)
    (hden : w.denied (Clean P) = false) (hdir : w.isDir P = false) :
    LocalFS.CreateFile w P n
      = some ((some (osFile P), none), w.setFile P [] (createPerm w P)) := by
  cases h : w.file P with
  | none => simp [LocalFS, osCreate, hden, hdir, createPerm, h]
  | some x => simp [LocalFS, osCreate, hden, hdir, createPerm, h]

theorem osFile_Write (w : World) (P : GoString) (d p : List UInt8) (perm : Nat) :
    (osFile P).Write (w.setFile P d perm) p
      = ((p.length, none), w.setFile P (d ++ p) perm) := by
  simp [osFile, World.file_setFile, World.setFile_setFile]

theorem LocalFS_SetChmod (w : World) (P : GoString) (d : List UInt8) (perm : Nat) (m : Nat)
    (hden : w.denied (Clean P) = false) :
    LocalFS.SetChmod (w.setFile P d perm) P (m : Int) = (none, w.setFile P d (m % 512)) := by
  have hm : modePerm (m : Int) = m % 512 := by
    unfold modePerm
    omega
  simp [LocalFS, osChmod, hden, World.file_setFile, World.setFile_setFile, hm]

/-- The copy of receiveFile when the bytes are there: it takes them off the channel piece by
piece and appends them to the file. -/
theorem copyFromChan_spec (P : GoString) (size : Nat) (hsize : 1 ≤ size) (fuel : Nat)
    (chunks : List (List UInt8)) (hne : ∀ c ∈ chunks, c ≠ [])
    (hf : chunks.flatten.length + chunks.length < fuel)
    (written : Nat) (d : List UInt8) (perm : Nat)
    (rest : List (List UInt8)) (cl br : Bool) (o : List (List UInt8))
    (w : World) (sc : Scanner) (p : GoString) (a : List AuditEvent) (cs : List Call) (k : Nat) :
    copyFromChan (osFile P) size fuel (chunks.flatten.length : Int) written
        ⟨⟨chunks ++ rest, cl, o, br⟩, w.setFile P d perm, sc, p, a, cs, k⟩
      = (.ok (written + chunks.flatten.length, none),
          ⟨⟨rest, cl, o, br⟩, w.setFile P (d ++ chunks.flatten) perm, sc, p, a, cs, k⟩) := by
  induction fuel generalizing chunks written d with
  | zero => omega
  | succ fuel ih =>
    cases chunks with
    | nil => simp [copyFromChan]
    | cons c chunks =>
      have hc : c ≠ [] := hne c (List.mem_cons_self _ _)
      have hne' : ∀ x ∈ chunks, x ≠ [] := fun x hx => hne x (List.mem_cons_of_mem _ hx)
      have hcpos : 0 < c.length := List.length_pos.mpr hc
      have hnpos : ¬ (((c :: chunks).flatten.length : Int) ≤ 0) := by
        simp only [List.flatten_cons, List.length_append]; omega
      set kk := min size ((c :: chunks).flatten.length : Int).toNat with hkk
      have hk1 : 1 ≤ kk := by
        simp only [hkk, List.flatten_cons, List.length_append, Int.toNat_ofNat]; omega
      have htake : 0 < (c.take kk).length := by rw [List.length_take]; omega
      rw [copyFromChan]
      simp only [hnpos, if_false, M_bind_eq]
      rw [M_bind_ok (show chRead kk
            ⟨⟨(c :: chunks) ++ rest, cl, o, br⟩, w.setFile P d perm, sc, p, a, cs, k⟩
          = (.ok (c.take kk, none),
              ⟨⟨if c.drop kk = [] then chunks ++ rest else c.drop kk :: (chunks ++ rest), cl, o, br⟩,
                w.setFile P d perm, sc, p, a, cs, k⟩) from rfl)]
      simp only [htake, if_true]
      rw [M_bind_ok (show onWorld (fun w => (osFile P).Write w (c.take kk))
            ⟨⟨if c.drop kk = [] then chunks ++ rest else c.drop kk :: (chunks ++ rest), cl, o, br⟩,
              w.setFile P d perm, sc, p, a, cs, k⟩
          = (.ok ((c.take kk).length, none),
              ⟨⟨if c.drop kk = [] then chunks ++ rest else c.drop kk :: (chunks ++ rest), cl, o, br⟩,
                w.setFile P (d ++ c.take kk) perm, sc, p, a, cs, k⟩) by
        simp [onWorld, osFile_Write])]
      simp only [htake, if_true, ne_eq, not_true, if_false]
      by_cases hd : c.drop kk = []
      · have hck : c.take kk = c := by
          have : c.length ≤ kk := by
            by_contra hlt
            have : 0 < (c.drop kk).length := by rw [List.length_drop]; omega
            rw [hd] at this; simp at this
          exact List.take_of_length_le this
        simp only [hd, if_true, hck]
        have hn : ((c :: chunks).flatten.length : Int) - (c.length : Int)
            = (chunks.flatten.length : Int) := by
          simp only [List.flatten_cons, List.length_append]; omega
        rw [hn, ih chunks hne' (by
          simp only [List.flatten_cons, List.length_append, List.length_cons] at hf; omega)]
        simp only [List.flatten_cons, List.length_append, List.append_assoc]
        congr 3
        omega
      · simp only [hd, if_false]
        have hn : ((c :: chunks).flatten.length : Int) - ((c.take kk).length : Int)
            = (((c.drop kk) :: chunks).flatten.length : Int) := by
          simp only [List.flatten_cons, List.length_append, List.length_take, List.length_drop]
          omega
        have hne2 : ∀ x ∈ (c.drop kk) :: chunks, x ≠ [] := by
          intro x hx
          rcases List.mem_cons.mp hx with rfl | hx
          · exact hd
          · exact hne' x hx
        have e : c.drop kk :: (chunks ++ rest) = (c.drop kk :: chunks) ++ rest := rfl
        rw [hn, e, ih (c.drop kk :: chunks) hne2 (by
          simp only [List.flatten_cons, List.length_append, List.length_cons, List.length_drop]
            at hf ⊢
          omega)]
        simp only [List.flatten_cons, List.length_append, List.append_assoc, List.length_take,
          List.length_drop]
        have e2 : c.take kk ++ (c.drop kk ++ chunks.flatten) = c ++ chunks.flatten := by
          rw [← List.append_assoc, List.take_append_drop]
        rw [e2]
        congr 3
        omega

theorem toInt64_small (n : Nat) (h : n < 2 ^ 63) : toInt64 n = (n : Int) := by
  unfold toInt64
  have h1 : n % 2 ^ 64 = n := Nat.mod_eq_of_lt (by omega)
  rw [h1, if_pos h]

theorem ioCopyN_spec (P : GoString) (chunks : List (List UInt8)) (hne : ∀ c ∈ chunks, c ≠ [])
    (d : List UInt8) (perm : Nat)
    (rest : List (List UInt8)) (cl br : Bool) (o : List (List UInt8))
    (w : World) (sc : Scanner) (p : GoString) (a : List AuditEvent) (cs : List Call) (k : Nat) :
    ioCopyN (osFile P) (chunks.flatten.length : Int)
        ⟨⟨chunks ++ rest, cl, o, br⟩, w.setFile P d perm, sc, p, a, cs, k⟩
      = (.ok ((chunks.flatten.length : Int), none),
          ⟨⟨rest, cl, o, br⟩, w.setFile P (d ++ chunks.flatten) perm, sc, p, a, cs, k⟩) := by
  unfold ioCopyN
  simp only
  rw [M_bind_ok (copyFromChan_spec P _ (by split <;> [split <;> omega; omega]) _ chunks hne
    (by simp [Chan.pending]; omega) 0 d perm rest cl br o w sc p a cs k)]
  simp

theorem ioCopyN_blocked (dst : WriteCloser) (n : Int) (hn : 0 < n) (br : Bool)
    (o : List (List UInt8))
    (w : World) (sc : Scanner) (p : GoString) (a : List AuditEvent) (cs : List Call) (k : Nat) :
    ioCopyN dst n ⟨⟨[], false, o, br⟩, w, sc, p, a, cs, k⟩
      = (.blocked, ⟨⟨[], false, o, br⟩, w, sc, p, a, cs, k⟩) := by
  unfold ioCopyN
  simp only [Chan.pending]
  have hf : n.toNat + ([] : List (List UInt8)).flatten.length + ([] : List (List UInt8)).length + 1
      = n.toNat + 1 := by simp
  have : ¬ (n ≤ 0) := by omega
  simp [copyFromChan, this, M.bind, chRead]

theorem osFile_Close (P : GoString) (w : World) : (osFile P).Close w = (none, w) := rfl

theorem LocalFS_IsDir (w : World) (t : GoString) : LocalFS.IsDir w t = w.isDir t := rfl

theorem receiveFile_ok (cmd : Parameters) (t : GoString) (ts : List GoString)
    (m : Nat) (name : GoString) (chunks : List (List UInt8)) (hne : ∀ c ∈ chunks, c ≠ [])
    (hlen : chunks.flatten.length < 2 ^ 63)
    (rest : List (List UInt8)) (cl : Bool) (o : List (List UInt8))
    (w : World) (sc : Scanner) (p : GoString) (a : List AuditEvent) (cs : List Call) (k : Nat)
    (hT : cmd.Flags.Target = t :: ts)
    (hA : cmd.AuditLog = true → cmd.User ≠ none)
    (hden : w.denied (Clean (destPath cmd w t name)) = false)
    (hdir : w.isDir (destPath cmd w t name) = false) :
    ∃ pr au cs2 k2,
      receiveFile cmd LocalFS { path := [str "."], finished := false }
          { Mode := (m : Int), Length := chunks.flatten.length, Name := name }
          ⟨⟨chunks ++ rest, cl, o, false⟩, w, sc, p, a, cs, k⟩
        = (.ok none, ⟨⟨rest, cl, o ++ [[0]], false⟩,
            w.setFile (destPath cmd w t name) chunks.flatten (m % 512), sc, pr, au, cs2, k2⟩)
      ∧ createCalls cs2 = createCalls cs ++ [(destPath cmd w t name, chunks.flatten.length)] := by
  have hcreate := LocalFS_CreateFile w (destPath cmd w t name) chunks.flatten.length hden hdir
  have hchmod := LocalFS_SetChmod w (destPath cmd w t name) chunks.flatten
    (createPerm w (destPath cmd w t name)) m hden
  -- the first step: the path
  obtain ⟨cs1, hfirst, hcs1⟩ : ∃ cs1,
      (if cmd.Flags.Recursive = true then (pure true : M Bool) else
          M.bind (called (.IsDir t)) (fun _ => (fun s => (Res.ok (LocalFS.IsDir s.world t), s))))
        ⟨⟨chunks ++ rest, cl, o, false⟩, w, sc, p, a, cs, k⟩
      = (.ok (decide (cmd.Flags.Recursive = true ∨ w.isDir t = true)),
          ⟨⟨chunks ++ rest, cl, o, false⟩, w, sc, p, a, cs1, k⟩)
      ∧ createCalls cs1 = createCalls cs := by
    by_cases hr : cmd.Flags.Recursive = true
    · exact ⟨cs, by simp [hr], rfl⟩
    · exact ⟨cs ++ [.IsDir t], by simp [hr, M.bind, called, LocalFS_IsDir],
        by rw [createCalls_append]; simp [createCalls]⟩
  have hcc : createCalls (cs1 ++ [Call.CreateFile (destPath cmd w t name) chunks.flatten.length]
      ++ [Call.SetChmod (destPath cmd w t name) (m : Int)])
      = createCalls cs ++ [(destPath cmd w t name, chunks.flatten.length)] := by
    rw [createCalls_append, createCalls_append, hcs1]
    simp [createCalls]
  have hpath : (if cmd.Flags.Recursive = true
        ∨ decide (cmd.Flags.Recursive = true ∨ w.isDir t = true) = true
      then State.makePath { path := [str "."], finished := false } t name else t)
      = destPath cmd w t name := by
    by_cases hr : cmd.Flags.Recursive = true
    · simp [hr, destPath, State.makePath]
    · by_cases hd : w.isDir t = true
      · simp [hr, hd, destPath, State.makePath]
      · simp [hr, hd, destPath]
  have hcopy := fun o' pr au cs' k' => ioCopyN_spec (destPath cmd w t name) chunks hne []
    (createPerm w (destPath cmd w t name)) rest cl false o' w sc pr au cs' k'
  unfold receiveFile
  simp only [hT, M_bind_eq]
  rw [M_bind_ok hfirst]
  simp only [hpath]
  rw [M_bind_ok (show called (.CreateFile (destPath cmd w t name) chunks.flatten.length)
        ⟨⟨chunks ++ rest, cl, o, false⟩, w, sc, p, a, cs1, k⟩
      = (.ok (), ⟨⟨chunks ++ rest, cl, o, false⟩, w, sc, p, a,
          cs1 ++ [.CreateFile (destPath cmd w t name) chunks.flatten.length], k⟩) from rfl)]
  rw [M_bind_ok (show (fun s =>
        match LocalFS.CreateFile s.world (destPath cmd w t name) chunks.flatten.length with
        | none => (Res.panics, s)
        | some (r, w) => (Res.ok r, { s with world := w }) :
          M (Option WriteCloser × Option Error))
        ⟨⟨chunks ++ rest, cl, o, false⟩, w, sc, p, a,
          cs1 ++ [.CreateFile (destPath cmd w t name) chunks.flatten.length], k⟩
      = (.ok (some (osFile (destPath cmd w t name)), none),
          ⟨⟨chunks ++ rest, cl, o, false⟩,
            w.setFile (destPath cmd w t name) [] (createPerm w (destPath cmd w t name)), sc, p, a,
            cs1 ++ [.CreateFile (destPath cmd w t name) chunks.flatten.length], k⟩) by
    simp only [hcreate])]
  simp only [check_none]
  by_cases hp : cmd.ProgressWriter = true <;> by_cases ha : cmd.AuditLog = true
  · cases hu : cmd.User with
    | none => exact absurd hu (hA ha)
    | some u =>
      refine ⟨p ++ (str "<- " ++ destPath cmd w t name ++ str " (" ++
          fmtUint 10 chunks.flatten.length ++ str ")\n"),
        a ++ [(AuditEvent.mk (destPath cmd w t name) ((chunks.flatten.length : Nat) : Int)
          cmd.Flags.LocalAddr cmd.Flags.RemoteAddr u (str "write"))],
        cs1 ++ [Call.CreateFile (destPath cmd w t name) chunks.flatten.length]
          ++ [Call.SetChmod (destPath cmd w t name) (m : Int)], k + 1, ?_, hcc⟩
      simp [-List.length_flatten, M.bind, sendOK, chWrite, OKByte, toInt64_small _ hlen, hcopy, called, onWorld,
        hchmod, osFile_Close, closeStream, progressWrite, hp, ha, emitAuditEvent]
  · refine ⟨p ++ (str "<- " ++ destPath cmd w t name ++ str " (" ++
        fmtUint 10 chunks.flatten.length ++ str ")\n"), a,
      cs1 ++ [Call.CreateFile (destPath cmd w t name) chunks.flatten.length]
        ++ [Call.SetChmod (destPath cmd w t name) (m : Int)], k + 1, ?_, hcc⟩
    simp [-List.length_flatten, M.bind, sendOK, chWrite, OKByte, toInt64_small _ hlen, hcopy, called, onWorld,
      hchmod, osFile_Close, closeStream, progressWrite, hp, ha]
  · cases hu : cmd.User with
    | none => exact absurd hu (hA ha)
    | some u =>
      refine ⟨p, a ++ [(AuditEvent.mk (destPath cmd w t name) ((chunks.flatten.length : Nat) : Int)
          cmd.Flags.LocalAddr cmd.Flags.RemoteAddr u (str "write"))],
        cs1 ++ [Call.CreateFile (destPath cmd w t name) chunks.flatten.length]
          ++ [Call.SetChmod (destPath cmd w t name) (m : Int)], k + 1, ?_, hcc⟩
      simp [-List.length_flatten, M.bind, sendOK, chWrite, OKByte, toInt64_small _ hlen, hcopy, called, onWorld,
        hchmod, osFile_Close, closeStream, progressWrite, hp, ha, emitAuditEvent]
  · refine ⟨p, a,
      cs1 ++ [Call.CreateFile (destPath cmd w t name) chunks.flatten.length]
        ++ [Call.SetChmod (destPath cmd w t name) (m : Int)], k + 1, ?_, hcc⟩
    simp [-List.length_flatten, M.bind, sendOK, chWrite, OKByte, toInt64_small _ hlen, hcopy, called, onWorld,
      hchmod, osFile_Close, closeStream, progressWrite, hp, ha]

theorem receiveFile_blocked (cmd : Parameters) (t : GoString) (ts : List GoString)
    (m L : Nat) (name : GoString) (hL : 0 < L) (hlen : L < 2 ^ 63)
    (o : List (List UInt8))
    (w : World) (sc : Scanner) (p : GoString) (a : List AuditEvent) (cs : List Call) (k : Nat)
    (hT : cmd.Flags.Target = t :: ts)
    (hA : cmd.AuditLog = true → cmd.User ≠ none)
    (hden : w.denied (Clean (destPath cmd w t name)) = false)
    (hdir : w.isDir (destPath cmd w t name) = false) :
    (receiveFile cmd LocalFS { path := [str "."], finished := false }
          { Mode := (m : Int), Length := L, Name := name }
          ⟨⟨[], false, o, false⟩, w, sc, p, a, cs, k⟩).1 = .blocked ∧
    (receiveFile cmd LocalFS { path := [str "."], finished := false }
          { Mode := (m : Int), Length := L, Name := name }
          ⟨⟨[], false, o, false⟩, w, sc, p, a, cs, k⟩).2.ch.out = o ++ [[0]] := by
  have hcreate := LocalFS_CreateFile w (destPath cmd w t name) L hden hdir
  obtain ⟨cs1, hfirst⟩ : ∃ cs1,
      (if cmd.Flags.Recursive = true then (pure true : M Bool) else
          M.bind (called (.IsDir t)) (fun _ => (fun s => (Res.ok (LocalFS.IsDir s.world t), s))))
        ⟨⟨[], false, o, false⟩, w, sc, p, a, cs, k⟩
      = (.ok (decide (cmd.Flags.Recursive = true ∨ w.isDir t = true)),
          ⟨⟨[], false, o, false⟩, w, sc, p, a, cs1, k⟩) := by
    by_cases hr : cmd.Flags.Recursive = true
    · exact ⟨cs, by simp [hr]⟩
    · exact ⟨cs ++ [.IsDir t], by simp [hr, M.bind, called, LocalFS_IsDir]⟩
  have hpath : (if cmd.Flags.Recursive = true
        ∨ decide (cmd.Flags.Recursive = true ∨ w.isDir t = true) = true
      then State.makePath { path := [str "."], finished := false } t name else t)
      = destPath cmd w t name := by
    by_cases hr : cmd.Flags.Recursive = true
    · simp [hr, destPath, State.makePath]
    · by_cases hd : w.isDir t = true
      · simp [hr, hd, destPath, State.makePath]
      · simp [hr, hd, destPath]
  have hcopy := fun o' pr au cs' k' w' => ioCopyN_blocked (osFile (destPath cmd w t name)) (L : Int)
    (by omega) false o' w' sc pr au cs' k'
  unfold receiveFile
  simp only [hT, M_bind_eq]
  rw [M_bind_ok hfirst]
  simp only [hpath]
  rw [M_bind_ok (show called (.CreateFile (destPath cmd w t name) L)
        ⟨⟨[], false, o, false⟩, w, sc, p, a, cs1, k⟩
      = (.ok (), ⟨⟨[], false, o, false⟩, w, sc, p, a,
          cs1 ++ [.CreateFile (destPath cmd w t name) L], k⟩) from rfl)]
  rw [M_bind_ok (show (fun s =>
        match LocalFS.CreateFile s.world (destPath cmd w t name) L with
        | none => (Res.panics, s)
        | some (r, w) => (Res.ok r, { s with world := w }) :
          M (Option WriteCloser × Option Error))
        ⟨⟨[], false, o, false⟩, w, sc, p, a,
          cs1 ++ [.CreateFile (destPath cmd w t name) L], k⟩
      = (.ok (some (osFile (destPath cmd w t name)), none),
          ⟨⟨[], false, o, false⟩,
            w.setFile (destPath cmd w t name) [] (createPerm w (destPath cmd w t name)), sc, p, a,
            cs1 ++ [.CreateFile (destPath cmd w t name) L], k⟩) by
    simp only [hcreate])]
  simp only [check_none]
  by_cases ha : cmd.AuditLog = true
  · cases hu : cmd.User with
    | none => exact absurd hu (hA ha)
    | some u =>
      simp [M.bind, sendOK, chWrite, OKByte, toInt64_small _ hlen, hcopy, ha, emitAuditEvent]
  · simp [M.bind, sendOK, chWrite, OKByte, toInt64_small _ hlen, hcopy, ha]

theorem sinkLoop_ok (cmd : Parameters) (fs : FileSystem) (f : Nat) (st : State)
    (rest : List (List UInt8)) (cl br : Bool) (o : List (List UInt8))
    (w : World) (sc : Scanner) (p : GoString) (a : List AuditEvent) (cs : List Call) (k : Nat) :
    serveSinkLoop cmd fs (f + 1) st ⟨⟨[0] :: rest, cl, o, br⟩, w, sc, p, a, cs, k⟩
      = serveSinkLoop cmd fs f st ⟨⟨rest, cl, o, br⟩, w, sc, p, a, cs, k⟩ := by
  rw [serveSinkLoop]
  simp [M.bind, chRead, OKByte]

theorem sinkLoop_eof (cmd : Parameters) (fs : FileSystem) (f : Nat) (st : State)
    (br : Bool) (o : List (List UInt8))
    (w : World) (sc : Scanner) (p : GoString) (a : List AuditEvent) (cs : List Call) (k : Nat) :
    serveSinkLoop cmd fs (f + 1) st ⟨⟨[], true, o, br⟩, w, sc, p, a, cs, k⟩
      = (.ok none, ⟨⟨[], true, o, br⟩, w, sc, p, a, cs, k⟩) := by
  rw [serveSinkLoop]
  simp [M.bind, chRead]

theorem sinkLoop_blocked (cmd : Parameters) (fs : FileSystem) (f : Nat) (st : State)
    (br : Bool) (o : List (List UInt8))
    (w : World) (sc : Scanner) (p : GoString) (a : List AuditEvent) (cs : List Call) (k : Nat) :
    serveSinkLoop cmd fs (f + 1) st ⟨⟨[], false, o, br⟩, w, sc, p, a, cs, k⟩
      = (.blocked, ⟨⟨[], false, o, br⟩, w, sc, p, a, cs, k⟩) := by
  rw [serveSinkLoop]
  simp [M.bind, chRead]

theorem sinkLoop_header (cmd : Parameters) (fs : FileSystem) (f : Nat) (st : State)
    (m n : Nat) (name : GoString) (hm : m ≤ 0o7777) (hn : n < 2 ^ 64)
    (hname : name.length ≤ 3900)
    (rest : List (List UInt8)) (cl br : Bool) (o : List (List UInt8))
    (w : World) (p : GoString) (a : List AuditEvent) (cs : List Call) (k : Nat) :
    serveSinkLoop cmd fs (f + 1) st
        ⟨⟨(67 :: headerLine m n name) :: rest, cl, o, br⟩, w, Scanner.new, p, a, cs, k⟩
      = M.bind (processCommand cmd fs st 67
            (fmtOct04 m ++ [32] ++ fmtUint 10 n ++ [32] ++ seenName name))
          (fun r => check r.1 some (M.bind sendOK (fun err =>
            check err some (serveSinkLoop cmd fs f r.2))))
          ⟨⟨rest, cl, o, br⟩, w,
            { buf := (headerLine m n name).drop ((beforeFirst 10 (headerLine m n name)).length + 1),
              start := (beforeFirst 10 (headerLine m n name)).length + 1, cap := 4096,
              err := none,
              token := fmtOct04 m ++ [32] ++ fmtUint 10 n ++ [32] ++ seenName name },
            p, a, cs, k⟩ := by
  obtain ⟨h1, h2, h3⟩ := headerLine_props m n name hname
  have htok := headerLine_token m n name (by omega) hn
  have hscan := Scan_line (headerLine m n name) rest cl br o w p a cs k h1 h2 h3
  rw [htok] at hscan
  rw [serveSinkLoop]
  simp only [M_bind_eq]
  rw [M_bind_ok (show chRead 1
        ⟨⟨(67 :: headerLine m n name) :: rest, cl, o, br⟩, w, Scanner.new, p, a, cs, k⟩
      = (.ok ([67], none),
          ⟨⟨headerLine m n name :: rest, cl, o, br⟩, w, Scanner.new, p, a, cs, k⟩) by
    simp [chRead, h1])]
  simp only [List.length_singleton, show ¬ (1 < 1) by omega, if_false, List.headD_cons,
    show ¬ ((67 : UInt8) = OKByte) by decide]
  rw [M_bind_ok hscan]
  simp [M.bind, Scanner.Err, seenName]

theorem processCommand_C_ok (cmd : Parameters) (fs : FileSystem) (st : State) (line : GoString)
    (fc : NewFileCmd) (env env1 : Env) (h : ParseNewFile line = .ok fc)
    (hr : receiveFile cmd fs st fc env = (.ok none, env1)) :
    processCommand cmd fs st 67 line env = (.ok (none, st), env1) := by
  unfold processCommand
  simp only [show ¬ ((67 : UInt8) = WarnByte) by decide, show ¬ ((67 : UInt8) = ErrByte) by decide,
    if_false, if_true, h, M_bind_eq]
  rw [M_bind_ok hr]
  rfl

theorem processCommand_C_blocked (cmd : Parameters) (fs : FileSystem) (st : State)
    (line : GoString) (fc : NewFileCmd) (env env1 : Env) (h : ParseNewFile line = .ok fc)
    (hr : receiveFile cmd fs st fc env = (.blocked, env1)) :
    processCommand cmd fs st 67 line env = (.blocked, env1) := by
  unfold processCommand
  simp only [show ¬ ((67 : UInt8) = WarnByte) by decide, show ¬ ((67 : UInt8) = ErrByte) by decide,
    if_false, if_true, h, M_bind_eq]
  rw [M_bind_blocked hr]

theorem sendOK_ok (inp : List (List UInt8)) (cl : Bool) (o : List (List UInt8))
    (w : World) (sc : Scanner) (p : GoString) (a : List AuditEvent) (cs : List Call) (k : Nat) :
    sendOK ⟨⟨inp, cl, o, false⟩, w, sc, p, a, cs, k⟩
      = (.ok none, ⟨⟨inp, cl, o ++ [[0]], false⟩, w, sc, p, a, cs, k⟩) := by
  simp [sendOK, M.bind, chWrite, OKByte]

/-- The sink engine once the source has sent the header, the body in pieces and its OK byte. -/
theorem serveSink_complete (cmd : Parameters) (t : GoString) (ts : List GoString)
    (m : Nat) (name : GoString) (chunks : List (List UInt8)) (hne : ∀ c ∈ chunks, c ≠ [])
    (hm : m ≤ 0o7777) (hlen : chunks.flatten.length < 2 ^ 63) (hname : name.length ≤ 3900)
    (w : World) (cl : Bool)
    (hT : cmd.Flags.Target = t :: ts)
    (hA : cmd.AuditLog = true → cmd.User ≠ none)
    (hden : w.denied (Clean (destPath cmd w t (seenName name))) = false)
    (hdir : w.isDir (destPath cmd w t (seenName name)) = false) :
    (serveSink cmd LocalFS
        (Env.start w ((67 :: headerLine m chunks.flatten.length name) :: (chunks ++ [[0]])) cl)).1
      = (if cl then .ok none else .blocked) ∧
    (serveSink cmd LocalFS
        (Env.start w ((67 :: headerLine m chunks.flatten.length name) :: (chunks ++ [[0]])) cl)).2.ch.out
      = [[0], [0], [0]] ∧
    (serveSink cmd LocalFS
        (Env.start w ((67 :: headerLine m chunks.flatten.length name) :: (chunks ++ [[0]])) cl)).2.world
      = w.setFile (destPath cmd w t (seenName name)) chunks.flatten (m % 512) ∧
    createCalls (serveSink cmd LocalFS
        (Env.start w ((67 :: headerLine m chunks.flatten.length name) :: (chunks ++ [[0]])) cl)).2.calls
      = [(destPath cmd w t (seenName name), chunks.flatten.length)] := by
  have hparse := ParseNewFile_fmt m chunks.flatten.length (seenName name) hm (by omega)
  obtain ⟨f, hf⟩ : ∃ f, (⟨(67 :: headerLine m chunks.flatten.length name) :: (chunks ++ [[0]]), cl,
      [[0]], false⟩ : Chan).pending + 1 = f + 2 + 1 := by
    refine ⟨(⟨(67 :: headerLine m chunks.flatten.length name) :: (chunks ++ [[0]]), cl,
      [[0]], false⟩ : Chan).pending + 1 - 3, ?_⟩
    simp only [Chan.pending, List.length_cons, List.length_append, List.flatten_cons]
    omega
  unfold serveSink
  simp only [M_bind_eq, Env.start]
  rw [M_bind_ok (sendOK_ok _ _ _ _ _ _ _ _ _)]
  simp only [check_none, List.nil_append, hf]
  rw [sinkLoop_header cmd LocalFS (f + 2) _ m _ name hm (by omega) hname]
  obtain ⟨pr, au, cs2, k2, hrecv, hcc⟩ := receiveFile_ok cmd t ts m (seenName name) chunks hne hlen
    [[0]] cl [[0]] w
    { buf := (headerLine m chunks.flatten.length name).drop
        ((beforeFirst 10 (headerLine m chunks.flatten.length name)).length + 1),
      start := (beforeFirst 10 (headerLine m chunks.flatten.length name)).length + 1,
      cap := 4096, err := none,
      token := fmtOct04 m ++ [32] ++ fmtUint 10 chunks.flatten.length ++ [32] ++ seenName name }
    [] [] [] 0 hT hA hden hdir
  rw [M_bind_ok (processCommand_C_ok _ _ _ _ _ _ _ hparse hrecv)]
  simp only [check_none]
  rw [M_bind_ok (sendOK_ok _ _ _ _ _ _ _ _ _)]
  simp only [check_none]
  rw [sinkLoop_ok]
  cases cl with
  | true =>
    rw [sinkLoop_eof]
    exact ⟨rfl, rfl, rfl, by simpa [createCalls] using hcc⟩
  | false =>
    rw [sinkLoop_blocked]
    exact ⟨rfl, rfl, rfl, by simpa [createCalls] using hcc⟩

/-- The sink engine once the source has sent the header and the body, before its OK byte. -/
theorem serveSink_body (cmd : Parameters) (t : GoString) (ts : List GoString)
    (m : Nat) (name : GoString) (chunks : List (List UInt8)) (hne : ∀ c ∈ chunks, c ≠ [])
    (hm : m ≤ 0o7777) (hlen : chunks.flatten.length < 2 ^ 63) (hname : name.length ≤ 3900)
    (w : World)
    (hT : cmd.Flags.Target = t :: ts)
    (hA : cmd.AuditLog = true → cmd.User ≠ none)
    (hden : w.denied (Clean (destPath cmd w t (seenName name))) = false)
    (hdir : w.isDir (destPath cmd w t (seenName name)) = false) :
    (serveSink cmd LocalFS
        (Env.start w ((67 :: headerLine m chunks.flatten.length name) :: (chunks ++ [])) false)).1
      = .blocked ∧
    (serveSink cmd LocalFS
        (Env.start w ((67 :: headerLine m chunks.flatten.length name) :: (chunks ++ []))
          false)).2.ch.out
      = [[0], [0], [0]] := by
  have hparse := ParseNewFile_fmt m chunks.flatten.length (seenName name) hm (by omega)
  obtain ⟨f, hf⟩ : ∃ f, (⟨(67 :: headerLine m chunks.flatten.length name) :: (chunks ++ []), false,
      [[0]], false⟩ : Chan).pending + 1 = f + 1 + 1 := by
    refine ⟨(⟨(67 :: headerLine m chunks.flatten.length name) :: (chunks ++ []), false,
      [[0]], false⟩ : Chan).pending + 1 - 2, ?_⟩
    simp only [Chan.pending, List.length_cons, List.length_append, List.flatten_cons]
    omega
  unfold serveSink
  simp only [M_bind_eq, Env.start]
  rw [M_bind_ok (sendOK_ok _ _ _ _ _ _ _ _ _)]
  simp only [check_none, List.nil_append, hf]
  rw [sinkLoop_header cmd LocalFS (f + 1) _ m _ name hm (by omega) hname]
  obtain ⟨pr, au, cs2, k2, hrecv, hcc⟩ := receiveFile_ok cmd t ts m (seenName name) chunks hne hlen
    [] false [[0]] w
    { buf := (headerLine m chunks.flatten.length name).drop
        ((beforeFirst 10 (headerLine m chunks.flatten.length name)).length + 1),
      start := (beforeFirst 10 (headerLine m chunks.flatten.length name)).length + 1,
      cap := 4096, err := none,
      token := fmtOct04 m ++ [32] ++ fmtUint 10 chunks.flatten.length ++ [32] ++ seenName name }
    [] [] [] 0 hT hA hden hdir
  rw [M_bind_ok (processCommand_C_ok _ _ _ _ _ _ _ hparse hrecv)]
  simp only [check_none]
  rw [M_bind_ok (sendOK_ok _ _ _ _ _ _ _ _ _)]
  simp only [check_none]
  rw [sinkLoop_blocked]
  exact ⟨rfl, rfl⟩

/-- The sink engine once the source has sent the header of a file that is not empty. -/
theorem serveSink_header (cmd : Parameters) (t : GoString) (ts : List GoString)
    (m L : Nat) (name : GoString) (hL : 0 < L)
    (hm : m ≤ 0o7777) (hlen : L < 2 ^ 63) (hname : name.length ≤ 3900)
    (w : World)
    (hT : cmd.Flags.Target = t :: ts)
    (hA : cmd.AuditLog = true → cmd.User ≠ none)
    (hden : w.denied (Clean (destPath cmd w t (seenName name))) = false)
    (hdir : w.isDir (destPath cmd w t (seenName name)) = false) :
    (serveSink cmd LocalFS (Env.start w [67 :: headerLine m L name] false)).1 = .blocked ∧
    (serveSink cmd LocalFS (Env.start w [67 :: headerLine m L name] false)).2.ch.out
      = [[0], [0]] := by
  have hparse := ParseNewFile_fmt m L (seenName name) hm (by omega)
  obtain ⟨f, hf⟩ : ∃ f, (⟨[67 :: headerLine m L name], false, [[0]], false⟩ : Chan).pending + 1
      = f + 1 := ⟨_, rfl⟩
  have hrecv := receiveFile_blocked cmd t ts m L (seenName name) hL hlen [[0]] w
    { buf := (headerLine m L name).drop ((beforeFirst 10 (headerLine m L name)).length + 1),
      start := (beforeFirst 10 (headerLine m L name)).length + 1,
      cap := 4096, err := none,
      token := fmtOct04 m ++ [32] ++ fmtUint 10 L ++ [32] ++ seenName name }
    [] [] [] 0 hT hA hden hdir
  rcases hr : receiveFile cmd LocalFS { path := [str "."], finished := false }
      { Mode := (m : Int), Length := L, Name := seenName name }
      ⟨⟨[], false, [[0]], false⟩, w,
        { buf := (headerLine m L name).drop ((beforeFirst 10 (headerLine m L name)).length + 1),
          start := (beforeFirst 10 (headerLine m L name)).length + 1,
          cap := 4096, err := none,
          token := fmtOct04 m ++ [32] ++ fmtUint 10 L ++ [32] ++ seenName name },
        [], [], [], 0⟩ with ⟨r, e⟩
  rw [hr] at hrecv
  simp only at hrecv
  obtain ⟨h1, h2⟩ := hrecv
  subst h1
  unfold serveSink
  simp only [M_bind_eq, Env.start]
  rw [M_bind_ok (sendOK_ok _ _ _ _ _ _ _ _ _)]
  simp only [check_none, List.nil_append, hf]
  rw [sinkLoop_header cmd LocalFS f _ m _ name hm (by omega) hname]
  rw [M_bind_blocked (processCommand_C_blocked _ _ _ _ _ _ _ hparse hr)]
  exact ⟨rfl, h2⟩

theorem serveSink_start (cmd : Parameters) (fs : FileSystem) (w : World) :
    (serveSink cmd fs (Env.start w [] false)).1 = .blocked ∧
    (serveSink cmd fs (Env.start w [] false)).2.ch.out = [[0]] := by
  unfold serveSink
  simp only [M_bind_eq, Env.start]
  rw [M_bind_ok (sendOK_ok _ _ _ _ _ _ _ _ _)]
  simp only [check_none, List.nil_append]
  rw [show (⟨[], false, [[0]], false⟩ : Chan).pending + 1 = 0 + 1 from rfl, sinkLoop_blocked]
  exact ⟨rfl, rfl⟩

theorem pieces_spec (fuel : Nat) (data : List UInt8) (h : data.length < fuel) :
    (pieces fuel data).flatten = data ∧ ∀ c ∈ pieces fuel data, c ≠ [] := by
  induction fuel generalizing data with
  | zero => omega
  | succ fuel ih =>
    by_cases hd : data = []
    · subst hd; simp [pieces]
    · have hlen : 0 < data.length := List.length_pos.mpr hd
      have hdrop : (data.drop 32768).length < fuel := by rw [List.length_drop]; omega
      obtain ⟨h1, h2⟩ := ih _ hdrop
      simp only [pieces, hd, if_false, List.flatten_cons, h1, List.take_append_drop, true_and]
      intro c hc
      rcases List.mem_cons.mp hc with rfl | hc
      · intro e
        have : (data.take 32768).length = 0 := by rw [e]; rfl
        rw [List.length_take] at this
        omega
      · exact h2 c hc

theorem sourceOut_eq (m : Nat) (B name : GoString) :
    [fileHeader m (B.length : Int) name] ++ pieces (B.length + 1) B ++ [[0]]
      = (67 :: headerLine m (pieces (B.length + 1) B).flatten.length name)
          :: (pieces (B.length + 1) B ++ [[0]]) := by
  rw [(pieces_spec (B.length + 1) B (by omega)).1, fileHeader_eq]
  rfl

theorem lockStep_succ (a b : M (Option Error)) (wa wb : World) (n : Nat) :
    lockStep a b wa wb (n + 1)
      = (a (Env.start wa (lockStep a b wa wb n).2.2.ch.out (lockStep a b wa wb n).2.1.done),
         b (Env.start wb
            (a (Env.start wa (lockStep a b wa wb n).2.2.ch.out
              (lockStep a b wa wb n).2.1.done)).2.ch.out
            (a (Env.start wa (lockStep a b wa wb n).2.2.ch.out
              (lockStep a b wa wb n).2.1.done)).1.done)) := rfl

/-- Two engines in lock step reach their ends when each of them gets there on what the other
has written by then. -/
theorem lockStep_converges (a b : M (Option Error)) (wa wb : World)
    (o1 k1 o2 k3 o3 : List (List UInt8)) (d2 : Bool)
    (hb0 : (b (Env.start wb [] false)).1 = .blocked ∧ (b (Env.start wb [] false)).2.ch.out = [[0]])
    (ha1 : (a (Env.start wa [[0]] false)).1 = .blocked ∧ (a (Env.start wa [[0]] false)).2.ch.out = o1)
    (hb1 : (b (Env.start wb o1 false)).1 = .blocked ∧ (b (Env.start wb o1 false)).2.ch.out = k1)
    (ha2 : (a (Env.start wa k1 false)).1.done = d2 ∧ (a (Env.start wa k1 false)).2.ch.out = o2)
    (hb2 : (b (Env.start wb o2 d2)).2.ch.out = k3)
    (ha3 : ∀ cl, (a (Env.start wa k3 cl)).1 = .ok none ∧ (a (Env.start wa k3 cl)).2.ch.out = o3)
    (hb3 : (b (Env.start wb o3 true)).2.ch.out = k3)
    (n : Nat) (hn : 3 ≤ n) :
    (lockStep a b wa wb n).1.1 = .ok none ∧
    (lockStep a b wa wb n).2 = b (Env.start wb o3 true) := by
  have h0 : (lockStep a b wa wb 0).2.1.done = false ∧ (lockStep a b wa wb 0).2.2.ch.out = [[0]] := by
    show (b (Env.start wb [] false)).1.done = false ∧ _
    rw [hb0.1]; exact ⟨rfl, hb0.2⟩
  have h1 : (lockStep a b wa wb 1).2.1.done = false ∧ (lockStep a b wa wb 1).2.2.ch.out = k1 := by
    rw [lockStep_succ, h0.1, h0.2]
    simp only
    rw [ha1.1, ha1.2]
    show (b (Env.start wb o1 false)).1.done = false ∧ _
    rw [hb1.1]; exact ⟨rfl, hb1.2⟩
  have h2 : (lockStep a b wa wb 2).2.2.ch.out = k3 := by
    rw [lockStep_succ, h1.1, h1.2]
    simp only
    rw [ha2.1, ha2.2]
    exact hb2
  have hout : ∀ k, (lockStep a b wa wb (k + 2)).2.2.ch.out = k3 := by
    intro k
    induction k with
    | zero => exact h2
    | succ k ih =>
      rw [lockStep_succ, ih]
      simp only
      rw [(ha3 _).1, (ha3 _).2]
      exact hb3
  obtain ⟨k, rfl⟩ : ∃ k, n = k + 2 + 1 := ⟨n - 3, by omega⟩
  rw [lockStep_succ, hout k]
  simp only
  rw [(ha3 _).1, (ha3 _).2]
  exact ⟨rfl, rfl⟩

/-- The round trip of one file, with a sink on the local backend. -/
theorem roundTrip_steps (src snk : Parameters) (fsS : FileSystem) (wa wa1 wb : World)
    (B name path target t : GoString) (ts : List GoString) (m : Nat) (re : Option Error)
    (es : List FileInfo)
    (hm : m ≤ 0o7777) (hB : B.length < 2 ^ 63) (hname : name.length ≤ 3900)
    (hsrcT : src.Flags.Target = [target])
    (hsrcA : src.AuditLog = true → src.User ≠ none)
    (hinfo : fsS.GetFileInfo wa target
      = .ok (.mk false name path m (some (B.length : Int)) re es))
    (hopen : fsS.OpenFile wa path = ((some ⟨B, none⟩, none), wa1))
    (hsnkT : snk.Flags.Target = t :: ts)
    (hsnkA : snk.AuditLog = true → snk.User ≠ none)
    (hden : wb.denied (Clean (destPath snk wb t (seenName name))) = false)
    (hdir : wb.isDir (destPath snk wb t (seenName name)) = false)
    (n : Nat) (hn : 3 ≤ n) :
    (lockStep (serveSource src fsS) (serveSink snk LocalFS) wa wb n).1.1 = .ok none ∧
    (lockStep (serveSource src fsS) (serveSink snk LocalFS) wa wb n).2.1 = .ok none ∧
    (lockStep (serveSource src fsS) (serveSink snk LocalFS) wa wb n).2.2.world
      = wb.setFile (destPath snk wb t (seenName name)) B (m % 512) ∧
    createCalls (lockStep (serveSource src fsS) (serveSink snk LocalFS) wa wb n).2.2.calls
      = [(destPath snk wb t (seenName name), B.length)] := by
  obtain ⟨_, ⟨s1r, s1o⟩, ⟨s2r, s2o⟩, s3⟩ :=
    serveSource_runs src fsS B name path target m re es wa wa1 hsrcT hsrcA hinfo hopen
  obtain ⟨hpf, hpne⟩ := pieces_spec (B.length + 1) B (by omega)
  have hplen : (pieces (B.length + 1) B).flatten.length < 2 ^ 63 := by rw [hpf]; exact hB
  have hcomplete := fun cl => serveSink_complete snk t ts m name (pieces (B.length + 1) B) hpne
    hm hplen hname wb cl hsnkT hsnkA hden hdir
  rw [← sourceOut_eq, hpf] at hcomplete
  have k0 := serveSink_start snk LocalFS wb
  have hconv : (lockStep (serveSource src fsS) (serveSink snk LocalFS) wa wb n).1.1 = .ok none ∧
      (lockStep (serveSource src fsS) (serveSink snk LocalFS) wa wb n).2
        = serveSink snk LocalFS (Env.start wb
            ([fileHeader m (B.length : Int) name] ++ pieces (B.length + 1) B ++ [[0]]) true) := by
    by_cases hBe : B = []
    · subst hBe
      have k1 := serveSink_body snk t ts m name [] (by simp) hm (by simp) hname wb hsnkT hsnkA
        hden hdir
      have e1 : [fileHeader m (([] : GoString).length : Int) name]
          = [67 :: headerLine m ([] : List (List UInt8)).flatten.length name] := by
        rw [fileHeader_eq]; rfl
      simp only [List.append_nil] at k1
      rw [← e1] at k1
      exact lockStep_converges _ _ wa wb _ _ _ _ _ true k0 ⟨s1r, s1o⟩ k1
        ⟨by rw [(s3 false).1]; rfl, (s3 false).2⟩ (hcomplete true).2.1 s3 (hcomplete true).2.1 n hn
    · have hL : 0 < B.length := List.length_pos.mpr hBe
      have k1 := serveSink_header snk t ts m B.length name hL hm hB hname wb hsnkT hsnkA hden hdir
      have e1 : [fileHeader m (B.length : Int) name] = [67 :: headerLine m B.length name] := by
        rw [fileHeader_eq]
      rw [← e1] at k1
      exact lockStep_converges _ _ wa wb _ _ _ _ _ false k0 ⟨s1r, s1o⟩ k1
        ⟨by rw [s2r]; rfl, s2o⟩ (hcomplete false).2.1 s3 (hcomplete true).2.1 n hn
  have hc := hcomplete true
  simp only [if_true] at hc
  rw [hconv.2]
  exact ⟨hconv.1, hc.1, hc.2.2.1, hc.2.2.2⟩

theorem seenName_plain (name : GoString) (hnl : (10 : UInt8) ∉ name)
    (hcr : name.getLast? ≠ some 13) : seenName name = name := by
  have h1 : beforeFirst 10 name = name := (before_after_of_not_mem hnl).1
  unfold seenName
  rw [h1]
  unfold dropCR
  split
  · rename_i h; exact absurd h hcr
  · rfl

/-- Claim C1, as amended: a source engine serving one regular file of contents B, whose FileInfo
reports the mode m ≤ 0o7777 and the size of B, run in lock step against a sink engine on the local
backend whose destination can be created, ends without error on both sides from the third round
on; the sink has asked for exactly one file, of the length of B, the file at the destination holds
exactly the bytes B, and its mode is m masked to the nine permission bits (m % 512), which is m
itself when m ≤ 0o777. -/
theorem roundTrip_file (src snk : Parameters) (fsS : FileSystem) (wa wa1 wb : World)
    (B name path target t : GoString) (ts : List GoString) (m : Nat) (re : Option Error)
    (es : List FileInfo)
    (hm : m ≤ 0o7777) (hB : B.length < 2 ^ 63) (hname : name.length ≤ 3900)
    (hsrcT : src.Flags.Target = [target])
    (hsrcA : src.AuditLog = true → src.User ≠ none)
    (hinfo : fsS.GetFileInfo wa target
      = .ok (.mk false name path m (some (B.length : Int)) re es))
    (hopen : fsS.OpenFile wa path = ((some ⟨B, none⟩, none), wa1))
    (hsnkT : snk.Flags.Target = t :: ts)
    (hsnkA : snk.AuditLog = true → snk.User ≠ none)
    (hden : wb.denied (Clean (destPath snk wb t (seenName name))) = false)
    (hdir : wb.isDir (destPath snk wb t (seenName name)) = false)
    (n : Nat) (hn : 3 ≤ n) :
    (lockStep (serveSource src fsS) (serveSink snk LocalFS) wa wb n).1.1 = .ok none ∧
    (lockStep (serveSource src fsS) (serveSink snk LocalFS) wa wb n).2.1 = .ok none ∧
    createCalls (lockStep (serveSource src fsS) (serveSink snk LocalFS) wa wb n).2.2.calls
      = [(destPath snk wb t (seenName name), B.length)] ∧
    (lockStep (serveSource src fsS) (serveSink snk LocalFS) wa wb n).2.2.world
      = wb.setFile (destPath snk wb t (seenName name)) B (m % 512) ∧
    (lockStep (serveSource src fsS) (serveSink snk LocalFS) wa wb n).2.2.world.file
        (destPath snk wb t (seenName name)) = some (B, m % 512) ∧
    (m ≤ 0o777 →
      (lockStep (serveSource src fsS) (serveSink snk LocalFS) wa wb n).2.2.world.file
        (destPath snk wb t (seenName name)) = some (B, m)) := by
  obtain ⟨h1, h2, h3, h4⟩ := roundTrip_steps src snk fsS wa wa1 wb B name path target t ts m re es
    hm hB hname hsrcT hsrcA hinfo hopen hsnkT hsnkA hden hdir n hn
  have hfile := World.file_setFile wb (destPath snk wb t (seenName name)) B (m % 512)
  refine ⟨h1, h2, h4, h3, ?_, ?_⟩
  · rw [h3]; exact hfile
  · intro hm9
    rw [h3, hfile, Nat.mod_eq_of_lt (by omega)]

theorem roundTrip_file_witness :
    (lockStep (serveSource (sourceCommand (str "/d/target")) LocalFS)
        (serveSink (sinkCommand (str "/out")) LocalFS)
        (World.withFile (str "/d/target") (str "hello, send file!") 0o666) World.empty 3).2.2.world.file
      (str "/out") = some (str "hello, send file!", 0o666) := by
  have h := roundTrip_file (sourceCommand (str "/d/target")) (sinkCommand (str "/out")) LocalFS
    (World.withFile (str "/d/target") (str "hello, send file!") 0o666)
    (World.withFile (str "/d/target") (str "hello, send file!") 0o666) World.empty
    (str "hello, send file!") (str "target") (str "/d/target") (str "/d/target") (str "/out") []
    0o666 none [] (by decide) (by decide!) (by decide!) rfl (by decide) rfl rfl
    rfl (by decide) (by decide!) (by decide!) 3 (by decide)
  have e : destPath (sinkCommand (str "/out")) World.empty (str "/out") (seenName (str "target"))
      = str "/out" := by decide!
  rw [e] at h
  exact h.2.2.2.2.2 (by decide)

/-- Claim C1 fails as stated for a mode above 0o777: the file /d/f of mode 0o4755 (set-uid,
rwxr-xr-x), sent by the source engine on the local backend to the sink engine on the local
backend, arrives with its two bytes and without error, but with the mode 0o755. -/
theorem roundTrip_mode_counterexample :
    ((0o4755 : Nat) ≤ 0o7777) ∧
    (lockStep (serveSource (sourceCommand (str "/d/f")) LocalFS)
        (serveSink (sinkCommand (str "/out")) LocalFS)
        (World.withFile (str "/d/f") (str "hi") 0o4755) World.empty 3).1.1 = .ok none ∧
    (lockStep (serveSource (sourceCommand (str "/d/f")) LocalFS)
        (serveSink (sinkCommand (str "/out")) LocalFS)
        (World.withFile (str "/d/f") (str "hi") 0o4755) World.empty 3).2.1 = .ok none ∧
    (lockStep (serveSource (sourceCommand (str "/d/f")) LocalFS)
        (serveSink (sinkCommand (str "/out")) LocalFS)
        (World.withFile (str "/d/f") (str "hi") 0o4755) World.empty 3).2.2.world.file (str "/out")
      = some (str "hi", 0o755) ∧
    (0o755 : Nat) ≠ 0o4755 := by
  refine ⟨by decide, ?_, ?_, ?_, by decide⟩ <;> decide!

theorem ParseInt_ok_range {bits : Nat} (s : GoString) (v : Int)
    (h : ParseInt s 8 bits = (v, none)) :
    -(2 ^ (bits - 1) : Int) ≤ v ∧ v < 2 ^ (bits - 1) := by
  have hpos : (0 : Int) < 2 ^ (bits - 1) := by positivity
  unfold ParseInt at h
  cases s with
  | nil => simp at h
  | cons c cs =>
    simp only at h
    split at h
    · simp at h
    · rename_i _ un e _ _
      by_cases hc : c = 45
      · simp only [hc, decide_True, Bool.not_true, Bool.false_eq_true, false_and, if_false,
          true_and, if_true] at h
        split_ifs at h with h2
        · simp at h
        · simp only [Prod.mk.injEq, and_true] at h
          subst h
          have h3 : ((un : Int)) ≤ ((2 ^ (bits - 1) : Nat) : Int) := by
            exact_mod_cast Nat.le_of_not_lt h2
          push_cast at h3
          omega
      · simp only [hc, decide_False, Bool.not_false, true_and, Bool.false_eq_true, false_and,
          if_false] at h
        split_ifs at h with h1
        · simp at h
        · simp only [Prod.mk.injEq, and_true] at h
          subst h
          have h3 : ((un : Int)) < ((2 ^ (bits - 1) : Nat) : Int) := by
            exact_mod_cast Nat.lt_of_not_le h1
          push_cast at h3
          omega

theorem allDigits_zeros (base k : Nat) (hb : 1 ≤ base) : allDigits base (List.replicate k 48) := by
  intro c hc
  rw [List.mem_replicate] at hc
  rw [hc.2]
  constructor
  · decide
  · show 48 < 48 + base
    omega

theorem ParseInt_fmtOct04Int (v : Int) (h1 : -(2 ^ 31 : Int) ≤ v) (h2 : v < 2 ^ 31) :
    ParseInt (fmtOct04Int v) 8 32 = (v, none) := by
  unfold fmtOct04Int
  by_cases hv : v < 0
  · rw [if_pos hv]
    have hk : (-v).toNat ≤ 2 ^ 31 := by omega
    obtain ⟨hne, hd, hval⟩ := @fmtUint_spec 8 (by decide) (by decide) (-v).toNat
      (by omega)
    have hcore : parseUintCore (List.replicate (3 - (fmtUint 8 (-v).toNat).length) 48
        ++ fmtUint 8 (-v).toNat) 8 32 = ((-v).toNat, none) := by
      rw [parseUintCore_ok_iff (by decide) (by decide) (by decide) (by decide)]
      refine ⟨⟨?_, allDigits_append (allDigits_zeros 8 _ (by decide)) hd, ?_⟩, ?_⟩
      · simp [hne]
      · rw [numVal_zeros, hval]; omega
      · rw [numVal_zeros, hval]
    simp only [ParseInt]
    simp only [or_true, if_true, decide_True, Bool.not_true, Bool.false_eq_true, false_and,
      if_false, true_and]
    rw [hcore]
    simp only
    rw [if_neg (by norm_num; omega)]
    congr 1
    omega
  · rw [if_neg hv]
    obtain ⟨hne, hd, hval⟩ := fmtOct04_spec v.toNat (by omega)
    rw [ParseInt_digits (by decide) (by decide) (by decide) (by decide) _ hne hd
      (by rw [hval]; omega), hval]
    congr 1
    omega

theorem ParseUint_fmtUint (n : Nat) (hn : n < 2 ^ 64) :
    ParseUint (fmtUint 10 n) 10 64 = (n, none) := by
  obtain ⟨hne, hd, hval⟩ := @fmtUint_spec 10 (by decide) (by decide) n hn
  have hcore : parseUintCore (fmtUint 10 n) 10 64 = (n, none) := by
    rw [parseUintCore_ok_iff (by decide) (by decide) (by decide) (by decide)]
    exact ⟨⟨hne, hd, by rw [hval]; exact hn⟩, hval.symm⟩
  simp only [ParseUint, hcore]

theorem ParseUint_ok_lt (s : GoString) (n : Nat) (h : ParseUint s 10 64 = (n, none)) :
    n < 2 ^ 64 := by
  unfold ParseUint at h
  split at h
  · rename_i n1 hc
    simp only [Prod.mk.injEq, and_true] at h
    subst h
    rw [parseUintCore_ok_iff (by decide) (by decide) (by decide) (by decide)] at hc
    rw [hc.2]
    exact hc.1.2.2
  · simp at h

theorem fmtOct04Int_no_space (v : Int) (h1 : -(2 ^ 31 : Int) ≤ v) (h2 : v < 2 ^ 31) :
    (32 : UInt8) ∉ fmtOct04Int v := by
  unfold fmtOct04Int
  by_cases hv : v < 0
  · rw [if_pos hv]
    obtain ⟨_, hd, _⟩ := @fmtUint_spec 8 (by decide) (by decide) (-v).toNat (by omega)
    have := allDigits_no_space (allDigits_append (allDigits_zeros 8
      (3 - (fmtUint 8 (-v).toNat).length) (by decide)) hd)
    simp only [List.mem_cons, not_or]
    exact ⟨by decide, this⟩
  · rw [if_neg hv]
    exact allDigits_no_space (fmtOct04_spec v.toNat (by omega)).2.1

theorem ParseNewFile_ok_fields (line : GoString) (c : NewFileCmd)
    (h : ParseNewFile line = .ok c) :
    (-(2 ^ 31 : Int) ≤ c.Mode ∧ c.Mode < 2 ^ 31) ∧ c.Length < 2 ^ 64 := by
  unfold ParseNewFile at h
  simp only at h
  split_ifs at h with hlen
  split at h
  · simp at h
  · rename_i mode hmode
    split at h
    · simp at h
    · rename_i length hlength
      simp only [Except.ok.injEq] at h
      subst h
      exact ⟨ParseInt_ok_range _ _ hmode, ParseUint_ok_lt _ _ hlength⟩

theorem ParseNewFile_of_format (c : NewFileCmd) (h1 : -(2 ^ 31 : Int) ≤ c.Mode)
    (h2 : c.Mode < 2 ^ 31) (h3 : c.Length < 2 ^ 64) : ParseNewFile c.format = .ok c := by
  have hs : SplitN c.format 32 3 = [fmtOct04Int c.Mode, fmtUint 10 c.Length, c.Name] :=
    SplitN_three c.Name (fmtOct04Int_no_space c.Mode h1 h2)
      (allDigits_no_space (@fmtUint_spec 10 (by decide) (by decide) c.Length h3).2.1)
  unfold ParseNewFile
  simp only [hs, List.length_cons, List.length_nil, ne_eq, not_true_eq_false, if_false,
    List.getD_cons_zero, List.getD_cons_succ, ParseInt_fmtOct04Int c.Mode h1 h2,
    ParseUint_fmtUint c.Length h3]

/-- Claim C11: for every line on which ParseNewFile succeeds with the result c, the text of c
under the template "%04o %d %s" parses again, to the same c, and so the text of what was parsed
the second time is the same text once more: parsing followed by serialising is idempotent. -/
theorem ParseNewFile_format_idempotent (line : GoString) (c : NewFileCmd)
    (h : ParseNewFile line = .ok c) :
    ParseNewFile c.format = .ok c ∧
    ∀ c2, ParseNewFile c.format = .ok c2 → c2 = c ∧ c2.format = c.format := by
  obtain ⟨⟨h1, h2⟩, h3⟩ := ParseNewFile_ok_fields line c h
  have hp := ParseNewFile_of_format c h1 h2 h3
  refine ⟨hp, fun c2 h2 => ?_⟩
  rw [hp] at h2
  simp only [Except.ok.injEq] at h2
  subst h2
  exact ⟨rfl, rfl⟩

theorem ParseNewFile_format_idempotent_witness :
    ParseNewFile (str "-7 0017 a  b") = .ok { Mode := -7, Length := 17, Name := str "a  b" } ∧
    NewFileCmd.format { Mode := -7, Length := 17, Name := str "a  b" } = str "-007 17 a  b" ∧
    ParseNewFile (str "-007 17 a  b") = .ok { Mode := -7, Length := 17, Name := str "a  b" } := by
  have h0 : ParseNewFile (str "-7 0017 a  b")
      = .ok { Mode := -7, Length := 17, Name := str "a  b" } := by decide!
  have hf : NewFileCmd.format { Mode := -7, Length := 17, Name := str "a  b" }
      = str "-007 17 a  b" := by decide!
  have h := (ParseNewFile_format_idempotent _ _ h0).1
  rw [hf] at h
  exact ⟨h0, hf, h⟩

/-- Claim C12: from a receiver state with an empty stack and finished false, the first pop
succeeds and sets finished, and every pop after it, however many, fails with "empty path" and
leaves the state as it is; the sink's processCommand on the byte E is that pop. -/
theorem pop_accepts_one_extra (st : State) (hp : st.path = []) (hf : st.finished = false) :
    st.pop = (none, { path := [], finished := true }) ∧
    (∀ k : Nat, (Nat.iterate (fun s : State => s.pop.2) k st.pop.2).pop
      = (some (.text (str "empty path")), { path := [], finished := true })) ∧
    (∀ (cmd : Parameters) (fs : FileSystem) (s : State) (line : GoString) (env : Env),
      processCommand cmd fs s 69 line env = (.ok s.pop, env)) := by
  obtain ⟨path, finished⟩ := st
  simp only at hp hf
  subst hp hf
  have h1 : State.pop { path := [], finished := false }
      = (none, { path := [], finished := true }) := by decide
  have h2 : State.pop { path := [], finished := true }
      = (some (.text (str "empty path")), { path := [], finished := true }) := by decide
  refine ⟨h1, ?_, ?_⟩
  · intro k
    rw [h1]
    have hk : Nat.iterate (fun s : State => s.pop.2) k { path := [], finished := true }
        = { path := [], finished := true } := by
      induction k with
      | zero => rfl
      | succ k ih => rw [Function.iterate_succ_apply, h2]; exact ih
    rw [hk, h2]
  · intro cmd fs s line env
    unfold processCommand
    simp only
    rw [if_neg (by decide), if_neg (by decide), if_neg (by decide), if_neg (by decide),
      if_pos trivial]
    rfl

theorem pop_accepts_one_extra_witness :
    (State.pop { path := [], finished := false }).1 = none ∧
    (State.pop (State.pop { path := [], finished := false }).2).1
      = some (.text (str "empty path")) := by
  have h := pop_accepts_one_extra { path := [], finished := false } rfl rfl
  refine ⟨by rw [h.1], ?_⟩
  have h2 := h.2.1 0
  simp only [Function.iterate_zero, id_eq] at h2
  rw [h2]

theorem osMkdirAll_isDir (w : World) (p t : GoString) (perm : Nat) (h : w.isDir t = true) :
    (osMkdirAll w p perm).2.isDir t = true := by
  unfold osMkdirAll
  split_ifs
  · exact h
  · exact h
  · exact h
  · simp only [World.isDir, List.find?_append, Bool.decide_or, Bool.or_eq_true,
      decide_eq_true_eq, Option.isSome_or] at h ⊢
    rcases h with h | h | h
    · exact Or.inl h
    · exact Or.inr (Or.inl h)
    · exact Or.inr (Or.inr (Or.inl h))

theorem osMkdirAll_makes_dir (w : World) (p : GoString) (perm : Nat)
    (h : (osMkdirAll w p perm).1 = none) : (osMkdirAll w p perm).2.isDir p = true := by
  unfold osMkdirAll at h ⊢
  split_ifs at h ⊢ with h1 h2 h3
  · exact h1
  · simp [World.isDir, List.find?_append]

/-- The sink on a D frame, with the local backend. -/
theorem processCommand_D (cmd : Parameters) (t : GoString) (ts : List GoString) (st : State)
    (line : GoString) (d : NewFileCmd) (s : Env)
    (hT : cmd.Flags.Target = t :: ts) (hp : ParseNewFile line = .ok d) :
    processCommand cmd LocalFS st 68 line s
      = (.ok ((osMkdirAll s.world
                (if s.world.isDir t then st.makePath t d.Name else t) (modePerm d.Mode)).1,
              if s.world.isDir t then st.push d.Name else st),
          { s with
            world := (osMkdirAll s.world
                (if s.world.isDir t then st.makePath t d.Name else t) (modePerm d.Mode)).2,
            calls := s.calls ++ [Call.IsDir t,
              Call.MkDir (if s.world.isDir t then st.makePath t d.Name else t) d.Mode] }) := by
  unfold processCommand
  simp only
  rw [if_neg (by decide), if_neg (by decide), if_neg (by decide), if_pos trivial, hp]
  simp only [receiveDir, hT, M_bind_eq, M.bind, called, onWorld, LocalFS, utilsIsDir]
  cases hm : (osMkdirAll s.world (if s.world.isDir t then st.makePath t d.Name else t)
      (modePerm d.Mode)) with
  | mk e w2 =>
    cases e <;> simp [hm]

theorem processCommand_D_bad (cmd : Parameters) (fs : FileSystem) (st : State)
    (line : GoString) (e : Error) (s : Env) (hp : ParseNewFile line = .error e) :
    processCommand cmd fs st 68 line s = (.ok (some e, st), s) := by
  unfold processCommand
  simp only
  rw [if_neg (by decide), if_neg (by decide), if_neg (by decide), if_pos trivial, hp]
  rfl

theorem processCommand_E (cmd : Parameters) (fs : FileSystem) (st : State) (line : GoString)
    (s : Env) : processCommand cmd fs st 69 line s = (.ok st.pop, s) := by
  unfold processCommand
  simp only
  rw [if_neg (by decide), if_neg (by decide), if_neg (by decide), if_neg (by decide),
    if_pos trivial]
  rfl

theorem processFrames_cons_some (cmd : Parameters) (fs : FileSystem) (b : UInt8)
    (line : GoString) (rest : List (UInt8 × GoString)) (st st1 : State) (s s1 : Env) (e : Error)
    (h : processCommand cmd fs st b line s = (.ok (some e, st1), s1)) :
    processFrames cmd fs ((b, line) :: rest) st s = (.ok (some e, st1), s1) := by
  simp only [processFrames, M_bind_eq]
  rw [M_bind_ok h]
  rfl

theorem processFrames_cons_none (cmd : Parameters) (fs : FileSystem) (b : UInt8)
    (line : GoString) (rest : List (UInt8 × GoString)) (st st1 : State) (s s1 : Env)
    (h : processCommand cmd fs st b line s = (.ok (none, st1), s1)) :
    processFrames cmd fs ((b, line) :: rest) st s = processFrames cmd fs rest st1 s1 := by
  simp only [processFrames, M_bind_eq]
  rw [M_bind_ok h]

/-- The sink with the local backend on D and E frames, while the target is a directory: every D
frame adds a segment to the stack and every E frame takes one off, so what lies below the
nesting depth stays. -/
theorem processFrames_nesting (cmd : Parameters) (t : GoString) (ts : List GoString)
    (hT : cmd.Flags.Target = t :: ts) (frames : List (UInt8 × GoString)) :
    ∀ (d d1 : Nat) (st : State) (s : Env), s.world.isDir t = true → st.finished = false →
      depthAfter frames d = some d1 → d ≤ st.path.length →
      ∃ err st1 s1, processFrames cmd LocalFS frames st s = (.ok (err, st1), s1) ∧
        (err = none → st1.finished = false ∧ st1.path.length = st.path.length - d + d1 ∧
          st1.path.take (st.path.length - d) = st.path.take (st.path.length - d) ∧
          s1.world.isDir t = true) := by
  induction frames with
  | nil =>
    intro d d1 st s hw hf hd hle
    simp only [depthAfter, Option.some.injEq] at hd
    subst hd
    exact ⟨none, st, s, rfl, fun _ => ⟨hf, by omega, rfl, hw⟩⟩
  | cons fr rest ih =>
    intro d d1 st s hw hf hd hle
    obtain ⟨b, line⟩ := fr
    unfold depthAfter at hd
    by_cases hb : b = 68
    · subst hb
      rw [if_pos rfl] at hd
      cases hp : ParseNewFile line with
      | error e =>
        exact ⟨some e, st, s,
          processFrames_cons_some _ _ _ _ _ _ _ _ _ _ (processCommand_D_bad cmd _ st line e s hp),
          fun h => by cases h⟩
      | ok dc =>
        have hD := processCommand_D cmd t ts st line dc s hT hp
        simp only [hw, if_true] at hD
        cases hm : (osMkdirAll s.world (st.makePath t dc.Name) (modePerm dc.Mode)).1 with
        | some e =>
          rw [hm] at hD
          exact ⟨some e, _, _, processFrames_cons_some _ _ _ _ _ _ _ _ _ _ hD,
            fun h => by cases h⟩
        | none =>
          rw [hm] at hD
          rw [processFrames_cons_none _ _ _ _ _ _ _ _ _ hD]
          obtain ⟨err, st1, s1, hrun, hres⟩ := ih (d + 1) d1 (st.push dc.Name)
            { s with
              world := (osMkdirAll s.world (st.makePath t dc.Name) (modePerm dc.Mode)).2,
              calls := s.calls ++ [Call.IsDir t, Call.MkDir (st.makePath t dc.Name) dc.Mode] }
            (osMkdirAll_isDir s.world (st.makePath t dc.Name) t (modePerm dc.Mode) hw) hf hd
            (by simp only [State.push, List.length_append, List.length_singleton]; omega)
          refine ⟨err, st1, s1, hrun, fun he => ?_⟩
          obtain ⟨h1, h2, h3, h4⟩ := hres he
          simp only [State.push, List.length_append, List.length_singleton] at h2 h3
          refine ⟨h1, by omega, ?_, h4⟩
          have e1 : st.path.length + 1 - (d + 1) = st.path.length - d := by omega
          rw [e1] at h3
          rw [h3, List.take_append_of_le_length (by omega)]
    · rw [if_neg hb] at hd
      by_cases hb2 : b = 69
      · subst hb2
        rw [if_pos rfl] at hd
        by_cases hd0 : d = 0
        · rw [if_pos hd0] at hd; cases hd
        · rw [if_neg hd0] at hd
          have hE := processCommand_E cmd LocalFS st line s
          have hpop : st.pop = (none, { st with path := st.path.take (st.path.length - 1) }) := by
            unfold State.pop
            rw [if_neg (by simp [hf]), if_neg (by omega)]
          rw [hpop] at hE
          rw [processFrames_cons_none _ _ _ _ _ _ _ _ _ hE]
          obtain ⟨err, st1, s1, hrun, hres⟩ := ih (d - 1) d1
            { st with path := st.path.take (st.path.length - 1) } s hw hf hd
            (by simp only [List.length_take]; omega)
          refine ⟨err, st1, s1, hrun, fun he => ?_⟩
          obtain ⟨h1, h2, h3, h4⟩ := hres he
          simp only [List.length_take] at h2 h3
          have e1 : min (st.path.length - 1) st.path.length - (d - 1) = st.path.length - d := by
            omega
          rw [e1] at h3
          refine ⟨h1, by omega, ?_, h4⟩
          rw [h3, List.take_take]
          congr 1
          omega
      · rw [if_neg hb2] at hd; cases hd

/-- Claim C13, as amended: for every well-nested list of D and E frames handled by the sink with
the local backend, from a receiver state with finished false (the initial one, with the stack
".", is such a state) and with the target an existing directory, the sink comes to an end of the
list or to a first error; when no frame fails, the receiver state at the end is the one at the
start: the same stack, and finished false. -/
theorem balanced_frames_restore_state (cmd : Parameters) (t : GoString) (ts : List GoString)
    (frames : List (UInt8 × GoString)) (st : State) (s : Env)
    (hT : cmd.Flags.Target = t :: ts) (hbal : balanced frames)
    (hw : s.world.isDir t = true) (hf : st.finished = false) :
    ∃ err st1 s1, processFrames cmd LocalFS frames st s = (.ok (err, st1), s1) ∧
      (err = none → st1 = st) := by
  obtain ⟨err, st1, s1, hrun, hres⟩ :=
    processFrames_nesting cmd t ts hT frames 0 0 st s hw hf hbal (Nat.zero_le _)
  refine ⟨err, st1, s1, hrun, fun he => ?_⟩
  obtain ⟨h1, h2, h3, _⟩ := hres he
  simp only [Nat.sub_zero, Nat.add_zero] at h2 h3
  rw [← h2, List.take_length, h2, List.take_length] at h3
  obtain ⟨p1, f1⟩ := st1
  obtain ⟨p, f⟩ := st
  simp only at h1 h3 hf
  rw [h1, h3, hf]

theorem balanced_frames_restore_state_witness :
    ∃ s1, processFrames (sinkCommand (str "/out")) LocalFS
        [(68, str "0755 0 a"), (68, str "0700 0 b"), (69, []), (69, [])]
        { path := [str "."], finished := false }
        (Env.start (World.withDirs [str "/out"]) [] false)
      = (.ok (none, { path := [str "."], finished := false }), s1) := by
  obtain ⟨err, st1, s1, hrun, hres⟩ := balanced_frames_restore_state (sinkCommand (str "/out"))
    (str "/out") [] [(68, str "0755 0 a"), (68, str "0700 0 b"), (69, []), (69, [])]
    { path := [str "."], finished := false } (Env.start (World.withDirs [str "/out"]) [] false)
    rfl (by decide) (by decide!) rfl
  have he : err = none := by
    have h1 : (processFrames (sinkCommand (str "/out")) LocalFS
        [(68, str "0755 0 a"), (68, str "0700 0 b"), (69, []), (69, [])]
        { path := [str "."], finished := false }
        (Env.start (World.withDirs [str "/out"]) [] false)).1
          = .ok (none, { path := [str "."], finished := false }) := by decide!
    rw [hrun] at h1
    simp only [Res.ok.injEq, Prod.mk.injEq] at h1
    exact h1.1
  subst he
  rw [hres rfl] at hrun
  exact ⟨s1, hrun⟩

/-- When the target is not a directory, the first D frame makes it one and adds nothing to the
stack: a well-nested list of frames that the sink handles without error then ends with the
stack empty, the segment "." taken off by the E frame that closes the first D frame. -/
theorem balanced_frames_new_target (cmd : Parameters) (t : GoString) (ts : List GoString)
    (line : GoString) (rest : List (UInt8 × GoString)) (s : Env)
    (hT : cmd.Flags.Target = t :: ts) (hbal : balanced ((68, line) :: rest))
    (hw : s.world.isDir t = false) :
    ∃ err st1 s1, processFrames cmd LocalFS ((68, line) :: rest)
          { path := [str "."], finished := false } s = (.ok (err, st1), s1) ∧
      (err = none → st1 = { path := [], finished := false }) := by
  have hd : depthAfter rest 1 = some 0 := by
    have h := hbal
    unfold balanced depthAfter at h
    rw [if_pos rfl] at h
    exact h
  cases hp : ParseNewFile line with
  | error e =>
    exact ⟨some e, _, s,
      processFrames_cons_some _ _ _ _ _ _ _ _ _ _ (processCommand_D_bad cmd _ _ line e s hp),
      fun h => by cases h⟩
  | ok dc =>
    have hD := processCommand_D cmd t ts { path := [str "."], finished := false } line dc s hT hp
    simp only [hw, Bool.false_eq_true, if_false] at hD
    cases hm : (osMkdirAll s.world t (modePerm dc.Mode)).1 with
    | some e =>
      rw [hm] at hD
      exact ⟨some e, _, _, processFrames_cons_some _ _ _ _ _ _ _ _ _ _ hD, fun h => by cases h⟩
    | none =>
      have hdir := osMkdirAll_makes_dir s.world t (modePerm dc.Mode) hm
      rw [hm] at hD
      rw [processFrames_cons_none _ _ _ _ _ _ _ _ _ hD]
      obtain ⟨err, st1, s1, hrun, hres⟩ := processFrames_nesting cmd t ts hT rest 1 0
        { path := [str "."], finished := false }
        { s with world := (osMkdirAll s.world t (modePerm dc.Mode)).2,
                 calls := s.calls ++ [Call.IsDir t, Call.MkDir t dc.Mode] }
        hdir rfl hd (by simp)
      refine ⟨err, st1, s1, hrun, fun he => ?_⟩
      obtain ⟨h1, h2, _, _⟩ := hres he
      simp only [List.length_singleton, Nat.sub_self, Nat.add_zero] at h2
      obtain ⟨p1, f1⟩ := st1
      simp only at h1 h2
      rw [h1, List.length_eq_zero.mp h2]

/-- Claim C13 fails as stated: with a target that is not a directory yet, the sink handles the
frames D, E without error (the backend makes the directory /out), and the receiver state that
began with the stack "." ends with the stack empty. -/
theorem balanced_frames_counterexample :
    balanced [(68, str "0755 0 a"), (69, [])] ∧
    (processFrames (sinkCommand (str "/out")) LocalFS [(68, str "0755 0 a"), (69, [])]
        { path := [str "."], finished := false } (Env.start World.empty [] false)).1
      = .ok (none, { path := [], finished := false }) ∧
    (processFrames (sinkCommand (str "/out")) LocalFS [(68, str "0755 0 a"), (69, [])]
        { path := [str "."], finished := false } (Env.start World.empty [] false)).2.calls
      = [.IsDir (str "/out"), .MkDir (str "/out") 0o755] := by
  refine ⟨by decide, ?_, ?_⟩ <;> decide!

theorem setErr_ne_none (sc : Scanner) (e : Error) : (sc.setErr e).err ≠ none := by
  unfold Scanner.setErr
  split_ifs with h
  · simp
  · intro h2
    exact h (Or.inl h2)

theorem ScanLines_newline (data : List UInt8) (atEOF : Bool) (h : (10 : UInt8) ∈ data) :
    (ScanLines data atEOF).2.isSome = true := by
  unfold ScanLines
  have hne : data ≠ [] := List.ne_nil_of_mem h
  rw [if_neg (by simp [hne]), if_pos h]
  rfl

/-- One turn of the loop of Scan, by its parts. -/
theorem scanLoop_succ (fuel : Nat) (s : Env) :
    scanLoop (fuel + 1) s =
      if (scanFind s.scanner).1 = true then
        (.ok (), { s with scanner := (scanFind s.scanner).2 })
      else if (scanFind s.scanner).2.err ≠ none then
        (.ok (), { s with scanner := { (scanFind s.scanner).2 with buf := [], start := 0 } })
      else if (scanShift (scanFind s.scanner).2).start
            + (scanShift (scanFind s.scanner).2).buf.length
            = (scanShift (scanFind s.scanner).2).cap
          ∧ (scanShift (scanFind s.scanner).2).cap ≥ 65536 then
        (.ok (), { s with scanner := (scanShift (scanFind s.scanner).2).setErr .ErrTooLong })
      else
        M.bind (scanRead 100) (fun _ => scanLoop fuel)
          { s with scanner := scanGrow (scanShift (scanFind s.scanner).2) } := by
  conv => lhs; unfold scanLoop
  unfold scanFind scanShift scanGrow
  by_cases h : s.scanner.buf ≠ [] ∨ s.scanner.err ≠ none
  · simp only [h, if_true]
  · simp only [h, if_false]

theorem scanFind_err (sc : Scanner) : (scanFind sc).2.err = sc.err := by
  unfold scanFind
  split_ifs <;> rfl

theorem scanFind_newline (sc : Scanner) (h : (10 : UInt8) ∈ sc.buf) :
    (scanFind sc).1 = true := by
  unfold scanFind
  rw [if_pos (Or.inl (List.ne_nil_of_mem h))]
  exact ScanLines_newline _ _ h

theorem scanFind_none (sc : Scanner) (he : sc.err = none) (h : (10 : UInt8) ∉ sc.buf) :
    (scanFind sc).1 = false ∧ (scanFind sc).2.buf = sc.buf := by
  have hsl : ScanLines sc.buf false = (0, none) := by
    unfold ScanLines
    simp [h]
  unfold scanFind
  split_ifs
  · simp [he, hsl]
  · exact ⟨rfl, rfl⟩

theorem scanShift_keeps (sc : Scanner) :
    (scanShift sc).err = sc.err ∧ (scanShift sc).buf = sc.buf := by
  unfold scanShift
  split_ifs <;> exact ⟨rfl, rfl⟩

theorem scanGrow_keeps (sc : Scanner) :
    (scanGrow sc).err = sc.err ∧ (scanGrow sc).buf = sc.buf := by
  unfold scanGrow
  split_ifs <;> exact ⟨rfl, rfl⟩

theorem pending_cons (c : List UInt8) (rest : List (List UInt8)) (cl br : Bool)
    (o : List (List UInt8)) :
    Chan.pending ⟨c :: rest, cl, o, br⟩ = c.length + Chan.pending ⟨rest, cl, o, br⟩ + 1 := by
  simp [Chan.pending]
  omega

/-- One read of the scanner: it waits on an open channel that holds nothing; otherwise it
returns, the bytes pending are no more than before and fewer when bytes arrived, and an error
is noted when none arrived and the read counts. -/
theorem scanReadOnce_spec (s : Env) :
    (scanReadOnce s = (.blocked, s) ∧ s.ch.inp = [] ∧ s.ch.closed = false) ∨
    ∃ got s1, scanReadOnce s = (.ok got, s1) ∧ s1.ch.closed = s.ch.closed ∧
      s1.ch.pending ≤ s.ch.pending ∧
      (got = true → s1.scanner.err ≠ none ∨ s1.ch.pending < s.ch.pending) ∧
      (got = false → s1.scanner.buf = s.scanner.buf) ∧
      (s.lineReady → s1.lineReady) := by
  obtain ⟨⟨inp, cl, o, br⟩, w, sc, p, a, cs, k⟩ := s
  cases inp with
  | nil =>
    cases cl with
    | false => left; exact ⟨rfl, rfl, rfl⟩
    | true =>
      right
      refine ⟨true, _, rfl, rfl, le_refl _, ?_, ?_, ?_⟩
      · exact fun _ => Or.inl (setErr_ne_none _ _)
      · intro h; cases h
      · exact fun _ => Or.inl rfl
  | cons c rest =>
    right
    refine ⟨decide ((c.take (sc.cap - (sc.start + sc.buf.length))).length > 0), _, rfl, rfl,
      ?_, ?_, ?_, ?_⟩
    · simp only
      split_ifs with hd
      · rw [pending_cons]; simp only [Chan.pending]; omega
      · rw [pending_cons, pending_cons]
        simp only [List.length_drop]
        omega
    · intro hg
      right
      simp only [decide_eq_true_eq, List.length_take, gt_iff_lt] at hg
      simp only
      split_ifs with hd
      · rw [pending_cons]; simp only [Chan.pending]; omega
      · rw [pending_cons, pending_cons]
        simp only [List.length_drop]
        omega
    · intro hg
      simp only [decide_eq_false_iff_not, gt_iff_lt, not_lt, Nat.le_zero,
        List.length_eq_zero] at hg
      simp only [hg, List.append_nil]
    · intro hr
      rcases hr with hr | hr | hr
      · exact Or.inl hr
      · exact Or.inr (Or.inl (List.mem_append_left _ hr))
      · simp only [List.flatten_cons, List.mem_append] at hr
        rcases hr with hr | hr
        · rw [← List.take_append_drop (sc.cap - (sc.start + sc.buf.length)) c,
            List.mem_append] at hr
          rcases hr with hr | hr
          · exact Or.inr (Or.inl (List.mem_append_right _ hr))
          · refine Or.inr (Or.inr ?_)
            simp only
            rw [if_neg (List.ne_nil_of_mem hr)]
            simp only [List.flatten_cons, List.mem_append]
            exact Or.inl hr
        · refine Or.inr (Or.inr ?_)
          simp only
          split_ifs
          · exact hr
          · simp only [List.flatten_cons, List.mem_append]
            exact Or.inr hr

/-- The read loop of Scan: it waits only when the channel is open and holds nothing; otherwise
it returns with an error noted or fewer bytes pending. -/
theorem scanRead_spec (n : Nat) : ∀ s : Env,
    ((scanRead n s).1 = .blocked ∧ ¬ (s.lineReady ∧ (10 : UInt8) ∉ s.scanner.buf)) ∨
    ∃ s1, scanRead n s = (.ok (), s1) ∧ s1.ch.closed = s.ch.closed ∧
      (s1.scanner.err ≠ none ∨ s1.ch.pending < s.ch.pending) ∧
      (s.lineReady → s1.lineReady) := by
  induction n with
  | zero =>
    intro s
    rcases scanReadOnce_spec s with ⟨hb, hi, hc⟩ | ⟨got, s1, hr, hcl, hle, hgot, hbuf, hready⟩
    · left
      refine ⟨by simp only [scanRead]; rw [M_bind_blocked hb], ?_⟩
      rintro ⟨h1 | h1 | h1, h2⟩
      · rw [hc] at h1; cases h1
      · exact h2 h1
      · rw [hi] at h1; simp at h1
    · right
      simp only [scanRead]
      rw [M_bind_ok hr]
      cases got with
      | true => exact ⟨s1, rfl, hcl, hgot rfl, hready⟩
      | false =>
        refine ⟨_, rfl, hcl, Or.inl (setErr_ne_none _ _), fun h => ?_⟩
        rcases hready h with h1 | h1 | h1
        · exact Or.inl h1
        · refine Or.inr (Or.inl ?_)
          show (10 : UInt8) ∈ (s1.scanner.setErr .ErrNoProgress).buf
          unfold Scanner.setErr
          split_ifs <;> exact h1
        · exact Or.inr (Or.inr h1)
  | succ n ih =>
    intro s
    rcases scanReadOnce_spec s with ⟨hb, hi, hc⟩ | ⟨got, s1, hr, hcl, hle, hgot, hbuf, hready⟩
    · left
      refine ⟨by simp only [scanRead]; rw [M_bind_blocked hb], ?_⟩
      rintro ⟨h1 | h1 | h1, h2⟩
      · rw [hc] at h1; cases h1
      · exact h2 h1
      · rw [hi] at h1; simp at h1
    · simp only [scanRead]
      rw [M_bind_ok hr]
      cases got with
      | true => exact Or.inr ⟨s1, rfl, hcl, hgot rfl, hready⟩
      | false =>
        simp only [Bool.false_eq_true, if_false]
        rcases ih s1 with ⟨hb2, hn2⟩ | ⟨s2, hr2, hcl2, hp2, hready2⟩
        · left
          refine ⟨hb2, fun ⟨h1, h2⟩ => hn2 ⟨hready h1, ?_⟩⟩
          rw [hbuf rfl]
          exact h2
        · right
          refine ⟨s2, hr2, hcl2.trans hcl, ?_, fun h => hready2 (hready h)⟩
          rcases hp2 with h | h
          · exact Or.inl h
          · exact Or.inr (Nat.lt_of_lt_of_le h hle)

/-- The loop of Scan comes to an end within the turns it is given: it returns, or it waits for
the peer; and it does not wait when the peer has closed its end or a newline is at hand. -/
theorem scanLoop_total (fuel : Nat) : ∀ s : Env,
    (if s.scanner.err ≠ none then 1 else s.ch.pending + 2) ≤ fuel →
    ((∃ s1, scanLoop fuel s = (.ok (), s1)) ∨ (scanLoop fuel s).1 = .blocked) ∧
    (s.lineReady → ∃ s1, scanLoop fuel s = (.ok (), s1)) := by
  induction fuel with
  | zero =>
    intro s h
    split_ifs at h <;> omega
  | succ fuel ih =>
    intro s hfuel
    rw [scanLoop_succ]
    by_cases h1 : (scanFind s.scanner).1 = true
    · rw [if_pos h1]
      exact ⟨Or.inl ⟨_, rfl⟩, fun _ => ⟨_, rfl⟩⟩
    · rw [if_neg h1]
      by_cases h2 : (scanFind s.scanner).2.err ≠ none
      · rw [if_pos h2]
        exact ⟨Or.inl ⟨_, rfl⟩, fun _ => ⟨_, rfl⟩⟩
      · rw [if_neg h2]
        split_ifs with h3
        · exact ⟨Or.inl ⟨_, rfl⟩, fun _ => ⟨_, rfl⟩⟩
        · have herr : s.scanner.err = none := by
            rw [scanFind_err] at h2
            exact not_not.mp h2
          have hnl : (10 : UInt8) ∉ s.scanner.buf := fun h => h1 (scanFind_newline _ h)
          have hbuf : (scanGrow (scanShift (scanFind s.scanner).2)).buf = s.scanner.buf := by
            rw [(scanGrow_keeps _).2, (scanShift_keeps _).2, (scanFind_none _ herr hnl).2]
          have herr2 : (scanGrow (scanShift (scanFind s.scanner).2)).err = none := by
            rw [(scanGrow_keeps _).1, (scanShift_keeps _).1, scanFind_err, herr]
          rw [if_neg (by simp [herr])] at hfuel
          rcases scanRead_spec 100
              { s with scanner := scanGrow (scanShift (scanFind s.scanner).2) } with
            ⟨hb, hn⟩ | ⟨s1, hr, hcl, hp, hready⟩
          · refine ⟨Or.inr ?_, fun hrd => absurd ⟨?_, ?_⟩ hn⟩
            · generalize hx : scanRead 100 _ = x at hb
              obtain ⟨r, e⟩ := x
              simp only at hb
              subst hb
              rw [M_bind_blocked hx]
            · rcases hrd with h | h | h
              · exact Or.inl h
              · exact absurd h hnl
              · exact Or.inr (Or.inr h)
            · show (10 : UInt8) ∉ (scanGrow (scanShift (scanFind s.scanner).2)).buf
              rw [hbuf]; exact hnl
          · rw [M_bind_ok hr]
            have hmu : (if s1.scanner.err ≠ none then 1 else s1.ch.pending + 2) ≤ fuel := by
              split_ifs with he
              · omega
              · rcases hp with h | h
                · exact absurd h he
                · have : s1.ch.pending < s.ch.pending := h
                  omega
            obtain ⟨ha, hb⟩ := ih s1 hmu
            refine ⟨ha, fun hrd => hb (hready ?_)⟩
            rcases hrd with h | h | h
            · exact Or.inl h
            · exact absurd h hnl
            · exact Or.inr (Or.inr h)

/-- The method Scan returns or waits for the peer, and it returns when the peer has closed its
end or a newline is at hand. -/
theorem Scan_total (s : Env) :
    ((∃ s1, Scan s = (.ok (), s1)) ∨ (Scan s).1 = .blocked) ∧
    (s.lineReady → ∃ s1, Scan s = (.ok (), s1)) := by
  unfold Scan
  exact scanLoop_total _ s (by split_ifs <;> omega)

/-- The ack reader after a Read that gave the byte b. -/
theorem readerRead_cons (b : UInt8) (c : List UInt8) (rest : List (List UInt8)) (s : Env)
    (h : s.ch.inp = (b :: c) :: rest) :
    readerRead s =
      if b = 0 then
        (.ok none, { s with ch := { s.ch with inp := if c = [] then rest else c :: rest } })
      else if b = 1 ∨ b = 2 then
        M.bind Scan (fun _ => fun s1 =>
          (.ok (some (match s1.scanner.Err with
            | some e => e
            | none => Errorf0 s1.scanner.token)), s1))
          { s with ch := { s.ch with inp := if c = [] then rest else c :: rest } }
      else
        (.ok (some (.text (str "unrecognized command: " ++ fmtSharpVByte b))),
          { s with ch := { s.ch with inp := if c = [] then rest else c :: rest } }) := by
  have hread : chRead 1 s = (.ok ([b], none),
      { s with ch := { s.ch with inp := if c = [] then rest else c :: rest } }) := by
    unfold chRead
    rw [h]
    rfl
  unfold readerRead
  rw [M_bind_eq, M_bind_ok hread]
  simp only [List.length_singleton, Nat.lt_irrefl, if_false, List.headD_cons, OKByte, WarnByte,
    ErrByte]
  generalize ({ s with ch := { s.ch with inp := if c = [] then rest else c :: rest } } : Env)
    = s2
  by_cases h0 : b = 0
  · rw [if_pos h0, if_pos h0]
    rfl
  · rw [if_neg h0, if_neg h0]
    by_cases h12 : b = 1 ∨ b = 2
    · rw [if_pos h12, if_pos h12]
      simp only [M_bind_eq, M.bind]
      cases hS : Scan s2 with
      | mk r s1 =>
        cases r with
        | ok u =>
          simp only
          cases hE : s1.scanner.Err <;> rfl
        | blocked => rfl
        | panics => rfl
        | fuel => rfl
    · rw [if_neg h12, if_neg h12]
      rfl

/-- Claim C14: the method read of the ack reader returns success exactly when the Read on the
channel gives the byte 0x00, and then that one byte is taken from the channel and nothing else
changes. After any other first byte it returns an error: at once for a byte other than 0x01 and
0x02, and after the scan of a line for these two, where it waits only as long as the peer has
neither sent a newline nor closed its end. -/
theorem readerRead_ack (s : Env) :
    ((readerRead s).1 = .ok none ↔ ∃ c rest, s.ch.inp = (0 :: c) :: rest) ∧
    (∀ c rest, s.ch.inp = (0 :: c) :: rest →
      readerRead s
        = (.ok none, { s with ch := { s.ch with inp := if c = [] then rest else c :: rest } })) ∧
    (∀ b c rest, s.ch.inp = (b :: c) :: rest → b ≠ 0 →
      ((∃ e, (readerRead s).1 = .ok (some e)) ∨
        ((b = 1 ∨ b = 2) ∧ (readerRead s).1 = .blocked)) ∧
      (s.ch.closed = true ∨ (10 : UInt8) ∈ c ∨ (10 : UInt8) ∈ rest.flatten ∨ (b ≠ 1 ∧ b ≠ 2) →
        ∃ e, (readerRead s).1 = .ok (some e))) := by
  have hother : ∀ b c rest, s.ch.inp = (b :: c) :: rest → b ≠ 0 →
      ((∃ e, (readerRead s).1 = .ok (some e)) ∨
        ((b = 1 ∨ b = 2) ∧ (readerRead s).1 = .blocked)) ∧
      (s.ch.closed = true ∨ (10 : UInt8) ∈ c ∨ (10 : UInt8) ∈ rest.flatten ∨ (b ≠ 1 ∧ b ≠ 2) →
        ∃ e, (readerRead s).1 = .ok (some e)) := by
    intro b c rest h hb
    rw [readerRead_cons b c rest s h, if_neg hb]
    by_cases h12 : b = 1 ∨ b = 2
    · rw [if_pos h12]
      obtain ⟨hA, hB⟩ := Scan_total
        { s with ch := { s.ch with inp := if c = [] then rest else c :: rest } }
      have hok : ∀ s1, Scan { s with ch := { s.ch with inp := if c = [] then rest else c :: rest } }
          = (.ok (), s1) → ∃ e, (M.bind Scan (fun _ => fun s1 =>
            ((.ok (some (match s1.scanner.Err with
              | some e => e
              | none => Errorf0 s1.scanner.token)), s1) : Res (Option Error) × Env))
            { s with ch := { s.ch with inp := if c = [] then rest else c :: rest } }).1
            = .ok (some e) := by
        intro s1 hs
        rw [M_bind_ok hs]
        exact ⟨_, rfl⟩
      constructor
      · rcases hA with ⟨s1, hs⟩ | hbl
        · exact Or.inl (hok s1 hs)
        · right
          refine ⟨h12, ?_⟩
          generalize hx : Scan _ = x at hbl
          obtain ⟨r, e⟩ := x
          simp only at hbl
          subst hbl
          rw [M_bind_blocked hx]
      · intro hready
        have hr : Env.lineReady
            { s with ch := { s.ch with inp := if c = [] then rest else c :: rest } } := by
          rcases hready with h1 | h1 | h1 | h1
          · exact Or.inl h1
          · refine Or.inr (Or.inr ?_)
            simp only
            rw [if_neg (List.ne_nil_of_mem h1)]
            simp only [List.flatten_cons, List.mem_append]
            exact Or.inl h1
          · refine Or.inr (Or.inr ?_)
            simp only
            split_ifs
            · exact h1
            · simp only [List.flatten_cons, List.mem_append]
              exact Or.inr h1
          · rcases h12 with h | h
            · exact absurd h h1.1
            · exact absurd h h1.2
        obtain ⟨s1, hs⟩ := hB hr
        exact hok s1 hs
    · rw [if_neg h12]
      exact ⟨Or.inl ⟨_, rfl⟩, fun _ => ⟨_, rfl⟩⟩
  refine ⟨⟨fun hres => ?_, fun ⟨c, rest, h⟩ => ?_⟩, fun c rest h => ?_, hother⟩
  · cases hinp : s.ch.inp with
    | nil =>
      exfalso
      have hread : chRead 1 s = if s.ch.closed then (.ok ([], some .EOF), s) else (.blocked, s) := by
        unfold chRead
        rw [hinp]
      unfold readerRead at hres
      cases hcl : s.ch.closed
      · rw [hcl] at hread
        rw [M_bind_eq, M_bind_blocked hread] at hres
        cases hres
      · rw [hcl] at hread
        rw [M_bind_eq, M_bind_ok hread] at hres
        cases hres
    | cons p rest =>
      cases p with
      | nil =>
        exfalso
        have hread : chRead 1 s = (.ok ([], none), { s with ch := { s.ch with inp := rest } }) := by
          unfold chRead
          rw [hinp]
          rfl
        unfold readerRead at hres
        rw [M_bind_eq, M_bind_ok hread] at hres
        simp at hres
      | cons b c =>
        by_cases hb : b = 0
        · subst hb
          exact ⟨c, rest, rfl⟩
        · exfalso
          rcases (hother b c rest hinp hb).1 with ⟨e, he⟩ | ⟨_, he⟩
          · rw [he] at hres; cases hres
          · rw [he] at hres; cases hres
  · rw [readerRead_cons 0 c rest s h, if_pos rfl]
  · rw [readerRead_cons 0 c rest s h, if_pos rfl]

theorem readerRead_ack_witness :
    readerRead (Env.start World.empty [[0], [1]] false)
      = (.ok none, Env.start World.empty [[1]] false) :=
  (readerRead_ack (Env.start World.empty [[0], [1]] false)).2.1 [] [[1]] rfl

theorem Sprintf0_plain (L : GoString) (h : (37 : UInt8) ∉ L) : Sprintf0 L = L := by
  have h1 : L.takeWhile (fun c => decide (c ≠ 37)) = L := by
    rw [List.takeWhile_eq_self_iff]
    intro c hc
    simp only [ne_eq, decide_not, Bool.not_eq_true', decide_eq_false_iff_not]
    rintro rfl
    exact h hc
  have h2 : L.dropWhile (fun c => decide (c ≠ 37)) = [] := by
    rw [List.dropWhile_eq_nil_iff]
    intro c hc
    simp only [ne_eq, decide_not, Bool.not_eq_true', decide_eq_false_iff_not]
    rintro rfl
    exact h hc
  unfold Sprintf0 doPrintf
  simp only [h1, h2]

/-- The sink on a warning or an error frame: the line is the format of the error it returns. -/
theorem processCommand_error_line (cmd : Parameters) (fs : FileSystem) (st : State) (b : UInt8)
    (L : GoString) (s : Env) (hb : b = 1 ∨ b = 2) :
    processCommand cmd fs st b L s = (.ok (some (.text (Sprintf0 L)), st), s) := by
  unfold processCommand
  rcases hb with rfl | rfl
  · rfl
  · rfl

/-- For a line without a percent sign the sink's error has the line as its message. -/
theorem processCommand_error_plain (cmd : Parameters) (fs : FileSystem) (st : State) (b : UInt8)
    (L : GoString) (s : Env) (hb : b = 1 ∨ b = 2) (h : (37 : UInt8) ∉ L) :
    processCommand cmd fs st b L s = (.ok (some (.text L), st), s) := by
  rw [processCommand_error_line cmd fs st b L s hb, Sprintf0_plain L h]

/-- Claim C15, the code at the failing input: the line "50% done" after the byte 0x01 gives,
in the ack reader of the source and in processCommand of the sink alike, the error whose
message is "50%!d(MISSING)one", which is not the line: both pass the line to trace.Errorf as
the format. -/
theorem error_line_is_format :
    (readerRead (Env.start World.empty [str "\x0150% done\n"] false)).1
      = .ok (some (.text (str "50%!d(MISSING)one"))) ∧
    (processCommand (sinkCommand (str "/out")) LocalFS { path := [str "."], finished := false }
        1 (str "50% done") (Env.start World.empty [] false)).1
      = .ok (some (.text (str "50%!d(MISSING)one")), { path := [str "."], finished := false }) ∧
    Error.Message id (.text (str "50%!d(MISSING)one")) ≠ str "50% done" := by
  refine ⟨?_, ?_, ?_⟩ <;> decide!

/-- For a line without a percent sign, a newline or a carriage return at its end, the error of
the ack reader has the line as its message. -/
theorem readerRead_error_plain (b : UInt8) (L : GoString) (rest : List (List UInt8))
    (cl br : Bool) (o : List (List UInt8)) (w : World) (p : GoString) (a : List AuditEvent)
    (cs : List Call) (k : Nat) (hb : b = 1 ∨ b = 2) (h10 : (10 : UInt8) ∉ L)
    (h37 : (37 : UInt8) ∉ L) (hcr : L.getLast? ≠ some 13) (hlen : L.length < 4096) :
    (readerRead ⟨⟨(b :: (L ++ [10])) :: rest, cl, o, br⟩, w, Scanner.new, p, a, cs, k⟩).1
      = .ok (some (.text L)) := by
  have hb0 : b ≠ 0 := by rcases hb with rfl | rfl <;> decide
  rw [readerRead_cons b (L ++ [10]) rest _ rfl, if_neg hb0, if_pos hb]
  simp only [List.append_eq_nil, List.cons_ne_nil, and_false, if_false]
  rw [M_bind_ok (Scan_line (L ++ [10]) rest cl br o w p a cs k (by simp)
    (by simp only [List.length_append, List.length_singleton]; omega) (by simp))]
  simp only [Scanner.Err, beforeFirst_snoc, (before_after_of_not_mem h10).1]
  have hd : dropCR L = L := by
    unfold dropCR
    rw [if_neg hcr]
  simp [hd, Errorf0, Sprintf0_plain L h37]

/-- Claim C16: for every command GetSCPShellCmd returns "/usr/bin/scp -t" when Flags.Source is
true and "/usr/bin/scp -f" otherwise, then " -r" exactly when Flags.Recursive is true, then one
space and RemoteFileLocation. -/
theorem GetSCPShellCmd_shape (cmd : Parameters) :
    GetSCPShellCmd cmd
      = str "/usr/bin/scp " ++ (if cmd.Flags.Source = true then str "-t" else str "-f")
          ++ (if cmd.Flags.Recursive = true then str " -r" else [])
          ++ [32] ++ cmd.RemoteFileLocation := by
  unfold GetSCPShellCmd
  cases cmd.Flags.Source <;> cases cmd.Flags.Recursive <;> rfl

/-- The four shapes of the shell command, by the two flags. -/
theorem GetSCPShellCmd_cases (cmd : Parameters) :
    GetSCPShellCmd cmd =
      (match cmd.Flags.Source, cmd.Flags.Recursive with
        | true, true => str "/usr/bin/scp -t -r "
        | true, false => str "/usr/bin/scp -t "
        | false, true => str "/usr/bin/scp -f -r "
        | false, false => str "/usr/bin/scp -f ") ++ cmd.RemoteFileLocation := by
  unfold GetSCPShellCmd
  cases cmd.Flags.Source <;> cases cmd.Flags.Recursive <;> rfl

/-- The file system a command gets from CreateCommand: the one given, or the local backend. -/
theorem CreateCommand_eq (p : Parameters) :
    CreateCommand p
      = { p with FileSystem := match p.FileSystem with
                               | none => some LocalFS
                               | some fs => some fs } := by
  unfold CreateCommand
  cases h : p.FileSystem <;> simp [h]
  · obtain ⟨_, _, _, _, _, _⟩ := p
    simp only at h
    subst h
    rfl

/-- Claim C17: CreateUploadCommand and CreateDownloadCommand return the bad-parameter error
exactly when RemoteFileLocation is empty; otherwise they return a command with Source true and
Sink false (upload), Source false and Sink true (download), whatever was passed in, in which all
the other flags and parameters are the ones passed in, but for a missing FileSystem, for which
the local backend stands. -/
theorem CreateUploadDownload_contract (p : Parameters) :
    ((∃ e, CreateUploadCommand p = .error e) ↔ p.RemoteFileLocation = []) ∧
    ((∃ e, CreateDownloadCommand p = .error e) ↔ p.RemoteFileLocation = []) ∧
    (p.RemoteFileLocation = [] →
      CreateUploadCommand p = .error (.badParameter (str "missing RemoteFileLocation parameter")) ∧
      CreateDownloadCommand p
        = .error (.badParameter (str "missing RemoteFileLocation parameter"))) ∧
    (p.RemoteFileLocation ≠ [] →
      CreateUploadCommand p
        = .ok { p with Flags := { p.Flags with Source := true, Sink := false },
                       FileSystem := match p.FileSystem with
                                     | none => some LocalFS
                                     | some fs => some fs } ∧
      CreateDownloadCommand p
        = .ok { p with Flags := { p.Flags with Source := false, Sink := true },
                       FileSystem := match p.FileSystem with
                                     | none => some LocalFS
                                     | some fs => some fs }) := by
  unfold CreateUploadCommand CreateDownloadCommand
  by_cases h : p.RemoteFileLocation = []
  · simp [h]
  · simp only [h, if_false, CreateCommand_eq]
    simp

theorem CreateUploadDownload_contract_witness :
    (∃ c, CreateUploadCommand { Parameters.zero with
        Flags := { Parameters.zero.Flags with Sink := true },
        RemoteFileLocation := str "/tmp/x" } = .ok c ∧
      c.Flags.Source = true ∧ c.Flags.Sink = false ∧ c.FileSystem.isSome = true) ∧
    CreateUploadCommand Parameters.zero
      = .error (.badParameter (str "missing RemoteFileLocation parameter")) := by
  have h := CreateUploadDownload_contract { Parameters.zero with
        Flags := { Parameters.zero.Flags with Sink := true },
        RemoteFileLocation := str "/tmp/x" }
  have h0 := CreateUploadDownload_contract Parameters.zero
  refine ⟨⟨_, (h.2.2.2 (by decide)).1, rfl, rfl, rfl⟩, (h0.2.2.1 rfl).1⟩

theorem fmtUintLoop_digits (base : Nat) (fuel : Nat) :
    ∀ (u : Nat) (acc : GoString) (k : Nat), 1 ≤ k → k ≤ fuel → u < base ^ k →
      (fmtUintLoop base fuel u acc).length ≤ k + acc.length := by
  induction fuel with
  | zero => intro u acc k h1 h2; omega
  | succ fuel ih =>
    intro u acc k h1 h2 hu
    unfold fmtUintLoop
    split_ifs with h
    · simp only [List.length_cons]; omega
    · have hk : 2 ≤ k := by
        by_contra hk
        have : k = 1 := by omega
        subst this
        simp only [pow_one] at hu
        exact h hu
      have hdiv : u / base < base ^ (k - 1) := by
        apply Nat.div_lt_of_lt_mul
        have : base * base ^ (k - 1) = base ^ k := by
          rw [← Nat.pow_succ']
          congr 1
          omega
        rw [this]
        exact hu
      have := ih (u / base) (digitChar (u % base) :: acc) (k - 1) (by omega) (by omega) hdiv
      simp only [List.length_cons] at this
      omega

theorem fmtOct04_length_ge (m : Nat) : 4 ≤ (fmtOct04 m).length := by
  unfold fmtOct04
  simp only [List.length_append, List.length_replicate]
  omega

theorem fmtOct04_length_four (m : Nat) (hm : m ≤ 0o7777) : (fmtOct04 m).length = 4 := by
  have h := fmtUintLoop_digits 8 64 m [] 4 (by decide) (by decide)
    (by norm_num; omega)
  unfold fmtOct04
  simp only [List.length_append, List.length_replicate]
  have h2 : (fmtUint 8 m).length ≤ 4 := h
  omega

/-- Claim C19, as amended: for a command that has a user whenever it has an audit log, and a
file of mode m below 2^32, name s and contents B of fewer than 2^63 bytes, whose size is the
length of B (zero included) and whose reader yields B, with the peer answering each of the two
acks with 0x00, sendFile succeeds; what it has written to the channel is, byte for byte, "C",
the mode in octal, a space, the size in decimal, a space, s, a newline, B and one 0x00, and it
has taken exactly the two ack bytes from the channel. The mode has at least four octal digits,
filled with zeros, exactly four for m ≤ 0o7777. -/
theorem sendFile_wire_format (cmd : Parameters) (fs : FileSystem) (B name path : GoString)
    (m : Nat) (re : Option Error) (es : List FileInfo)
    (rest : List (List UInt8)) (cl : Bool) (o : List (List UInt8))
    (w w1 : World) (sc : Scanner) (p : GoString) (a : List AuditEvent) (cs : List Call) (k : Nat)
    (hm : m < 2 ^ 32) (hB : B.length < 2 ^ 63)
    (hA : cmd.AuditLog = true → cmd.User ≠ none)
    (hopen : fs.OpenFile w path = ((some ⟨B, none⟩, none), w1)) :
    (sendFile cmd fs (.mk false name path m (some (B.length : Int)) re es)
        ⟨⟨[0] :: [0] :: rest, cl, o, false⟩, w, sc, p, a, cs, k⟩).1 = .ok none ∧
    (sendFile cmd fs (.mk false name path m (some (B.length : Int)) re es)
        ⟨⟨[0] :: [0] :: rest, cl, o, false⟩, w, sc, p, a, cs, k⟩).2.ch.inp = rest ∧
    (sendFile cmd fs (.mk false name path m (some (B.length : Int)) re es)
        ⟨⟨[0] :: [0] :: rest, cl, o, false⟩, w, sc, p, a, cs, k⟩).2.ch.out.flatten
      = o.flatten ++ (str "C" ++ fmtOct04 m ++ str " " ++ fmtUint 10 B.length ++ str " " ++ name
          ++ str "\n" ++ B ++ [0]) ∧
    (4 ≤ (fmtOct04 m).length ∧ allDigits 8 (fmtOct04 m) ∧ numVal 8 (fmtOct04 m) = m ∧
      (m ≤ 0o7777 → (fmtOct04 m).length = 4)) ∧
    (allDigits 10 (fmtUint 10 B.length) ∧ numVal 10 (fmtUint 10 B.length) = B.length) := by
  obtain ⟨h1, h2⟩ := sendFile_ok cmd fs B name path m re es rest cl o w w1 sc p a cs k hA hopen
  obtain ⟨hpf, _⟩ := pieces_spec (B.length + 1) B (by omega)
  obtain ⟨_, hd8, hv8⟩ := fmtOct04_spec m (by omega)
  obtain ⟨_, hd10, hv10⟩ := @fmtUint_spec 10 (by decide) (by decide) B.length (by omega)
  refine ⟨h1, by rw [h2], ?_, ⟨fmtOct04_length_ge m, hd8, hv8, fmtOct04_length_four m⟩,
    hd10, hv10⟩
  rw [h2]
  simp only [List.flatten_append, hpf, fileHeader, fmtInt_natCast, List.flatten_cons,
    List.flatten_nil, List.append_nil, List.append_assoc]

theorem sendFile_wire_format_witness :
    (sendFile (sourceCommand (str "/d/empty")) LocalFS
        (.mk false (str "empty") (str "/d/empty") 0o600 (some 0) none [])
        (Env.start (World.withFile (str "/d/empty") [] 0o600) [[0], [0]] false)).2.ch.out.flatten
      = str "C0600 0 empty\n\x00" := by
  have h := (sendFile_wire_format (sourceCommand (str "/d/empty")) LocalFS [] (str "empty")
    (str "/d/empty") 0o600 none [] [] false [] (World.withFile (str "/d/empty") [] 0o600)
    (World.withFile (str "/d/empty") [] 0o600) Scanner.new [] [] [] 0 (by decide) (by decide)
    (by decide) rfl).2.2.1
  exact h.trans (by decide!)

/-- Claim C19 fails as stated for a command with an audit log and no user: on the file /d/f of
contents "hi", with the two acks of the peer there, sendFile panics on the nil user when it
builds the audit event, before it opens the file; nothing is written to the channel. -/
theorem sendFile_nil_user_counterexample :
    (sendFile { sourceCommand (str "/d/f") with AuditLog := true } LocalFS
        (.mk false (str "f") (str "/d/f") 0o644 (some 2) none [])
        (Env.start (World.withFile (str "/d/f") (str "hi") 0o644) [[0], [0]] false)).1
      = .panics ∧
    (sendFile { sourceCommand (str "/d/f") with AuditLog := true } LocalFS
        (.mk false (str "f") (str "/d/f") 0o644 (some 2) none [])
        (Env.start (World.withFile (str "/d/f") (str "hi") 0o644) [[0], [0]] false)).2.ch.out
      = [] ∧
    (sendFile { sourceCommand (str "/d/f") with AuditLog := true } LocalFS
        (.mk false (str "f") (str "/d/f") 0o644 (some 2) none [])
        (Env.start (World.withFile (str "/d/f") (str "hi") 0o644) [[0], [0]] false)).2.calls
      = [] := by
  decide!

/-- The first loop of serveSource touches nothing but the record of backend calls, to which it
adds GetFileInfo calls only; it ends with an error when a target is a directory and Recursive
is not set. -/
theorem sourceInfos_spec (cmd : Parameters) (fs : FileSystem) (targets : List GoString)
    (s : Env) :
    ∃ r ts, sourceInfos cmd fs targets s
        = (.ok r, { s with calls := s.calls ++ ts.map Call.GetFileInfo }) ∧
      ts <+: targets ∧
      (cmd.Flags.Recursive = false →
        (∃ t ∈ targets, ∃ info, fs.GetFileInfo s.world t = .ok info ∧ info.IsDir = true) →
        ∃ e, r = .error e) := by
  induction targets generalizing s with
  | nil =>
    exact ⟨.ok [], [], by simp [sourceInfos], List.nil_prefix, fun _ h => by simp at h⟩
  | cons target rest ih =>
    obtain ⟨r, ts, hr, hts, hdir⟩ := ih { s with calls := s.calls ++ [Call.GetFileInfo target] }
    cases hinfo : fs.GetFileInfo s.world target with
    | error err =>
      refine ⟨.error err, [target], ?_, ?_, fun _ _ => ⟨err, rfl⟩⟩
      · simp [sourceInfos, M.bind, called, hinfo]
      · simp
    | ok fileInfo =>
      by_cases hd : fileInfo.IsDir = true ∧ (!cmd.Flags.Recursive) = true
      · refine ⟨.error (.text (fileInfo.GetName ++ str " is a directory, perhaps try -r flag?")),
          [target], ?_, ?_, fun _ _ => ⟨_, rfl⟩⟩
        · simp [sourceInfos, M.bind, called, hinfo, hd]
        · simp
      · cases r with
        | error err =>
          refine ⟨.error err, target :: ts, ?_, ?_, fun _ _ => ⟨err, rfl⟩⟩
          · simp only [sourceInfos, M_bind_eq, M.bind, called, hinfo, hd, if_false]
            simp only at hr
            rw [hr]
            simp
          · simpa using hts
        | ok infos =>
          refine ⟨.ok (fileInfo :: infos), target :: ts, ?_, ?_, ?_⟩
          · simp only [sourceInfos, M_bind_eq, M.bind, called, hinfo, hd, if_false]
            simp only at hr
            rw [hr]
            simp
          · simpa using hts
          · intro hrec hex
            obtain ⟨t, ht, info, hi, hidir⟩ := hex
            rcases List.mem_cons.mp ht with rfl | ht
            · rw [hinfo] at hi
              cases hi
              exact absurd ⟨hidir, by simp [hrec]⟩ hd
            · obtain ⟨e, he⟩ := hdir hrec ⟨t, ht, info, hi, hidir⟩
              cases he

/-- Claim C20: when some target resolves to a directory and Flags.Recursive is false,
serveSource ends with an error, and it does so with the channel, the scanner and the storage as
they were: nothing is read, nothing is written and no file is opened, the only calls to the
backend being GetFileInfo on targets from the head of the list. -/
theorem serveSource_directory_fails (cmd : Parameters) (fs : FileSystem) (s : Env)
    (hrec : cmd.Flags.Recursive = false)
    (hdir : ∃ t ∈ cmd.Flags.Target, ∃ info,
      fs.GetFileInfo s.world t = .ok info ∧ info.IsDir = true) :
    ∃ e ts, serveSource cmd fs s
        = (.ok (some e), { s with calls := s.calls ++ ts.map Call.GetFileInfo }) ∧
      ts <+: cmd.Flags.Target := by
  obtain ⟨r, ts, hr, hts, herr⟩ := sourceInfos_spec cmd fs cmd.Flags.Target s
  obtain ⟨e, rfl⟩ := herr hrec hdir
  refine ⟨e, ts, ?_, hts⟩
  unfold serveSource
  rw [M_bind_eq, M_bind_ok hr]
  rfl

theorem serveSource_directory_fails_witness :
    ∃ e ts, serveSource (sourceCommand (str "/d")) LocalFS
        (Env.start (World.withDirs [str "/d"]) [[0], [0]] false)
        = (.ok (some e), { Env.start (World.withDirs [str "/d"]) [[0], [0]] false with
            calls := [] ++ ts.map Call.GetFileInfo }) ∧
      ts <+: [str "/d"] :=
  serveSource_directory_fails (sourceCommand (str "/d")) LocalFS
    (Env.start (World.withDirs [str "/d"]) [[0], [0]] false) rfl
    ⟨str "/d", List.mem_singleton_self _, _, rfl, rfl⟩

/-- Claim C27: for every string a without '@' and every string r, ParseSCPDestination applied
to a ++ "@" ++ r returns the login a, also when a holds a ':'; the host and the dest are taken
from r alone: the text before its first ':' and the text after it, "." when that is empty. So
the destination "host:/dir/x@y" without a login gives the login "host:/dir/x", the host "y" and
the dest ".". -/
theorem ParseSCPDestination_login_first (a r : GoString) (ha : (64 : UInt8) ∉ a) :
    ParseSCPDestination (a ++ [64] ++ r)
      = (a, beforeFirst 58 r, if afterFirst 58 r = [] then str "." else afterFirst 58 r) ∧
    ParseSCPDestination (str "host:/dir/x@y") = (str "host:/dir/x", str "y", str ".") := by
  refine ⟨?_, by decide⟩
  have e0 : a ++ [64] ++ r = a ++ 64 :: r := by simp
  have e1 : SplitN (a ++ 64 :: r) 64 2 = [a, r] := by
    simp [SplitN, cutByte_append _ ha]
  rw [e0]
  by_cases hc : (58 : UInt8) ∈ r
  · have e2 : SplitN r 58 2 = [beforeFirst 58 r, afterFirst 58 r] := by
      simp [SplitN, cutByte_eq, hc]
    unfold ParseSCPDestination
    simp only [e1]
    simp [e2, List.length_eq_zero]
  · have e2 : SplitN r 58 2 = [r] := by simp [SplitN, cutByte_none hc]
    obtain ⟨e3, e4⟩ := before_after_of_not_mem hc
    unfold ParseSCPDestination
    simp only [e1]
    simp [e2, e3, e4]

theorem ParseSCPDestination_login_first_witness :
    ParseSCPDestination (str "host:/dir/x" ++ [64] ++ str "y:/p")
      = (str "host:/dir/x", str "y", str "/p") := by
  have h := (ParseSCPDestination_login_first (str "host:/dir/x") (str "y:/p") (by decide)).1
  rw [h]; decide

theorem M_bind_ok_inv {α β : Type} {x : M α} {f : α → M β} {s s1 : Env} {b : β}
    (h : M.bind x f s = (.ok b, s1)) : ∃ a s2, x s = (.ok a, s2) ∧ f a s2 = (.ok b, s1) := by
  unfold M.bind at h
  cases hx : x s with
  | mk r s2 =>
    rw [hx] at h
    cases r with
    | ok a => exact ⟨a, s2, rfl, h⟩
    | blocked => simp at h
    | panics => simp at h
    | fuel => simp at h

theorem receiveDir_finished (cmd : Parameters) (fs : FileSystem) (st : State) (fc : NewFileCmd)
    (s s1 : Env) (err : Option Error) (st1 : State)
    (h : receiveDir cmd fs st fc s = (.ok (err, st1), s1)) : st1.finished = st.finished := by
  unfold receiveDir at h
  cases hT : cmd.Flags.Target with
  | nil => rw [hT] at h; simp [panics] at h
  | cons t ts =>
    rw [hT] at h
    simp only [M_bind_eq, M.bind, called, onWorld] at h
    cases hm : fs.MkDir s.world (if fs.IsDir s.world t = true then st.makePath t fc.Name else t)
        fc.Mode with
    | mk e w2 =>
      simp only [hm] at h
      cases e with
      | none =>
        simp only [M_pure_apply, Prod.mk.injEq, Res.ok.injEq] at h
        rw [← h.1.2]
        split_ifs <;> rfl
      | some e =>
        simp only [M_pure_apply, Prod.mk.injEq, Res.ok.injEq] at h
        rw [← h.1.2]
        split_ifs <;> rfl

/-- Claim C26: the flag finished is never reset. From a state in which it is set, pop fails
with "empty path" and leaves the state as it is, push keeps the flag, so after any number of
pushes pop still fails although the stack is not empty, and every frame the sink handles
(processCommand on any byte and line, receiveDir included) ends in a state with the flag set. -/
theorem finished_is_never_reset (st : State) (hf : st.finished = true) :
    st.pop = (some (.text (str "empty path")), st) ∧
    (∀ dirs : List GoString,
      (dirs.foldl State.push st).finished = true ∧
      (dirs.foldl State.push st).path = st.path ++ dirs ∧
      (dirs.foldl State.push st).pop
        = (some (.text (str "empty path")), dirs.foldl State.push st)) ∧
    (∀ (cmd : Parameters) (fs : FileSystem) (b : UInt8) (line : GoString) (s s1 : Env)
        (err : Option Error) (st1 : State),
      processCommand cmd fs st b line s = (.ok (err, st1), s1) → st1.finished = true) := by
  have hpop : ∀ t : State, t.finished = true → t.pop = (some (.text (str "empty path")), t) := by
    intro t ht
    unfold State.pop
    rw [if_pos ht]
    rfl
  have hpush : ∀ (dirs : List GoString) (t : State),
      (dirs.foldl State.push t).finished = t.finished ∧
      (dirs.foldl State.push t).path = t.path ++ dirs := by
    intro dirs
    induction dirs with
    | nil => intro t; simp
    | cons d ds ih =>
      intro t
      obtain ⟨h1, h2⟩ := ih (t.push d)
      simp only [List.foldl_cons]
      exact ⟨h1, by rw [h2]; simp [State.push]⟩
  refine ⟨hpop st hf, fun dirs => ?_, ?_⟩
  · obtain ⟨h1, h2⟩ := hpush dirs st
    exact ⟨h1.trans hf, h2, hpop _ (h1.trans hf)⟩
  · intro cmd fs b line s s1 err st1 h
    unfold processCommand at h
    simp only at h
    split_ifs at h
    · cases h; exact hf
    · cases h; exact hf
    · cases hp : ParseNewFile line with
      | error e => rw [hp] at h; cases h; exact hf
      | ok f =>
        rw [hp] at h
        obtain ⟨a, s2, _, h2⟩ := M_bind_ok_inv h
        cases a <;> (cases h2; exact hf)
    · cases hp : ParseNewFile line with
      | error e => rw [hp] at h; cases h; exact hf
      | ok d =>
        rw [hp] at h
        obtain ⟨a, s2, h1, h2⟩ := M_bind_ok_inv h
        obtain ⟨e, st2⟩ := a
        have := receiveDir_finished cmd fs st d s s2 e st2 h1
        cases e <;> (cases h2; rw [this]; exact hf)
    · rw [hpop st hf] at h
      cases h; exact hf
    · cases hp : ParseMtime line with
      | error e => rw [hp] at h; cases h; exact hf
      | ok d => rw [hp] at h; cases h; exact hf
    · cases h; exact hf

theorem finished_is_never_reset_witness :
    (State.push { path := [], finished := true } (str "a")).pop
      = (some (.text (str "empty path")), { path := [str "a"], finished := true }) :=
  ((finished_is_never_reset { path := [], finished := true } rfl).2.1 [str "a"]).2.2

theorem keepsProgress_bind {α β : Type} {x : M α} {f : α → M β} (hx : keepsProgress x)
    (hf : ∀ a, keepsProgress (f a)) : keepsProgress (M.bind x f) := by
  intro s
  have h := hx s
  unfold M.bind
  rcases hxs : x s with ⟨r, s1⟩
  rw [hxs] at h
  cases r with
  | ok a => simp only; rw [hf a s1]; exact h
  | blocked => exact h
  | panics => exact h
  | fuel => exact h

theorem keepsProgress_pure {α : Type} (a : α) : keepsProgress (pure a : M α) := fun _ => rfl

theorem keepsProgress_check {α : Type} (err : Option Error) (ret : Error → α) {k : M α}
    (hk : keepsProgress k) : keepsProgress (check err ret k) := by
  cases err with
  | none => exact hk
  | some e => exact keepsProgress_pure _

theorem keepsProgress_chRead (k : Nat) : keepsProgress (chRead k) := by
  intro s
  unfold chRead
  split
  · split <;> rfl
  · rfl

theorem keepsProgress_chWrite (p : List UInt8) : keepsProgress (chWrite p) := by
  intro s
  unfold chWrite
  split <;> rfl

theorem keepsProgress_onWorld {α : Type} (f : World → α × World) :
    keepsProgress (onWorld f) := fun _ => rfl

theorem keepsProgress_called (c : Call) : keepsProgress (called c) := fun _ => rfl

theorem keepsProgress_sendOK : keepsProgress sendOK := by
  unfold sendOK
  apply keepsProgress_bind (keepsProgress_chWrite _)
  rintro ⟨n, err⟩
  cases err <;> exact keepsProgress_pure _

theorem keepsProgress_scanReadOnce : keepsProgress scanReadOnce := by
  intro s
  have h := keepsProgress_chRead (s.scanner.cap - (s.scanner.start + s.scanner.buf.length)) s
  rcases hr : chRead (s.scanner.cap - (s.scanner.start + s.scanner.buf.length)) s with ⟨r, s1⟩
  rw [hr] at h
  unfold scanReadOnce
  simp only
  rw [hr]
  cases r with
  | ok a =>
    obtain ⟨p, err⟩ := a
    cases err <;> exact h
  | blocked => exact h
  | panics => exact h
  | fuel => exact h

theorem keepsProgress_scanRead (n : Nat) : keepsProgress (scanRead n) := by
  induction n with
  | zero =>
    unfold scanRead
    apply keepsProgress_bind keepsProgress_scanReadOnce
    intro got
    cases got
    · intro s; rfl
    · exact keepsProgress_pure _
  | succ n ih =>
    unfold scanRead
    apply keepsProgress_bind keepsProgress_scanReadOnce
    intro got
    cases got
    · exact ih
    · exact keepsProgress_pure _

theorem keepsProgress_scanLoop (fuel : Nat) : keepsProgress (scanLoop fuel) := by
  induction fuel with
  | zero => intro s; rfl
  | succ fuel ih =>
    intro s
    rw [scanLoop_succ]
    split_ifs
    · rfl
    · rfl
    · rfl
    · exact keepsProgress_bind (keepsProgress_scanRead 100) (fun _ => ih)
        { s with scanner := scanGrow (scanShift (scanFind s.scanner).2) }

theorem keepsProgress_Scan : keepsProgress Scan := fun s => keepsProgress_scanLoop _ s

theorem keepsProgress_readerRead : keepsProgress readerRead := by
  unfold readerRead
  apply keepsProgress_bind (keepsProgress_chRead _)
  rintro ⟨p, err⟩
  cases err with
  | some e => exact keepsProgress_pure _
  | none =>
    simp only
    split_ifs
    · exact keepsProgress_pure _
    · exact keepsProgress_pure _
    · apply keepsProgress_bind keepsProgress_Scan
      intro _
      apply keepsProgress_bind (fun _ => rfl)
      intro sc
      cases sc.Err <;> exact keepsProgress_pure _
    · exact keepsProgress_pure _

theorem keepsProgress_copyToChan (fuel : Nat) (src : ReadCloser) (written : Nat) :
    keepsProgress (copyToChan fuel src written) := by
  induction fuel generalizing src written with
  | zero => intro s; rfl
  | succ fuel ih =>
    unfold copyToChan
    simp only
    split
    · apply keepsProgress_bind (keepsProgress_chWrite _)
      rintro ⟨nw, ew⟩
      simp only
      cases ew with
      | some e => exact keepsProgress_pure _
      | none =>
        simp only
        split
        · exact keepsProgress_pure _
        · split
          · exact keepsProgress_pure _
          · exact ih _ _
    · split
      · exact keepsProgress_pure _
      · exact ih _ _

theorem keepsProgress_ioCopy (src : ReadCloser) : keepsProgress (ioCopy src) :=
  keepsProgress_copyToChan _ _ _

theorem keepsProgress_copyFromChan (dst : WriteCloser) (size : Nat) (fuel : Nat) (n : Int)
    (written : Nat) : keepsProgress (copyFromChan dst size fuel n written) := by
  induction fuel generalizing n written with
  | zero => intro s; rfl
  | succ fuel ih =>
    unfold copyFromChan
    split
    · exact keepsProgress_pure _
    · apply keepsProgress_bind (keepsProgress_chRead _)
      rintro ⟨p, er⟩
      simp only
      split
      · apply keepsProgress_bind (keepsProgress_onWorld _)
        rintro ⟨nw, ew⟩
        simp only
        cases ew with
        | some e => exact keepsProgress_pure _
        | none =>
          simp only
          split
          · exact keepsProgress_pure _
          · cases er with
            | some e => exact keepsProgress_pure _
            | none => exact ih _ _
      · cases er with
        | some e => exact keepsProgress_pure _
        | none => exact ih _ _

theorem keepsProgress_ioCopyN (dst : WriteCloser) (n : Int) : keepsProgress (ioCopyN dst n) := by
  intro s
  unfold ioCopyN
  simp only
  refine keepsProgress_bind (keepsProgress_copyFromChan _ _ _ _ _) ?_ s
  rintro ⟨written, err⟩
  simp only
  split
  · exact keepsProgress_pure _
  · split <;> exact keepsProgress_pure _

/-- The progress line of sendFile is written on every return that follows a successful open,
whatever the call returns, and on no return before it. -/
theorem sendFile_progress (cmd : Parameters) (fs : FileSystem) (info : FileInfo) (s s1 : Env)
    (r : Option Error) (h : sendFile cmd fs info s = (.ok r, s1)) :
    ((fs.OpenFile s.world info.GetPath).1.2 ≠ none → s1.progress = s.progress) ∧
    ((fs.OpenFile s.world info.GetPath).1.2 = none → cmd.ProgressWriter = false →
      s1.progress = s.progress) ∧
    ((fs.OpenFile s.world info.GetPath).1.2 = none → cmd.ProgressWriter = true →
      ∃ size, info.GetSize = some size ∧
        s1.progress = s.progress ++ (str "-> " ++ info.GetPath ++ str " (" ++ fmtInt size
          ++ str ")\n")) := by
  simp only [sendFile, M_bind_eq] at h
  obtain ⟨_, s2, h1, h⟩ := M_bind_ok_inv h
  have e2 : s2.progress = s.progress ∧ s2.world = s.world := by
    by_cases ha : cmd.AuditLog = true
    · rw [if_pos ha] at h1
      cases hsz : info.GetSize with
      | none => rw [hsz] at h1; cases h1
      | some size =>
        cases hu : cmd.User with
        | none => rw [hsz, hu] at h1; cases h1
        | some u => rw [hsz, hu] at h1; cases h1; exact ⟨rfl, rfl⟩
    · rw [if_neg ha] at h1
      cases h1; exact ⟨rfl, rfl⟩
  obtain ⟨_, s3, h3, h⟩ := M_bind_ok_inv h
  have e3 : s3.progress = s.progress ∧ s3.world = s.world := by
    cases h3; exact e2
  obtain ⟨⟨reader, err⟩, s4, h4, h⟩ := M_bind_ok_inv h
  cases hopen : fs.OpenFile s.world info.GetPath with
  | mk re w1 =>
    have h4b : onWorld (fun w => fs.OpenFile w info.GetPath) s3
        = (.ok re, { s3 with world := w1 }) := by
      show (match fs.OpenFile s3.world info.GetPath with
        | (a, w) => ((Res.ok a : Res _), ({ s3 with world := w } : Env))) = _
      rw [e3.2, hopen]
    rw [h4b] at h4
    simp only [Prod.mk.injEq, Res.ok.injEq] at h4
    obtain ⟨hre, hs4⟩ := h4
    have e4 : s4.progress = s.progress := by rw [← hs4]; exact e3.1
    subst hre
    simp only at h ⊢
    cases err with
    | some e =>
      simp only [check_some] at h
      cases h
      exact ⟨fun _ => e4, fun h0 => absurd h0 (by simp), fun h0 => absurd h0 (by simp)⟩
    | none =>
      simp only [check_none] at h
      have hinner : ∀ (rd : ReadCloser) (size : Int), keepsProgress
          (M.bind (chWrite (str "C" ++ fmtOct04 info.GetModePerm ++ str " " ++ fmtInt size
              ++ str " " ++ info.GetName ++ str "\n")) (fun a =>
            check a.2 some (M.bind readerRead (fun err => check err some
              (M.bind (ioCopy rd) (fun b => check b.2 some
                (if (b.1 : Int) ≠ size then
                  pure (some (.text (str "short write: " ++ fmtInt b.1 ++ str " "
                    ++ fmtInt size)))
                else M.bind sendOK (fun err => check err some readerRead)))))))) := by
        intro rd size
        refine keepsProgress_bind (keepsProgress_chWrite _) (fun a =>
          keepsProgress_check a.2 some (keepsProgress_bind keepsProgress_readerRead
            (fun err => keepsProgress_check err some
              (keepsProgress_bind (keepsProgress_ioCopy rd) (fun b =>
                keepsProgress_check b.2 some ?_)))))
        split_ifs
        · exact keepsProgress_pure _
        · exact keepsProgress_bind keepsProgress_sendOK (fun err =>
            keepsProgress_check err some keepsProgress_readerRead)
      cases reader with
      | none => cases h
      | some rd =>
        cases hsz : info.GetSize with
        | none => rw [hsz] at h; cases h
        | some size =>
          rw [hsz] at h
          simp only at h
          obtain ⟨result, s5, h5, h⟩ := M_bind_ok_inv h
          have hk : s5.progress = s.progress := by
            have := hinner rd size s4
            rw [h5] at this
            exact this.trans e4
          refine ⟨fun h0 => absurd rfl h0, fun _ hp => ?_, fun _ hp => ?_⟩
          · rw [hp] at h
            cases h
            exact hk
          · rw [hp] at h
            cases h
            exact ⟨size, rfl, by simp [hk]⟩

/-- The progress line of receiveFile is written on every return that follows a successful
CreateFile, whatever the call returns, and on no return before it. -/
theorem receiveFile_progress (cmd : Parameters) (fs : FileSystem) (st : State) (fc : NewFileCmd)
    (t : GoString) (ts : List GoString) (s s1 : Env) (r : Option Error)
    (hT : cmd.Flags.Target = t :: ts) (h : receiveFile cmd fs st fc s = (.ok r, s1)) :
    ∃ wr err w1,
      fs.CreateFile s.world
          (if cmd.Flags.Recursive = true ∨ fs.IsDir s.world t = true then st.makePath t fc.Name
            else t) fc.Length = some ((wr, err), w1) ∧
      (err ≠ none → s1.progress = s.progress) ∧
      (err = none → cmd.ProgressWriter = false → s1.progress = s.progress) ∧
      (err = none → cmd.ProgressWriter = true →
        s1.progress = s.progress ++ (str "<- "
          ++ (if cmd.Flags.Recursive = true ∨ fs.IsDir s.world t = true
                then st.makePath t fc.Name else t)
          ++ str " (" ++ fmtUint 10 fc.Length ++ str ")\n")) := by
  simp only [receiveFile, hT, M_bind_eq] at h
  obtain ⟨isDir, s2, h1, h⟩ := M_bind_ok_inv h
  have e2 : s2.progress = s.progress ∧ s2.world = s.world ∧
      ((cmd.Flags.Recursive = true ∨ isDir = true)
        ↔ (cmd.Flags.Recursive = true ∨ fs.IsDir s.world t = true)) := by
    by_cases hr : cmd.Flags.Recursive = true
    · rw [if_pos hr] at h1
      cases h1
      exact ⟨rfl, rfl, by simp [hr]⟩
    · rw [if_neg hr] at h1
      obtain ⟨_, s3, h3, h1⟩ := M_bind_ok_inv h1
      cases h3
      cases h1
      exact ⟨rfl, rfl, Iff.rfl⟩
  have hpath : (if cmd.Flags.Recursive = true ∨ isDir = true then st.makePath t fc.Name else t)
      = (if cmd.Flags.Recursive = true ∨ fs.IsDir s.world t = true then st.makePath t fc.Name
          else t) := by
    by_cases hc : cmd.Flags.Recursive = true ∨ isDir = true
    · rw [if_pos hc, if_pos (e2.2.2.mp hc)]
    · rw [if_neg hc, if_neg (fun h2 => hc (e2.2.2.mpr h2))]
  rw [hpath] at h
  generalize (if cmd.Flags.Recursive = true ∨ fs.IsDir s.world t = true
    then st.makePath t fc.Name else t) = path at h ⊢
  obtain ⟨_, s3, h3, h⟩ := M_bind_ok_inv h
  have e3 : s3.progress = s.progress ∧ s3.world = s.world := by
    cases h3; exact ⟨e2.1, e2.2.1⟩
  obtain ⟨⟨wr, err⟩, s4, h4, h⟩ := M_bind_ok_inv h
  rw [e3.2] at h4
  cases hc : fs.CreateFile s.world path fc.Length with
  | none => rw [hc] at h4; cases h4
  | some res =>
    obtain ⟨⟨wr0, err0⟩, w1⟩ := res
    rw [hc] at h4
    simp only [Prod.mk.injEq, Res.ok.injEq] at h4
    obtain ⟨⟨hwr, herr⟩, hs4⟩ := h4
    have e4 : s4.progress = s.progress := by rw [← hs4]; exact e3.1
    subst hwr herr
    refine ⟨wr0, err0, w1, rfl, ?_⟩
    simp only at h
    cases err0 with
    | some e =>
      simp only [check_some] at h
      cases h
      exact ⟨fun _ => e4, fun h0 => absurd h0 (by simp), fun h0 => absurd h0 (by simp)⟩
    | none =>
      simp only [check_none] at h
      obtain ⟨_, s5, h5, h⟩ := M_bind_ok_inv h
      have e5 : s5.progress = s.progress := by
        by_cases ha : cmd.AuditLog = true
        · rw [if_pos ha] at h5
          cases hu : cmd.User with
          | none => rw [hu] at h5; cases h5
          | some u => rw [hu] at h5; cases h5; exact e4
        · rw [if_neg ha] at h5
          cases h5; exact e4
      cases wr0 with
      | none => cases h
      | some writer =>
        simp only at h
        obtain ⟨result, s6, h6, h⟩ := M_bind_ok_inv h
        have e6 : s6.progress = s.progress := by
          have hk : keepsProgress (M.bind sendOK (fun err => check err some
              (M.bind (ioCopyN writer (toInt64 fc.Length)) (fun b => check b.2 some
                (if b.1 ≠ toInt64 fc.Length then
                  pure (some (.text (str "unexpected file copy length: " ++ fmtInt b.1)))
                else M.bind (called (.SetChmod path fc.Mode)) (fun _ =>
                  M.bind (onWorld (fun w => fs.SetChmod w path fc.Mode)) (fun err =>
                    check err some (pure none)))))))) := by
            refine keepsProgress_bind keepsProgress_sendOK (fun err =>
              keepsProgress_check err some (keepsProgress_bind (keepsProgress_ioCopyN _ _)
                (fun b => keepsProgress_check b.2 some ?_)))
            split_ifs
            · exact keepsProgress_pure _
            · exact keepsProgress_bind (keepsProgress_called _) (fun _ =>
                keepsProgress_bind (keepsProgress_onWorld _) (fun err =>
                  keepsProgress_check err some (keepsProgress_pure _)))
          have := hk s5
          rw [h6] at this
          exact this.trans e5
        obtain ⟨_, s7, h7, h⟩ := M_bind_ok_inv h
        have e7 : s7.progress = s.progress := by
          have := keepsProgress_onWorld (fun w => writer.Close w) s6
          rw [h7] at this
          exact this.trans e6
        obtain ⟨_, s8, h8, h⟩ := M_bind_ok_inv h
        have e8 : s8.progress = s.progress := by cases h8; exact e7
        refine ⟨fun h0 => absurd rfl h0, fun _ hp => ?_, fun _ hp => ?_⟩
        · rw [hp] at h
          cases h
          exact e8
        · rw [hp] at h
          cases h
          simp [progressWrite, e8]

/-- Claim C21 fails as stated: with a progress writer set, sendFile whose header the peer
answers with the error line "boom" returns that error, and receiveFile whose peer sends two of
five bytes and closes returns the error EOF; the progress writer has got the line
"-> /d/f (3)" of the one and the line "<- /out (5)" of the other all the same. -/
theorem progress_written_on_failure :
    (sendFile { sourceCommand (str "/d/f") with ProgressWriter := true } LocalFS
        (.mk false (str "f") (str "/d/f") 0o644 (some 3) none [])
        (Env.start (World.withFile (str "/d/f") (str "abc") 0o644) [str "\x02boom\n"] false)).1
      = .ok (some (.text (str "boom"))) ∧
    (sendFile { sourceCommand (str "/d/f") with ProgressWriter := true } LocalFS
        (.mk false (str "f") (str "/d/f") 0o644 (some 3) none [])
        (Env.start (World.withFile (str "/d/f") (str "abc") 0o644) [str "\x02boom\n"]
          false)).2.progress
      = str "-> /d/f (3)\n" ∧
    (receiveFile { sinkCommand (str "/out") with ProgressWriter := true } LocalFS
        { path := [str "."], finished := false } { Mode := 0o644, Length := 5, Name := str "f" }
        (Env.start World.empty [str "ab"] true)).1
      = .ok (some .EOF) ∧
    (receiveFile { sinkCommand (str "/out") with ProgressWriter := true } LocalFS
        { path := [str "."], finished := false } { Mode := 0o644, Length := 5, Name := str "f" }
        (Env.start World.empty [str "ab"] true)).2.progress
      = str "<- /out (5)\n" := by
  refine ⟨?_, ?_, ?_, ?_⟩ <;> decide!

/-- Claim C21, as amended: the progress line is a deferred write. Whenever sendFile returns,
with an error or without, the progress writer has got exactly the line "-> path (size)" if
there is a progress writer and OpenFile gave no error, and nothing otherwise; whenever
receiveFile returns, with an error or without, the progress writer has got exactly the line
"<- path (length)" if there is a progress writer and CreateFile gave no error, and nothing
otherwise. -/
theorem progress_line_on_every_return (cmd : Parameters) (fs : FileSystem) :
    (∀ (info : FileInfo) (s s1 : Env) (r : Option Error),
      sendFile cmd fs info s = (.ok r, s1) →
      ((fs.OpenFile s.world info.GetPath).1.2 ≠ none → s1.progress = s.progress) ∧
      ((fs.OpenFile s.world info.GetPath).1.2 = none → cmd.ProgressWriter = false →
        s1.progress = s.progress) ∧
      ((fs.OpenFile s.world info.GetPath).1.2 = none → cmd.ProgressWriter = true →
        ∃ size, info.GetSize = some size ∧
          s1.progress = s.progress ++ (str "-> " ++ info.GetPath ++ str " (" ++ fmtInt size
            ++ str ")\n"))) ∧
    (∀ (st : State) (fc : NewFileCmd) (t : GoString) (ts : List GoString) (s s1 : Env)
        (r : Option Error),
      cmd.Flags.Target = t :: ts → receiveFile cmd fs st fc s = (.ok r, s1) →
      ∃ wr err w1,
        fs.CreateFile s.world
            (if cmd.Flags.Recursive = true ∨ fs.IsDir s.world t = true
              then st.makePath t fc.Name else t) fc.Length = some ((wr, err), w1) ∧
        (err ≠ none → s1.progress = s.progress) ∧
        (err = none → cmd.ProgressWriter = false → s1.progress = s.progress) ∧
        (err = none → cmd.ProgressWriter = true →
          s1.progress = s.progress ++ (str "<- "
            ++ (if cmd.Flags.Recursive = true ∨ fs.IsDir s.world t = true
                  then st.makePath t fc.Name else t)
            ++ str " (" ++ fmtUint 10 fc.Length ++ str ")\n"))) :=
  ⟨fun info s s1 r h => sendFile_progress cmd fs info s s1 r h,
    fun st fc t ts s s1 r hT h => receiveFile_progress cmd fs st fc t ts s s1 r hT h⟩

theorem progress_line_on_every_return_witness :
    (sendFile { sourceCommand (str "/d/f") with ProgressWriter := true } LocalFS
        (.mk false (str "f") (str "/d/f") 0o644 (some 3) none [])
        (Env.start (World.withFile (str "/d/f") (str "abc") 0o644) [[0], [0]] false)).2.progress
      = str "-> /d/f (3)\n" := by
  have h1 : (sendFile { sourceCommand (str "/d/f") with ProgressWriter := true } LocalFS
        (.mk false (str "f") (str "/d/f") 0o644 (some 3) none [])
        (Env.start (World.withFile (str "/d/f") (str "abc") 0o644) [[0], [0]] false)).1
      = .ok none := by decide!
  obtain ⟨size, hs, hp⟩ := ((progress_line_on_every_return
    { sourceCommand (str "/d/f") with ProgressWriter := true } LocalFS).1
    (.mk false (str "f") (str "/d/f") 0o644 (some 3) none [])
    (Env.start (World.withFile (str "/d/f") (str "abc") 0o644) [[0], [0]] false)
    (sendFile { sourceCommand (str "/d/f") with ProgressWriter := true } LocalFS
        (.mk false (str "f") (str "/d/f") 0o644 (some 3) none [])
        (Env.start (World.withFile (str "/d/f") (str "abc") 0o644) [[0], [0]] false)).2 none
    (Prod.ext h1 rfl)).2.2 rfl rfl
  cases hs
  exact hp.trans (by decide)

theorem headerGet_set_same (h : List (GoString × GoString)) (k v : GoString) :
    headerGet (headerSet h k v) k = v := by
  have hn : (h.filter (fun e => decide (e.1 ≠ k))).find? (fun e => decide (e.1 = k)) = none := by
    rw [List.find?_eq_none]
    intro x hx
    simp only [List.mem_filter, decide_eq_true_eq] at hx
    simpa using hx.2
  unfold headerGet headerSet
  rw [List.find?_append, hn]
  simp [List.find?]

theorem headerGet_set_other (h : List (GoString × GoString)) (k v k2 : GoString)
    (hk : k2 ≠ k) : headerGet (headerSet h k v) k2 = headerGet h k2 := by
  have hf : (h.filter (fun e => decide (e.1 ≠ k))).find? (fun e => decide (e.1 = k2))
      = h.find? (fun e => decide (e.1 = k2)) := by
    induction h with
    | nil => rfl
    | cons x xs ih =>
      by_cases hx : x.1 = k
      · have hx2 : ¬ x.1 = k2 := fun h2 => hk (h2.symm.trans hx)
        rw [List.filter_cons_of_neg (by simpa using hx), List.find?_cons_of_neg _ (by simpa using hx2)]
        exact ih
      · rw [List.filter_cons_of_pos (by simpa using hx)]
        by_cases hx2 : x.1 = k2
        · rw [List.find?_cons_of_pos _ (by simpa using hx2),
            List.find?_cons_of_pos _ (by simpa using hx2)]
        · rw [List.find?_cons_of_neg _ (by simpa using hx2),
            List.find?_cons_of_neg _ (by simpa using hx2)]
          exact ih
  have hne : ¬ k = k2 := fun h2 => hk h2.symm
  unfold headerGet headerSet
  rw [List.find?_append, hf]
  cases hfind : h.find? (fun e => decide (e.1 = k2)) with
  | none => simp [List.find?, hne]
  | some e => simp

theorem dropWhile_head_false {α : Type} (p : α → Bool) (l : List α) (x : α) (xs : List α)
    (h : l.dropWhile p = x :: xs) : p x = false := by
  induction l with
  | nil => simp at h
  | cons y ys ih =>
    rw [List.dropWhile_cons] at h
    split_ifs at h with hy
    · exact ih h
    · cases h
      simpa using hy

theorem Split_eq (path : GoString) :
    Split path = ((path.reverse.dropWhile (fun b => decide (b ≠ 47))).reverse,
      (path.reverse.takeWhile (fun b => decide (b ≠ 47))).reverse) := by
  have h := List.takeWhile_append_dropWhile (fun b : UInt8 => decide (b ≠ 47)) path.reverse
  have h2 : path = (path.reverse.dropWhile (fun b => decide (b ≠ 47))).reverse
      ++ (path.reverse.takeWhile (fun b => decide (b ≠ 47))).reverse := by
    rw [← List.reverse_append, h, List.reverse_reverse]
  have hlen : path.length = (path.reverse.dropWhile (fun b => decide (b ≠ 47))).reverse.length
      + (path.reverse.takeWhile (fun b => decide (b ≠ 47))).reverse.length := by
    conv_lhs => rw [h2]
    rw [List.length_append]
  have htake : path.take (path.reverse.dropWhile (fun b => decide (b ≠ 47))).reverse.length
      = (path.reverse.dropWhile (fun b => decide (b ≠ 47))).reverse := by
    conv_lhs => arg 2; rw [h2]
    rw [List.take_left']
    rfl
  unfold Split
  simp only [Prod.mk.injEq, and_true]
  rw [hlen, Nat.add_sub_cancel, htake]

theorem Split_spec (path : GoString) :
    (Split path).1 ++ (Split path).2 = path ∧ (47 : UInt8) ∉ (Split path).2 ∧
    ((Split path).1 ≠ [] → (Split path).1.getLast? = some 47) := by
  rw [Split_eq]
  refine ⟨?_, ?_, ?_⟩
  · simp only
    rw [← List.reverse_append, List.takeWhile_append_dropWhile, List.reverse_reverse]
  · simp only [List.mem_reverse]
    intro h
    have := List.mem_takeWhile_imp h
    simp at this
  · simp only [ne_eq, List.reverse_eq_nil_iff, List.getLast?_reverse]
    intro h
    cases hd : path.reverse.dropWhile (fun b => decide (b ≠ 47)) with
    | nil => exact absurd hd h
    | cons x xs =>
      have hx := dropWhile_head_false _ _ x xs hd
      simp only [ne_eq, decide_not, Bool.not_eq_false', decide_eq_true_eq] at hx
      simp [hx]

/-- Claim C22: for every path and length, CreateFile of the download backend (a WebFS with the
response writer set) succeeds with a stream into the response body, and the response headers it
leaves have Content-Length equal to the length in decimal, Content-Type equal to
"application/octet-stream" and Content-Disposition equal to attachment;filename="f", f being
what follows the last slash of the path; nothing of the body or the storage changes, and Close
on the stream returns no error and changes nothing. -/
theorem WebFS_CreateFile_headers (cmd : HTTPTransferCommand) (w : World) (path : GoString)
    (length : Nat) (hw : cmd.Writer = true) (hl : length < 2 ^ 64) :
    ∃ w1, (WebFS cmd).CreateFile w path length = some ((some WebReadWrite, none), w1) ∧
      headerGet w1.header (str "Content-Length") = fmtUint 10 length ∧
      (allDigits 10 (fmtUint 10 length) ∧ numVal 10 (fmtUint 10 length) = length) ∧
      headerGet w1.header (str "Content-Type") = str "application/octet-stream" ∧
      headerGet w1.header (str "Content-Disposition")
        = str "attachment;filename=\"" ++ (Split path).2 ++ str "\"" ∧
      ((Split path).1 ++ (Split path).2 = path ∧ (47 : UInt8) ∉ (Split path).2 ∧
        ((Split path).1 ≠ [] → (Split path).1.getLast? = some 47)) ∧
      (w1.body = w.body ∧ w1.files = w.files ∧ w1.dirs = w.dirs) ∧
      ∀ w2, WebReadWrite.Close w2 = (none, w2) := by
  refine ⟨{ w with header := (headerSet (headerSet (headerSet
      (SetNoSniff (SetNoCacheHeaders w.header)) (str "Content-Length") (fmtUint 10 length))
      (str "Content-Type") (str "application/octet-stream"))
      (str "Content-Disposition") (str "attachment;filename=\"" ++ (Split path).2 ++ str "\"")) },
    by simp only [WebFS, hw, Bool.not_true, Bool.false_eq_true, if_false],
    ?_, ?_, ?_, ?_, Split_spec path, ⟨rfl, rfl, rfl⟩, fun _ => rfl⟩
  · simp only
    rw [headerGet_set_other _ _ _ _ (by decide), headerGet_set_other _ _ _ _ (by decide),
      headerGet_set_same]
  · exact (@fmtUint_spec 10 (by decide) (by decide) length hl).2
  · simp only
    rw [headerGet_set_other _ _ _ _ (by decide), headerGet_set_same]
  · simp only
    rw [headerGet_set_same]

theorem WebFS_CreateFile_headers_witness :
    ∃ w1, (WebFS { Writer := true, Reader := none, UploadFileName := [] }).CreateFile World.empty
        (str "/home/robots.txt") 21 = some ((some WebReadWrite, none), w1) ∧
      headerGet w1.header (str "Content-Length") = str "21" ∧
      headerGet w1.header (str "Content-Type") = str "application/octet-stream" ∧
      headerGet w1.header (str "Content-Disposition") = str "attachment;filename=\"robots.txt\"" := by
  obtain ⟨w1, h1, h2, _, h3, h4, _⟩ := WebFS_CreateFile_headers
    { Writer := true, Reader := none, UploadFileName := [] } World.empty (str "/home/robots.txt")
    21 rfl (by decide)
  refine ⟨w1, h1, ?_, h3, ?_⟩
  · rw [h2]; decide
  · rw [h4]; decide

/-- Claim C24, as amended: every NewFileCmd that ParseNewFile returns has a mode within the
signed 32-bit integers, -2^31 ≤ Mode < 2^31, whose text is an octal number with an optional
sign, and a length below 2^64; and every mode of that range is returned for some line, so no
narrower range holds. -/
theorem ParseNewFile_mode_range :
    (∀ line c, ParseNewFile line = .ok c →
      -(2 ^ 31 : Int) ≤ c.Mode ∧ c.Mode < 2 ^ 31 ∧ c.Length < 2 ^ 64) ∧
    (∀ v : Int, -(2 ^ 31 : Int) ≤ v → v < 2 ^ 31 →
      ∃ line c, ParseNewFile line = .ok c ∧ c.Mode = v) := by
  constructor
  · intro line c h
    obtain ⟨⟨h1, h2⟩, h3⟩ := ParseNewFile_ok_fields line c h
    exact ⟨h1, h2, h3⟩
  · intro v h1 h2
    exact ⟨_, _, ParseNewFile_of_format { Mode := v, Length := 0, Name := [] } h1 h2
      (by show (0 : Nat) < 2 ^ 64; decide),
      rfl⟩

theorem ParseNewFile_mode_range_witness :
    ∃ line c, ParseNewFile line = .ok c ∧ c.Mode = -2147483648 :=
  ParseNewFile_mode_range.2 (-2147483648) (by decide) (by decide)

/-- Claim C24 fails as stated: ParseNewFile returns the mode -7 for the line "-7 1 a" and the
mode 0o77777 for the line "77777 1 a", the one below 0 and the other above 0o7777. -/
theorem ParseNewFile_mode_counterexample :
    ParseNewFile (str "-7 1 a") = .ok { Mode := -7, Length := 1, Name := str "a" } ∧
    ParseNewFile (str "77777 1 a") = .ok { Mode := 0o77777, Length := 1, Name := str "a" } ∧
    ¬ ((0 : Int) ≤ -7) ∧ ¬ ((0o77777 : Int) ≤ 0o7777) := by
  refine ⟨?_, ?_, ?_, ?_⟩ <;> decide

theorem M_bind_fst_ok {α β : Type} {x : M α} {f : α → M β} {s : Env} {a : α}
    (h : (x s).1 = .ok a) : M.bind x f s = f a (x s).2 :=
  M_bind_ok (Prod.ext h rfl)

theorem M_bind_fst_blocked {α β : Type} {x : M α} {f : α → M β} {s : Env}
    (h : (x s).1 = .blocked) : M.bind x f s = (.blocked, (x s).2) :=
  M_bind_blocked (Prod.ext h rfl)

theorem segments_append (a b : List WireItem) : segments (a ++ b) = segments a ++ segments b := by
  induction a with
  | nil => rfl
  | cons i is ih => simp [segments, ih]

theorem Sends_seq {w : World} {x y : M (Option Error)} {sg1 sg2 : List (List (List UInt8))}
    (hx : Sends w x sg1) (hy : Sends w y sg2) :
    Sends w (M.bind x (fun err => check err some y)) (sg1 ++ sg2) := by
  constructor
  · intro s rest cl o hs hw
    have hs1 : s.ch = ⟨List.replicate sg1.length [0] ++ (List.replicate sg2.length [0] ++ rest),
        cl, o, false⟩ := by
      rw [hs, List.length_append, List.replicate_add, List.append_assoc]
    obtain ⟨h1, h2, h3⟩ := hx.1 s _ cl o hs1 hw
    rw [M_bind_fst_ok h1, check_none]
    obtain ⟨h4, h5, h6⟩ := hy.1 (x s).2 rest cl _ h2 h3
    refine ⟨h4, ?_, h6⟩
    rw [h5, List.flatten_append, List.append_assoc]
  · intro s k o hk hs hw
    by_cases hk1 : k < sg1.length
    · obtain ⟨h1, h2⟩ := hx.2 s k o hk1 hs hw
      rw [M_bind_fst_blocked h1]
      refine ⟨rfl, ?_⟩
      show (x s).2.ch.out = _
      rw [h2, List.take_append_of_le_length (by omega)]
    · have hlt : k - sg1.length < sg2.length := by
        rw [List.length_append] at hk
        omega
      have hle : sg1.length ≤ k + 1 := by omega
      have hsub : k + 1 - sg1.length = k - sg1.length + 1 := by omega
      have hk2 : k = sg1.length + (k - sg1.length) := by omega
      have hs1 : s.ch = ⟨List.replicate sg1.length [0] ++ List.replicate (k - sg1.length) [0],
          false, o, false⟩ := by
        rw [hs, ← List.replicate_add, ← hk2]
      obtain ⟨h1, h2, h3⟩ := hx.1 s _ false o hs1 hw
      rw [M_bind_fst_ok h1, check_none]
      obtain ⟨h4, h5⟩ := hy.2 (x s).2 (k - sg1.length) _ hlt h2 h3
      refine ⟨h4, ?_⟩
      rw [h5, List.take_append_eq_append_take, List.take_of_length_le hle,
        List.flatten_append, List.append_assoc, hsub]

theorem Sends_write_ack (w : World) (out : List UInt8) :
    Sends w (M.bind (chWrite out) (fun p => check p.2 some readerRead)) [[out]] := by
  constructor
  · intro s rest cl o hs hw
    rcases s with ⟨⟨inp, cl1, o1, br⟩, w1, sc, p, a, cs, k⟩
    simp only [Chan.mk.injEq] at hs
    obtain ⟨rfl, rfl, rfl, rfl⟩ := hs
    simp [M.bind, chWrite, readerRead_ok, hw]
  · intro s k o hk hs hw
    rcases s with ⟨⟨inp, cl1, o1, br⟩, w1, sc, p, a, cs, k1⟩
    simp only [Chan.mk.injEq] at hs
    obtain ⟨rfl, rfl, rfl, rfl⟩ := hs
    have : k = 0 := by simpa using hk
    subst this
    simp [M.bind, chWrite, readerRead_blocked]

theorem sendFile_ok_world (cmd : Parameters) (fs : FileSystem) (B name path : GoString) (m : Nat)
    (re : Option Error) (es : List FileInfo)
    (rest : List (List UInt8)) (cl : Bool) (o : List (List UInt8))
    (w w1 : World) (sc : Scanner) (p : GoString) (a : List AuditEvent) (cs : List Call) (k : Nat)
    (hA : cmd.AuditLog = true → cmd.User ≠ none)
    (hopen : fs.OpenFile w path = ((some ⟨B, none⟩, none), w1)) :
    (sendFile cmd fs (.mk false name path m (some (B.length : Int)) re es)
        ⟨⟨[0] :: [0] :: rest, cl, o, false⟩, w, sc, p, a, cs, k⟩).2.world = w1 := by
  rcases cmd with ⟨flags, user, audit, progress, fsopt, loc⟩
  cases audit <;> cases progress <;> cases user <;>
    simp_all [sendFile, M.bind, called, onWorld, FileInfo.GetSize, FileInfo.GetPath,
      FileInfo.GetModePerm, FileInfo.GetName, emitAuditEvent, chWrite, readerRead_ok,
      ioCopy_spec, sendOK, progressWrite, closeStream, fileHeader, OKByte, panics]

theorem Sends_sendFile (cmd : Parameters) (fs : FileSystem) (B name path : GoString) (m : Nat)
    (re : Option Error) (es : List FileInfo) (w : World)
    (hA : cmd.AuditLog = true → cmd.User ≠ none)
    (hopen : fs.OpenFile w path = ((some ⟨B, none⟩, none), w)) :
    Sends w (sendFile cmd fs (.mk false name path m (some (B.length : Int)) re es))
      (WireItem.file m name B).segments := by
  constructor
  · intro s rest cl o hs hw
    rcases s with ⟨⟨inp, cl1, o1, br⟩, w1, sc, p, a, cs, k⟩
    simp only [Chan.mk.injEq] at hs
    obtain ⟨rfl, rfl, rfl, rfl⟩ := hs
    have hw1 : w1 = w := hw
    subst hw1
    obtain ⟨h1, h2⟩ := sendFile_ok cmd fs B name path m re es rest cl1 o1 w1 w1 sc p a cs k hA
      hopen
    have h3 := sendFile_ok_world cmd fs B name path m re es rest cl1 o1 w1 w1 sc p a cs k hA
      hopen
    refine ⟨h1, h2.trans ?_, h3⟩
    simp [WireItem.segments]
  · intro s k o hk hs hw
    rcases s with ⟨⟨inp, cl1, o1, br⟩, w1, sc, p, a, cs, k1⟩
    simp only [Chan.mk.injEq] at hs
    obtain ⟨rfl, rfl, rfl, rfl⟩ := hs
    have hw1 : w1 = w := hw
    subst hw1
    have hk2 : k = 0 ∨ k = 1 := by
      simp only [WireItem.segments, List.length_cons, List.length_nil] at hk
      omega
    rcases hk2 with rfl | rfl
    · obtain ⟨h1, h2⟩ := sendFile_blocked_header cmd fs B name path m re es o1 w1 w1 sc p a cs k1
        hA hopen
      refine ⟨h1, (congrArg Chan.out h2).trans ?_⟩
      simp [WireItem.segments]
    · obtain ⟨h1, h2⟩ := sendFile_blocked_body cmd fs B name path m re es o1 w1 w1 sc p a cs k1
        hA hopen
      refine ⟨h1, (congrArg Chan.out h2).trans ?_⟩
      simp [WireItem.segments]

theorem Sends_forEachInfo (w : World) (send : FileInfo → M (Option Error))
    (last : M (Option Error)) (content : GoString → List UInt8)
    (sl : List (List (List UInt8))) (hl : Sends w last sl) :
    ∀ entries : List FileInfo,
      (∀ e ∈ entries, Sends w (send e) (segments (FileInfo.items content e))) →
      Sends w (forEachInfo send last entries)
        (segments (FileInfo.itemsList content entries) ++ sl)
  | [], _ => by
    simpa [forEachInfo, FileInfo.itemsList, segments] using hl
  | e :: es, h => by
    have ih := Sends_forEachInfo w send last content sl hl es
      (fun e1 he1 => h e1 (List.mem_cons_of_mem _ he1))
    have h1 := Sends_seq (h e (List.mem_cons_self _ _)) ih
    rw [FileInfo.itemsList, segments_append, List.append_assoc]
    exact h1

theorem FileInfo.depth_le_depthList (e : FileInfo) :
    ∀ es : List FileInfo, e ∈ es → e.depth ≤ FileInfo.depthList es
  | [], h => by simp at h
  | x :: xs, h => by
    rw [FileInfo.depthList]
    rcases List.mem_cons.mp h with rfl | h1
    · exact Nat.le_max_left _ _
    · exact Nat.le_trans (FileInfo.depth_le_depthList e xs h1) (Nat.le_max_right _ _)

theorem FileInfo.readableList_mem (fs : FileSystem) (w : World)
    (content : GoString → List UInt8) (e : FileInfo) :
    ∀ es : List FileInfo, FileInfo.readableList fs w content es → e ∈ es →
      FileInfo.readable fs w content e
  | [], _, h => by simp at h
  | x :: xs, hr, h => by
    rw [FileInfo.readableList] at hr
    rcases List.mem_cons.mp h with rfl | h1
    · exact hr.1
    · exact FileInfo.readableList_mem fs w content e xs hr.2 h1

theorem Sends_sendDir (cmd : Parameters) (fs : FileSystem) (w : World)
    (content : GoString → List UInt8) (hA : cmd.AuditLog = true → cmd.User ≠ none) :
    ∀ (depth : Nat) (info : FileInfo), info.depth ≤ depth → info.IsDir = true →
      FileInfo.readable fs w content info →
      Sends w (sendDir cmd fs depth info) (segments (FileInfo.items content info))
  | 0, .mk _ _ _ _ _ _ _, hd, _, _ => by
    rw [FileInfo.depth] at hd
    omega
  | depth + 1, .mk false _ _ _ _ _ _, _, hdir, _ => by
    simp [FileInfo.IsDir] at hdir
  | depth + 1, .mk true name path mode size err entries, hd, _, hr => by
    rw [FileInfo.readable] at hr
    obtain ⟨rfl, hrl⟩ := hr
    rw [FileInfo.depth] at hd
    have hent : ∀ e ∈ entries, Sends w
        ((fun info => if info.IsDir then sendDir cmd fs depth info else sendFile cmd fs info) e)
        (segments (FileInfo.items content e)) := by
      intro e he
      have hde : e.depth ≤ depth := by
        have := FileInfo.depth_le_depthList e entries he
        omega
      have hre := FileInfo.readableList_mem fs w content e entries hrl he
      cases e with
      | mk d n p m sz er ens =>
        cases d with
        | true =>
          simp only [FileInfo.IsDir, if_true]
          exact Sends_sendDir cmd fs w content hA depth _ hde rfl hre
        | false =>
          rw [FileInfo.readable] at hre
          obtain ⟨rfl, hopen⟩ := hre
          simp only [FileInfo.IsDir, Bool.false_eq_true, if_false]
          have := Sends_sendFile cmd fs (content p) n p m er ens w hA hopen
          simpa [FileInfo.items, segments] using this
    have hlast := Sends_write_ack w (str "E\n")
    have hloop := Sends_forEachInfo w _ _ content _ hlast entries hent
    have hhead := Sends_write_ack w
      (str "D" ++ fmtOct04 mode ++ str " 0 " ++ name ++ str "\n")
    have hall := Sends_seq hhead hloop
    have hseg : segments (FileInfo.items content (.mk true name path mode size none entries))
        = [[str "D" ++ fmtOct04 mode ++ str " 0 " ++ name ++ str "\n"]] ++
          (segments (FileInfo.itemsList content entries) ++ [[str "E\n"]]) := by
      rw [FileInfo.items, segments, segments_append]
      rfl
    rw [hseg]
    have hfun : sendDir cmd fs (depth + 1) (.mk true name path mode size none entries)
        = M.bind (M.bind (chWrite (str "D" ++ fmtOct04 mode ++ str " 0 " ++ name ++ str "\n"))
            (fun p => check p.2 some readerRead))
          (fun err => check err some (forEachInfo
            (fun info => if info.IsDir then sendDir cmd fs depth info else sendFile cmd fs info)
            (M.bind (chWrite (str "E\n")) (fun p => check p.2 some readerRead)) entries)) := by
      funext s
      rcases s with ⟨⟨inp, cl1, o1, br⟩, w1, sc, p, a, cs, k1⟩
      cases br <;> simp [sendDir, M.bind, chWrite, FileInfo.GetModePerm, FileInfo.GetName,
        FileInfo.ReadDir]
    rw [hfun]
    exact hall

theorem dirFrames_append (a b : List WireItem) : dirFrames (a ++ b) = dirFrames a ++ dirFrames b := by
  simp [dirFrames, List.filterMap_append]

theorem dirFrames_itemsList (content : GoString → List UInt8) :
    ∀ es : List FileInfo,
      (∀ e ∈ es, (∀ rest d, depthAfter (dirFrames (FileInfo.items content e) ++ rest) d
          = depthAfter rest d) ∧
        (dirFrames (FileInfo.items content e)).countP (fun f => f.1 = 68)
          = (dirFrames (FileInfo.items content e)).countP (fun f => f.1 = 69)) →
      (∀ rest d, depthAfter (dirFrames (FileInfo.itemsList content es) ++ rest) d
          = depthAfter rest d) ∧
        (dirFrames (FileInfo.itemsList content es)).countP (fun f => f.1 = 68)
          = (dirFrames (FileInfo.itemsList content es)).countP (fun f => f.1 = 69)
  | [], _ => by
    simp [FileInfo.itemsList, dirFrames]
  | e :: es, h => by
    obtain ⟨h1, h2⟩ := h e (List.mem_cons_self _ _)
    obtain ⟨h3, h4⟩ := dirFrames_itemsList content es
      (fun e1 he1 => h e1 (List.mem_cons_of_mem _ he1))
    rw [FileInfo.itemsList, dirFrames_append]
    constructor
    · intro rest d
      rw [List.append_assoc, h1, h3]
    · rw [List.countP_append, List.countP_append, h2, h4]

theorem dirFrames_items (content : GoString → List UInt8) :
    ∀ (n : Nat) (info : FileInfo), info.depth ≤ n →
      (∀ rest d, depthAfter (dirFrames (FileInfo.items content info) ++ rest) d
          = depthAfter rest d) ∧
        (dirFrames (FileInfo.items content info)).countP (fun f => f.1 = 68)
          = (dirFrames (FileInfo.items content info)).countP (fun f => f.1 = 69)
  | 0, .mk _ _ _ _ _ _ _, hd => by
    rw [FileInfo.depth] at hd
    omega
  | n + 1, .mk false name path mode size err entries, _ => by
    simp [FileInfo.items, dirFrames, WireItem.frame]
  | n + 1, .mk true name path mode size err entries, hd => by
    rw [FileInfo.depth] at hd
    obtain ⟨h1, h2⟩ := dirFrames_itemsList content entries (fun e he =>
      dirFrames_items content n e (by
        have := FileInfo.depth_le_depthList e entries he
        omega))
    have hf : dirFrames (FileInfo.items content (.mk true name path mode size err entries))
        = (68, fmtOct04 mode ++ str " 0 " ++ name) ::
          (dirFrames (FileInfo.itemsList content entries) ++ [(69, [])]) := by
      rw [FileInfo.items]
      simp [dirFrames, WireItem.frame, List.filterMap_append]
    rw [hf]
    constructor
    · intro rest d
      rw [List.cons_append, depthAfter, if_pos rfl, List.append_assoc, h1]
      simp [depthAfter]
    · rw [List.countP_cons, List.countP_cons, List.countP_append, List.countP_append, h2]
      simp

theorem wire_append (a b : List WireItem) : wire (a ++ b) = wire a ++ wire b := by
  simp [wire, segments_append]

theorem wire_itemsList (content : GoString → List UInt8) (es : List FileInfo) :
    wire (FileInfo.itemsList content es)
      = (es.map (fun e => wire (FileInfo.items content e))).flatten := by
  induction es with
  | nil => rfl
  | cons e es ih => rw [FileInfo.itemsList, wire_append, ih]; rfl

theorem Sends_child (cmd : Parameters) (fs : FileSystem) (w : World)
    (content : GoString → List UInt8) (hA : cmd.AuditLog = true → cmd.User ≠ none)
    (depth : Nat) (e : FileInfo) (hde : e.depth ≤ depth)
    (hre : FileInfo.readable fs w content e) :
    Sends w (if e.IsDir then sendDir cmd fs depth e else sendFile cmd fs e)
      (segments (FileInfo.items content e)) := by
  cases e with
  | mk d n p m sz er ens =>
    cases d with
    | true =>
      simp only [FileInfo.IsDir, if_true]
      exact Sends_sendDir cmd fs w content hA depth _ hde rfl hre
    | false =>
      rw [FileInfo.readable] at hre
      obtain ⟨rfl, hopen⟩ := hre
      simp only [FileInfo.IsDir, Bool.false_eq_true, if_false]
      have := Sends_sendFile cmd fs (content p) n p m er ens w hA hopen
      simpa [FileInfo.items, segments] using this

/-- Claim C25, as amended: for a command that has a user whenever it has an audit log, and a
directory tree of any shape and nesting on which every backend call of the source succeeds where
ReadDir gives the entries and each file reports as its size the length of the contents its
reader yields, with the peer answering every ack with 0x00, sendDir ends without error, having
taken exactly these acks; what it has written to the channel is the line "D", the mode in octal,
" 0 ", the name and a newline, then for each entry, in the order of ReadDir, what sendDir (for a
directory) or sendFile (for a file) writes for it, then the line "E" and a newline. The D and E
frames of the output are properly nested and there are as many E frames as D frames. -/
theorem sendDir_output (cmd : Parameters) (fs : FileSystem) (w : World)
    (content : GoString → List UInt8) (depth : Nat) (name path : GoString) (mode : Nat)
    (size : Option Int) (entries : List FileInfo) (s : Env) (rest : List (List UInt8))
    (cl : Bool) (o : List (List UInt8))
    (hA : cmd.AuditLog = true → cmd.User ≠ none)
    (hd : (FileInfo.mk true name path mode size none entries).depth ≤ depth)
    (hr : FileInfo.readableList fs w content entries)
    (hs : s.ch = ⟨List.replicate
      (segments (FileInfo.items content (.mk true name path mode size none entries))).length [0]
        ++ rest, cl, o, false⟩)
    (hw : s.world = w) :
    (sendDir cmd fs depth (.mk true name path mode size none entries) s).1 = .ok none ∧
    (sendDir cmd fs depth (.mk true name path mode size none entries) s).2.ch
      = ⟨rest, cl,
          o ++ wire (FileInfo.items content (.mk true name path mode size none entries)),
          false⟩ ∧
    wire (FileInfo.items content (.mk true name path mode size none entries))
      = [str "D" ++ fmtOct04 mode ++ str " 0 " ++ name ++ str "\n"]
        ++ (entries.map (fun e => wire (FileInfo.items content e))).flatten ++ [str "E\n"] ∧
    (∀ e ∈ entries,
      Sends w (if e.IsDir then sendDir cmd fs (depth - 1) e else sendFile cmd fs e)
        (segments (FileInfo.items content e))) ∧
    balanced (dirFrames (FileInfo.items content (.mk true name path mode size none entries))) ∧
    (dirFrames (FileInfo.items content (.mk true name path mode size none entries))).countP
        (fun f => f.1 = 68)
      = (dirFrames (FileInfo.items content (.mk true name path mode size none entries))).countP
        (fun f => f.1 = 69) := by
  have hrd : FileInfo.readable fs w content (.mk true name path mode size none entries) := by
    rw [FileInfo.readable]
    exact ⟨rfl, hr⟩
  obtain ⟨h1, h2, _⟩ := (Sends_sendDir cmd fs w content hA depth _ hd rfl hrd).1 s rest cl o hs hw
  obtain ⟨h3, h4⟩ := dirFrames_items content depth _ hd
  refine ⟨h1, h2, ?_, ?_, ?_, h4⟩
  · rw [FileInfo.items, ← wire_itemsList]
    show wire ([WireItem.dir mode name] ++ (FileInfo.itemsList content entries ++ [.endDir])) = _
    rw [wire_append, wire_append, List.append_assoc]
    rfl
  · intro e he
    rw [FileInfo.depth] at hd
    have hde : e.depth ≤ depth - 1 := by
      have := FileInfo.depth_le_depthList e entries he
      omega
    exact Sends_child cmd fs w content hA (depth - 1) e hde
      (FileInfo.readableList_mem fs w content e entries hr he)
  · have := h3 [] 0
    rw [List.append_nil] at this
    exact this

theorem sendDir_output_witness :
    (sendDir (sourceCommand (str "/d")) LocalFS 2
        (.mk true (str "d") (str "/d") 0o755 none none
          [.mk false (str "f") (str "/d/f") 0o644 (some 2) none [],
           .mk true (str "sub") (str "/d/sub") 0o700 none none []])
        (Env.start (World.withFile (str "/d/f") (str "hi") 0o644)
          [[0], [0], [0], [0], [0], [0]] false)).2.ch.out.flatten
      = str "D0755 0 d\nC0644 2 f\nhi\x00D0700 0 sub\nE\nE\n" := by
  have h := (sendDir_output (sourceCommand (str "/d")) LocalFS
    (World.withFile (str "/d/f") (str "hi") 0o644) (fun _ => str "hi") 2 (str "d") (str "/d")
    0o755 none
    [.mk false (str "f") (str "/d/f") 0o644 (some 2) none [],
     .mk true (str "sub") (str "/d/sub") 0o700 none none []]
    (Env.start (World.withFile (str "/d/f") (str "hi") 0o644)
      [[0], [0], [0], [0], [0], [0]] false) [] false []
    (by decide) (by decide)
    ⟨⟨rfl, rfl⟩, ⟨rfl, trivial⟩, trivial⟩ rfl rfl).2.1
  rw [h]
  decide!

/-- Claim C25 fails as stated, in two ways. The directory d with the one file f whose FileInfo
reports the size 1 while its reader yields "abc" (a file that grew), every backend call
succeeding and the peer having answered every ack: sendDir writes the D line, the header and the
three bytes, returns the error "short write: 3 1" and never writes the E line. And with an audit
log and no user, on the directory d with the file f of contents "hi": sendDir panics on the nil
user in sendFile after the D line. -/
theorem sendDir_output_counterexample :
    ((sendDir (sourceCommand (str "/d")) LocalFS 2
        (.mk true (str "d") (str "/d") 0o755 none none
          [.mk false (str "f") (str "/d/f") 0o644 (some 1) none []])
        (Env.start (World.withFile (str "/d/f") (str "abc") 0o644)
          [[0], [0], [0], [0]] false)).1
      = .ok (some (.text (str "short write: 3 1"))) ∧
     (sendDir (sourceCommand (str "/d")) LocalFS 2
        (.mk true (str "d") (str "/d") 0o755 none none
          [.mk false (str "f") (str "/d/f") 0o644 (some 1) none []])
        (Env.start (World.withFile (str "/d/f") (str "abc") 0o644)
          [[0], [0], [0], [0]] false)).2.ch.out.flatten
      = str "D0755 0 d\nC0644 1 f\nabc") ∧
    ((sendDir { sourceCommand (str "/d") with AuditLog := true } LocalFS 2
        (.mk true (str "d") (str "/d") 0o755 none none
          [.mk false (str "f") (str "/d/f") 0o644 (some 2) none []])
        (Env.start (World.withFile (str "/d/f") (str "hi") 0o644)
          [[0], [0], [0], [0]] false)).1
      = .panics ∧
     (sendDir { sourceCommand (str "/d") with AuditLog := true } LocalFS 2
        (.mk true (str "d") (str "/d") 0o755 none none
          [.mk false (str "f") (str "/d/f") 0o644 (some 2) none []])
        (Env.start (World.withFile (str "/d/f") (str "hi") 0o644)
          [[0], [0], [0], [0]] false)).2.ch.out.flatten
      = str "D0755 0 d\n") := by
  decide!

/-- Claim C23 fails as stated, in two ways. The directory /d with the one file "f\r" (a name
without a newline) of contents "hi", sent recursively by the source engine on the local backend
to the sink engine on the local backend with the existing directory /out as target: both engines
end without error, but no file is at /out/d/f\r; the contents are at /out/d/f, since the sink
drops the carriage return at the end of the header line. And the directory /d with the file f,
sent to the target /out that does not exist: both engines end without error, but no file is at
/out/d/f and /out/d is no directory; the file is at /out/f, the directory /d itself having been
made as /out. -/
theorem tree_roundTrip_counterexample :
    ((lockStep (serveSource (recursiveSource (str "/d")) LocalFS)
        (serveSink (recursiveSink (str "/out")) LocalFS)
        (World.withDirFile (str "/d") (str "/d/f\r") (str "hi") 0o644)
        (World.withDirs [str "/out"]) 5).1.1 = .ok none ∧
     (lockStep (serveSource (recursiveSource (str "/d")) LocalFS)
        (serveSink (recursiveSink (str "/out")) LocalFS)
        (World.withDirFile (str "/d") (str "/d/f\r") (str "hi") 0o644)
        (World.withDirs [str "/out"]) 5).2.1 = .ok none ∧
     (lockStep (serveSource (recursiveSource (str "/d")) LocalFS)
        (serveSink (recursiveSink (str "/out")) LocalFS)
        (World.withDirFile (str "/d") (str "/d/f\r") (str "hi") 0o644)
        (World.withDirs [str "/out"]) 5).2.2.world.file (str "/out/d/f\r") = none ∧
     (lockStep (serveSource (recursiveSource (str "/d")) LocalFS)
        (serveSink (recursiveSink (str "/out")) LocalFS)
        (World.withDirFile (str "/d") (str "/d/f\r") (str "hi") 0o644)
        (World.withDirs [str "/out"]) 5).2.2.world.file (str "/out/d/f")
       = some (str "hi", 0o644)) ∧
    ((lockStep (serveSource (recursiveSource (str "/d")) LocalFS)
        (serveSink (recursiveSink (str "/out")) LocalFS)
        (World.withDirFile (str "/d") (str "/d/f") (str "hi") 0o644)
        World.empty 5).1.1 = .ok none ∧
     (lockStep (serveSource (recursiveSource (str "/d")) LocalFS)
        (serveSink (recursiveSink (str "/out")) LocalFS)
        (World.withDirFile (str "/d") (str "/d/f") (str "hi") 0o644)
        World.empty 5).2.1 = .ok none ∧
     (lockStep (serveSource (recursiveSource (str "/d")) LocalFS)
        (serveSink (recursiveSink (str "/out")) LocalFS)
        (World.withDirFile (str "/d") (str "/d/f") (str "hi") 0o644)
        World.empty 5).2.2.world.file (str "/out/d/f") = none ∧
     (lockStep (serveSource (recursiveSource (str "/d")) LocalFS)
        (serveSink (recursiveSink (str "/out")) LocalFS)
        (World.withDirFile (str "/d") (str "/d/f") (str "hi") 0o644)
        World.empty 5).2.2.world.isDir (str "/out/d") = false ∧
     (lockStep (serveSource (recursiveSource (str "/d")) LocalFS)
        (serveSink (recursiveSink (str "/out")) LocalFS)
        (World.withDirFile (str "/d") (str "/d/f") (str "hi") 0o644)
        World.empty 5).2.2.world.file (str "/out/f") = some (str "hi", 0o644)) := by
  decide!

/-- Two engines in lock step, the first one writing its segments one for each ack of the second,
the second one answering what it has of the segments with acks and never falling behind: from
the round after the last segment on, the first engine has come to its end without error and the
second has run on all the segments with the channel closed. -/
theorem lockStep_protocol (a b : M (Option Error)) (wa wb : World)
    (segs : List (List (List UInt8))) (g : Nat → Nat)
    (hS1 : ∀ k, k ≤ segs.length →
      (a (Env.start wa (List.replicate k [0]) false)).1 = .blocked ∧
      (a (Env.start wa (List.replicate k [0]) false)).2.ch.out = (segs.take k).flatten)
    (hS2 : ∀ cl, (a (Env.start wa (List.replicate (segs.length + 1) [0]) cl)).1 = .ok none ∧
      (a (Env.start wa (List.replicate (segs.length + 1) [0]) cl)).2.ch.out = segs.flatten)
    (hR1 : ∀ j, j ≤ segs.length →
      (b (Env.start wb (segs.take j).flatten false)).1 = .blocked ∧
      (b (Env.start wb (segs.take j).flatten false)).2.ch.out = List.replicate (g j) [0])
    (hg : ∀ j, j ≤ segs.length → j + 1 ≤ g j ∧ g j ≤ segs.length + 1)
    (hR2 : (b (Env.start wb segs.flatten true)).2.ch.out
      = List.replicate (segs.length + 1) [0])
    (n : Nat) (hn : segs.length + 1 ≤ n) :
    (lockStep a b wa wb n).1.1 = .ok none ∧
    (lockStep a b wa wb n).2 = b (Env.start wb segs.flatten true) := by
  have hinv : ∀ r, ∃ k, min (r + 1) (segs.length + 1) ≤ k ∧ k ≤ segs.length + 1 ∧
      (lockStep a b wa wb r).2.2.ch.out = List.replicate k [0] ∧
      (k ≤ segs.length → (lockStep a b wa wb r).2.1.done = false) := by
    intro r
    induction r with
    | zero =>
      have h0 := hR1 0 (Nat.zero_le _)
      simp only [List.take_zero, List.flatten_nil] at h0
      have hg0 := hg 0 (Nat.zero_le _)
      refine ⟨g 0, ?_, hg0.2, h0.2, fun _ => ?_⟩
      · have : min (0 + 1) (segs.length + 1) ≤ 1 := Nat.min_le_left _ _
        omega
      · show (b (Env.start wb [] false)).1.done = false
        rw [h0.1]
        rfl
    | succ r ih =>
      obtain ⟨k, hk1, hk2, hout, hdone⟩ := ih
      rw [lockStep_succ, hout]
      simp only
      by_cases hk : k ≤ segs.length
      · rw [hdone hk, (hS1 k hk).1, (hS1 k hk).2]
        have hr := hR1 k hk
        have hgk := hg k hk
        refine ⟨g k, ?_, hgk.2, hr.2, fun _ => ?_⟩
        · have h1 : min (r + 1 + 1) (segs.length + 1) ≤ min (r + 1) (segs.length + 1) + 1 := by
            simp only [Nat.min_def]
            split <;> split <;> omega
          omega
        · show (b (Env.start wb (segs.take k).flatten false)).1.done = false
          rw [hr.1]
          rfl
      · have hk3 : k = segs.length + 1 := by omega
        subst hk3
        rw [(hS2 _).1, (hS2 _).2]
        refine ⟨segs.length + 1, Nat.min_le_right _ _, Nat.le_refl _, hR2, fun h => ?_⟩
        omega
  obtain ⟨r, rfl⟩ : ∃ r, n = r + 1 := ⟨n - 1, by omega⟩
  obtain ⟨k, hk1, hk2, hout, _⟩ := hinv r
  have hk3 : k = segs.length + 1 := by
    have : min (r + 1) (segs.length + 1) = segs.length + 1 := Nat.min_eq_right (by omega)
    omega
  subst hk3
  rw [lockStep_succ, hout]
  simp only
  rw [(hS2 _).1, (hS2 _).2]
  exact ⟨rfl, rfl⟩

theorem Sends_pure (w : World) : Sends w (pure none) [] := by
  constructor
  · intro s rest cl o hs hw
    refine ⟨rfl, ?_, hw⟩
    show s.ch = _
    rw [hs]
    simp
  · intro s k o hk
    simp at hk

theorem Sends_readerRead (w : World) : Sends w readerRead [[]] := by
  constructor
  · intro s rest cl o hs hw
    rcases s with ⟨⟨inp, cl1, o1, br⟩, w1, sc, p, a, cs, k⟩
    simp only [Chan.mk.injEq] at hs
    obtain ⟨rfl, rfl, rfl, rfl⟩ := hs
    have h := readerRead_ok rest cl1 false o1 w1 sc p a cs k
    refine ⟨congrArg Prod.fst h, (congrArg (fun r => r.2.ch) h).trans ?_,
      (congrArg (fun r => r.2.world) h).trans hw⟩
    simp
  · intro s k o hk hs hw
    rcases s with ⟨⟨inp, cl1, o1, br⟩, w1, sc, p, a, cs, k1⟩
    simp only [Chan.mk.injEq] at hs
    obtain ⟨rfl, rfl, rfl, rfl⟩ := hs
    have : k = 0 := by simpa using hk
    subst this
    have h := readerRead_blocked false o1 w1 sc p a cs k1
    refine ⟨congrArg Prod.fst h, (congrArg (fun r => r.2.ch.out) h).trans ?_⟩
    simp

theorem Sends_serveSource (cmd : Parameters) (fs : FileSystem) (w : World)
    (content : GoString → List UInt8) (target : GoString) (info : FileInfo)
    (hA : cmd.AuditLog = true → cmd.User ≠ none)
    (hT : cmd.Flags.Target = [target]) (hrec : cmd.Flags.Recursive = true)
    (hinfo : fs.GetFileInfo w target = .ok info) (hdir : info.IsDir = true)
    (hr : FileInfo.readable fs w content info) :
    Sends w (serveSource cmd fs) ([] :: segments (FileInfo.items content info)) := by
  have h1 := Sends_sendDir cmd fs w content hA info.depth info (Nat.le_refl _) hdir hr
  have h2 := Sends_seq h1 (Sends_pure w)
  have h3 := Sends_seq (Sends_readerRead w) h2
  rw [List.append_nil] at h3
  have hfun : ∀ s : Env, s.world = w → serveSource cmd fs s
      = M.bind readerRead (fun err => check err some
          (M.bind (sendDir cmd fs info.depth info) (fun err => check err some (pure none))))
        { s with calls := s.calls ++ [.GetFileInfo target] } := by
    intro s hw
    rcases s with ⟨c, w1, sc, p, a, cs, k⟩
    have hw1 : w1 = w := hw
    subst hw1
    simp [serveSource, sourceInfos, M.bind, called, hT, hinfo, hrec, forEachInfo, hdir]
  constructor
  · intro s rest cl o hs hw
    rw [hfun s hw]
    exact h3.1 _ rest cl o hs hw
  · intro s k o hk hs hw
    rw [hfun s hw]
    exact h3.2 _ k o hk hs hw

theorem Scanner.idle_new : Scanner.new.idle := ⟨rfl, rfl, Or.inl ⟨rfl, rfl⟩⟩

/-- Scan between two lines, when the next piece on the channel is a line of no more than 2048
bytes with its newline: the scanner takes the piece, the token is the line without the newline
and without a carriage return before it, and the scanner is between two lines again. -/
theorem Scan_idle (body : List UInt8) (rest : List (List UInt8)) (cl br : Bool)
    (o : List (List UInt8)) (w : World) (sc : Scanner) (p : GoString) (a : List AuditEvent)
    (cs : List Call) (k : Nat) (hidle : sc.idle) (hnl : (10 : UInt8) ∉ body)
    (hlen : body.length + 1 ≤ 2048) :
    ∃ sc1 : Scanner, sc1.idle ∧ sc1.token = dropCR body ∧
      Scan ⟨⟨(body ++ [10]) :: rest, cl, o, br⟩, w, sc, p, a, cs, k⟩
        = (.ok (), ⟨⟨rest, cl, o, br⟩, w, sc1, p, a, cs, k⟩) := by
  obtain ⟨buf, start, cap, err, token⟩ := sc
  obtain ⟨hb, he, hc⟩ := hidle
  simp only at hb he hc
  subst hb he
  -- the scanner before the read
  obtain ⟨st2, hst2, hgrow⟩ : ∃ st2, st2 ≤ 2048 ∧
      scanGrow (scanShift (scanFind ⟨[], start, cap, none, token⟩).2)
        = ⟨[], st2, 4096, none, token⟩ := by
    have hfind : scanFind ⟨[], start, cap, none, token⟩ = (false, ⟨[], start, cap, none, token⟩) := by
      simp [scanFind]
    rw [hfind]
    rcases hc with ⟨rfl, rfl⟩ | ⟨rfl, hs⟩
    · exact ⟨0, by omega, by simp [scanShift, scanGrow]⟩
    · by_cases h1 : start ≤ 2048
      · refine ⟨start, h1, ?_⟩
        have h2 : ¬ (start > 0 ∧ (start + 0 = 4096 ∨ start > 4096 / 2)) := by omega
        have h3 : ¬ (start + 0 = 4096) := by omega
        have e1 : scanShift ⟨[], start, 4096, none, token⟩ = ⟨[], start, 4096, none, token⟩ := by
          unfold scanShift
          exact if_neg h2
        have e2 : scanGrow ⟨[], start, 4096, none, token⟩ = ⟨[], start, 4096, none, token⟩ := by
          unfold scanGrow
          exact if_neg h3
        rw [e1, e2]
      · refine ⟨0, by omega, ?_⟩
        have h2 : (start > 0 ∧ (start + 0 = 4096 ∨ start > 4096 / 2)) := by omega
        have e1 : scanShift ⟨[], start, 4096, none, token⟩ = ⟨[], 0, 4096, none, token⟩ := by
          unfold scanShift
          exact if_pos h2
        have e2 : scanGrow ⟨[], 0, 4096, none, token⟩ = ⟨[], 0, 4096, none, token⟩ := by
          unfold scanGrow
          exact if_neg (show ¬ ((0 : Nat) + 0 = 4096) by decide)
        rw [e1, e2]
  have htake : (body ++ [10]).take (4096 - (st2 + 0)) = body ++ [10] :=
    List.take_of_length_le (by simp; omega)
  have hdrop : (body ++ [10]).drop (4096 - (st2 + 0)) = [] :=
    List.drop_of_length_le (by simp; omega)
  have hread : scanReadOnce ⟨⟨(body ++ [10]) :: rest, cl, o, br⟩, w,
        ⟨[], st2, 4096, none, token⟩, p, a, cs, k⟩
      = (.ok true, ⟨⟨rest, cl, o, br⟩, w, ⟨body ++ [10], st2, 4096, none, token⟩, p, a, cs, k⟩) := by
    simp only [scanReadOnce, chRead, List.length_nil, htake, hdrop, if_true, List.nil_append]
    simp
  have hbf : beforeFirst 10 (body ++ [10]) = body := by
    rw [beforeFirst_snoc]
    exact (before_after_of_not_mem hnl).1
  refine ⟨⟨[], st2 + (body.length + 1), 4096, none, dropCR body⟩,
    ⟨rfl, rfl, Or.inr ⟨rfl, by show st2 + (body.length + 1) ≤ 4096; omega⟩⟩, rfl, ?_⟩
  unfold Scan
  rw [show (Env.mk ⟨(body ++ [10]) :: rest, cl, o, br⟩ w ⟨[], start, cap, none, token⟩ p a cs
      k).ch.pending + 2 = ((Chan.mk ((body ++ [10]) :: rest) cl o br).pending) + 1 + 1 from rfl,
    scanLoop_succ]
  have hfind : scanFind ⟨[], start, cap, none, token⟩ = (false, ⟨[], start, cap, none, token⟩) := by
    simp [scanFind]
  simp only [hgrow]
  rw [hfind] at hgrow ⊢
  simp only [Bool.false_eq_true, if_false, ne_eq, not_true_eq_false]
  have hcap : ¬ ((scanShift ⟨[], start, cap, none, token⟩).start
      + (scanShift ⟨[], start, cap, none, token⟩).buf.length
      = (scanShift ⟨[], start, cap, none, token⟩).cap
      ∧ (scanShift ⟨[], start, cap, none, token⟩).cap ≥ 65536) := by
    intro h
    have : (scanShift ⟨[], start, cap, none, token⟩).cap = cap := by
      unfold scanShift
      split_ifs <;> rfl
    rw [this] at h
    rcases hc with ⟨rfl, rfl⟩ | ⟨rfl, hs⟩ <;> omega
  rw [if_neg hcap]
  have hsr : scanRead 100 ⟨⟨(body ++ [10]) :: rest, cl, o, br⟩, w,
        ⟨[], st2, 4096, none, token⟩, p, a, cs, k⟩
      = (.ok (), ⟨⟨rest, cl, o, br⟩, w, ⟨body ++ [10], st2, 4096, none, token⟩, p, a, cs, k⟩) := by
    rw [scanRead, M_bind_ok hread]
    rfl
  rw [M_bind_ok hsr, scanLoop_succ]
  have hfind2 : scanFind ⟨body ++ [10], st2, 4096, none, token⟩
      = (true, ⟨[], st2 + (body.length + 1), 4096, none, dropCR body⟩) := by
    simp [scanFind, ScanLines, hbf]
  simp only [hfind2, if_true]

/-- The recursive sink on the header of a file once the body and what follows it are there:
receiveFile, at any depth of the stack. -/
theorem receiveFile_rec_ok (cmd : Parameters) (t : GoString) (ts : List GoString) (st : State)
    (m : Nat) (name : GoString) (chunks : List (List UInt8)) (hne : ∀ c ∈ chunks, c ≠ [])
    (hlen : chunks.flatten.length < 2 ^ 63)
    (rest : List (List UInt8)) (cl : Bool) (o : List (List UInt8))
    (w : World) (sc : Scanner) (p : GoString) (a : List AuditEvent) (cs : List Call) (k : Nat)
    (hT : cmd.Flags.Target = t :: ts) (hr : cmd.Flags.Recursive = true)
    (hA : cmd.AuditLog = true → cmd.User ≠ none)
    (hden : w.denied (Clean (st.makePath t name)) = false)
    (hdir : w.isDir (st.makePath t name) = false) :
    ∃ pr au cs2 k2,
      receiveFile cmd LocalFS st
          { Mode := (m : Int), Length := chunks.flatten.length, Name := name }
          ⟨⟨chunks ++ rest, cl, o, false⟩, w, sc, p, a, cs, k⟩
        = (.ok none, ⟨⟨rest, cl, o ++ [[0]], false⟩,
            w.setFile (st.makePath t name) chunks.flatten (m % 512), sc, pr, au, cs2, k2⟩) := by
  have hcreate := LocalFS_CreateFile w (st.makePath t name) chunks.flatten.length hden hdir
  have hchmod := LocalFS_SetChmod w (st.makePath t name) chunks.flatten
    (createPerm w (st.makePath t name)) m hden
  have hcopy := fun o' pr au cs' k' => ioCopyN_spec (st.makePath t name) chunks hne []
    (createPerm w (st.makePath t name)) rest cl false o' w sc pr au cs' k'
  unfold receiveFile
  simp only [hT, M_bind_eq, hr, if_true, true_or]
  rw [M_bind_ok (show (pure true : M Bool) ⟨⟨chunks ++ rest, cl, o, false⟩, w, sc, p, a, cs, k⟩
      = (.ok true, ⟨⟨chunks ++ rest, cl, o, false⟩, w, sc, p, a, cs, k⟩) from rfl)]
  rw [M_bind_ok (show called (.CreateFile (st.makePath t name) chunks.flatten.length)
        ⟨⟨chunks ++ rest, cl, o, false⟩, w, sc, p, a, cs, k⟩
      = (.ok (), ⟨⟨chunks ++ rest, cl, o, false⟩, w, sc, p, a,
          cs ++ [.CreateFile (st.makePath t name) chunks.flatten.length], k⟩) from rfl)]
  rw [M_bind_ok (show (fun s =>
        match LocalFS.CreateFile s.world (st.makePath t name) chunks.flatten.length with
        | none => (Res.panics, s)
        | some (r, w) => (Res.ok r, { s with world := w }) :
          M (Option WriteCloser × Option Error))
        ⟨⟨chunks ++ rest, cl, o, false⟩, w, sc, p, a,
          cs ++ [.CreateFile (st.makePath t name) chunks.flatten.length], k⟩
      = (.ok (some (osFile (st.makePath t name)), none),
          ⟨⟨chunks ++ rest, cl, o, false⟩,
            w.setFile (st.makePath t name) [] (createPerm w (st.makePath t name)), sc, p, a,
            cs ++ [.CreateFile (st.makePath t name) chunks.flatten.length], k⟩) by
    simp only [hcreate])]
  simp only [check_none]
  by_cases hp : cmd.ProgressWriter = true <;> by_cases ha : cmd.AuditLog = true
  · cases hu : cmd.User with
    | none => exact absurd hu (hA ha)
    | some u =>
      refine ⟨(p ++ (str "<- " ++ st.makePath t name ++ str " (" ++
          fmtUint 10 chunks.flatten.length ++ str ")\n")), (a ++ [(AuditEvent.mk (st.makePath t name) ((chunks.flatten.length : Nat) : Int)
          cmd.Flags.LocalAddr cmd.Flags.RemoteAddr u (str "write"))]),
        (cs ++ [Call.CreateFile (st.makePath t name) chunks.flatten.length]
          ++ [Call.SetChmod (st.makePath t name) (m : Int)]), k + 1, ?_⟩
      simp [-List.length_flatten, M.bind, sendOK, chWrite, OKByte, toInt64_small _ hlen, hcopy,
        called, onWorld, hchmod, osFile_Close, closeStream, progressWrite, hp, ha,
        emitAuditEvent]
  · refine ⟨(p ++ (str "<- " ++ st.makePath t name ++ str " (" ++
          fmtUint 10 chunks.flatten.length ++ str ")\n")), a,
        (cs ++ [Call.CreateFile (st.makePath t name) chunks.flatten.length]
          ++ [Call.SetChmod (st.makePath t name) (m : Int)]), k + 1, ?_⟩
    simp [-List.length_flatten, M.bind, sendOK, chWrite, OKByte, toInt64_small _ hlen, hcopy,
      called, onWorld, hchmod, osFile_Close, closeStream, progressWrite, hp, ha]
  · cases hu : cmd.User with
    | none => exact absurd hu (hA ha)
    | some u =>
      refine ⟨p, (a ++ [(AuditEvent.mk (st.makePath t name) ((chunks.flatten.length : Nat) : Int)
          cmd.Flags.LocalAddr cmd.Flags.RemoteAddr u (str "write"))]),
        (cs ++ [Call.CreateFile (st.makePath t name) chunks.flatten.length]
          ++ [Call.SetChmod (st.makePath t name) (m : Int)]), k + 1, ?_⟩
      simp [-List.length_flatten, M.bind, sendOK, chWrite, OKByte, toInt64_small _ hlen, hcopy,
        called, onWorld, hchmod, osFile_Close, closeStream, progressWrite, hp, ha,
        emitAuditEvent]
  · refine ⟨p, a,
        (cs ++ [Call.CreateFile (st.makePath t name) chunks.flatten.length]
          ++ [Call.SetChmod (st.makePath t name) (m : Int)]), k + 1, ?_⟩
    simp [-List.length_flatten, M.bind, sendOK, chWrite, OKByte, toInt64_small _ hlen, hcopy,
      called, onWorld, hchmod, osFile_Close, closeStream, progressWrite, hp, ha]

/-- The recursive sink on the header of a file that is not empty, before its body is there. -/
theorem receiveFile_rec_blocked (cmd : Parameters) (t : GoString) (ts : List GoString)
    (st : State) (m L : Nat) (name : GoString) (hL : 0 < L) (hlen : L < 2 ^ 63)
    (o : List (List UInt8))
    (w : World) (sc : Scanner) (p : GoString) (a : List AuditEvent) (cs : List Call) (k : Nat)
    (hT : cmd.Flags.Target = t :: ts) (hr : cmd.Flags.Recursive = true)
    (hA : cmd.AuditLog = true → cmd.User ≠ none)
    (hden : w.denied (Clean (st.makePath t name)) = false)
    (hdir : w.isDir (st.makePath t name) = false) :
    (receiveFile cmd LocalFS st { Mode := (m : Int), Length := L, Name := name }
          ⟨⟨[], false, o, false⟩, w, sc, p, a, cs, k⟩).1 = .blocked ∧
    (receiveFile cmd LocalFS st { Mode := (m : Int), Length := L, Name := name }
          ⟨⟨[], false, o, false⟩, w, sc, p, a, cs, k⟩).2.ch.out = o ++ [[0]] := by
  have hcreate := LocalFS_CreateFile w (st.makePath t name) L hden hdir
  have hcopy := fun o' pr au cs' k' w' => ioCopyN_blocked (osFile (st.makePath t name)) (L : Int)
    (by omega) false o' w' sc pr au cs' k'
  unfold receiveFile
  simp only [hT, M_bind_eq, hr, if_true, true_or]
  rw [M_bind_ok (show (pure true : M Bool) ⟨⟨[], false, o, false⟩, w, sc, p, a, cs, k⟩
      = (.ok true, ⟨⟨[], false, o, false⟩, w, sc, p, a, cs, k⟩) from rfl)]
  rw [M_bind_ok (show called (.CreateFile (st.makePath t name) L)
        ⟨⟨[], false, o, false⟩, w, sc, p, a, cs, k⟩
      = (.ok (), ⟨⟨[], false, o, false⟩, w, sc, p, a,
          cs ++ [.CreateFile (st.makePath t name) L], k⟩) from rfl)]
  rw [M_bind_ok (show (fun s =>
        match LocalFS.CreateFile s.world (st.makePath t name) L with
        | none => (Res.panics, s)
        | some (r, w) => (Res.ok r, { s with world := w }) :
          M (Option WriteCloser × Option Error))
        ⟨⟨[], false, o, false⟩, w, sc, p, a,
          cs ++ [.CreateFile (st.makePath t name) L], k⟩
      = (.ok (some (osFile (st.makePath t name)), none),
          ⟨⟨[], false, o, false⟩,
            w.setFile (st.makePath t name) [] (createPerm w (st.makePath t name)), sc, p, a,
            cs ++ [.CreateFile (st.makePath t name) L], k⟩) by
    simp only [hcreate])]
  simp only [check_none]
  by_cases ha : cmd.AuditLog = true
  · cases hu : cmd.User with
    | none => exact absurd hu (hA ha)
    | some u =>
      simp [M.bind, sendOK, chWrite, OKByte, toInt64_small _ hlen, hcopy, ha, emitAuditEvent]
  · simp [M.bind, sendOK, chWrite, OKByte, toInt64_small _ hlen, hcopy, ha]

/-- A turn of the loop of the sink on a line of the peer. -/
theorem sinkLoop_line (cmd : Parameters) (fs : FileSystem) (f : Nat) (st : State)
    (b : UInt8) (hb : b ≠ 0) (body : List UInt8)
    (rest : List (List UInt8)) (cl br : Bool) (o : List (List UInt8))
    (w : World) (sc : Scanner) (p : GoString) (a : List AuditEvent) (cs : List Call) (k : Nat)
    (hidle : sc.idle) (hnl : (10 : UInt8) ∉ body) (hlen : body.length + 1 ≤ 2048) :
    ∃ sc1 : Scanner, sc1.idle ∧
      serveSinkLoop cmd fs (f + 1) st
          ⟨⟨(b :: (body ++ [10])) :: rest, cl, o, br⟩, w, sc, p, a, cs, k⟩
        = M.bind (processCommand cmd fs st b (dropCR body))
            (fun r => check r.1 some (M.bind sendOK (fun err =>
              check err some (serveSinkLoop cmd fs f r.2))))
            ⟨⟨rest, cl, o, br⟩, w, sc1, p, a, cs, k⟩ := by
  obtain ⟨sc1, hid1, htok, hscan⟩ := Scan_idle body rest cl br o w sc p a cs k hidle hnl hlen
  refine ⟨sc1, hid1, ?_⟩
  obtain ⟨buf1, start1, cap1, err1, token1⟩ := sc1
  obtain ⟨_, he1, _⟩ := hid1
  simp only at he1 htok
  subst he1 htok
  rw [serveSinkLoop]
  simp only [M_bind_eq]
  rw [M_bind_ok (show chRead 1
        ⟨⟨(b :: (body ++ [10])) :: rest, cl, o, br⟩, w, sc, p, a, cs, k⟩
      = (.ok ([b], none),
          ⟨⟨(body ++ [10]) :: rest, cl, o, br⟩, w, sc, p, a, cs, k⟩) by
    simp [chRead])]
  simp only [List.length_singleton, show ¬ (1 < 1) by omega, if_false, List.headD_cons,
    show ¬ (b = OKByte) from hb]
  rw [M_bind_ok hscan]
  simp [M.bind, Scanner.Err]

theorem dropCR_of_last {s : GoString} (h : s.getLast? ≠ some 13) : dropCR s = s := by
  unfold dropCR
  rw [if_neg h]

/-- The line of a header without its newline goes through the scanner as it is. -/
theorem lineBody_props (m n : Nat) (name : GoString) (hm : m < 2 ^ 64) (hn : n < 2 ^ 64)
    (hname : nameOK name) :
    (10 : UInt8) ∉ fmtOct04 m ++ [32] ++ fmtUint 10 n ++ [32] ++ name ∧
    dropCR (fmtOct04 m ++ [32] ++ fmtUint 10 n ++ [32] ++ name)
      = fmtOct04 m ++ [32] ++ fmtUint 10 n ++ [32] ++ name ∧
    (fmtOct04 m ++ [32] ++ fmtUint 10 n ++ [32] ++ name).length + 1 ≤ 2048 := by
  obtain ⟨hnl, hcr, hlen⟩ := hname
  obtain ⟨_, m2, _⟩ := fmtOct04_spec m hm
  obtain ⟨_, n2, _⟩ := fmtUint_spec (by decide : 2 ≤ 10) (by decide) n hn
  have a := allDigits_not_mem m2 (c := 10) (by decide)
  have b := allDigits_not_mem n2 (c := 10) (by decide)
  have la := fmtOct04_length m
  have lb := fmtUint_length 10 n
  refine ⟨by simp [a, b, hnl], ?_, ?_⟩
  · rw [dropCR_append (by rw [List.getLast?_append]; simp), dropCR_of_last hcr]
  · simp only [List.length_append, List.length_cons, List.length_nil]
    omega

theorem dirLine_eq (m : Nat) (name : GoString) :
    str "D" ++ fmtOct04 m ++ str " 0 " ++ name ++ str "\n"
      = 68 :: ((fmtOct04 m ++ [32] ++ fmtUint 10 0 ++ [32] ++ name) ++ [10]) := by
  have h0 : fmtUint 10 0 = [48] := by decide
  rw [h0]
  simp [str]

theorem modePerm_natCast (m : Nat) : modePerm (m : Int) = m % 512 := by
  unfold modePerm
  omega

/-- The loop of the recursive sink on a D line, with the local backend and a target that is a
directory. -/
theorem sinkLoop_dir (cmd : Parameters) (t : GoString) (ts : List GoString) (f : Nat)
    (st : State) (m : Nat) (name : GoString)
    (rest : List (List UInt8)) (cl : Bool) (o : List (List UInt8))
    (w : World) (sc : Scanner) (p : GoString) (a : List AuditEvent) (cs : List Call) (k : Nat)
    (hT : cmd.Flags.Target = t :: ts) (hwt : w.isDir t = true)
    (hidle : sc.idle) (hm : m ≤ 0o7777) (hname : nameOK name)
    (hacc : (osMkdirAll w (st.makePath t name) (m % 512)).1 = none) :
    ∃ (sc1 : Scanner) (cs1 : List Call), sc1.idle ∧
      serveSinkLoop cmd LocalFS (f + 1) st
          ⟨⟨(str "D" ++ fmtOct04 m ++ str " 0 " ++ name ++ str "\n") :: rest, cl, o, false⟩,
            w, sc, p, a, cs, k⟩
        = serveSinkLoop cmd LocalFS f (st.push name)
            ⟨⟨rest, cl, o ++ [[0]], false⟩, (osMkdirAll w (st.makePath t name) (m % 512)).2,
              sc1, p, a, cs1, k⟩ := by
  obtain ⟨h1, h2, h3⟩ := lineBody_props m 0 name (by omega) (by decide) hname
  obtain ⟨sc1, hid1, hloop⟩ := sinkLoop_line cmd LocalFS f st 68 (by decide) _ rest cl false o w
    sc p a cs k hidle h1 h3
  have hparse := ParseNewFile_fmt m 0 name hm (by decide)
  refine ⟨sc1, cs ++ [Call.IsDir t, Call.MkDir (st.makePath t name) (m : Int)], hid1, ?_⟩
  rw [dirLine_eq, hloop, h2]
  have hD := processCommand_D cmd t ts st _ _
    ⟨⟨rest, cl, o, false⟩, w, sc1, p, a, cs, k⟩ hT hparse
  simp only [hwt, if_true, modePerm_natCast] at hD
  rw [M_bind_ok hD]
  simp only [hacc, check_none]
  rw [M_bind_ok (sendOK_ok _ _ _ _ _ _ _ _ _)]
  rfl

/-- The loop of the sink on an E line. -/
theorem sinkLoop_end (cmd : Parameters) (fs : FileSystem) (f : Nat) (st : State)
    (rest : List (List UInt8)) (cl : Bool) (o : List (List UInt8))
    (w : World) (sc : Scanner) (p : GoString) (a : List AuditEvent) (cs : List Call) (k : Nat)
    (hidle : sc.idle) (hfin : st.finished = false) :
    ∃ sc1 : Scanner, sc1.idle ∧
      serveSinkLoop cmd fs (f + 1) st ⟨⟨str "E\n" :: rest, cl, o, false⟩, w, sc, p, a, cs, k⟩
        = serveSinkLoop cmd fs f st.pop.2
            ⟨⟨rest, cl, o ++ [[0]], false⟩, w, sc1, p, a, cs, k⟩ := by
  obtain ⟨sc1, hid1, hloop⟩ := sinkLoop_line cmd fs f st 69 (by decide) [] rest cl false o w
    sc p a cs k hidle (by simp) (by simp)
  refine ⟨sc1, hid1, ?_⟩
  have he : str "E\n" = 69 :: ([] ++ [10]) := by decide
  rw [he, hloop, M_bind_ok (processCommand_E cmd fs st _ _)]
  have hpop : st.pop.1 = none := by
    unfold State.pop
    rw [if_neg (by simp [hfin])]
    split_ifs <;> rfl
  simp only [hpop, check_none]
  rw [M_bind_ok (sendOK_ok _ _ _ _ _ _ _ _ _)]
  rfl

/-- The loop of the recursive sink on the header of a file and its body, with the local
backend. -/
theorem sinkLoop_file_head (cmd : Parameters) (t : GoString) (ts : List GoString) (f : Nat)
    (st : State) (m : Nat) (name : GoString) (chunks : List (List UInt8))
    (hne : ∀ c ∈ chunks, c ≠ [])
    (rest : List (List UInt8)) (cl : Bool) (o : List (List UInt8))
    (w : World) (sc : Scanner) (p : GoString) (a : List AuditEvent) (cs : List Call) (k : Nat)
    (hT : cmd.Flags.Target = t :: ts) (hr : cmd.Flags.Recursive = true)
    (hA : cmd.AuditLog = true → cmd.User ≠ none)
    (hidle : sc.idle) (hm : m ≤ 0o7777) (hname : nameOK name)
    (hlen : chunks.flatten.length < 2 ^ 63)
    (hden : w.denied (Clean (st.makePath t name)) = false)
    (hdir : w.isDir (st.makePath t name) = false) :
    ∃ (sc1 : Scanner) (p1 : GoString) (a1 : List AuditEvent) (cs1 : List Call) (k1 : Nat),
      sc1.idle ∧
      serveSinkLoop cmd LocalFS (f + 1) st
          ⟨⟨fileHeader m (chunks.flatten.length : Int) name :: (chunks ++ rest), cl, o, false⟩,
            w, sc, p, a, cs, k⟩
        = serveSinkLoop cmd LocalFS f st
            ⟨⟨rest, cl, o ++ [[0]] ++ [[0]], false⟩,
              w.setFile (st.makePath t name) chunks.flatten (m % 512), sc1, p1, a1, cs1, k1⟩ := by
  obtain ⟨h1, h2, h3⟩ := lineBody_props m chunks.flatten.length name (by omega) (by omega) hname
  obtain ⟨sc1, hid1, hloop⟩ := sinkLoop_line cmd LocalFS f st 67 (by decide) _ (chunks ++ rest)
    cl false o w sc p a cs k hidle h1 h3
  have hparse := ParseNewFile_fmt m chunks.flatten.length name hm (by omega)
  obtain ⟨p1, a1, cs1, k1, hrecv⟩ := receiveFile_rec_ok cmd t ts st m name chunks hne hlen rest
    cl o w sc1 p a cs k hT hr hA hden hdir
  refine ⟨sc1, p1, a1, cs1, k1, hid1, ?_⟩
  have hhead : fileHeader m (chunks.flatten.length : Int) name
      = 67 :: ((fmtOct04 m ++ [32] ++ fmtUint 10 chunks.flatten.length ++ [32] ++ name)
          ++ [10]) := by
    rw [fileHeader_eq]
    rfl
  rw [hhead, hloop, h2, M_bind_ok (processCommand_C_ok cmd LocalFS st _ _ _ _ hparse hrecv)]
  simp only [check_none]
  rw [M_bind_ok (sendOK_ok _ _ _ _ _ _ _ _ _)]
  rfl

/-- The loop of the recursive sink on the header of a file, its body and the OK byte of the
source after it. -/
theorem sinkLoop_file (cmd : Parameters) (t : GoString) (ts : List GoString) (f : Nat)
    (st : State) (m : Nat) (name : GoString) (data : List UInt8)
    (rest : List (List UInt8)) (cl : Bool) (o : List (List UInt8))
    (w : World) (sc : Scanner) (p : GoString) (a : List AuditEvent) (cs : List Call) (k : Nat)
    (hT : cmd.Flags.Target = t :: ts) (hr : cmd.Flags.Recursive = true)
    (hA : cmd.AuditLog = true → cmd.User ≠ none)
    (hidle : sc.idle) (hm : m ≤ 0o7777) (hname : nameOK name)
    (hlen : data.length < 2 ^ 63)
    (hden : w.denied (Clean (st.makePath t name)) = false)
    (hdir : w.isDir (st.makePath t name) = false) :
    ∃ (sc1 : Scanner) (p1 : GoString) (a1 : List AuditEvent) (cs1 : List Call) (k1 : Nat),
      sc1.idle ∧
      serveSinkLoop cmd LocalFS (f + 2) st
          ⟨⟨fileHeader m (data.length : Int) name ::
              (pieces (data.length + 1) data ++ [[0]] ++ rest), cl, o, false⟩,
            w, sc, p, a, cs, k⟩
        = serveSinkLoop cmd LocalFS f st
            ⟨⟨rest, cl, o ++ [[0]] ++ [[0]], false⟩,
              w.setFile (st.makePath t name) data (m % 512), sc1, p1, a1, cs1, k1⟩ := by
  obtain ⟨hpf, hpne⟩ := pieces_spec (data.length + 1) data (by omega)
  obtain ⟨sc1, p1, a1, cs1, k1, hid1, hloop⟩ := sinkLoop_file_head cmd t ts (f + 1) st m name
    (pieces (data.length + 1) data) hpne ([0] :: rest) cl o w sc p a cs k hT hr hA hidle hm hname
    (by rw [hpf]; exact hlen) (by exact hden) hdir
  rw [hpf] at hloop
  refine ⟨sc1, p1, a1, cs1, k1, hid1, ?_⟩
  rw [List.append_assoc, List.singleton_append, hloop, sinkLoop_ok]

/-- The loop of the recursive sink on the header of a file that is not empty, before the body
is there: it has made the file, acknowledged the header and waits. -/
theorem sinkLoop_file_wait (cmd : Parameters) (t : GoString) (ts : List GoString) (f : Nat)
    (st : State) (m : Nat) (name : GoString) (data : List UInt8) (hdata : data ≠ [])
    (o : List (List UInt8))
    (w : World) (sc : Scanner) (p : GoString) (a : List AuditEvent) (cs : List Call) (k : Nat)
    (hT : cmd.Flags.Target = t :: ts) (hr : cmd.Flags.Recursive = true)
    (hA : cmd.AuditLog = true → cmd.User ≠ none)
    (hidle : sc.idle) (hm : m ≤ 0o7777) (hname : nameOK name)
    (hlen : data.length < 2 ^ 63)
    (hden : w.denied (Clean (st.makePath t name)) = false)
    (hdir : w.isDir (st.makePath t name) = false) :
    (serveSinkLoop cmd LocalFS (f + 1) st
        ⟨⟨[fileHeader m (data.length : Int) name], false, o, false⟩, w, sc, p, a, cs, k⟩).1
      = .blocked ∧
    (serveSinkLoop cmd LocalFS (f + 1) st
        ⟨⟨[fileHeader m (data.length : Int) name], false, o, false⟩, w, sc, p, a, cs, k⟩).2.ch.out
      = o ++ [[0]] := by
  obtain ⟨h1, h2, h3⟩ := lineBody_props m data.length name (by omega) (by omega) hname
  obtain ⟨sc1, hid1, hloop⟩ := sinkLoop_line cmd LocalFS f st 67 (by decide) _ [] false false o
    w sc p a cs k hidle h1 h3
  have hparse := ParseNewFile_fmt m data.length name hm (by omega)
  have hL : 0 < data.length := List.length_pos.mpr hdata
  obtain ⟨hb1, hb2⟩ := receiveFile_rec_blocked cmd t ts st m data.length name hL hlen o w sc1 p
    a cs k hT hr hA hden hdir
  have hhead : fileHeader m (data.length : Int) name
      = 67 :: ((fmtOct04 m ++ [32] ++ fmtUint 10 data.length ++ [32] ++ name) ++ [10]) := by
    rw [fileHeader_eq]
    rfl
  rw [hhead, hloop, h2,
    M_bind_blocked (processCommand_C_blocked cmd LocalFS st _ _ _ _ hparse (Prod.ext hb1 rfl))]
  exact ⟨rfl, hb2⟩

theorem sinkItem_isDir (t : GoString) (i : WireItem) (st : State) (w : World)
    (h : w.isDir t = true) : (sinkItem t i (st, w)).2.isDir t = true := by
  cases i with
  | dir mode name => exact osMkdirAll_isDir w _ t _ h
  | endDir => exact h
  | file mode name data => exact h

theorem wire_cons (i : WireItem) (is : List WireItem) :
    wire (i :: is) = i.segments.flatten ++ wire is := by
  simp [wire, segments]

theorem replicate_ack_succ (o : List (List UInt8)) (n : Nat) :
    o ++ [[0]] ++ List.replicate n [0] = o ++ List.replicate (1 + n) ([0] : List UInt8) := by
  rw [Nat.add_comm, List.replicate_succ, List.append_assoc]
  rfl

theorem replicate_ack_succ2 (o : List (List UInt8)) (n : Nat) :
    o ++ [[0]] ++ [[0]] ++ List.replicate n [0]
      = o ++ List.replicate (2 + n) ([0] : List UInt8) := by
  rw [show 2 + n = n + 1 + 1 by omega, List.replicate_succ, List.replicate_succ,
    List.append_assoc, List.append_assoc]
  rfl

/-- The loop of the recursive sink on the writes of the source for a list of items: it takes a
turn for each group of writes, answers each with an ack and leaves the receiver state and the
storage as sinkItems tells. -/
theorem sinkLoop_items (cmd : Parameters) (t : GoString) (ts : List GoString)
    (hT : cmd.Flags.Target = t :: ts) (hr : cmd.Flags.Recursive = true)
    (hA : cmd.AuditLog = true → cmd.User ≠ none) :
    ∀ (items : List WireItem) (st : State) (w : World),
      (∀ i ∈ items, i.wellFormed) → sinkAccepts t items (st, w) → w.isDir t = true →
      ∀ (f : Nat) (rest : List (List UInt8)) (cl : Bool) (o : List (List UInt8)) (sc : Scanner)
        (p : GoString) (a : List AuditEvent) (cs : List Call) (k : Nat), sc.idle →
      ∃ (sc1 : Scanner) (p1 : GoString) (a1 : List AuditEvent) (cs1 : List Call) (k1 : Nat),
        sc1.idle ∧
        serveSinkLoop cmd LocalFS (f + (segments items).length) st
            ⟨⟨wire items ++ rest, cl, o, false⟩, w, sc, p, a, cs, k⟩
          = serveSinkLoop cmd LocalFS f (sinkItems t items (st, w)).1
              ⟨⟨rest, cl, o ++ List.replicate (segments items).length [0], false⟩,
                (sinkItems t items (st, w)).2, sc1, p1, a1, cs1, k1⟩
  | [], st, w, _, _, _, f, rest, cl, o, sc, p, a, cs, k, hidle => by
    refine ⟨sc, p, a, cs, k, hidle, ?_⟩
    simp [wire, segments, sinkItems]
  | .dir mode name :: is, st, w, hwf, hacc, hwt, f, rest, cl, o, sc, p, a, cs, k, hidle => by
    obtain ⟨hm, hname⟩ : mode ≤ 0o7777 ∧ nameOK name := hwf _ (List.mem_cons_self _ _)
    obtain ⟨hacc1, hacc2⟩ := hacc
    obtain ⟨sc1, cs1, hid1, hstep⟩ := sinkLoop_dir cmd t ts (f + (segments is).length) st mode
      name (wire is ++ rest) cl o w sc p a cs k hT hwt hidle hm hname hacc1
    obtain ⟨sc2, p2, a2, cs2, k2, hid2, hrest⟩ := sinkLoop_items cmd t ts hT hr hA is
      (st.push name) (osMkdirAll w (st.makePath t name) (mode % 512)).2
      (fun i hi => hwf i (List.mem_cons_of_mem _ hi)) hacc2
      (osMkdirAll_isDir w _ t _ hwt) f rest cl (o ++ [[0]]) sc1 p a cs1 k hid1
    refine ⟨sc2, p2, a2, cs2, k2, hid2, ?_⟩
    have hlen : (segments (.dir mode name :: is)).length = 1 + (segments is).length := by
      simp [segments, WireItem.segments]
      omega
    have hw : wire (.dir mode name :: is) ++ rest
        = (str "D" ++ fmtOct04 mode ++ str " 0 " ++ name ++ str "\n") :: (wire is ++ rest) := by
      rw [wire_cons]
      simp [WireItem.segments]
    rw [hlen, hw, show f + (1 + (segments is).length) = f + (segments is).length + 1 by omega,
      hstep, hrest, replicate_ack_succ]
    rfl
  | .endDir :: is, st, w, hwf, hacc, hwt, f, rest, cl, o, sc, p, a, cs, k, hidle => by
    obtain ⟨hacc1, hacc2⟩ := hacc
    obtain ⟨sc1, hid1, hstep⟩ := sinkLoop_end cmd LocalFS (f + (segments is).length) st
      (wire is ++ rest) cl o w sc p a cs k hidle hacc1
    obtain ⟨sc2, p2, a2, cs2, k2, hid2, hrest⟩ := sinkLoop_items cmd t ts hT hr hA is
      st.pop.2 w (fun i hi => hwf i (List.mem_cons_of_mem _ hi)) hacc2 hwt f rest cl
      (o ++ [[0]]) sc1 p a cs k hid1
    refine ⟨sc2, p2, a2, cs2, k2, hid2, ?_⟩
    have hlen : (segments (.endDir :: is)).length = 1 + (segments is).length := by
      simp [segments, WireItem.segments]
      omega
    have hw : wire (.endDir :: is) ++ rest = str "E\n" :: (wire is ++ rest) := by
      rw [wire_cons]
      simp [WireItem.segments]
    rw [hlen, hw, show f + (1 + (segments is).length) = f + (segments is).length + 1 by omega,
      hstep, hrest, replicate_ack_succ]
    rfl
  | .file mode name data :: is, st, w, hwf, hacc, hwt, f, rest, cl, o, sc, p, a, cs, k,
      hidle => by
    obtain ⟨hm, hname, hdata⟩ : mode ≤ 0o7777 ∧ nameOK name ∧ data.length < 2 ^ 63 :=
      hwf _ (List.mem_cons_self _ _)
    obtain ⟨⟨hden, hdir⟩, hacc2⟩ := hacc
    obtain ⟨sc1, p1, a1, cs1, k1, hid1, hstep⟩ := sinkLoop_file cmd t ts
      (f + (segments is).length) st mode name data (wire is ++ rest) cl o w sc p a cs k hT hr hA
      hidle hm hname hdata hden hdir
    obtain ⟨sc2, p2, a2, cs2, k2, hid2, hrest⟩ := sinkLoop_items cmd t ts hT hr hA is
      st (w.setFile (st.makePath t name) data (mode % 512))
      (fun i hi => hwf i (List.mem_cons_of_mem _ hi)) hacc2 hwt f rest cl
      (o ++ [[0]] ++ [[0]]) sc1 p1 a1 cs1 k1 hid1
    refine ⟨sc2, p2, a2, cs2, k2, hid2, ?_⟩
    have hlen : (segments (.file mode name data :: is)).length = 2 + (segments is).length := by
      simp [segments, WireItem.segments]
      omega
    have hw : wire (.file mode name data :: is) ++ rest
        = fileHeader mode (data.length : Int) name
          :: (pieces (data.length + 1) data ++ [[0]] ++ (wire is ++ rest)) := by
      rw [wire_cons]
      simp [WireItem.segments]
    rw [hlen, hw, show f + (2 + (segments is).length) = f + (segments is).length + 2 by omega,
      hstep, hrest, replicate_ack_succ2]
    rfl

theorem sinkLoop_waits (cmd : Parameters) (fs : FileSystem) (f : Nat) (hf : 1 ≤ f) (st : State)
    (o : List (List UInt8))
    (w : World) (sc : Scanner) (p : GoString) (a : List AuditEvent) (cs : List Call) (k : Nat) :
    (serveSinkLoop cmd fs f st ⟨⟨[], false, o, false⟩, w, sc, p, a, cs, k⟩).1 = .blocked ∧
    (serveSinkLoop cmd fs f st ⟨⟨[], false, o, false⟩, w, sc, p, a, cs, k⟩).2.ch.out = o := by
  obtain ⟨f1, rfl⟩ : ∃ f1, f = f1 + 1 := ⟨f - 1, by omega⟩
  rw [sinkLoop_blocked]
  exact ⟨rfl, rfl⟩

/-- The loop of the recursive sink on the first j groups of writes of the source for a list of
items, with more to come: it has written the acks acksAfter counts and waits. -/
theorem sinkLoop_partial (cmd : Parameters) (t : GoString) (ts : List GoString)
    (hT : cmd.Flags.Target = t :: ts) (hr : cmd.Flags.Recursive = true)
    (hA : cmd.AuditLog = true → cmd.User ≠ none) :
    ∀ (items : List WireItem) (st : State) (w : World),
      (∀ i ∈ items, i.wellFormed) → sinkAccepts t items (st, w) → w.isDir t = true →
      ∀ (j f : Nat) (o : List (List UInt8)) (sc : Scanner)
        (p : GoString) (a : List AuditEvent) (cs : List Call) (k : Nat), sc.idle →
        j < (segments items).length → j + 1 ≤ f →
      (serveSinkLoop cmd LocalFS f st
          ⟨⟨((segments items).take j).flatten, false, o, false⟩, w, sc, p, a, cs, k⟩).1
        = .blocked ∧
      (serveSinkLoop cmd LocalFS f st
          ⟨⟨((segments items).take j).flatten, false, o, false⟩, w, sc, p, a, cs, k⟩).2.ch.out
        = o ++ List.replicate (acksAfter items j) [0]
  | [], st, w, _, _, _, j, f, o, sc, p, a, cs, k, _, hj, _ => by
    simp [segments] at hj
  | .dir mode name :: is, st, w, hwf, hacc, hwt, j, f, o, sc, p, a, cs, k, hidle, hj, hf => by
    have hlen : (segments (.dir mode name :: is)).length = 1 + (segments is).length := by
      simp [segments, WireItem.segments]
      omega
    rcases j with _ | j
    · have h := sinkLoop_waits cmd LocalFS f hf st o w sc p a cs k
      simpa [acksAfter] using h
    · obtain ⟨hm, hname⟩ : mode ≤ 0o7777 ∧ nameOK name := hwf _ (List.mem_cons_self _ _)
      obtain ⟨hacc1, hacc2⟩ := hacc
      obtain ⟨f1, rfl⟩ : ∃ f1, f = f1 + 1 := ⟨f - 1, by omega⟩
      obtain ⟨sc1, cs1, hid1, hstep⟩ := sinkLoop_dir cmd t ts f1 st mode
        name ((segments is).take j).flatten false o w sc p a cs k hT hwt hidle hm hname hacc1
      have ih := sinkLoop_partial cmd t ts hT hr hA is
        (st.push name) (osMkdirAll w (st.makePath t name) (mode % 512)).2
        (fun i hi => hwf i (List.mem_cons_of_mem _ hi)) hacc2
        (osMkdirAll_isDir w _ t _ hwt) j f1 (o ++ [[0]]) sc1 p a cs1 k hid1 (by omega) (by omega)
      have hin : ((segments (.dir mode name :: is)).take (j + 1)).flatten
          = (str "D" ++ fmtOct04 mode ++ str " 0 " ++ name ++ str "\n")
            :: ((segments is).take j).flatten := by
        simp [segments, WireItem.segments]
      have hack : acksAfter (.dir mode name :: is) (j + 1) = 1 + acksAfter is j := by
        simp [acksAfter]
      rw [hin, hstep, hack, ← replicate_ack_succ]
      exact ih
  | .endDir :: is, st, w, hwf, hacc, hwt, j, f, o, sc, p, a, cs, k, hidle, hj, hf => by
    have hlen : (segments (.endDir :: is)).length = 1 + (segments is).length := by
      simp [segments, WireItem.segments]
      omega
    rcases j with _ | j
    · have h := sinkLoop_waits cmd LocalFS f hf st o w sc p a cs k
      simpa [acksAfter] using h
    · obtain ⟨hacc1, hacc2⟩ := hacc
      obtain ⟨f1, rfl⟩ : ∃ f1, f = f1 + 1 := ⟨f - 1, by omega⟩
      obtain ⟨sc1, hid1, hstep⟩ := sinkLoop_end cmd LocalFS f1 st
        ((segments is).take j).flatten false o w sc p a cs k hidle hacc1
      have ih := sinkLoop_partial cmd t ts hT hr hA is st.pop.2 w
        (fun i hi => hwf i (List.mem_cons_of_mem _ hi)) hacc2 hwt j f1 (o ++ [[0]]) sc1 p a cs k
        hid1 (by omega) (by omega)
      have hin : ((segments (.endDir :: is)).take (j + 1)).flatten
          = str "E\n" :: ((segments is).take j).flatten := by
        simp [segments, WireItem.segments]
      have hack : acksAfter (.endDir :: is) (j + 1) = 1 + acksAfter is j := by
        simp [acksAfter]
      rw [hin, hstep, hack, ← replicate_ack_succ]
      exact ih
  | .file mode name data :: is, st, w, hwf, hacc, hwt, j, f, o, sc, p, a, cs, k, hidle, hj,
      hf => by
    have hlen : (segments (.file mode name data :: is)).length = 2 + (segments is).length := by
      simp [segments, WireItem.segments]
      omega
    obtain ⟨hm, hname, hdata⟩ : mode ≤ 0o7777 ∧ nameOK name ∧ data.length < 2 ^ 63 :=
      hwf _ (List.mem_cons_self _ _)
    obtain ⟨⟨hden, hdir⟩, hacc2⟩ := hacc
    rcases j with _ | _ | j
    · have h := sinkLoop_waits cmd LocalFS f hf st o w sc p a cs k
      simpa [acksAfter] using h
    · have hin : ((segments (.file mode name data :: is)).take (0 + 1)).flatten
          = [fileHeader mode (data.length : Int) name] := by
        simp [segments, WireItem.segments]
      rw [hin]
      by_cases hd : data = []
      · subst hd
        obtain ⟨f1, rfl⟩ : ∃ f1, f = f1 + 1 := ⟨f - 1, by omega⟩
        obtain ⟨sc1, p1, a1, cs1, k1, hid1, hstep⟩ := sinkLoop_file_head cmd t ts f1 st mode
          name [] (by simp) [] false o w sc p a cs k hT hr hA hidle hm hname (by simp)
          hden hdir
        have hstep1 : serveSinkLoop cmd LocalFS (f1 + 1) st
            ⟨⟨[fileHeader mode ((([] : List UInt8).length : Nat) : Int) name], false, o, false⟩,
              w, sc, p, a, cs, k⟩
            = serveSinkLoop cmd LocalFS f1 st
              ⟨⟨[], false, o ++ [[0]] ++ [[0]], false⟩,
                w.setFile (st.makePath t name) [] (mode % 512), sc1, p1, a1, cs1, k1⟩ := hstep
        rw [hstep1]
        have h := sinkLoop_waits cmd LocalFS f1 (by omega) st (o ++ [[0]] ++ [[0]])
          (w.setFile (st.makePath t name) [] (mode % 512)) sc1 p1 a1 cs1 k1
        simpa [acksAfter] using h
      · obtain ⟨f1, rfl⟩ : ∃ f1, f = f1 + 1 := ⟨f - 1, by omega⟩
        have h := sinkLoop_file_wait cmd t ts f1 st mode name data hd o w sc p a cs k hT hr hA
          hidle hm hname hdata hden hdir
        simpa [acksAfter, hd] using h
    · obtain ⟨f1, rfl⟩ : ∃ f1, f = f1 + 2 := ⟨f - 2, by omega⟩
      obtain ⟨sc1, p1, a1, cs1, k1, hid1, hstep⟩ := sinkLoop_file cmd t ts f1 st mode name data
        ((segments is).take j).flatten false o w sc p a cs k hT hr hA hidle hm hname hdata hden
        hdir
      have ih := sinkLoop_partial cmd t ts hT hr hA is st
        (w.setFile (st.makePath t name) data (mode % 512))
        (fun i hi => hwf i (List.mem_cons_of_mem _ hi)) hacc2 hwt j f1 (o ++ [[0]] ++ [[0]]) sc1
        p1 a1 cs1 k1 hid1 (by omega) (by omega)
      have hin : ((segments (.file mode name data :: is)).take (j + 1 + 1)).flatten
          = fileHeader mode (data.length : Int) name
            :: (pieces (data.length + 1) data ++ [[0]] ++ ((segments is).take j).flatten) := by
        simp [segments, WireItem.segments]
      have hack : acksAfter (.file mode name data :: is) (j + 1 + 1) = 2 + acksAfter is j := by
        simp [acksAfter]
      rw [hin, hstep, hack, ← replicate_ack_succ2]
      exact ih

theorem acksAfter_full : ∀ (items : List WireItem) (j : Nat), (segments items).length ≤ j →
    acksAfter items j = (segments items).length
  | [], _, _ => rfl
  | .dir mode name :: is, j, h => by
    have hlen : (segments (.dir mode name :: is)).length = 1 + (segments is).length := by
      simp [segments, WireItem.segments]
      omega
    rw [hlen] at h ⊢
    rw [acksAfter, if_neg (by omega), acksAfter_full is (j - 1) (by omega)]
  | .endDir :: is, j, h => by
    have hlen : (segments (.endDir :: is)).length = 1 + (segments is).length := by
      simp [segments, WireItem.segments]
      omega
    rw [hlen] at h ⊢
    rw [acksAfter, if_neg (by omega), acksAfter_full is (j - 1) (by omega)]
  | .file mode name data :: is, j, h => by
    have hlen : (segments (.file mode name data :: is)).length = 2 + (segments is).length := by
      simp [segments, WireItem.segments]
      omega
    rw [hlen] at h ⊢
    rw [acksAfter, if_neg (by omega), if_neg (by omega), acksAfter_full is (j - 2) (by omega)]

theorem acksAfter_bounds : ∀ (items : List WireItem) (j : Nat), j ≤ (segments items).length →
    j ≤ acksAfter items j ∧ acksAfter items j ≤ (segments items).length
  | [], j, h => by
    simp [segments] at h
    subst h
    exact ⟨Nat.le_refl _, Nat.le_refl _⟩
  | .dir mode name :: is, j, h => by
    have hlen : (segments (.dir mode name :: is)).length = 1 + (segments is).length := by
      simp [segments, WireItem.segments]
      omega
    rw [hlen] at h ⊢
    rw [acksAfter]
    split_ifs with h0
    · omega
    · have := acksAfter_bounds is (j - 1) (by omega)
      omega
  | .endDir :: is, j, h => by
    have hlen : (segments (.endDir :: is)).length = 1 + (segments is).length := by
      simp [segments, WireItem.segments]
      omega
    rw [hlen] at h ⊢
    rw [acksAfter]
    split_ifs with h0
    · omega
    · have := acksAfter_bounds is (j - 1) (by omega)
      omega
  | .file mode name data :: is, j, h => by
    have hlen : (segments (.file mode name data :: is)).length = 2 + (segments is).length := by
      simp [segments, WireItem.segments]
      omega
    rw [hlen] at h ⊢
    rw [acksAfter]
    split_ifs with h0 h1 h2
    · omega
    · omega
    · omega
    · have := acksAfter_bounds is (j - 2) (by omega)
      omega

theorem segments_nonempty : ∀ (items : List WireItem), ∀ s ∈ segments items, 1 ≤ s.length
  | [], s, h => by simp [segments] at h
  | i :: is, s, h => by
    rw [segments, List.mem_append] at h
    rcases h with h | h
    · cases i with
      | dir mode name =>
        simp [WireItem.segments] at h
        subst h
        simp
      | endDir =>
        simp [WireItem.segments] at h
        subst h
        simp
      | file mode name data =>
        simp only [WireItem.segments, List.mem_cons, List.mem_singleton, List.not_mem_nil,
          or_false] at h
        rcases h with rfl | rfl
        · simp
        · simp
    · exact segments_nonempty is s h

theorem length_le_flatten_length {α : Type} :
    ∀ (L : List (List α)), (∀ s ∈ L, 1 ≤ s.length) → L.length ≤ L.flatten.length
  | [], _ => Nat.le_refl _
  | s :: L, h => by
    have h1 := h s (List.mem_cons_self _ _)
    have h2 := length_le_flatten_length L (fun s hs => h s (List.mem_cons_of_mem _ hs))
    simp only [List.length_cons, List.flatten_cons, List.length_append]
    omega

theorem take_segments_pending (items : List WireItem) (j : Nat)
    (hj : j ≤ (segments items).length) (cl br : Bool) (o : List (List UInt8)) :
    j ≤ (Chan.mk ((segments items).take j).flatten cl o br).pending := by
  have h1 := length_le_flatten_length ((segments items).take j)
    (fun s hs => segments_nonempty items s (List.mem_of_mem_take hs))
  rw [List.length_take, Nat.min_eq_left hj] at h1
  simp only [Chan.pending]
  omega

/-- The recursive sink engine on the first j groups of writes of the source for a list of
items: it has written its first ack and the acks acksAfter counts, and waits. -/
theorem serveSink_items_partial (cmd : Parameters) (t : GoString) (ts : List GoString)
    (hT : cmd.Flags.Target = t :: ts) (hr : cmd.Flags.Recursive = true)
    (hA : cmd.AuditLog = true → cmd.User ≠ none)
    (items : List WireItem) (w : World) (hwf : ∀ i ∈ items, i.wellFormed)
    (hacc : sinkAccepts t items ({ path := [str "."], finished := false }, w))
    (hwt : w.isDir t = true) (j : Nat) (hj : j ≤ (segments items).length) :
    (serveSink cmd LocalFS (Env.start w ((segments items).take j).flatten false)).1 = .blocked ∧
    (serveSink cmd LocalFS (Env.start w ((segments items).take j).flatten false)).2.ch.out
      = List.replicate (1 + acksAfter items j) [0] := by
  have hpend := take_segments_pending items j hj false false [[0]]
  unfold serveSink
  simp only [M_bind_eq, Env.start]
  rw [M_bind_ok (sendOK_ok _ _ _ _ _ _ _ _ _)]
  simp only [check_none, List.nil_append]
  have hone : List.replicate (1 + acksAfter items j) ([0] : List UInt8)
      = [[0]] ++ List.replicate (acksAfter items j) [0] := by
    rw [Nat.add_comm, List.replicate_succ]
    rfl
  rw [hone]
  by_cases hlt : j < (segments items).length
  · exact sinkLoop_partial cmd t ts hT hr hA items _ w hwf hacc hwt j _ [[0]] Scanner.new [] []
      [] 0 Scanner.idle_new hlt (by omega)
  · have hjN : j = (segments items).length := by omega
    have htake : ((segments items).take j).flatten = wire items ++ [] := by
      rw [hjN, List.take_length, List.append_nil]
      rfl
    rw [htake] at hpend ⊢
    obtain ⟨f0, hf0⟩ : ∃ f0, (Chan.mk (wire items ++ []) false [[0]] false).pending + 1
        = (f0 + 1) + (segments items).length :=
      ⟨(Chan.mk (wire items ++ []) false [[0]] false).pending - (segments items).length,
        by omega⟩
    obtain ⟨sc1, p1, a1, cs1, k1, _, hloop⟩ := sinkLoop_items cmd t ts hT hr hA items _ w hwf
      hacc hwt (f0 + 1) [] false [[0]] Scanner.new [] [] [] 0 Scanner.idle_new
    rw [hf0, hloop, acksAfter_full items j (by omega)]
    exact sinkLoop_waits cmd LocalFS (f0 + 1) (by omega) _ _ _ _ _ _ _ _

/-- The recursive sink engine on all the writes of the source for a list of items, the source
having closed the channel: it ends without error, with an ack for each group of writes after
its first one, and the storage is as sinkItems tells. -/
theorem serveSink_items_done (cmd : Parameters) (t : GoString) (ts : List GoString)
    (hT : cmd.Flags.Target = t :: ts) (hr : cmd.Flags.Recursive = true)
    (hA : cmd.AuditLog = true → cmd.User ≠ none)
    (items : List WireItem) (w : World) (hwf : ∀ i ∈ items, i.wellFormed)
    (hacc : sinkAccepts t items ({ path := [str "."], finished := false }, w))
    (hwt : w.isDir t = true) :
    (serveSink cmd LocalFS (Env.start w (wire items) true)).1 = .ok none ∧
    (serveSink cmd LocalFS (Env.start w (wire items) true)).2.ch.out
      = List.replicate ((segments items).length + 1) [0] ∧
    (serveSink cmd LocalFS (Env.start w (wire items) true)).2.world
      = (sinkItems t items ({ path := [str "."], finished := false }, w)).2 := by
  have hpend := take_segments_pending items (segments items).length (Nat.le_refl _) true false
    [[0]]
  have htake : ((segments items).take (segments items).length).flatten = wire items ++ [] := by
    rw [List.take_length, List.append_nil]
    rfl
  rw [htake] at hpend
  have hw : wire items = wire items ++ [] := (List.append_nil _).symm
  unfold serveSink
  simp only [M_bind_eq, Env.start]
  rw [M_bind_ok (sendOK_ok _ _ _ _ _ _ _ _ _)]
  simp only [check_none, List.nil_append]
  rw [hw]
  obtain ⟨f0, hf0⟩ : ∃ f0, (Chan.mk (wire items ++ []) true [[0]] false).pending + 1
      = (f0 + 1) + (segments items).length :=
    ⟨(Chan.mk (wire items ++ []) true [[0]] false).pending - (segments items).length, by omega⟩
  obtain ⟨sc1, p1, a1, cs1, k1, _, hloop⟩ := sinkLoop_items cmd t ts hT hr hA items _ w hwf
    hacc hwt (f0 + 1) [] true [[0]] Scanner.new [] [] [] 0 Scanner.idle_new
  rw [hf0, hloop, sinkLoop_eof]
  refine ⟨rfl, ?_, rfl⟩
  show [[0]] ++ List.replicate (segments items).length [0] = _
  rw [List.replicate_succ]
  rfl

theorem State.pop_push (st : State) (name : GoString) (h : st.finished = false) :
    (st.push name).pop.2 = st := by
  obtain ⟨path, fin⟩ := st
  simp only at h
  subst h
  simp [State.pop, State.push]

/-- What the sink does for the items of the trees of a list, by what it does for each tree. -/
theorem sinkItems_list (content : GoString → List UInt8) (t : GoString)
    (es : List FileInfo)
    (hes : ∀ e ∈ es, ∀ (st : State) (w : World) (more : List WireItem), st.finished = false →
      sinkItems t (FileInfo.items content e ++ more) (st, w)
        = sinkItems t more (st, applyOps (FileInfo.dests content t st.path e) w) ∧
      (opsAccepted (FileInfo.dests content t st.path e) w →
        sinkAccepts t more (st, applyOps (FileInfo.dests content t st.path e) w) →
        sinkAccepts t (FileInfo.items content e ++ more) (st, w))) :
    ∀ (st : State) (w : World) (more : List WireItem), st.finished = false →
      sinkItems t (FileInfo.itemsList content es ++ more) (st, w)
        = sinkItems t more (st, applyOps (FileInfo.destsList content t st.path es) w) ∧
      (opsAccepted (FileInfo.destsList content t st.path es) w →
        sinkAccepts t more (st, applyOps (FileInfo.destsList content t st.path es) w) →
        sinkAccepts t (FileInfo.itemsList content es ++ more) (st, w)) := by
  intro st w more hfin
  induction es generalizing w with
  | nil =>
    constructor
    · simp [FileInfo.itemsList, FileInfo.destsList, applyOps]
    · intro _ h2
      simpa [FileInfo.itemsList, FileInfo.destsList, applyOps] using h2
  | cons e es ih =>
    have he := hes e (List.mem_cons_self _ _) st w (FileInfo.itemsList content es ++ more) hfin
    have hrest := fun w1 => ih (fun e1 he1 => hes e1 (List.mem_cons_of_mem _ he1)) w1
    have happ : ∀ (a b : List (GoString × Option (List UInt8) × Nat)) (w1 : World),
        applyOps (a ++ b) w1 = applyOps b (applyOps a w1) := by
      intro a
      induction a with
      | nil => intro b w1; rfl
      | cons x xs ihx => intro b w1; exact ihx b _
    have hacc : ∀ (a b : List (GoString × Option (List UInt8) × Nat)) (w1 : World),
        opsAccepted (a ++ b) w1 → opsAccepted a w1 ∧ opsAccepted b (applyOps a w1) := by
      intro a
      induction a with
      | nil => intro b w1 h; exact ⟨trivial, h⟩
      | cons x xs ihx =>
        intro b w1 h
        obtain ⟨p, kind, perm⟩ := x
        cases kind with
        | none =>
          rw [List.cons_append, opsAccepted] at h
          have := ihx b _ h.2
          exact ⟨⟨h.1, this.1⟩, this.2⟩
        | some d =>
          rw [List.cons_append, opsAccepted] at h
          have := ihx b _ h.2
          exact ⟨⟨h.1, this.1⟩, this.2⟩
    rw [FileInfo.itemsList, FileInfo.destsList, List.append_assoc, happ]
    constructor
    · rw [he.1, (hrest _).1]
    · intro h1 h2
      obtain ⟨h3, h4⟩ := hacc _ _ _ h1
      exact he.2 h3 ((hrest _).2 h4 h2)

theorem sinkItems_tree (content : GoString → List UInt8) (t : GoString) :
    ∀ (n : Nat) (e : FileInfo), e.depth ≤ n →
      ∀ (st : State) (w : World) (more : List WireItem), st.finished = false →
      sinkItems t (FileInfo.items content e ++ more) (st, w)
        = sinkItems t more (st, applyOps (FileInfo.dests content t st.path e) w) ∧
      (opsAccepted (FileInfo.dests content t st.path e) w →
        sinkAccepts t more (st, applyOps (FileInfo.dests content t st.path e) w) →
        sinkAccepts t (FileInfo.items content e ++ more) (st, w))
  | 0, .mk _ _ _ _ _ _ _, hd => by
    rw [FileInfo.depth] at hd
    omega
  | n + 1, .mk false name path mode size err entries, _ => by
    intro st w more hfin
    constructor
    · simp [FileInfo.items, FileInfo.dests, sinkItems, sinkItem, applyOps, applyOp,
        State.makePath]
    · intro h1 h2
      simp only [FileInfo.items, FileInfo.dests, List.singleton_append, sinkAccepts, sinkItem,
        opsAccepted, applyOps, applyOp, State.makePath] at h1 h2 ⊢
      exact ⟨h1.1, h2⟩
  | n + 1, .mk true name path mode size err entries, hd => by
    intro st w more hfin
    rw [FileInfo.depth] at hd
    have hlist := sinkItems_list content t entries (fun e he =>
      sinkItems_tree content t n e (by
        have := FileInfo.depth_le_depthList e entries he
        omega))
      (st.push name) (osMkdirAll w (st.makePath t name) (mode % 512)).2 (.endDir :: more) hfin
    have hitems : FileInfo.items content (.mk true name path mode size err entries) ++ more
        = .dir mode name :: (FileInfo.itemsList content entries ++ (.endDir :: more)) := by
      simp [FileInfo.items]
    have hdests : FileInfo.dests content t st.path (.mk true name path mode size err entries)
        = (st.makePath t name, none, mode % 512)
          :: FileInfo.destsList content t (st.push name).path entries := by
      simp [FileInfo.dests, State.makePath, State.push]
    rw [hitems, hdests]
    constructor
    · rw [sinkItems, sinkItem, hlist.1, sinkItems, sinkItem, State.pop_push st name hfin]
      rfl
    · intro h1 h2
      rw [opsAccepted] at h1
      rw [applyOps, applyOp] at h2
      rw [sinkAccepts]
      refine ⟨h1.1, ?_⟩
      rw [sinkItem]
      apply hlist.2 h1.2
      rw [sinkAccepts]
      refine ⟨hfin, ?_⟩
      rw [sinkItem, State.pop_push st name hfin]
      exact h2

theorem osMkdirAll_denied (w : World) (p : GoString) (perm : Nat) :
    (osMkdirAll w p perm).2.denied = w.denied := by
  unfold osMkdirAll
  split_ifs <;> rfl

theorem osMkdirAll_file (w : World) (p q : GoString) (perm : Nat) :
    (osMkdirAll w p perm).2.file q = w.file q := by
  unfold osMkdirAll
  split_ifs <;> rfl

theorem osMkdirAll_isDir_other (w : World) (p q : GoString) (perm : Nat)
    (h : Clean q ≠ Clean p) : (osMkdirAll w p perm).2.isDir q = w.isDir q := by
  unfold osMkdirAll
  split_ifs
  · rfl
  · rfl
  · rfl
  · simp only [World.isDir, List.find?_append]
    have : List.find? (fun e => decide (e.1 = Clean q)) [(Clean p, perm)] = none := by
      simp [List.find?, Ne.symm h]
    rw [this]
    simp

theorem osMkdirAll_ok (w : World) (p : GoString) (perm : Nat) (hf : w.file p = none)
    (hd : w.denied (Clean p) = false) : (osMkdirAll w p perm).1 = none := by
  unfold osMkdirAll
  split_ifs with h1 h2 h3
  · rfl
  · simp [hf] at h2
  · simp [hd] at h3
  · rfl

theorem World.file_setFile_other (w : World) (p q : GoString) (d : List UInt8) (perm : Nat)
    (h : Clean q ≠ Clean p) : (w.setFile p d perm).file q = w.file q := by
  simp only [World.file, World.setFile, List.find?_append]
  have h1 : List.find? (fun e => decide (e.1 = Clean q)) [(Clean p, d, perm)] = none := by
    simp [List.find?, Ne.symm h]
  have h2 : List.find? (fun e => decide (e.1 = Clean q))
      (w.files.filter (fun e => decide (e.1 ≠ Clean p)))
      = List.find? (fun e => decide (e.1 = Clean q)) w.files := by
    induction w.files with
    | nil => rfl
    | cons x xs ih =>
      by_cases hx : x.1 = Clean p
      · have hq : ¬ (x.1 = Clean q) := by
          intro e
          exact h (e.symm.trans hx)
        rw [List.filter_cons_of_neg (by simpa using hx), List.find?_cons_of_neg _ (by simpa using hq)]
        exact ih
      · rw [List.filter_cons_of_pos (by simpa using hx)]
        by_cases hq : x.1 = Clean q
        · rw [List.find?_cons_of_pos _ (by simpa using hq),
            List.find?_cons_of_pos _ (by simpa using hq)]
        · rw [List.find?_cons_of_neg _ (by simpa using hq),
            List.find?_cons_of_neg _ (by simpa using hq)]
          exact ih
  rw [h1, h2]
  simp

theorem applyOp_denied (w : World) (op : GoString × Option (List UInt8) × Nat) :
    (applyOp w op).denied = w.denied := by
  obtain ⟨p, kind, perm⟩ := op
  cases kind with
  | none => exact osMkdirAll_denied w p perm
  | some d => rfl

theorem applyOp_isDir (w : World) (op : GoString × Option (List UInt8) × Nat) (q : GoString)
    (h : w.isDir q = true) : (applyOp w op).isDir q = true := by
  obtain ⟨p, kind, perm⟩ := op
  cases kind with
  | none => exact osMkdirAll_isDir w p q perm h
  | some d => exact h

theorem applyOps_isDir : ∀ (ops : List (GoString × Option (List UInt8) × Nat)) (w : World)
    (q : GoString), w.isDir q = true → (applyOps ops w).isDir q = true
  | [], _, _, h => h
  | op :: ops, w, q, h => applyOps_isDir ops _ q (applyOp_isDir w op q h)

theorem applyOps_file : ∀ (ops : List (GoString × Option (List UInt8) × Nat)) (w : World)
    (q : GoString), (∀ op ∈ ops, Clean op.1 ≠ Clean q) → (applyOps ops w).file q = w.file q
  | [], _, _, _ => rfl
  | (p, kind, perm) :: ops, w, q, h => by
    have h1 : Clean q ≠ Clean p := Ne.symm (h _ (List.mem_cons_self _ _))
    rw [applyOps, applyOps_file ops _ q (fun op hop => h op (List.mem_cons_of_mem _ hop))]
    cases kind with
    | none => exact osMkdirAll_file w p q perm
    | some d => exact World.file_setFile_other w p q d perm h1

/-- Nodes at paths that are distinct once cleaned, on a storage that refuses none of the paths,
holds no directory where a file goes and no file where a directory goes: the storage takes them
all, and afterwards each file is at its path with its contents and permission bits and each
directory is there. -/
theorem applyOps_spec : ∀ (ops : List (GoString × Option (List UInt8) × Nat)) (w : World),
    (ops.map (fun op => Clean op.1)).Nodup →
    (∀ op ∈ ops, w.denied (Clean op.1) = false) →
    (∀ op ∈ ops, op.2.1 ≠ none → w.isDir op.1 = false) →
    (∀ op ∈ ops, op.2.1 = none → w.file op.1 = none) →
    opsAccepted ops w ∧
    ∀ op ∈ ops, match op.2.1 with
      | some d => (applyOps ops w).file op.1 = some (d, op.2.2)
      | none => (applyOps ops w).isDir op.1 = true
  | [], _, _, _, _, _ => ⟨trivial, fun _ h => by simp at h⟩
  | (p, kind, perm) :: ops, w, hnd, hden, hfd, hdf => by
    rw [List.map_cons, List.nodup_cons] at hnd
    obtain ⟨hp, hnd1⟩ := hnd
    have hother : ∀ op ∈ ops, Clean op.1 ≠ Clean p := by
      intro op hop e
      exact hp (List.mem_map.mpr ⟨op, hop, e⟩)
    have hdenp := hden _ (List.mem_cons_self _ _)
    cases kind with
    | none =>
      have hfp : w.file p = none := hdf _ (List.mem_cons_self _ _) rfl
      have hok := osMkdirAll_ok w p perm hfp hdenp
      obtain ⟨ih1, ih2⟩ := applyOps_spec ops (osMkdirAll w p perm).2 hnd1
        (fun op hop => by
          rw [osMkdirAll_denied]
          exact hden op (List.mem_cons_of_mem _ hop))
        (fun op hop hk => by
          rw [osMkdirAll_isDir_other w p op.1 perm (hother op hop)]
          exact hfd op (List.mem_cons_of_mem _ hop) hk)
        (fun op hop hk => by
          rw [osMkdirAll_file]
          exact hdf op (List.mem_cons_of_mem _ hop) hk)
      refine ⟨⟨hok, ih1⟩, ?_⟩
      intro op hop
      rcases List.mem_cons.mp hop with rfl | hop
      · exact applyOps_isDir ops _ p (osMkdirAll_makes_dir w p perm hok)
      · exact ih2 op hop
    | some d =>
      have hdp : w.isDir p = false := hfd _ (List.mem_cons_self _ _) (by simp)
      obtain ⟨ih1, ih2⟩ := applyOps_spec ops (w.setFile p d perm) hnd1
        (fun op hop => hden op (List.mem_cons_of_mem _ hop))
        (fun op hop hk => hfd op (List.mem_cons_of_mem _ hop) hk)
        (fun op hop hk => by
          rw [World.file_setFile_other w p op.1 d perm (hother op hop)]
          exact hdf op (List.mem_cons_of_mem _ hop) hk)
      refine ⟨⟨⟨hdenp, hdp⟩, ih1⟩, ?_⟩
      intro op hop
      rcases List.mem_cons.mp hop with rfl | hop
      · show (applyOps ops (w.setFile p d perm)).file p = some (d, perm)
        rw [applyOps_file ops _ p hother]
        exact World.file_setFile w p d perm
      · exact ih2 op hop

/-- Claim C23, as amended: a directory tree T of any shape is sent by a recursive source engine
in lock step with a recursive sink engine on the local backend into a target that is an existing
directory; each command has a user whenever it has an audit log. On the source ReadDir gives the
entries of every directory, and every file opens, reports as its size the length of its contents
and has a reader that yields them. The names of the nodes hold no newline, do not end in a
carriage return and are no longer than 1900 bytes, the modes are no more than 0o7777 and the
sizes fit int64; the destinations of the nodes, which are filepath.Join(target,
filepath.Join(".", the names of the directories above the node from the root of T on), the name
of the node), are distinct once cleaned, are not refused by the storage of the sink, and that
storage holds no directory where a file goes and no file where a directory goes. Then from the
round after the last write of the source on, both engines have ended without error, every file
of T is at its destination with its contents and the permission bits of its mode, and every
directory of T is at its destination. -/
theorem tree_roundTrip (src snk : Parameters) (fsS : FileSystem) (wa wb : World)
    (content : GoString → List UInt8) (target t : GoString) (ts : List GoString)
    (info : FileInfo)
    (hsrcT : src.Flags.Target = [target]) (hsrcR : src.Flags.Recursive = true)
    (hsrcA : src.AuditLog = true → src.User ≠ none)
    (hinfo : fsS.GetFileInfo wa target = .ok info) (hdir : info.IsDir = true)
    (hread : FileInfo.readable fsS wa content info)
    (hsnkT : snk.Flags.Target = t :: ts) (hsnkR : snk.Flags.Recursive = true)
    (hsnkA : snk.AuditLog = true → snk.User ≠ none)
    (htarget : wb.isDir t = true)
    (hwf : ∀ i ∈ FileInfo.items content info, i.wellFormed)
    (hdist : ((FileInfo.dests content t [str "."] info).map (fun op => Clean op.1)).Nodup)
    (hfree : ∀ op ∈ FileInfo.dests content t [str "."] info,
      wb.denied (Clean op.1) = false ∧ (op.2.1 ≠ none → wb.isDir op.1 = false) ∧
        (op.2.1 = none → wb.file op.1 = none))
    (n : Nat) (hn : (segments (FileInfo.items content info)).length + 1 ≤ n) :
    (lockStep (serveSource src fsS) (serveSink snk LocalFS) wa wb n).1.1 = .ok none ∧
    (lockStep (serveSource src fsS) (serveSink snk LocalFS) wa wb n).2.1 = .ok none ∧
    (lockStep (serveSource src fsS) (serveSink snk LocalFS) wa wb n).2.2.world
      = applyOps (FileInfo.dests content t [str "."] info) wb ∧
    ∀ op ∈ FileInfo.dests content t [str "."] info, match op.2.1 with
      | some d =>
        (lockStep (serveSource src fsS) (serveSink snk LocalFS) wa wb n).2.2.world.file op.1
          = some (d, op.2.2)
      | none =>
        (lockStep (serveSource src fsS) (serveSink snk LocalFS) wa wb n).2.2.world.isDir op.1
          = true := by
  obtain ⟨hacc, hres⟩ := applyOps_spec (FileInfo.dests content t [str "."] info) wb hdist
    (fun op hop => (hfree op hop).1) (fun op hop => (hfree op hop).2.1)
    (fun op hop => (hfree op hop).2.2)
  obtain ⟨htree1, htree2⟩ := sinkItems_tree content t info.depth info (Nat.le_refl _)
    { path := [str "."], finished := false } wb [] rfl
  rw [List.append_nil] at htree1 htree2
  have hsacc : sinkAccepts t (FileInfo.items content info)
      ({ path := [str "."], finished := false }, wb) := htree2 hacc trivial
  have hS := Sends_serveSource src fsS wa content target info hsrcA hsrcT hsrcR hinfo hdir hread
  have hdone := serveSink_items_done snk t ts hsnkT hsnkR hsnkA (FileInfo.items content info) wb
    hwf hsacc htarget
  have hconv := lockStep_protocol (serveSource src fsS) (serveSink snk LocalFS) wa wb
    (segments (FileInfo.items content info))
    (fun j => 1 + acksAfter (FileInfo.items content info) j)
    (fun k hk => by
      have h := hS.2 (Env.start wa (List.replicate k [0]) false) k [] (by
        simp only [List.length_cons]
        omega) rfl rfl
      simpa using h)
    (fun cl => by
      have h := hS.1 (Env.start wa (List.replicate
        ((segments (FileInfo.items content info)).length + 1) [0]) cl) [] cl [] (by
          simp [Env.start]) rfl
      exact ⟨h.1, by rw [h.2.1]; simp⟩)
    (fun j hj => serveSink_items_partial snk t ts hsnkT hsnkR hsnkA
      (FileInfo.items content info) wb hwf hsacc htarget j hj)
    (fun j hj => by
      have := acksAfter_bounds (FileInfo.items content info) j hj
      show j + 1 ≤ 1 + acksAfter (FileInfo.items content info) j ∧
        1 + acksAfter (FileInfo.items content info) j
          ≤ (segments (FileInfo.items content info)).length + 1
      omega)
    hdone.2.1 n hn
  have hworld : (lockStep (serveSource src fsS) (serveSink snk LocalFS) wa wb n).2.2.world
      = applyOps (FileInfo.dests content t [str "."] info) wb := by
    rw [hconv.2]
    exact hdone.2.2.trans (by rw [htree1]; rfl)
  refine ⟨hconv.1, by rw [hconv.2]; exact hdone.1, hworld, ?_⟩
  intro op hop
  rw [hworld]
  exact hres op hop

theorem tree_roundTrip_witness :
    (lockStep (serveSource (recursiveSource (str "/d")) LocalFS)
        (serveSink (recursiveSink (str "/out")) LocalFS)
        World.sampleTree (World.withDirs [str "/out"]) 9).2.2.world.file (str "/out/d/f")
      = some (str "hi", 0o644) ∧
    (lockStep (serveSource (recursiveSource (str "/d")) LocalFS)
        (serveSink (recursiveSink (str "/out")) LocalFS)
        World.sampleTree (World.withDirs [str "/out"]) 9).2.2.world.file (str "/out/d/sub/g")
      = some ([], 0o600) ∧
    (lockStep (serveSource (recursiveSource (str "/d")) LocalFS)
        (serveSink (recursiveSink (str "/out")) LocalFS)
        World.sampleTree (World.withDirs [str "/out"]) 9).2.2.world.isDir (str "/out/d/sub")
      = true := by
  have h := (tree_roundTrip (recursiveSource (str "/d")) (recursiveSink (str "/out")) LocalFS
    World.sampleTree (World.withDirs [str "/out"]) World.sampleTree.content (str "/d")
    (str "/out") []
    (.mk true (str "d") (str "/d") 0o755 (some 4096) none
      [.mk false (str "f") (str "/d/f") 0o644 (some 2) none [],
       .mk true (str "sub") (str "/d/sub") 0o700 (some 4096) none
        [.mk false (str "g") (str "/d/sub/g") 0o600 (some 0) none []]])
    rfl rfl (by decide) rfl rfl
    ⟨rfl, ⟨rfl, rfl⟩, ⟨rfl, ⟨rfl, rfl⟩, trivial⟩, trivial⟩
    rfl rfl (by decide) (by decide!) (by decide!) (by decide!) (by decide!) 9
    (by decide!)).2.2.2
  exact ⟨h (str "/out/d/f", some (str "hi"), 0o644) (by decide!),
    h (str "/out/d/sub/g", some [], 0o600) (by decide!),
    h (str "/out/d/sub", none, 0o700) (by decide!)⟩

